import Mathlib

/-!
Block engine of `libraries/chain/db_block.cpp` and the tagged union of
`libraries/fc/include/fc/static_variant.hpp`.

A shallow embedding of the block-and-transaction engine of the chain database
(`database::_push_block`, `database::pop_block`, `database::_push_transaction`,
`database::_generate_block`, `database::clear_pending`, the block and
transaction appliers) as pure functions on an explicit `database` state, and of
`fc::static_variant` as functions on its tag and storage.

* C++ exceptions are explicit: every operation returns an `outcome`, which is
  either `returned v db` or `thrown e db`; in both cases `db` is the state the
  caller observes afterwards (scoped undo sessions have already been unwound).
* The undo database is a stack of snapshots of the object state: opening a
  session pushes the current object state, `undo` restores the newest snapshot,
  `commit` keeps it on the stack and `merge` drops it.
* Code that is called by `db_block.cpp` but lives in other files (the fork
  database, the witness schedule, hashing, operation evaluation) is either a
  field of `Env` or a definition whose comment starts with
  "Modelled from the spec".
* `database.trace` is a ghost field: it records, in order, the calls made to
  the undo database, the fork database, the block log and `apply_block`.
-/

namespace graphene.chain

/-! ## Protocol data -/

/-- Block id. The block number is the id's leading word; `hash` stands for the
remaining words. `block_id_type()` is the all-zero id. -/
structure block_id_type where
  num : Nat := 0
  hash : Nat := 0
deriving DecidableEq, Repr

/-- The second 32-bit word of a block id (`block_id._hash[1]`). -/
def block_id_type.hash_word1 (id : block_id_type) : Nat := id.hash % 2 ^ 32

/-- An operation: its variant tag (`which()`) and an uninterpreted payload. -/
structure operation where
  which : Nat := 0
  payload : Nat := 0
deriving DecidableEq, Repr

/-- Modelled from the spec: the tagged sum
`{ void, contract_result{existed_pv, runtime}, error_result{code, message, runtime}, other }`. -/
inductive operation_result where
  | void_result
  | contract_result (existed_pv : Bool) (real_running_time : Nat)
  | error_result (code : Nat) (message : Nat) (real_running_time : Nat)
  | other (tag : Nat)
deriving DecidableEq, Repr

structure signed_transaction where
  ref_block_num : Nat := 0
  ref_block_prefix : Nat := 0
  expiration : Nat := 0
  operations : List operation := []
  signatures : List Nat := []
  agreed_task : Option (Nat × Nat) := none
deriving DecidableEq, Repr

structure processed_transaction extends signed_transaction where
  operation_results : List operation_result := []
deriving DecidableEq, Repr

structure signed_block where
  block_id : block_id_type := {}
  previous : block_id_type := {}
  timestamp : Nat := 0
  witness : Nat := 0
  transaction_merkle_root : Nat := 0
  extensions : List String := []
  witness_signature : Nat := 0
  transactions : List (Nat × processed_transaction) := []
deriving DecidableEq, Repr

/-- Modelled from the spec: the block number is derived from the id prefix
(`signed_block::block_num()` is declared outside `db_block.cpp`). -/
def signed_block.block_num (b : signed_block) : Nat := b.block_id.num

/-- The exceptions the engine distinguishes. `fc_assert site` is a failed
`FC_ASSERT`; `evaluation code` is any failure raised by the block or
transaction applier; `duplicate_key` is the failure of a `create` that would
break the uniqueness of an index; `fuel_exhausted` is only produced by the
bounded loops of this embedding when their bound is too small. -/
inductive exception where
  | fc_assert (site : Nat)
  | pop_empty_chain
  | unlinkable_block
  | undo_stack_empty
  | evaluation (code : Nat)
  | fuel_exhausted
  | duplicate_key
deriving DecidableEq, Repr

inductive transaction_push_state where
  | from_me
  | from_net
  | re_push
deriving DecidableEq, Repr

inductive transaction_apply_mode where
  | push_mode
  | validate_transaction_mode
  | just_try
  | apply_block_mode
  | production_block_mode
  | invoke_mode
deriving DecidableEq, Repr

/-! ## Fork database (modelled from the spec) -/

/-- Modelled from the spec: a fork item holds a block and is keyed by its id
(`fork_item` is declared in `fork_database.hpp`). -/
structure fork_item where
  id : block_id_type := {}
  data : signed_block := {}
deriving DecidableEq, Repr

def fork_item.previous_id (i : fork_item) : block_id_type := i.data.previous

/-- Modelled from the spec: the in-memory forest of recent blocks keyed by
block id, with the current head item. -/
structure fork_database where
  index : List fork_item := []
  head : Option fork_item := none
deriving DecidableEq, Repr

namespace fork_database

/-- Modelled from the spec: look an item up by block id. -/
def fetch_item (f : fork_database) (id : block_id_type) : Option fork_item :=
  f.index.find? (fun i => decide (i.id = id))

/-- Modelled from the spec: `fetch_block(id)`. -/
def fetch_block (f : fork_database) (id : block_id_type) : Option fork_item :=
  f.fetch_item id

/-- Modelled from the spec: `push_block(block)` inserts the block by id,
rejects it when its `previous_id` is unknown and the window is primed (there is
a head), and moves the head to the highest block number, keeping the current
head on a tie. The all-zero id (the empty chain) counts as known, as scenario
S3 pushes a block built on genesis next to an existing chain. Returns the
updated fork database and its head. -/
def push_block (f : fork_database) (b : signed_block) :
    Except exception (fork_database × fork_item) :=
  let item : fork_item := { id := b.block_id, data := b }
  match f.head with
  | none => .ok ({ index := item :: f.index, head := some item }, item)
  | some h =>
    if b.previous ≠ {} ∧ (f.fetch_item b.previous).isNone then
      .error .unlinkable_block
    else if item.data.block_num > h.data.block_num then
      .ok ({ index := item :: f.index, head := some item }, item)
    else
      .ok ({ index := item :: f.index, head := some h }, h)

/-- Modelled from the spec: `remove(id)` erases the item with that id. -/
def remove (f : fork_database) (id : block_id_type) : fork_database :=
  { f with index := f.index.filter (fun i => !decide (i.id = id)) }

/-- Modelled from the spec: `set_head(item)`. -/
def set_head (f : fork_database) (h : fork_item) : fork_database :=
  { f with head := some h }

/-- Modelled from the spec: `pop_block` moves the head to its predecessor, the
item the head's `previous_id` names; popping the first block leaves no head
(scenario S6 pops down to the empty chain). The spec names no failure. -/
def pop_block (f : fork_database) : fork_database :=
  { f with head := f.head.bind (fun h => f.fetch_item h.previous_id) }

/-- Walk back from `a` while its block number exceeds `n`, collecting the
items passed (newest first). -/
def walk_down (f : fork_database) (n : Nat) :
    Nat → fork_item → List fork_item → Except exception (fork_item × List fork_item)
  | 0, _, _ => .error .fuel_exhausted
  | fuel + 1, a, acc =>
    if a.data.block_num > n then
      match f.fetch_item a.previous_id with
      | none => .error (.fc_assert 101)
      | some p => walk_down f n fuel p (acc ++ [a])
    else .ok (a, acc)

/-- Walk both tips back in lock step until they have the same predecessor. -/
def walk_both (f : fork_database) :
    Nat → fork_item → fork_item → List fork_item → List fork_item →
      Except exception (List fork_item × List fork_item)
  | 0, _, _, _, _ => .error .fuel_exhausted
  | fuel + 1, a, b, acc_a, acc_b =>
    if a.data.previous ≠ b.data.previous then
      match f.fetch_item a.previous_id, f.fetch_item b.previous_id with
      | some pa, some pb => walk_both f fuel pa pb (acc_a ++ [a]) (acc_b ++ [b])
      | _, _ => .error (.fc_assert 102)
    else .ok (acc_a ++ [a], acc_b ++ [b])

/-- Modelled from the spec: `fetch_branch_from(a, b)` walks back from each tip
until both reach a common ancestor; both returned branches (newest item
first) end at items with equal `previous_id`; it fails when no common ancestor
exists within the window. -/
def fetch_branch_from (f : fork_database) (first second : block_id_type) :
    Except exception (List fork_item × List fork_item) :=
  match f.fetch_item first, f.fetch_item second with
  | some a, some b =>
    let fuel := f.index.length + 1
    match walk_down f b.data.block_num fuel a [] with
    | .error e => .error e
    | .ok (a1, acc_a) =>
      match walk_down f a1.data.block_num fuel b [] with
      | .error e => .error e
      | .ok (b1, acc_b) => walk_both f fuel a1 b1 acc_a acc_b
  | _, _ => .error (.fc_assert 103)

end fork_database

/-! ## Object state, undo database and the chain database -/

structure transaction_object where
  trx_hash : Nat := 0
  trx_id : Nat := 0
  trx : signed_transaction := {}
deriving DecidableEq, Repr

/-- The fields of a proposal that `_apply_transaction` reads and writes. -/
structure proposal_object where
  id : Nat := 0
  proposed_transaction : signed_transaction := {}
  expiration_time : Nat := 0
  allow_execution : Bool := false
deriving DecidableEq, Repr

/-- The fields of a crontab (timed task) that `_apply_transaction` reads and
writes; the spelling of the field names is that of the source. -/
structure crontab_object where
  id : Nat := 0
  timed_transaction : signed_transaction := {}
  last_execte_time : Nat := 0
  next_execte_time : Nat := 0
  execute_interval : Nat := 0
  expiration_time : Nat := 0
  scheduled_execute_times : Nat := 0
  already_execute_times : Nat := 0
  continuous_failure_times : Nat := 0
  is_suspended : Bool := false
  allow_execution : Bool := false
deriving DecidableEq, Repr

/-- The record `transaction_in_block_info` created by `_apply_transaction`. -/
structure transaction_in_block_info where
  trx_hash : Nat := 0
  block_num : Nat := 0
  trx_in_block : Nat := 0
deriving DecidableEq, Repr

/-- The content of the object store that `db_block.cpp` reads directly: the
dynamic global properties (head id, number and time, next maintenance time),
the chain parameters, the block summaries, the witness signing keys, the
transaction index, the proposals, the crontabs and the index of transactions
in blocks. Every field is covered by the undo database. -/
structure object_state where
  head_block_id : block_id_type := {}
  head_block_num : Nat := 0
  head_block_time : Nat := 0
  maximum_block_size : Nat := 0
  maximum_time_until_expiration : Nat := 0
  block_summaries : List block_id_type := []
  witnesses : List (Nat × Nat) := []
  transaction_index : List transaction_object := []
  next_maintenance_time : Nat := 0
  block_interval : Nat := 0
  crontab_suspend_threshold : Nat := 0
  crontab_suspend_expiration : Nat := 0
  assigned_task_life_cycle : Nat := 0
  proposals : List proposal_object := []
  crontabs : List crontab_object := []
  transaction_in_block_index : List transaction_in_block_info := []
deriving DecidableEq, Repr

/-- An entry of the applied-operations buffer `_applied_ops`. -/
structure operation_history_object where
  op : operation := {}
  result : operation_result := .void_result
  block_num : Nat := 0
  trx_in_block : Nat := 0
  op_in_trx : Nat := 0
  virtual_op : Nat := 0
deriving DecidableEq, Repr

/-- The calls recorded by the ghost trace. -/
inductive call where
  | start_undo_session
  | commit
  | undo
  | merge
  | pop_undo
  | apply_block (b : signed_block) (skip : Nat)
  | store (id : block_id_type) (b : signed_block)
  | fork_push_block (b : signed_block)
  | fork_remove (id : block_id_type)
  | fork_set_head (id : block_id_type)
  | fork_pop_block
  | _apply_block (b : signed_block) (skip : Nat)
  | evaluate (op : operation)
  | auto_gas (account : Nat)
deriving DecidableEq, Repr

/-- The members of `database` used by `db_block.cpp`. `undo_stack` holds the
snapshots of the open and committed sessions, newest first;
`pending_tx_session` is `_pending_tx_session.valid()`; `block_id_to_block` is
the block log, newest store first. `undo_enabled` is `_undo_db.enabled()`;
`checkpoints` is the map `_checkpoints` as a list of entries with distinct
keys; `op_maxsize_proportion_percent` is the entry of that name in `_options`,
if present; `debug_updates` tells whether the node property object holds debug
updates. `wall_clock` lists the values the coming reads of
`fc::time_point::now()` return, in microseconds. -/
structure database where
  objs : object_state := {}
  undo_stack : List object_state := []
  fork_db : fork_database := {}
  block_id_to_block : List (block_id_type × signed_block) := []
  pending_tx : List processed_transaction := []
  pending_tx_session : Bool := false
  popped_tx : List processed_transaction := []
  skip_flags : Nat := 0
  message_cache_size_limit : Nat := 0
  pending_size : Nat := 0
  deduce_in_verification_mode : Bool := true
  trace : List call := []
  applied_ops : List (Option operation_history_object) := []
  current_block_num : Nat := 0
  current_trx_in_block : Nat := 0
  current_op_in_trx : Nat := 0
  current_virtual_op : Nat := 0
  undo_enabled : Bool := true
  checkpoints : List (Nat × block_id_type) := []
  op_maxsize_proportion_percent : Option Nat := none
  debug_updates : Bool := false
  wall_clock : List Nat := []
deriving DecidableEq, Repr

/-- What a call leaves behind: a return value or an exception, and in both
cases the database state afterwards. -/
inductive outcome (α : Type) where
  | returned (value : α) (db : database)
  | thrown (e : exception) (db : database)
deriving DecidableEq, Repr

def outcome.db {α : Type} : outcome α → database
  | .returned _ db => db
  | .thrown _ db => db

/-- The collaborators of `db_block.cpp` that are defined in other files, and
the constants declared in headers. `apply_block` and `_apply_transaction` act
on the object state under the session the caller opened; a failure leaves the
rollback to that session. -/
structure Env where
  make_id : signed_block → block_id_type
  apply_block : signed_block → Nat → object_state → Except exception object_state
  _apply_transaction : signed_transaction → transaction_apply_mode → Bool → Nat →
    object_state → Except exception (processed_transaction × transaction_apply_mode × object_state)
  hash : signed_transaction → Nat
  id : signed_transaction → Nat → Nat
  pack_size : processed_transaction → Nat
  max_block_header_size : Nat
  get_slot_at_time : object_state → Nat → Nat
  get_scheduled_witness : object_state → Nat → Nat
  get_public_key : Nat → Nat
  validate_block : signed_block → Nat → Nat → Except exception signed_block
  contract_share_fee_operation : Nat
  skip_witness_signature : Nat
  skip_transaction_signatures : Nat
  skip_fork_db : Nat
  skip_tapos_check : Nat
  skip_authority_check : Nat
  skip_merkle_check : Nat

namespace database

def log (c : call) (db : database) : database :=
  { db with trace := db.trace ++ [c] }

def head_block_id (db : database) : block_id_type := db.objs.head_block_id

def head_block_num (db : database) : Nat := db.objs.head_block_num

def head_block_time (db : database) : Nat := db.objs.head_block_time

/-- Modelled from the spec: `start_session` opens a session on top of the undo
stack (the current object state is what `undo` will restore). -/
def start_undo_session (db : database) : database :=
  log .start_undo_session { db with undo_stack := db.objs :: db.undo_stack }

/-- Modelled from the spec: `Session.undo` (also what dropping an open session
does) restores the pre-session state and removes the session. -/
def undo (db : database) : database :=
  match db.undo_stack with
  | [] => log .undo db
  | s :: rest => log .undo { db with objs := s, undo_stack := rest }

/-- Modelled from the spec: `Session.commit` makes the deltas permanent at this
level; the session stays on the stack so that `pop_undo` can revert it. -/
def commit (db : database) : database := log .commit db

/-- Modelled from the spec: `Session.merge` pushes the deltas one level up. -/
def merge (db : database) : database :=
  log .merge { db with undo_stack := db.undo_stack.tail }

/-- Modelled from the spec: `pop_undo` undoes the most recent session at block
granularity; it fails on an empty stack. -/
def pop_undo (db : database) : Except exception database :=
  match db.undo_stack with
  | [] => .error .undo_stack_empty
  | s :: rest => .ok { db with objs := s, undo_stack := rest }

/-- The `_pending_tx_session.reset()` statement. -/
def reset_pending_tx_session (db : database) : database :=
  if db.pending_tx_session then { undo db with pending_tx_session := false } else db

/-- Modelled from the spec: `store(block_id, block)` of the persistent block log. -/
def store (id : block_id_type) (b : signed_block) (db : database) : database :=
  log (.store id b) { db with block_id_to_block := (id, b) :: db.block_id_to_block }

/-- Modelled from the spec: `fetch_optional(id)` of the persistent block log. -/
def fetch_optional (db : database) (id : block_id_type) : Option signed_block :=
  (db.block_id_to_block.find? (fun p => decide (p.1 = id))).map Prod.snd

def fork_remove (db : database) (id : block_id_type) : database :=
  log (.fork_remove id) { db with fork_db := db.fork_db.remove id }

def fork_set_head (db : database) (h : fork_item) : database :=
  log (.fork_set_head h.id) { db with fork_db := db.fork_db.set_head h }

/-- Source: `database::fetch_block_by_id`. -/
def fetch_block_by_id (db : database) (id : block_id_type) : Option signed_block :=
  match db.fork_db.fetch_block id with
  | none => db.fetch_optional id
  | some b => some b.data

/-- Source: `database::pop_block`. The two statements
`_popped_tx.resize(n); std::transform(..., _popped_tx.begin(), ...)` leave
`_popped_tx` holding exactly the `n` transactions of the popped block. -/
def pop_block (db : database) : outcome Unit :=
  let db1 := db.reset_pending_tx_session
  let head_id := db1.head_block_id
  match db1.fetch_block_by_id head_id with
  | none => .thrown .pop_empty_chain db1
  | some head_block =>
    let db2 := log .fork_pop_block { db1 with fork_db := db1.fork_db.pop_block }
    let db3 := log .pop_undo db2
    match db3.pop_undo with
    | .error e => .thrown e db3
    | .ok db4 =>
      .returned () { db4 with popped_tx := head_block.transactions.map Prod.snd }

/-- Source: `database::clear_pending` (its `assert` is compiled out). -/
def clear_pending (db : database) : outcome Unit :=
  .returned () (reset_pending_tx_session { db with pending_tx := [] })

/-- The loop `while (head_block_id() != target) pop_block();` with an explicit
bound on the number of iterations. -/
def pop_blocks_until (target : block_id_type) : Nat → database → outcome Unit
  | 0, db =>
    if db.head_block_id = target then .returned () db else .thrown .fuel_exhausted db
  | fuel + 1, db =>
    if db.head_block_id = target then .returned () db
    else
      match db.pop_block with
      | .thrown e db1 => .thrown e db1
      | .returned _ db1 => pop_blocks_until target fuel db1

/-- One iteration body shared by the block-applying paths of `_push_block`:
`session = start_undo_session(); apply_block(b, skip);
_block_id_to_block.store(id, b); session.commit();`. When `apply_block`
throws, the session goes out of scope and undoes itself. -/
def apply_and_store (env : Env) (skip : Nat) (id : block_id_type) (b : signed_block)
    (db : database) : outcome Unit :=
  let db1 := log (.apply_block b skip) db.start_undo_session
  match env.apply_block b skip db1.objs with
  | .error e => .thrown e db1.undo
  | .ok o => .returned () (commit (store id b { db1 with objs := o }))

/-- The loop "restore all blocks from the good fork" of `_push_block`
(source lines 215-221), given the old branch oldest first. Every block is
stored under `new_block.block_id`, as in the source. -/
def restore_good_fork (env : Env) (skip : Nat) (new_block : signed_block) :
    List fork_item → database → outcome Unit
  | [], db => .returned () db
  | item :: rest, db =>
    match apply_and_store env skip new_block.block_id item.data db with
    | .thrown e db1 => .thrown e db1
    | .returned _ db1 => restore_good_fork env skip new_block rest db1

/-- The statements of `_push_block` that run once `apply_block` has failed
during a fork switch (source lines 199-223): the failed block and the blocks
after it are removed from the fork database, the fork database head is set to
the old tip, the applied blocks of the bad fork are popped, the old branch is
re-applied and the captured exception is thrown. `remaining` is the part of
the new branch from the failed block on, oldest first. -/
def switch_recovery (env : Env) (skip : Nat) (new_block : signed_block)
    (branches : List fork_item × List fork_item) (except : exception)
    (remaining : List fork_item) (db : database) : outcome Bool :=
  let db1 := remaining.foldl (fun d i => d.fork_remove i.data.block_id) db
  let db2 := db1.fork_set_head (branches.2.headD {})
  match pop_blocks_until (branches.2.getLastD {}).data.previous
      (db2.undo_stack.length + 1) db2 with
  | .thrown e db3 => .thrown e db3
  | .returned _ db3 =>
    match restore_good_fork env skip new_block branches.2.reverse db3 with
    | .thrown e db4 => .thrown e db4
    | .returned _ db4 => .thrown except db4

/-- The loop "push all blocks on the new fork" of `_push_block` (source lines
184-224), given the new branch oldest first. -/
def push_fork_blocks (env : Env) (skip : Nat) (new_block : signed_block)
    (branches : List fork_item × List fork_item) :
    List fork_item → database → outcome Bool
  | [], db => .returned true db
  | item :: rest, db =>
    match apply_and_store env skip item.id item.data db with
    | .thrown except db1 =>
      switch_recovery env skip new_block branches except (item :: rest) db1
    | .returned _ db1 => push_fork_blocks env skip new_block branches rest db1

/-- The fork-switch branch of `_push_block` (source lines 176-225). On an
empty branch `front()` and `back()` are undefined in the source; the embedding
reads a default item there. -/
def switch_forks (env : Env) (skip : Nat) (new_block : signed_block)
    (new_head : fork_item) (db : database) : outcome Bool :=
  match db.fork_db.fetch_branch_from new_head.data.block_id db.head_block_id with
  | .error e => .thrown e db
  | .ok branches =>
    match pop_blocks_until (branches.2.getLastD {}).data.previous
        (db.undo_stack.length + 1) db with
    | .thrown e db1 => .thrown e db1
    | .returned _ db1 =>
      push_fork_blocks env skip new_block branches branches.1.reverse db1

/-- The final `try`/`catch` of `_push_block` (source lines 232-246). -/
def push_linear (env : Env) (skip : Nat) (new_block : signed_block)
    (db : database) : outcome Bool :=
  match apply_and_store env skip new_block.block_id new_block db with
  | .thrown e db1 => .thrown e (db1.fork_remove new_block.block_id)
  | .returned _ db1 => .returned false db1

/-- Source: `database::_push_block`. `FC_CAPTURE_AND_RETHROW` rethrows the
exception it caught. -/
def _push_block (env : Env) (new_block : signed_block) (db : database) : outcome Bool :=
  if new_block.block_id ≠ env.make_id new_block then .thrown (.fc_assert 161) db
  else
    let skip := db.skip_flags
    if skip &&& env.skip_fork_db = 0 then
      let db0 := log (.fork_push_block new_block) db
      match db0.fork_db.push_block new_block with
      | .error e => .thrown e db0
      | .ok (f, new_head) =>
        let db1 := { db0 with fork_db := f }
        if new_head.data.previous ≠ db1.head_block_id then
          if new_head.data.block_num > db1.head_block_num then
            switch_forks env skip new_block new_head db1
          else .returned false db1
        else push_linear env skip new_block db1
    else push_linear env skip new_block db

/-- Whether the lead operation is the fee-share kind
(`trx.operations[0].which() == operation::tag<contract_share_fee_operation>::value`). -/
def is_share_fee (env : Env) (trx : signed_transaction) : Bool :=
  match trx.operations with
  | [] => false
  | op :: _ => decide (op.which = env.contract_share_fee_operation)

/-- The sum `now + maximum_time_until_expiration` on 32-bit seconds. -/
def expiration_limit (o : object_state) : Nat :=
  (o.head_block_time + o.maximum_time_until_expiration) % 2 ^ 32

/-- The TaPoS and expiration re-validation that `_push_transaction` (re-push)
and `_generate_block` perform by hand. `tapos` tells whether the TaPoS
comparison is made; `none` is success. -/
def check_tapos_expiration (tapos : Bool) (trx : signed_transaction)
    (o : object_state) : Option exception :=
  let tapos_failure : Option exception :=
    if tapos then
      match o.block_summaries.get? trx.ref_block_num with
      | none => some (.fc_assert 317)
      | some summary =>
        if signed_transaction.ref_block_prefix trx = summary.hash_word1 then none
        else some (.fc_assert 318)
    else none
  match tapos_failure with
  | some e => some e
  | none =>
    if ¬ trx.expiration ≤ expiration_limit o then some (.fc_assert 321)
    else if ¬ o.head_block_time ≤ trx.expiration then some (.fc_assert 323)
    else none

/-- Modelled from the spec: `create<transaction_object>` adds a record to the
transaction index; the index `by_trx_id` is unique, and a record whose id is
already in it fails with `duplicate_key`. -/
def create_transaction (record : transaction_object) (o : object_state) :
    Except exception object_state :=
  if (o.transaction_index.find? (fun t => decide (t.trx_id = record.trx_id))).isSome then
    .error .duplicate_key
  else .ok { o with transaction_index := o.transaction_index ++ [record] }

/-- Source: `this->create<transaction_object>(...)` in `_push_transaction`
(lines 336-339). -/
def create_transaction_object (env : Env) (trx : processed_transaction)
    (db : database) : Except exception database :=
  let h := env.hash trx.tosigned_transaction
  let record : transaction_object :=
    { trx_hash := h, trx_id := env.id trx.tosigned_transaction h,
      trx := trx.tosigned_transaction }
  match create_transaction record db.objs with
  | .error e => .error e
  | .ok o => .ok { db with objs := o }

/-- The tail of `_push_transaction` (source lines 328-345): the transaction is
appended to the pending queue; then the temporary session is either undone (and
the transaction record inserted) or merged into the pending session. The
insertion is not guarded: when it fails its exception leaves the function,
with the transaction already in the queue and the temporary session undone. -/
def finish_push (env : Env) (processed_trx : processed_transaction)
    (undo_temp : Bool) (db : database) : outcome processed_transaction :=
  let db1 := { db with pending_tx := db.pending_tx ++ [processed_trx] }
  if undo_temp then
    match create_transaction_object env processed_trx db1.undo with
    | .error e => .thrown e db1.undo
    | .ok db2 => .returned processed_trx db2
  else .returned processed_trx db1.merge

/-- Source: `database::_push_transaction`. On the re-push path `trx` is the
processed transaction itself (the source reinterprets the reference); on the
other paths only its signed part is read. A throw unwinds the temporary
session. -/
def _push_transaction (env : Env) (trx : processed_transaction)
    (push_state : transaction_push_state) (db : database) : outcome processed_transaction :=
  let db1 :=
    if db.pending_tx_session then db
    else { db.start_undo_session with pending_tx_session := true }
  let db2 := db1.start_undo_session
  if push_state ≠ .re_push then
    if push_state = .from_me then
      let db3 := { db2 with pending_size := max db2.pending_size db2.pending_tx.length }
      if db3.message_cache_size_limit ≠ 0 ∧
          ¬ db3.pending_size ≤ db3.message_cache_size_limit then
        .thrown (.fc_assert 295) db3.undo
      else
        match env._apply_transaction trx.tosigned_transaction .push_mode false
            db3.skip_flags db3.objs with
        | .error e => .thrown e db3.undo
        | .ok (processed_trx, mode, o) =>
          finish_push env processed_trx (decide (mode = .invoke_mode)) { db3 with objs := o }
    else
      match env._apply_transaction trx.tosigned_transaction .validate_transaction_mode
          (!db2.deduce_in_verification_mode) db2.skip_flags db2.objs with
      | .error e => .thrown e db2.undo
      | .ok (processed_trx, mode, o) =>
        finish_push env processed_trx (decide (mode = .invoke_mode)) { db2 with objs := o }
  else
    let share_flag := env.skip_transaction_signatures ||| env.skip_tapos_check
    let skip :=
      if is_share_fee env trx.tosigned_transaction ∧ db2.skip_flags ≠ share_flag then share_flag
      else db2.skip_flags
    let failure : Option exception :=
      if db2.head_block_num > 0 then
        check_tapos_expiration
          (decide (skip &&& env.skip_tapos_check = 0) && trx.agreed_task.isNone)
          trx.tosigned_transaction db2.objs
      else none
    match failure with
    | some e => .thrown e db2.undo
    | none => finish_push env trx true db2

/-- The state of the selection loop of `_generate_block`: the running `skip`
flags, the running block size and the transactions selected so far. -/
structure generate_state where
  skip : Nat := 0
  total_block_size : Nat := 0
  transactions : List (Nat × processed_transaction) := []
deriving DecidableEq, Repr

/-- The loop over `_pending_tx` in `_generate_block` (source lines 452-488).
`o` is the object state, which the loop only reads. -/
def select_pending (env : Env) (o : object_state) :
    List processed_transaction → generate_state → generate_state
  | [], st => st
  | tx :: rest, st =>
    let new_total_size := st.total_block_size + env.pack_size tx
    if new_total_size ≥ o.maximum_block_size then st
    else
      let skip :=
        if is_share_fee env tx.tosigned_transaction then
          env.skip_transaction_signatures ||| env.skip_tapos_check
        else st.skip
      let failure : Option exception :=
        if o.head_block_num > 0 ∧ tx.agreed_task.isNone then
          check_tapos_expiration (decide (skip &&& env.skip_tapos_check = 0))
            tx.tosigned_transaction o
        else none
      match failure with
      | some _ => select_pending env o rest { st with skip := skip }
      | none =>
        select_pending env o rest
          { skip := skip
            total_block_size := st.total_block_size + env.pack_size tx
            transactions := st.transactions ++ [(env.hash tx.tosigned_transaction, tx)] }

/-- Source: `database::_generate_block`. `validate_block` is defined outside
`db_block.cpp`; it is modelled from the spec (step 5: the merkle root is
computed and the block signed) as `Env.validate_block`, which returns the
finished block or fails and does not touch the database. -/
def _generate_block (env : Env) (when witness_id block_signing_private_key : Nat)
    (db : database) : outcome signed_block :=
  let skip := db.skip_flags
  let slot_num := env.get_slot_at_time db.objs when
  if ¬ slot_num > 0 then .thrown (.fc_assert 427) db
  else if env.get_scheduled_witness db.objs slot_num ≠ witness_id then
    .thrown (.fc_assert 429) db
  else
    match db.objs.witnesses.lookup witness_id with
    | none => .thrown (.fc_assert 430) db
    | some signing_key =>
      if skip &&& env.skip_witness_signature = 0 ∧
          signing_key ≠ env.get_public_key block_signing_private_key then
        .thrown (.fc_assert 432) db
      else
        let db1 := db.reset_pending_tx_session
        let db2 := { db1.start_undo_session with pending_tx_session := true }
        let st := select_pending env db2.objs db2.pending_tx
          { skip := skip, total_block_size := env.max_block_header_size, transactions := [] }
        let db3 := db2.reset_pending_tx_session
        let pending_block : signed_block :=
          { previous := db3.head_block_id
            extensions :=
              if db3.head_block_id = {} then
                ["Ignition with Kevin , Nico , Major and Wililiam"]
              else []
            timestamp := when
            witness := witness_id
            transactions := st.transactions }
        let skip_authority :=
          if ¬ db3.deduce_in_verification_mode then 0 else env.skip_authority_check
        match env.validate_block pending_block block_signing_private_key
            (st.skip ||| skip_authority ||| env.skip_merkle_check |||
              env.skip_witness_signature) with
        | .error e => .thrown e db3
        | .ok b => .returned b db3

/-! ## Descriptions of runs, used to state the theorems -/

/-- `Applies env skip run o`: starting from the object state `o`,
`apply_block` succeeds on each block of `run` in turn, and the object state it
leaves is the one paired with the block. -/
def Applies (env : Env) (skip : Nat) : List (fork_item × object_state) → object_state → Prop
  | [], _ => True
  | (i, o') :: rest, o => env.apply_block i.data skip o = .ok o' ∧ Applies env skip rest o'

/-- The object state at the end of a run that started from `o`. -/
def last_state : List (fork_item × object_state) → object_state → object_state
  | [], o => o
  | (_, o') :: rest, _ => last_state rest o'

/-- The snapshots a run that started from `o` leaves on the undo stack, newest
first: the object state before each of its blocks. -/
def snapshots : List (fork_item × object_state) → object_state → List object_state
  | [], _ => []
  | (_, o') :: rest, o => snapshots rest o' ++ [o]

/-- The calls made for one block that applies: session, `apply_block`, store
under `id`, commit. -/
def applied_calls (skip : Nat) (id : block_id_type) (b : signed_block) : List call :=
  [.start_undo_session, .apply_block b skip, .store id b, .commit]

/-- The calls made for one block on which `apply_block` throws. -/
def failed_calls (skip : Nat) (b : signed_block) : List call :=
  [.start_undo_session, .apply_block b skip, .undo]

/-- The calls made by `n` successful `pop_block` calls. -/
def pop_calls : Nat → List call
  | 0 => []
  | n + 1 => [.fork_pop_block, .pop_undo] ++ pop_calls n

/-- The calls of a run in which every block applies and is stored under
`idf item`. -/
def run_calls (skip : Nat) (idf : fork_item → block_id_type) :
    List (fork_item × object_state) → List call
  | [] => []
  | (i, _) :: rest => applied_calls skip (idf i) i.data ++ run_calls skip idf rest

/-- The block-log entries a run adds, newest first. -/
def run_stores (idf : fork_item → block_id_type) :
    List (fork_item × object_state) → List (block_id_type × signed_block)
  | [] => []
  | (i, _) :: rest => run_stores idf rest ++ [(idf i, i.data)]

/-- The database after a run in which every block applied: the object state
is the last one, every block left a committed session on the undo stack and an
entry in the block log; nothing else changed. -/
def after_run (skip : Nat) (idf : fork_item → block_id_type)
    (run : List (fork_item × object_state)) (db : database) : database :=
  { db with
    objs := last_state run db.objs
    undo_stack := snapshots run db.objs ++ db.undo_stack
    block_id_to_block := run_stores idf run ++ db.block_id_to_block
    trace := db.trace ++ run_calls skip idf run }

/-- The database after `apply_block` threw on `b` and the session was undone:
only the trace has grown. -/
def after_failed (skip : Nat) (b : signed_block) (db : database) : database :=
  { db with trace := db.trace ++ failed_calls skip b }

/-- The fork database after `remove` was called with the block id of each item. -/
def remove_all (f : fork_database) (items : List fork_item) : fork_database :=
  items.foldl (fun g i => g.remove i.data.block_id) f

/-- The calls that remove the listed items from the fork database. -/
def remove_calls (items : List fork_item) : List call :=
  items.map (fun i => call.fork_remove i.data.block_id)

end database

/-! ## The block and transaction appliers -/

/-- The part of `transaction_evaluation_state` that is fixed before the first
operation is applied: the transaction (with the operation results recorded in
the block, when it comes from one), the apply mode and the skip flags at that
moment, and whether the transaction is an agreed task. The growing member
`operation_results` is threaded through the operation loop separately. -/
structure transaction_evaluation_state where
  _trx : processed_transaction := {}
  run_mode : transaction_apply_mode := .push_mode
  skip : Nat := 0
  is_agreed_task : Bool := false
deriving DecidableEq, Repr

/-- The fields of the operation that `auto_gas` builds; `amount` and
`asset_id` are the two parts of the asset `get_allowed_withdraw(now)`. -/
structure vesting_balance_withdraw_operation where
  vesting_balance : Nat := 0
  owner : Nat := 0
  amount : Nat := 0
  asset_id : Nat := 0
deriving DecidableEq, Repr

/-- The collaborators of the block and transaction appliers that are defined
in other files, and the constants declared in headers, on top of `Env`.
`evaluate` is the registered evaluator of an operation: it returns a result or
throws, and in both cases the object state it leaves. `first_vesting_balance`
is the first vesting balance of an account with the amount it allows to be
withdrawn at the head time. The housekeeping steps of `_apply_block` act on
the object state. -/
structure Applier extends Env where
  pack_size_trx : signed_transaction → Nat
  validate : signed_transaction → Option exception
  verify_authority : signed_transaction → object_state → Option exception
  evaluate : transaction_evaluation_state → operation → object_state →
    Except exception operation_result × object_state
  exception_code : exception → Nat
  exception_to_string : exception → Nat
  get_runtime : operation_result → Nat
  object_type : Nat → Nat
  proposal_type_id : Nat
  crontab_type_id : Nat
  transfer_operation : Nat
  call_contract_function_operation : Nat
  transfer_from : operation → Nat
  contract_caller : operation → Nat
  AUTO_GAS_TIMEPOINT : Nat
  GRAPHENE_FULL_PROPOTION : Nat
  first_vesting_balance : object_state → Nat → Option vesting_balance_withdraw_operation
  withdraw_operation : vesting_balance_withdraw_operation → operation
  skip_transaction_dupe_check : Nat
  skip_validate : Nat
  skip_witness_schedule_check : Nat
  validate_signee : signed_block → Nat → Bool
  calculate_merkle_root : signed_block → Nat
  update_global_dynamic_data : signed_block → object_state → Except exception object_state
  update_signing_witness : Nat × Nat → signed_block → object_state →
    Except exception object_state
  update_last_irreversible_block : object_state → Except exception object_state
  perform_chain_maintenance : signed_block → object_state → Except exception object_state
  clear_expired_transactions : object_state → Except exception object_state
  clear_expired_nh_asset_orders : object_state → Except exception object_state
  clear_expired_proposals : object_state → Except exception object_state
  clear_expired_orders : object_state → Except exception object_state
  clear_expired_timed_task : object_state → Except exception object_state
  update_expired_feeds : object_state → Except exception object_state
  clear_expired_active : object_state → Except exception object_state
  update_maintenance_flag : Bool → object_state → Except exception object_state
  update_witness_schedule : object_state → Except exception object_state
  apply_debug_updates : object_state → Except exception object_state

/-- The alternative a result holds, as `operation_result::which()` tells it.
Only the distinctness of the positions matters; the positions themselves are
declared with the variant in a header. -/
def operation_result.which : operation_result → Nat
  | .void_result => 0
  | .contract_result _ _ => 1
  | .error_result _ _ _ => 2
  | .other tag => 3 + tag

/-- Source: `static_variant::operator ==`, `a.which() == b.which()`. -/
def operation_result.eq (a b : operation_result) : Bool :=
  decide (a.which = b.which)

def operation_result.is_error_result : operation_result → Bool
  | .error_result _ _ _ => true
  | _ => false

def operation_result.is_contract_result : operation_result → Bool
  | .contract_result _ _ => true
  | _ => false

def operation_result.is_void_result : operation_result → Bool
  | .void_result => true
  | _ => false

/-- The test `op_result.which() == tag<contract_result> &&
op_result.get<contract_result>().existed_pv`. -/
def operation_result.existed_pv : operation_result → Bool
  | .contract_result existed_pv _ => existed_pv
  | _ => false

/-- The sum of a 32-bit time and an offset in seconds (`time_point_sec + n`). -/
def time_point_sec_add (t : Nat) (n : Int) : Nat :=
  (((t : Int) + n) % 2 ^ 32).toNat

/-- The value of `fc::time_point_sec::maximum()`. -/
def time_point_sec_maximum : Nat := 2 ^ 32 - 1

namespace database

/-- Modelled from the spec: `detail::with_skip_flags` runs `f` with the skip
flags overlaid and puts the old flags back when `f` returns or throws. -/
def with_skip_flags {α : Type} (skip : Nat) (f : database → outcome α)
    (db : database) : outcome α :=
  match f { db with skip_flags := skip } with
  | .returned v d => .returned v { d with skip_flags := db.skip_flags }
  | .thrown e d => .thrown e { d with skip_flags := db.skip_flags }

/-- Source: `database::push_applied_operation`. The index is returned as a
`uint32_t` and the counters have the widths a header gives them; the buffer is
taken to hold fewer than `2 ^ 32` records and the counters not to wrap. -/
def push_applied_operation (op : operation) (db : database) : Nat × database :=
  let oh : operation_history_object :=
    { op := op
      block_num := db.current_block_num
      trx_in_block := db.current_trx_in_block
      op_in_trx := db.current_op_in_trx
      virtual_op := db.current_virtual_op }
  (db.applied_ops.length,
    { db with applied_ops := db.applied_ops ++ [some oh]
              current_virtual_op := db.current_virtual_op + 1 })

/-- Source: `database::set_applied_operation_result` (its `assert` is compiled
out; an empty slot is only logged). -/
def set_applied_operation_result (op_id : Nat) (result : operation_result)
    (db : database) : database :=
  match db.applied_ops.get? op_id with
  | some (some oh) =>
    { db with applied_ops := db.applied_ops.set op_id (some { oh with result := result }) }
  | _ => db

/-- One read of `fc::time_point::now()`. -/
def read_clock (db : database) : Nat × database :=
  match db.wall_clock with
  | [] => (0, db)
  | t :: rest => (t, { db with wall_clock := rest })

/-- Source: `database::apply_operation`. The evaluator runs under a nested
undo session. When it throws and the transaction is an agreed task, the
exception is turned into an `error_result`, the session is undone and the
operation is recorded with that result (the `merge` that follows acts on a
session that is already undone). When it throws otherwise, the exception
leaves the function: the session is undone as it goes out of scope and the
statement that puts the undo flag back is not reached. The `assert`s on the
evaluator table are compiled out; `a.evaluate` is the evaluator registered for
the operation. The measured time is the difference of two clock readings. -/
def apply_operation (a : Applier) (eval_state : transaction_evaluation_state)
    (op : operation) (is_agreed_task : Bool) (db : database) : outcome operation_result :=
  let _undo_db_state := db.undo_enabled
  let db1 := { db with undo_enabled := true }
  let (start, db2) := db1.read_clock
  let db3 := log (.evaluate op) db2.start_undo_session
  match a.evaluate eval_state op db3.objs with
  | (.ok result, o) =>
    let (op_id, db4) := push_applied_operation op { db3 with objs := o }
    let db5 := (set_applied_operation_result op_id result db4).merge
    .returned result { db5 with undo_enabled := _undo_db_state }
  | (.error e, o) =>
    let db4 := { db3 with objs := o }
    if is_agreed_task then
      let (stop, db5) := db4.read_clock
      let result := operation_result.error_result (a.exception_code e)
        (a.exception_to_string e) (stop - start)
      let (op_id, db6) := push_applied_operation op db5.undo
      let db7 := set_applied_operation_result op_id result db6
      .returned result { db7 with undo_enabled := _undo_db_state }
    else .thrown e db4.undo

/-- Source: `database::auto_gas`. `results` is `eval_state.operation_results`. -/
def auto_gas (a : Applier) (eval_state : transaction_evaluation_state) (from_account : Nat)
    (results : List operation_result) (db : database) : List operation_result × database :=
  let db0 := log (.auto_gas from_account) db
  match a.first_vesting_balance db0.objs from_account with
  | none => (results, db0)
  | some w =>
    if w.asset_id = 1 ∧ w.amount > 100000 then
      match apply_operation a eval_state (a.withdraw_operation w) false db0 with
      | .returned op_result db1 =>
        if op_result.is_error_result then (results, db1) else (results ++ [op_result], db1)
      | .thrown _ db1 => (results, db1)
    else (results, db0)

end database

namespace database

/-- The skip flags `_apply_transaction` works with: the node's flags, replaced
by `skip_transaction_signatures | skip_tapos_check` for a fee-share
transaction (source lines 685-691). -/
def effective_skip (a : Applier) (trx : signed_transaction) (db : database) : Nat :=
  let share_flag := a.skip_transaction_signatures ||| a.skip_tapos_check
  if is_share_fee a.toEnv trx ∧ db.skip_flags ≠ share_flag then share_flag
  else db.skip_flags

/-- The variable `op_maxsize_proportion_percent` of `_apply_transaction`
(source lines 694-702). -/
def op_maxsize_percent (db : database) : Nat :=
  match db.op_maxsize_proportion_percent with
  | none => 1
  | some percent => if percent ≤ 100 then percent else 1

/-- The variable `int size` of `_apply_transaction` (source line 703), as the
`size_t` it is converted to for the comparison with the packed size. The
product is formed on unsigned 32-bit integers; the quotient is stored in a
signed 32-bit `int`, and a negative `int` converts to a 64-bit value. -/
def trx_size_limit (a : Applier) (db : database) : Nat :=
  let q := (db.objs.maximum_block_size * op_maxsize_percent db) % 2 ^ 32 /
    a.GRAPHENE_FULL_PROPOTION
  if q < 2 ^ 31 then q else 2 ^ 64 - 2 ^ 32 + q

/-- The update of the crontab when its transaction is accepted (source lines
738-744). The time sums are taken on 32-bit seconds. -/
def crontab_begin (now assigned_task_life_cycle : Nat) (c : crontab_object) : crontab_object :=
  let next := time_point_sec_add now c.execute_interval
  { c with
    last_execte_time := now
    next_execte_time := next
    expiration_time := time_point_sec_add now
      (((c.scheduled_execute_times : Int) - c.already_execute_times) * c.execute_interval)
    already_execute_times := c.already_execute_times + 1
    timed_transaction := { c.timed_transaction with
      expiration := time_point_sec_add next (min (assigned_task_life_cycle % 2 ^ 32) 7200) } }

/-- The agreed-task branch of `_apply_transaction` (source lines 721-751): the
proposal or crontab named by the transaction is looked up, checked against the
transaction and updated. The second component is `temp_crontab`, the id of the
crontab when the task is one. -/
def begin_agreed_task (a : Applier) (id trx_hash now : Nat) (db : database) :
    Except exception (database × Option Nat) :=
  if a.object_type id = a.proposal_type_id then
    match db.objs.proposals.find? (fun p => decide (p.id = id)) with
    | none => .error (.fc_assert 728)
    | some proposal =>
      if trx_hash = a.hash proposal.proposed_transaction ∧ proposal.expiration_time ≤ now ∧
          proposal.allow_execution = true then
        .ok ({ db with objs := { db.objs with
          proposals := db.objs.proposals.map (fun pr =>
            if pr.id = id then { pr with allow_execution := false } else pr) } }, none)
      else .error (.fc_assert 729)
  else if a.object_type id = a.crontab_type_id then
    match db.objs.crontabs.find? (fun c => decide (c.id = id)) with
    | none => .error (.fc_assert 735)
    | some crontab =>
      if trx_hash = a.hash crontab.timed_transaction ∧ crontab.next_execte_time ≤ now ∧
          crontab.allow_execution = true then
        .ok ({ db with objs := { db.objs with
          crontabs := db.objs.crontabs.map (fun c =>
            if c.id = id then crontab_begin now db.objs.assigned_task_life_cycle c
            else c) } }, some id)
      else .error (.fc_assert 737)
  else .error (.evaluation 748)

/-- The TaPoS and expiration checks of `_apply_transaction` (source lines
767-777); `none` is success. -/
def check_tapos (a : Applier) (skip : Nat) (trx : signed_transaction) (now : Nat)
    (db : database) : Option exception :=
  let tapos_failure : Option exception :=
    if skip &&& a.skip_tapos_check = 0 then
      match db.objs.block_summaries.get? trx.ref_block_num with
      | none => some (.fc_assert 771)
      | some summary =>
        if signed_transaction.ref_block_prefix trx = summary.hash_word1 then none
        else some (.fc_assert 772)
    else none
  match tapos_failure with
  | some e => some e
  | none =>
    if ¬ trx.expiration ≤ (now + db.objs.maximum_time_until_expiration) % 2 ^ 32 then
      some (.fc_assert 774)
    else if ¬ now ≤ trx.expiration then some (.fc_assert 776)
    else none

/-- The records `_apply_transaction` creates before the operations run (source
lines 778-798). The creation of the transaction record is wrapped in a
`try`/`catch` that only logs: when it fails, no record is added. -/
def create_records (a : Applier) (skip : Nat) (trx : signed_transaction)
    (trx_hash trx_id : Nat) (run_mode : transaction_apply_mode) (db : database) : database :=
  let db1 :=
    if run_mode = .apply_block_mode ∨ run_mode = .production_block_mode then
      { db with objs := { db.objs with
        transaction_in_block_index := db.objs.transaction_in_block_index ++
          [{ trx_hash := trx_hash, block_num := db.current_block_num,
             trx_in_block := db.current_trx_in_block }] } }
    else db
  if skip &&& a.skip_transaction_dupe_check = 0 ∨ is_share_fee a.toEnv trx then
    match create_transaction { trx_hash := trx_hash, trx_id := trx_id, trx := trx } db1.objs with
    | .ok o => { db1 with objs := o }
    | .error _ => db1
  else db1

/-- The variables of the operation loop of `_apply_transaction`;
`operation_results` is `eval_state.operation_results`. -/
structure apply_loop_state where
  operation_results : List operation_result := []
  real_run_time : Nat := 0
  run_mode : transaction_apply_mode := .push_mode
  result_contains_error : Bool := false
  last_from : Nat := 0
deriving DecidableEq, Repr

/-- The body of the operation loop of `_apply_transaction` (source lines
815-848). The recorded result is read at index `_current_op_in_trx`; where the
recorded results are too short the source reads out of bounds, and the
embedding fails the comparison there. -/
def apply_loop_body (a : Applier) (eval_state : transaction_evaluation_state)
    (op : operation) (st : apply_loop_state) (db : database) : outcome apply_loop_state :=
  match apply_operation a eval_state op eval_state.is_agreed_task db with
  | .thrown e db1 => .thrown e db1
  | .returned op_result db1 =>
    let real_run_time := st.real_run_time + a.get_runtime op_result
    if st.run_mode ≠ .apply_block_mode ∧
        ¬ real_run_time < db1.objs.block_interval * 75000 then
      .thrown (.fc_assert 818) db1
    else if st.run_mode = .apply_block_mode ∧ eval_state.is_agreed_task = true ∧
        ((eval_state._trx.operation_results.get? db1.current_op_in_trx).map
          (fun recorded => op_result.eq recorded)) ≠ some true then
      .thrown (.fc_assert 820) db1
    else
      let results := st.operation_results ++ [op_result]
      let run_mode := if op_result.existed_pv then .invoke_mode else st.run_mode
      let db2 := { db1 with current_op_in_trx := db1.current_op_in_trx + 1 }
      let result_contains_error := st.result_contains_error || op_result.is_error_result
      let st1 : apply_loop_state :=
        { operation_results := results, real_run_time := real_run_time, run_mode := run_mode,
          result_contains_error := result_contains_error, last_from := st.last_from }
      if db2.head_block_time > a.AUTO_GAS_TIMEPOINT then
        let call_contract_condition :=
          op.which = a.call_contract_function_operation ∧ op_result.is_contract_result = true
        let transfer_condition :=
          op.which = a.transfer_operation ∧ op_result.is_void_result = true
        if call_contract_condition ∨ transfer_condition then
          let op_from := if transfer_condition then a.transfer_from op else a.contract_caller op
          if st.last_from ≠ op_from then
            let (results1, db3) := auto_gas a eval_state op_from results db2
            .returned { st1 with operation_results := results1, last_from := op_from } db3
          else .returned st1 db2
        else .returned st1 db2
      else .returned st1 db2

/-- The operation loop of `_apply_transaction`. -/
def apply_operations (a : Applier) (eval_state : transaction_evaluation_state) :
    List operation → apply_loop_state → database → outcome apply_loop_state
  | [], st, db => .returned st db
  | op :: rest, st, db =>
    match apply_loop_body a eval_state op st db with
    | .thrown e db1 => .thrown e db1
    | .returned st1 db1 => apply_operations a eval_state rest st1 db1

/-- The crontab post-pass of `_apply_transaction` on the crontab itself
(source lines 854-870). -/
def crontab_post_pass (threshold suspend_expiration now : Nat) (result_contains_error : Bool)
    (c : crontab_object) : crontab_object :=
  if c.already_execute_times < c.scheduled_execute_times then
    if result_contains_error then
      let c1 := { c with continuous_failure_times := c.continuous_failure_times + 1 }
      if threshold = c1.continuous_failure_times then
        { c1 with
          next_execte_time := time_point_sec_maximum
          is_suspended := true
          expiration_time := time_point_sec_add now suspend_expiration }
      else c1
    else if 0 ≠ c.continuous_failure_times then { c with continuous_failure_times := 0 }
    else c
  else c

/-- The crontab post-pass on the database; `temp_crontab` is the id of the
crontab that drives the transaction, if one does. -/
def finish_crontab (temp_crontab : Option Nat) (now : Nat) (result_contains_error : Bool)
    (db : database) : database :=
  match temp_crontab with
  | none => db
  | some id =>
    { db with objs := { db.objs with
      crontabs := db.objs.crontabs.map (fun c =>
        if c.id = id then
          crontab_post_pass db.objs.crontab_suspend_threshold
            db.objs.crontab_suspend_expiration now result_contains_error c
        else c) } }

end database

namespace database

/-- The authority step of `_apply_transaction` (source lines 719-766): an
agreed task is checked against its proposal or crontab, any other transaction
has its signatures verified unless the flags skip that. The result is the
database, `eval_state.is_agreed_task` and `temp_crontab`. -/
def check_authority (a : Applier) (trx : signed_transaction) (skip trx_hash now : Nat)
    (db : database) : Except exception (database × Bool × Option Nat) :=
  if skip &&& (a.skip_transaction_signatures ||| a.skip_authority_check) = 0 ∨
      trx.agreed_task.isSome then
    match trx.agreed_task with
    | some task =>
      match begin_agreed_task a task.2 trx_hash now db with
      | .error e => .error e
      | .ok (db1, temp_crontab) => .ok (db1, true, temp_crontab)
    | none =>
      match a.verify_authority trx db.objs with
      | some e => .error e
      | none => .ok (db, false, none)
  else .ok (db, false, none)

/-- Source: `database::_apply_transaction`. `trx` is the transaction as the
caller holds it: the source reads its recorded operation results through a
cast when it checks an agreed task in apply-block mode. The result is the
processed transaction together with the final value of the reference
parameter `run_mode`. A throw leaves the mutations made so far to the session
of the caller. -/
def _apply_transaction (a : Applier) (trx : processed_transaction)
    (run_mode : transaction_apply_mode) (only_try_permissions : Bool) (db : database) :
    outcome (processed_transaction × transaction_apply_mode) :=
  let strx := trx.tosigned_transaction
  let skip := effective_skip a strx db
  if ¬ a.pack_size_trx strx < trx_size_limit a db then .thrown (.fc_assert 704) db
  else
    match (if skip &&& a.skip_validate = 0 then a.validate strx else none) with
    | some e => .thrown e db
    | none =>
      let now := db.head_block_time
      let trx_hash := a.hash strx
      let trx_id := a.id strx trx_hash
      if ¬ is_share_fee a.toEnv strx ∧ skip &&& a.skip_transaction_dupe_check = 0 ∧
          (db.objs.transaction_index.find? (fun t => decide (t.trx_id = trx_id))).isSome then
        .thrown (.fc_assert 713) db
      else
        match check_authority a strx skip trx_hash now db with
        | .error e => .thrown e db
        | .ok (db1, is_agreed_task, temp_crontab) =>
          let eval_state : transaction_evaluation_state :=
            { _trx := trx, run_mode := run_mode, skip := skip, is_agreed_task := is_agreed_task }
          match (if db1.head_block_num > 0 ∧ is_agreed_task = false then
                  check_tapos a skip strx now db1 else none) with
          | some e => .thrown e db1
          | none =>
            let db2 := create_records a skip strx trx_hash trx_id run_mode db1
            let ptrx : processed_transaction :=
              { tosigned_transaction := strx, operation_results := [] }
            if only_try_permissions then .returned (ptrx, run_mode) db2
            else
              match apply_operations a eval_state ptrx.operations { run_mode := run_mode }
                  { db2 with current_op_in_trx := 0 } with
              | .thrown e db3 => .thrown e db3
              | .returned st db3 =>
                .returned ({ ptrx with operation_results := st.operation_results }, st.run_mode)
                  (finish_crontab temp_crontab now st.result_contains_error db3)

/-- Source: `database::apply_transaction`. -/
def apply_transaction (a : Applier) (trx : processed_transaction) (skip : Nat)
    (run_mode : transaction_apply_mode) (db : database) : outcome processed_transaction :=
  with_skip_flags skip
    (fun d =>
      match _apply_transaction a trx run_mode false d with
      | .thrown e d1 => .thrown e d1
      | .returned r d1 => .returned r.1 d1)
    db

/-- Source: `database::validate_block_header`. The witness object is the pair
of the witness id and its signing key. -/
def validate_block_header (a : Applier) (skip : Nat) (next_block : signed_block)
    (db : database) : Except exception (Nat × Nat) :=
  if db.head_block_id ≠ next_block.previous then .error (.fc_assert 966)
  else if ¬ db.head_block_time < next_block.timestamp then .error (.fc_assert 967)
  else
    match db.objs.witnesses.lookup next_block.witness with
    | none => .error (.fc_assert 968)
    | some signing_key =>
      if skip &&& a.skip_witness_signature = 0 ∧
          a.validate_signee next_block signing_key = false then
        .error (.fc_assert 971)
      else if skip &&& a.skip_witness_schedule_check = 0 then
        let slot_num := a.get_slot_at_time db.objs next_block.timestamp
        if ¬ slot_num > 0 then .error (.fc_assert 976)
        else if next_block.witness ≠ a.get_scheduled_witness db.objs slot_num then
          .error (.fc_assert 980)
        else .ok (next_block.witness, signing_key)
      else .ok (next_block.witness, signing_key)

/-- Source: `database::create_block_summary`. -/
def create_block_summary (next_block : signed_block) (o : object_state) :
    Except exception object_state :=
  let sid := next_block.block_num &&& 0xffff
  if sid < o.block_summaries.length then
    .ok { o with block_summaries := o.block_summaries.set sid next_block.block_id }
  else .error (.fc_assert 990)

/-- The loop over the transactions of the block in `_apply_block` (source
lines 625-636). -/
def apply_block_transactions (a : Applier) (skip : Nat) :
    List (Nat × processed_transaction) → database → outcome Unit
  | [], db => .returned () db
  | trx :: rest, db =>
    if ¬ trx.2.operation_results.length > 0 then .thrown (.fc_assert 633) db
    else
      match apply_transaction a trx.2 (skip ||| a.skip_authority_check) .apply_block_mode db with
      | .thrown e db1 => .thrown e db1
      | .returned _ db1 =>
        apply_block_transactions a skip rest
          { db1 with current_trx_in_block := db1.current_trx_in_block + 1 }

/-- The housekeeping steps of `_apply_block` after the transactions (source
lines 637-661), in the order of the source. -/
def housekeeping (a : Applier) (signing_witness : Nat × Nat) (maint_needed : Bool)
    (debug_updates : Bool) (next_block : signed_block) (o : object_state) :
    Except exception object_state := do
  let o1 ← a.update_global_dynamic_data next_block o
  let o2 ← a.update_signing_witness signing_witness next_block o1
  let o3 ← a.update_last_irreversible_block o2
  let o4 ← if maint_needed then a.perform_chain_maintenance next_block o3 else pure o3
  let o5 ← create_block_summary next_block o4
  let o6 ← a.clear_expired_transactions o5
  let o7 ← a.clear_expired_nh_asset_orders o6
  let o8 ← a.clear_expired_proposals o7
  let o9 ← a.clear_expired_orders o8
  let o10 ← a.clear_expired_timed_task o9
  let o11 ← a.update_expired_feeds o10
  let o12 ← a.clear_expired_active o11
  let o13 ← a.update_maintenance_flag maint_needed o12
  let o14 ← a.update_witness_schedule o13
  if debug_updates then a.apply_debug_updates o14 else pure o14

/-- Source: `database::_apply_block`. The observers `applied_block` and
`notify_changed_objects` are not part of the state. -/
def _apply_block (a : Applier) (next_block : signed_block) (db : database) : outcome Unit :=
  let next_block_num := next_block.block_num
  let skip := db.skip_flags
  let db1 := log (._apply_block next_block skip) { db with applied_ops := [] }
  if skip &&& a.skip_merkle_check = 0 ∧
      next_block.transaction_merkle_root ≠ a.calculate_merkle_root next_block then
    .thrown (.fc_assert 615) db1
  else
    match validate_block_header a skip next_block db1 with
    | .error e => .thrown e db1
    | .ok signing_witness =>
      let maint_needed := decide (db1.objs.next_maintenance_time ≤ next_block.timestamp)
      let db2 := { db1 with current_block_num := next_block_num, current_trx_in_block := 0 }
      match apply_block_transactions a skip next_block.transactions db2 with
      | .thrown e db3 => .thrown e db3
      | .returned _ db3 =>
        match housekeeping a signing_witness maint_needed db3.debug_updates next_block
            db3.objs with
        | .error e => .thrown e db3
        | .ok o => .returned () { db3 with objs := o, applied_ops := [] }

/-- The entry of the checkpoint map with the greatest block number
(`_checkpoints.rbegin()`). -/
def checkpoints_rbegin : List (Nat × block_id_type) → Option (Nat × block_id_type)
  | [] => none
  | c :: rest =>
    match checkpoints_rbegin rest with
    | none => some c
    | some m => if m.1 < c.1 then some c else some m

/-- Source: `database::apply_block`. The value `~0` of the 32-bit `skip` is
`0xffffffff`. -/
def apply_block (a : Applier) (next_block : signed_block) (skip : Nat) (db : database) :
    outcome Unit :=
  let block_num := next_block.block_num
  let checked : Except exception Nat :=
    match checkpoints_rbegin db.checkpoints with
    | none => .ok skip
    | some last =>
      if last.2 ≠ {} then
        match db.checkpoints.lookup block_num with
        | some id =>
          if next_block.block_id ≠ id then .error (.fc_assert 595)
          else if last.1 ≥ block_num then .ok 0xffffffff else .ok skip
        | none => if last.1 ≥ block_num then .ok 0xffffffff else .ok skip
      else .ok skip
  match checked with
  | .error e => .thrown e db
  | .ok skip1 => with_skip_flags skip1 (_apply_block a next_block) db

/-- The assignment `_checkpoints[num] = id`: the entry of `num` is replaced,
or added when there is none. -/
def checkpoints_set (num : Nat) (id : block_id_type) (m : List (Nat × block_id_type)) :
    List (Nat × block_id_type) :=
  (num, id) :: m.filter (fun e => decide (e.1 ≠ num))

/-- Source: `database::add_checkpoints`. -/
def add_checkpoints (checkpts : List (Nat × block_id_type)) (db : database) : database :=
  { db with checkpoints := checkpts.foldl (fun m i => checkpoints_set i.1 i.2 m) db.checkpoints }

/-- Source: `database::before_last_checkpoint`. -/
def before_last_checkpoint (db : database) : Bool :=
  match checkpoints_rbegin db.checkpoints with
  | none => false
  | some last => decide (last.1 ≥ db.head_block_num)

/-- Source: `database::log_pending_size`. -/
def log_pending_size (db : database) : Bool × database :=
  (true, { db with pending_size := db.pending_tx.length })

/-- Source: `database::set_message_cache_size_limit`; the argument is a 16-bit
value. -/
def set_message_cache_size_limit (message_cache_size_limit : Nat) (db : database) :
    outcome Unit :=
  if message_cache_size_limit ≥ 3000 ∨ message_cache_size_limit = 0 then
    .returned () { db with message_cache_size_limit := message_cache_size_limit }
  else .thrown (.fc_assert 996) db

end database

/-! ## Scenarios S3 and S4 of the specification on a small environment -/

namespace scenario
open database

/-- A small environment for the scenarios: `apply_block` makes the header
checks of `validate_block_header` (previous id, timestamp, signature, where
signature `0` is the valid one) and then moves the head to the block. -/
def env : Env :=
  { make_id := fun b => b.block_id
    apply_block := fun b _ o =>
      if o.head_block_id ≠ b.previous then .error (.fc_assert 966)
      else if ¬ o.head_block_time < b.timestamp then .error (.fc_assert 967)
      else if b.witness_signature ≠ 0 then .error (.fc_assert 971)
      else .ok { o with head_block_id := b.block_id, head_block_num := b.block_num,
                        head_block_time := b.timestamp }
    _apply_transaction := fun trx mode _ _ o =>
      if o.head_block_time ≤ trx.expiration then
        .ok ({ tosigned_transaction := trx, operation_results := [.void_result] }, mode, o)
      else .error (.fc_assert 776)
    hash := fun trx => trx.ref_block_num
    id := fun _ h => h
    pack_size := fun _ => 10
    max_block_header_size := 100
    get_slot_at_time := fun o w => w - o.head_block_time
    get_scheduled_witness := fun _ _ => 1
    get_public_key := fun k => k
    validate_block := fun b _ _ => .ok b
    contract_share_fee_operation := 50
    skip_witness_signature := 1
    skip_transaction_signatures := 2
    skip_fork_db := 8
    skip_tapos_check := 32
    skip_authority_check := 64
    skip_merkle_check := 128 }

/-- A transaction, told apart by `n`; it expires at time 100. -/
def tx (n : Nat) : processed_transaction :=
  { ref_block_num := n, expiration := 100 }

/-- A block holding the transactions `txs`; `sig = 0` is a valid signature. -/
def block (id previous : block_id_type) (sig : Nat) (txs : List Nat) : signed_block :=
  { block_id := id, previous := previous, timestamp := id.num, witness_signature := sig,
    transactions := txs.map (fun n => (n, tx n)) }

def A1 : signed_block := block ⟨1, 10⟩ ⟨0, 0⟩ 0 [1]
def A2 : signed_block := block ⟨2, 10⟩ ⟨1, 10⟩ 0 [2]
def B1 : signed_block := block ⟨1, 20⟩ ⟨0, 0⟩ 0 [3]
def B2 : signed_block := block ⟨2, 20⟩ ⟨1, 20⟩ 0 [4]
def B3 : signed_block := block ⟨3, 20⟩ ⟨2, 20⟩ 0 [5]
/-- The block B3 of scenario S4: it carries a bad signature. -/
def B3_bad : signed_block := block ⟨3, 21⟩ ⟨2, 20⟩ 1 [5]

def item (b : signed_block) : fork_item := { id := b.block_id, data := b }

/-- The object state of the empty chain: one witness (id 1, signing key 77). -/
def genesis_state : object_state :=
  { maximum_block_size := 1000, maximum_time_until_expiration := 1000, witnesses := [(1, 77)] }

/-- The object state whose head is `b`. -/
def at_block (b : signed_block) : object_state :=
  { genesis_state with
    head_block_id := b.block_id, head_block_num := b.block_num, head_block_time := b.timestamp }

/-- The database of the empty chain. -/
def genesis : database := { objs := genesis_state }

/-- Push the blocks in order, ignoring the outcomes. -/
def push_all (bs : List signed_block) (db : database) : database :=
  bs.foldl (fun d b => (_push_block env b d).db) db

/-- The chain A1-A2 is the head and the fork database also holds B1 and B2
(scenarios S3 and S4 before B3 arrives). -/
def chain_A : database :=
  { objs := at_block A2
    undo_stack := [at_block A1, genesis_state]
    fork_db := { index := [item B2, item B1, item A2, item A1], head := some (item A2) }
    block_id_to_block := [(A2.block_id, A2), (A1.block_id, A1)] }

/-- The fork database of `chain_A` after `tip` (B3) was pushed. -/
def pushed (tip : signed_block) : fork_database :=
  { index := [item tip, item B2, item B1, item A2, item A1], head := some (item tip) }

/-- The branches from `tip` (B3) and from A2 back to their common ancestor. -/
def branches (tip : signed_block) : List fork_item × List fork_item :=
  ([item tip, item B2, item B1], [item A2, item A1])

/-- The database once A2 and A1 are popped during the fork switch to `tip`. -/
def fork_point (tip : signed_block) : database :=
  { objs := genesis_state
    fork_db :=
      { index := [item tip, item B2, item B1, item A2, item A1], head := some (item B1) }
    block_id_to_block := [(A2.block_id, A2), (A1.block_id, A1)]
    popped_tx := [tx 1]
    trace := [.fork_push_block tip, .fork_pop_block, .pop_undo, .fork_pop_block, .pop_undo] }

/-- The blocks B1 and B2 with the object state after each. -/
def run_B12 : List (fork_item × object_state) :=
  [(item B1, at_block B1), (item B2, at_block B2)]

/-- The blocks B1, B2 and B3 with the object state after each. -/
def run_B123 : List (fork_item × object_state) :=
  [(item B1, at_block B1), (item B2, at_block B2), (item B3, at_block B3)]

/-- The old branch A1, A2 with the object state after each. -/
def run_A12 : List (fork_item × object_state) :=
  [(item A1, at_block A1), (item A2, at_block A2)]

/-- The block A3, built on A2. -/
def A3 : signed_block := block ⟨3, 10⟩ ⟨2, 10⟩ 0 [6]

/-- A block built on A2 that carries a bad signature. -/
def A3_bad : signed_block := block ⟨3, 11⟩ ⟨2, 10⟩ 1 [6]

/-- The transaction `tx 7` as processed by `env._apply_transaction`. -/
def ptx7 : processed_transaction :=
  { tx 7 with operation_results := [.void_result] }

/-- A transaction that expired at time 1. -/
def tx_expired : processed_transaction :=
  { ref_block_num := 9, expiration := 1 }

/-- The database `chain_A` with `tx 7` pending. -/
def chain_A_pending : database :=
  { chain_A with
    undo_stack := at_block A2 :: chain_A.undo_stack
    pending_tx := [ptx7]
    pending_tx_session := true
    trace := [.start_undo_session, .start_undo_session, .merge] }

/-- Whether a recorded call is a store into the block log. -/
def is_store : call → Bool
  | .store _ _ => true
  | _ => false

end scenario

namespace scenario

/-- A node with cache limit 3000 whose pending queue is empty now but whose
recorded queue size `_pending_size` is still 3001. -/
def high_water : database :=
  { objs := genesis_state, message_cache_size_limit := 3000, pending_size := 3001 }

end scenario

namespace scenario

/-- A node whose only pending transaction fills the block exactly: the header
allowance is 100, the transaction packs to 10 and `maximum_block_size` is 110. -/
def exact_fit : database :=
  { objs := { genesis_state with maximum_block_size := 110 }, pending_tx := [ptx7] }

end scenario

namespace scenario

/-- An agreed-task transaction that expired at time 1. -/
def expired_task : processed_transaction :=
  { ref_block_num := 9, expiration := 1, agreed_task := some (0, 5) }

/-- The database `chain_A` (head time 2) with `expired_task` pending. -/
def chain_A_task : database := { chain_A with pending_tx := [expired_task] }

end scenario

namespace scenario

/-- A small applier on top of `env`. The evaluator is chosen by the tag of the
operation: tag 1 (transfer) returns `void_result`; tag 2 (contract call)
returns a `contract_result` without `existed_pv`; tag 3 changes the object
state and throws `evaluation payload`; tag 4 returns a `contract_result` with
`existed_pv` and run time `payload`; tag 5 returns a `contract_result` without
`existed_pv` and run time `payload`; tag 9 (vesting withdrawal) returns another
kind of result. The payload of a transfer or contract call is the account. The
accounts 7 and 8 own a vesting balance that allows 200000 of asset 1 to be
withdrawn. Object ids 1000-1999 are proposals, 2000-2999 crontabs. -/
def applier : Applier :=
  { env with
    pack_size_trx := fun _ => 10
    validate := fun _ => none
    verify_authority := fun _ _ => none
    evaluate := fun _ op o =>
      if op.which = 2 then (.ok (.contract_result false 0), o)
      else if op.which = 3 then
        (.error (.evaluation op.payload), { o with next_maintenance_time := 99 })
      else if op.which = 4 then (.ok (.contract_result true op.payload), o)
      else if op.which = 5 then (.ok (.contract_result false op.payload), o)
      else if op.which = 9 then (.ok (.other 0), o)
      else (.ok .void_result, o)
    exception_code := fun e =>
      match e with
      | .evaluation c => c
      | .fc_assert s => s
      | _ => 0
    exception_to_string := fun e =>
      match e with
      | .evaluation c => 1000 + c
      | .fc_assert s => 2000 + s
      | _ => 0
    get_runtime := fun r =>
      match r with
      | .contract_result _ t => t
      | .error_result _ _ t => t
      | _ => 0
    object_type := fun id => id / 1000
    proposal_type_id := 1
    crontab_type_id := 2
    transfer_operation := 1
    call_contract_function_operation := 2
    transfer_from := fun op => op.payload
    contract_caller := fun op => op.payload
    AUTO_GAS_TIMEPOINT := 50
    GRAPHENE_FULL_PROPOTION := 100
    first_vesting_balance := fun _ account =>
      if account = 7 ∨ account = 8 then
        some { vesting_balance := account, owner := account, amount := 200000, asset_id := 1 }
      else none
    withdraw_operation := fun w => { which := 9, payload := w.owner }
    skip_transaction_dupe_check := 4
    skip_validate := 2048
    skip_witness_schedule_check := 1024
    validate_signee := fun b _ => decide (b.witness_signature = 0)
    calculate_merkle_root := fun _ => 0
    update_global_dynamic_data := fun b o =>
      .ok { o with head_block_id := b.block_id, head_block_num := b.block_num,
                   head_block_time := b.timestamp }
    update_signing_witness := fun _ _ o => .ok o
    update_last_irreversible_block := fun o => .ok o
    perform_chain_maintenance := fun _ o => .ok o
    clear_expired_transactions := fun o => .ok o
    clear_expired_nh_asset_orders := fun o => .ok o
    clear_expired_proposals := fun o => .ok o
    clear_expired_orders := fun o => .ok o
    clear_expired_timed_task := fun o => .ok o
    update_expired_feeds := fun o => .ok o
    clear_expired_active := fun o => .ok o
    update_maintenance_flag := fun _ o => .ok o
    update_witness_schedule := fun o => .ok o
    apply_debug_updates := fun o => .ok o }

/-- The block id with number 3 used in the checkpoint scenarios. -/
def id3 : block_id_type := ⟨3, 10⟩

/-- A database whose only checkpoint, at block 5, carries the all-zero id. -/
def zero_checkpoint : database :=
  { objs := genesis_state, checkpoints := [(5, {})] }

/-- A database with a checkpoint for block 3 and, at block 5, a checkpoint with
the all-zero id. -/
def zero_last_checkpoint : database :=
  { objs := genesis_state, checkpoints := [(3, id3), (5, {})] }

/-- A database with one checkpoint, for block 3. -/
def one_checkpoint : database :=
  { objs := genesis_state, checkpoints := [(3, id3)] }

/-- Whether a recorded call is a run of `_apply_block`. -/
def is_apply_block : call → Bool
  | ._apply_block _ _ => true
  | _ => false

end scenario

namespace scenario

/-- A node with `maximum_block_size` 42949673 and the option
`op_maxsize_proportion_percent` set to 100. -/
def big_block : database :=
  { objs := { genesis_state with maximum_block_size := 42949673 }
    op_maxsize_proportion_percent := some 100 }

end scenario

namespace scenario

/-- An object state after the auto-gas time point (50): head block 6 at time
60, sixteen empty block summaries, block interval 3 s, crontab suspension
after 3 failures. -/
def late_state : object_state :=
  { head_block_id := ⟨6, 10⟩, head_block_num := 6, head_block_time := 60
    maximum_block_size := 100000, maximum_time_until_expiration := 1000
    witnesses := [(1, 77)]
    block_summaries := List.replicate 16 {}
    block_interval := 3
    crontab_suspend_threshold := 3
    crontab_suspend_expiration := 259200
    assigned_task_life_cycle := 600 }

/-- The database at `late_state`; the wall clock will read 10, 15. -/
def late : database := { objs := late_state, wall_clock := [10, 15] }

/-- An operation whose evaluator throws `evaluation 5`. -/
def failing_op : operation := { which := 3, payload := 5 }

/-- A transfer from `account`. -/
def transfer (account : Nat) : operation := { which := 1, payload := account }

end scenario

namespace scenario

/-- A transaction whose `ref_block_prefix` 1 differs from the word 0 of the
block summary it refers to. -/
def bad_prefix_tx : processed_transaction :=
  { ref_block_num := 7, ref_block_prefix := 1, expiration := 100 }

/-- Scenario S2: the head block time is 1000. -/
def s2 : database := { objs := { late_state with head_block_time := 1000 } }

/-- Scenario S2: a transaction that expires at 999. -/
def s2_tx : processed_transaction := { ref_block_num := 7, expiration := 999 }

end scenario

namespace database

/-- The account the operation loop of `_apply_transaction` considers for
auto-gas after `op` returned `op_result` (source lines 832-842): the `from` of
a transfer that returned a `void_result`, or the caller of a contract call that
returned a `contract_result`. -/
def auto_gas_candidate (a : Applier) (op : operation) (op_result : operation_result) :
    Option Nat :=
  if op.which = a.transfer_operation ∧ op_result.is_void_result = true then
    some (a.transfer_from op)
  else if op.which = a.call_contract_function_operation ∧
      op_result.is_contract_result = true then
    some (a.contract_caller op)
  else none

/-- The loop variables after the result of an operation is taken in (source
lines 821-828), before auto-gas is considered. -/
def loop_state_after (st : apply_loop_state) (real_run_time : Nat)
    (op_result : operation_result) : apply_loop_state :=
  { operation_results := st.operation_results ++ [op_result]
    real_run_time := real_run_time
    run_mode := if op_result.existed_pv then .invoke_mode else st.run_mode
    result_contains_error := st.result_contains_error || op_result.is_error_result
    last_from := st.last_from }

/-- The environment of `_push_transaction` in which the transaction applier is
`_apply_transaction` as embedded above, run on the database `db` with the
object state and skip flags it is handed. -/
def push_env (a : Applier) (db : database) : Env :=
  { a.toEnv with
    _apply_transaction := fun trx mode only_try_permissions skip o =>
      match _apply_transaction a { tosigned_transaction := trx } mode only_try_permissions
          { db with objs := o, skip_flags := skip } with
      | .returned r d => .ok (r.1, r.2, d.objs)
      | .thrown e _ => .error e }

end database

namespace scenario

/-- The database `late` after `tx 7` was applied: the transaction index holds
its record. -/
def late_seen : database :=
  { late with
    objs := { late_state with
      transaction_index :=
        [{ trx_hash := 7, trx_id := 7, trx := (tx 7).tosigned_transaction }] } }

end scenario

namespace scenario

/-- The accounts of the recorded invocations of `auto_gas`, in order. -/
def auto_gas_calls : List call → List Nat
  | [] => []
  | .auto_gas account :: rest => account :: auto_gas_calls rest
  | _ :: rest => auto_gas_calls rest

end scenario

namespace scenario

/-- An agreed-task transaction driven by proposal 1005; its only operation
throws `evaluation 5`, and the result recorded for it in the block is an
`error_result` with code 1. -/
def task_tx : processed_transaction :=
  { ref_block_num := 7, expiration := 100, operations := [failing_op]
    agreed_task := some (0, 1005)
    operation_results := [.error_result 1 1 0] }

/-- The database `late` with proposal 1005, which proposes `task_tx` and may
be executed. -/
def late_proposal : database :=
  { late with
    objs := { late_state with
      proposals :=
        [{ id := 1005, proposed_transaction := { ref_block_num := 7 }
           expiration_time := 0, allow_execution := true }] } }

end scenario

namespace database

/-- What one accepted execution of its transaction does to a crontab that the
evaluators leave alone: the update at acceptance followed by the post-pass. -/
def crontab_execution (threshold suspend_expiration assigned_task_life_cycle now : Nat)
    (result_contains_error : Bool) (c : crontab_object) : crontab_object :=
  crontab_post_pass threshold suspend_expiration now result_contains_error
    (crontab_begin now assigned_task_life_cycle c)

end database

namespace scenario

/-- A transaction driven by crontab 2005 whose only operation throws. -/
def cron_tx : processed_transaction :=
  { ref_block_num := 7, expiration := 100, operations := [failing_op]
    agreed_task := some (0, 2005) }

/-- Crontab 2005: its transaction is `cron_tx`, it is due and scheduled for
`scheduled` executions, none of which has taken place. -/
def cron (scheduled : Nat) : crontab_object :=
  { id := 2005, timed_transaction := { ref_block_num := 7 }, next_execte_time := 60
    execute_interval := 10, scheduled_execute_times := scheduled, allow_execution := true }

/-- The database `late` with suspension threshold 1 and crontab 2005 scheduled
for `scheduled` executions. -/
def late_cron (scheduled : Nat) : database :=
  { late with
    objs := { late_state with crontab_suspend_threshold := 1, crontabs := [cron scheduled] } }

end scenario

namespace scenario

/-- A transaction whose only operation returns a `contract_result` with a run
time of 300000 microseconds. -/
def slow_tx : processed_transaction :=
  { ref_block_num := 7, expiration := 100, operations := [{ which := 5, payload := 300000 }] }

/-- The database `late_proposal` with a wall clock that will read 10 and 19. -/
def late_proposal_slow : database := { late_proposal with wall_clock := [10, 19] }

end scenario

/-- The result without the measured run time of a captured error. -/
def operation_result.erase_time : operation_result → operation_result
  | .error_result code message _ => .error_result code message 0
  | r => r

namespace database

/-- The database without what depends on the wall clock: the readings to
come, and the run times measured for the captured errors in the
applied-operations buffer. -/
def forget_clock (db : database) : database :=
  { db with
    wall_clock := []
    applied_ops := db.applied_ops.map
      (Option.map (fun oh => { oh with result := oh.result.erase_time })) }

end database

/-- The outcome without what depends on the wall clock; `f` does the same for
the returned value. -/
def outcome.forget_clock {α : Type} (f : α → α) : outcome α → outcome α
  | .returned v d => .returned (f v) d.forget_clock
  | .thrown e d => .thrown e d.forget_clock

namespace database

/-- The loop variables without what depends on the wall clock: the run times
of the captured errors and the accumulated run time. -/
def apply_loop_state.forget_clock (st : apply_loop_state) : apply_loop_state :=
  { st with
    operation_results := st.operation_results.map operation_result.erase_time
    real_run_time := 0 }

end database

namespace scenario

/-- A database whose applied-operations buffer holds a record for a transfer
from account 7 and an emptied slot, at block 6, transaction 2, operation 1,
virtual operation 4. -/
def two_slots : database :=
  { late with
    applied_ops := [some { op := transfer 7, block_num := 6 }, none]
    current_block_num := 6, current_trx_in_block := 2, current_op_in_trx := 1
    current_virtual_op := 4 }

/-- The database `late` with the undo database disabled. -/
def undo_off : database := { late with undo_enabled := false }

/-- A transaction of two contract operations: the first reports `existed_pv`
and no run time, the second ran for 300000 microseconds. -/
def pv_slow_tx : processed_transaction :=
  { ref_block_num := 7, expiration := 100
    operations := [{ which := 4, payload := 0 }, { which := 5, payload := 300000 }]
    operation_results := [.contract_result true 0, .contract_result false 300000] }

/-- The transaction `slow_tx` as a block records it. -/
def slow_block_tx : processed_transaction :=
  { slow_tx with operation_results := [.contract_result false 300000] }

end scenario

/-! ## The tagged union `fc::static_variant`

The member types of a variant are named by numbers. The class asserts that no
member type is a reference, so the specialisation of `storage_ops` for
reference types is never instantiated and is left out. -/

namespace fc

/-- The value of an `int` converted to `unsigned int`. -/
def to_unsigned (i : Int) : Nat := (i % 2 ^ 32).toNat

/-- The value of an unsigned integer converted to `int`: the value modulo
`2 ^ 32`, read as a two's complement number. -/
def to_int (u : Nat) : Int :=
  if u % 2 ^ 32 < 2 ^ 31 then ((u % 2 ^ 32 : Nat) : Int) else ((u % 2 ^ 32 : Nat) : Int) - 2 ^ 32

/-- The interface of `fc::variant` that `static_variant.hpp` uses, for a type
`V` of variants: the variant of an unsigned integer, the variant of an array,
and the readers `get_array` and `as_uint64`, which throw on a variant of
another kind. -/
structure variant_api (V : Type) where
  of_uint : Nat → V
  of_array : List V → V
  get_array : V → Except exception (List V)
  as_uint64 : V → Except exception Nat

/-- The member types of a variant as far as `static_variant.hpp` uses them. A
type is named by a number and an object by its representation in the storage:
`default_value T` is the object `T()`, `to_variant T x` is what the overload of
`to_variant` for `T` writes for the object `x`, and `from_variant T var x` is
the object the overload of `from_variant` for `T` leaves in place of `x` when
it reads `var`. -/
structure member_types (V : Type) where
  default_value : Nat → Nat
  to_variant : Nat → Nat → Except exception V
  from_variant : Nat → V → Nat → Except exception Nat

/-- The state of a `static_variant<Types...>`: the member `_tag`, the content
of `storage`, and whether `storage` holds a live object (set by a placement
`new`, cleared by a destructor call). -/
structure static_variant where
  _tag : Nat := 0
  storage : Nat := 0
  constructed : Bool := false
deriving DecidableEq, Repr

/-- What a member function that changes the variant leaves behind: a return
value or an exception, and the variant afterwards. -/
inductive vresult (α : Type) where
  | returned (value : α) (s : static_variant)
  | thrown (e : exception) (s : static_variant)
deriving DecidableEq, Repr

namespace impl

/-- Source: `impl::position<X, Ts...>::pos`. -/
def position (X : Nat) : List Nat → Int
  | [] => -1
  | T :: Ts =>
    if X = T then 0
    else if position X Ts ≠ -1 then position X Ts + 1 else -1

/-- Source: `impl::type_info<Ts...>::no_duplicates`. -/
def type_info.no_duplicates : List Nat → Bool
  | [] => true
  | T :: Ts => decide (position T Ts = -1) && type_info.no_duplicates Ts

/-- Source: `impl::type_info<Ts...>::count`. -/
def type_info.count : List Nat → Nat
  | [] => 0
  | _ :: Ts => 1 + type_info.count Ts

/-- Source: `impl::storage_ops<N, Ts...>::del`. -/
def storage_ops.del (N : Int) : List Nat → Int → static_variant → Except exception static_variant
  | [], _, _ => .error (.fc_assert 118)
  | _ :: Ts, n, s =>
    if n = N then .ok { s with constructed := false }
    else storage_ops.del (N + 1) Ts n s

/-- Source: `impl::storage_ops<N, Ts...>::con`. -/
def storage_ops.con {V : Type} (te : member_types V) (N : Int) :
    List Nat → Int → static_variant → Except exception static_variant
  | [], _, _ => .error (.fc_assert 121)
  | T :: Ts, n, s =>
    if n = N then .ok { s with storage := te.default_value T, constructed := true }
    else storage_ops.con te (N + 1) Ts n s

/-- Source: `impl::storage_ops<N, Ts...>::apply`. The visitor is handed the
type at which it is instantiated and the content of the storage. -/
def storage_ops.apply {R : Type} (N : Int) :
    List Nat → Int → Nat → (Nat → Nat → Except exception R) → Except exception R
  | [], _, _, _ => .error (.fc_assert 126)
  | T :: Ts, n, data, v =>
    if n = N then v T data
    else storage_ops.apply (N + 1) Ts n data v

end impl

namespace static_variant

/-- Source: `static_variant::init`. -/
def init (Types : List Nat) (X x : Nat) (s : static_variant) : static_variant :=
  { s with _tag := to_unsigned (impl.position X Types), storage := x, constructed := true }

/-- Source: `static_variant::tag<X>::value`. -/
def tag_value (Types : List Nat) (X : Nat) : Int := impl.position X Types

/-- Source: the default constructor `static_variant()`. -/
def default_constructed {V : Type} (te : member_types V) (Types : List Nat) :
    Except exception static_variant :=
  impl.storage_ops.con te 0 Types 0 { _tag := 0 }

/-- Source: the constructor `static_variant(const X& v)`; its `static_assert`
requires `X` to be one of `Types`. -/
def constructed_from (Types : List Nat) (X x : Nat) : static_variant :=
  init Types X x {}

/-- Source: the destructor `~static_variant()`. -/
def destroy (Types : List Nat) (s : static_variant) : Except exception static_variant :=
  impl.storage_ops.del 0 Types (to_int s._tag) s

/-- Source: `static_variant::operator=(const X& v)`; its `static_assert`
requires `X` to be one of `Types`. -/
def assign (Types : List Nat) (X x : Nat) (s : static_variant) : vresult Unit :=
  match destroy Types s with
  | .error e => .thrown e s
  | .ok s1 => .returned () (init Types X x s1)

/-- Source: `static_variant::get<X>`; its `static_assert` requires `X` to be
one of `Types`. The comparison of `_tag` with the `int` position is made on
`unsigned int`. -/
def get (Types : List Nat) (X : Nat) (s : static_variant) : Except exception Nat :=
  if s._tag = to_unsigned (impl.position X Types) then .ok s.storage
  else .error (.fc_assert 333)

/-- Source: `static_variant::visit`. -/
def visit {R : Type} (Types : List Nat) (s : static_variant)
    (v : Nat → Nat → Except exception R) : Except exception R :=
  impl.storage_ops.apply 0 Types (to_int s._tag) s.storage v

/-- Source: `static_variant::count`. -/
def count (Types : List Nat) : Int := to_int (impl.type_info.count Types)

/-- Source: `static_variant::which`. -/
def which (s : static_variant) : Nat := s._tag

/-- Source: `static_variant::set_which`. -/
def set_which {V : Type} (te : member_types V) (Types : List Nat) (w : Int)
    (s : static_variant) : vresult Unit :=
  if ¬ w < count Types then .thrown (.fc_assert 373) s
  else
    match destroy Types s with
    | .error e => .thrown e s
    | .ok s1 =>
      let s2 := { s1 with _tag := to_unsigned w }
      match impl.storage_ops.con te 0 Types (to_int s2._tag) s2 with
      | .error e => .thrown e s2
      | .ok s3 => .returned () s3

end static_variant

/-- Source: `fc::to_variant` for a `static_variant`. -/
def to_variant {V : Type} (api : variant_api V) (te : member_types V) (Types : List Nat)
    (s : static_variant) : Except exception V :=
  match s.visit Types (fun T x => te.to_variant T x) with
  | .error e => .error e
  | .ok encoded => .ok (api.of_array [api.of_uint s.which, encoded])

/-- Source: `fc::from_variant` for a `static_variant`. The visitor
`to_static_variant` reads the second element into the object held. -/
def from_variant {V : Type} (api : variant_api V) (te : member_types V) (Types : List Nat)
    (v : V) (s : static_variant) : vresult Unit :=
  match api.get_array v with
  | .error e => .thrown e s
  | .ok ar =>
    match ar with
    | a0 :: a1 :: _ =>
      match api.as_uint64 a0 with
      | .error e => .thrown e s
      | .ok n =>
        match s.set_which te Types (to_int n) with
        | .thrown e s1 => .thrown e s1
        | .returned _ s1 =>
          match s1.visit Types (fun T x => te.from_variant T a1 x) with
          | .error e => .thrown e s1
          | .ok x => .returned () { s1 with storage := x }
    | _ => .returned () s

end fc

namespace fc.sample

/-- A small type of variants: unsigned integers and arrays. -/
inductive json where
  | null
  | uint (n : Nat)
  | array (items : List json)

/-- The interface of `json`: `get_array` throws on what is not an array,
`as_uint64` on what is not an unsigned integer. -/
def api : variant_api json :=
  { of_uint := .uint
    of_array := .array
    get_array := fun v =>
      match v with
      | .array items => .ok items
      | _ => .error (.evaluation 1)
    as_uint64 := fun v =>
      match v with
      | .uint n => .ok n
      | _ => .error (.evaluation 2) }

/-- Member types 10, 20 and 30 whose objects are unsigned integers: the
default object of type `T` is `100 * T`, and an object is written as, and read
from, the variant of its value. -/
def members : member_types json :=
  { default_value := fun T => 100 * T
    to_variant := fun _ x => .ok (.uint x)
    from_variant := fun _ v _ =>
      match v with
      | .uint n => .ok n
      | _ => .error (.evaluation 3) }

/-- The member types of the variants of the examples. -/
def types : List Nat := [10, 20, 30]

/-- A variant over `types` that holds the object 7 of type 20. -/
def held : static_variant := static_variant.constructed_from types 20 7

end fc.sample

namespace scenario

/-- The database `chain_A_pending` on a chain that keeps sixteen empty block
summaries, so that the pending transaction `tx 7` passes the TaPoS check. -/
def chain_A_ready : database :=
  { chain_A_pending with
    objs := { at_block A2 with block_summaries := List.replicate 16 {} }
    undo_stack :=
      { at_block A2 with block_summaries := List.replicate 16 {} } :: chain_A.undo_stack }

end scenario

namespace database

/-- The database when the loop over the transactions of `_apply_block` starts
(source lines 611-623): the buffer of applied operations is cleared and the
position counters are set to the block and to its first transaction. -/
def at_first_transaction (next_block : signed_block) (db : database) : database :=
  { log (._apply_block next_block db.skip_flags) { db with applied_ops := [] } with
    current_block_num := next_block.block_num, current_trx_in_block := 0 }

end database

namespace scenario

/-- A transaction with one transfer from account 1, as a block records it. -/
def block_tx : processed_transaction :=
  { ref_block_num := 7, expiration := 100, operations := [transfer 1]
    operation_results := [.void_result] }

/-- A transaction with one transfer from account 1 for which the block records
no operation result. -/
def bare_tx : processed_transaction :=
  { ref_block_num := 8, expiration := 100, operations := [transfer 1] }

/-- A block on top of `late_state`, signed by witness 1, that holds `block_tx`,
`bare_tx` and `block_tx` again. -/
def late_block : signed_block :=
  { block_id := ⟨7, 10⟩, previous := ⟨6, 10⟩, timestamp := 63, witness := 1
    transactions := [(7, block_tx), (8, bare_tx), (7, block_tx)] }

end scenario

namespace scenario

/-- A transaction whose only operation is a contract call that reports
`existed_pv`. -/
def pv_tx : processed_transaction :=
  { ref_block_num := 7, expiration := 100, operations := [{ which := 4, payload := 0 }] }

/-- The transaction `pv_tx` as `_apply_transaction` returns it. -/
def pv_done : processed_transaction :=
  { pv_tx with operation_results := [.contract_result true 0] }

end scenario

namespace scenario

/-- The chain A1-A2 with sixteen empty block summaries, on which the
transaction `tx 7` has already been applied: the transaction index holds its
record. -/
def chain_A_known : database :=
  { chain_A with
    objs := { at_block A2 with
      block_summaries := List.replicate 16 {}
      transaction_index :=
        [{ trx_hash := 7, trx_id := 7, trx := (tx 7).tosigned_transaction }] } }

end scenario

namespace database
open scenario

/-- One pass of the operation loop of `_apply_transaction` as a run went
through it: the operation, the database it was applied on, the result
`apply_operation` returned for it, the account `auto_gas` was called for in
this pass (`none` when it was not called), the result of the withdrawal
`auto_gas` applied (`none` when it applied no withdrawal), and the database
after the pass. -/
structure loop_pass where
  op : operation
  before : database
  result : operation_result
  gas : Option Nat
  withdrawal : Option operation_result
  after : database

/-- `withdrawal_applied a eval_state from_account db g db1`: a call of
`auto_gas` for `from_account` on `db` applies a withdrawal: the account has a
vesting balance whose allowed withdrawal is an amount above 100000 of asset 1,
and `apply_operation` on the withdrawal operation returns the result `g`, not
an error result, and leaves the database `db1`. -/
def withdrawal_applied (a : Applier) (eval_state : transaction_evaluation_state)
    (from_account : Nat) (db : database) (g : operation_result) (db1 : database) : Prop :=
  ∃ w, a.first_vesting_balance db.objs from_account = some w ∧
    w.asset_id = 1 ∧ w.amount > 100000 ∧
    apply_operation a eval_state (a.withdraw_operation w) false
      (log (.auto_gas from_account) db) = .returned g db1 ∧
    g.is_error_result = false

/-- `run_through db passes db1`: the passes follow one another from `db` to
`db1`: the first starts on `db`, each next pass starts on the database the pass
before it left, and the last leaves `db1`. -/
def run_through : database → List loop_pass → database → Prop
  | db, [], db1 => db = db1
  | db, p :: rest, db1 => p.before = db ∧ run_through p.after rest db1

end database

namespace scenario

/-- An agreed-task transaction driven by proposal 1005 with two operations:
the first throws `evaluation 5`, the second is a transfer. The block records an
`error_result` with code 1 for the first and a `contract_result` for the
second, where the evaluator produces a `void_result`. -/
def mismatch_tx : processed_transaction :=
  { ref_block_num := 7, expiration := 100, operations := [failing_op, transfer 1]
    agreed_task := some (0, 1005)
    operation_results := [.error_result 1 1 0, .contract_result false 0] }

/-- An agreed-task transaction driven by proposal 1005 with two operations:
a contract call whose result reports `existed_pv`, and a transfer. The block
records a `contract_result` for the transfer, where the evaluator produces a
`void_result`. -/
def pv_mismatch_tx : processed_transaction :=
  { ref_block_num := 7, expiration := 100
    operations := [{ which := 4, payload := 0 }, transfer 1]
    agreed_task := some (0, 1005)
    operation_results := [.contract_result true 0, .contract_result false 0] }

end scenario

namespace database

/-- Whether no record of a list of applied-operation records carries a result
that reports `existed_pv`; emptied slots carry no result. -/
def no_existed_pv (records : List (Option operation_history_object)) : Bool :=
  records.all (fun x =>
    match x with
    | some oh => !oh.result.existed_pv
    | none => true)

/-- The applied-operation records a run of `_apply_block` gathers: the buffer
as the loop over the transactions of the block leaves it (source lines
625-636), before `_applied_ops.clear()` at line 665 empties it; no record when
the run fails before the loop, at the merkle check or the validation of the
header. -/
def _apply_block_records (a : Applier) (next_block : signed_block) (db : database) :
    List (Option operation_history_object) :=
  let skip := db.skip_flags
  let db1 := log (._apply_block next_block skip) { db with applied_ops := [] }
  if skip &&& a.skip_merkle_check = 0 ∧
      next_block.transaction_merkle_root ≠ a.calculate_merkle_root next_block then
    []
  else
    match validate_block_header a skip next_block db1 with
    | .error _ => []
    | .ok _ =>
      (apply_block_transactions a skip next_block.transactions
        { db1 with current_block_num := next_block.block_num,
                   current_trx_in_block := 0 }).db.applied_ops

end database

namespace scenario

/-- Crontab 2005 with a daily interval (86400 seconds), scheduled for 30040
executions, none of which has taken place; it is due at time 1700000000. -/
def daily_cron : crontab_object :=
  { id := 2005, timed_transaction := { ref_block_num := 7 }, next_execte_time := 1700000000
    execute_interval := 86400, scheduled_execute_times := 30040, allow_execution := true }

/-- The database `late` at head time 1700000000 with the crontab `daily_cron`. -/
def late_daily : database :=
  { late with
    objs := { late_state with head_block_time := 1700000000, crontabs := [daily_cron] } }

end scenario

namespace scenario

/-- A transaction whose lead operation is of the fee-share kind (tag 50 in
`env`). -/
def fee_share_tx : processed_transaction :=
  { ref_block_num := 9, expiration := 100, operations := [{ which := 50, payload := 0 }] }

end scenario

/-! ## Lemmas on the loops of `_push_block` -/

namespace database

theorem apply_and_store_ok (env : Env) (skip : Nat) (id : block_id_type) (b : signed_block)
    (db : database) (o : object_state) (h : env.apply_block b skip db.objs = .ok o) :
    apply_and_store env skip id b db = .returned ()
      { db with objs := o, undo_stack := db.objs :: db.undo_stack,
                block_id_to_block := (id, b) :: db.block_id_to_block,
                trace := db.trace ++ applied_calls skip id b } := by
  simp [apply_and_store, log, start_undo_session, commit, store, h, applied_calls]

theorem apply_and_store_error (env : Env) (skip : Nat) (id : block_id_type) (b : signed_block)
    (db : database) (e : exception) (h : env.apply_block b skip db.objs = .error e) :
    apply_and_store env skip id b db = .thrown e
      { db with trace := db.trace ++ failed_calls skip b } := by
  simp [apply_and_store, log, start_undo_session, undo, h, failed_calls]

theorem after_run_cons (skip : Nat) (idf : fork_item → block_id_type) (i : fork_item)
    (o : object_state) (rest : List (fork_item × object_state)) (db : database) :
    after_run skip idf ((i, o) :: rest) db =
      after_run skip idf rest
        { db with objs := o, undo_stack := db.objs :: db.undo_stack,
                  block_id_to_block := (idf i, i.data) :: db.block_id_to_block,
                  trace := db.trace ++ applied_calls skip (idf i) i.data } := by
  simp [after_run, last_state, snapshots, run_stores, run_calls]

theorem restore_good_fork_ok (env : Env) (skip : Nat) (new_block : signed_block)
    (run : List (fork_item × object_state)) (db : database)
    (h : Applies env skip run db.objs) :
    restore_good_fork env skip new_block (run.map Prod.fst) db =
      .returned () (after_run skip (fun _ => new_block.block_id) run db) := by
  induction run generalizing db with
  | nil => simp [restore_good_fork, after_run, last_state, snapshots, run_stores, run_calls]
  | cons x rest ih =>
    obtain ⟨i, o⟩ := x
    obtain ⟨h1, h2⟩ := h
    simp only [List.map_cons, restore_good_fork, apply_and_store_ok env skip _ _ db o h1]
    rw [ih _ h2, after_run_cons]

theorem push_fork_blocks_ok (env : Env) (skip : Nat) (new_block : signed_block)
    (branches : List fork_item × List fork_item)
    (run : List (fork_item × object_state)) (db : database)
    (h : Applies env skip run db.objs) :
    push_fork_blocks env skip new_block branches (run.map Prod.fst) db =
      .returned true (after_run skip (fun i => i.id) run db) := by
  induction run generalizing db with
  | nil => simp [push_fork_blocks, after_run, last_state, snapshots, run_stores, run_calls]
  | cons x rest ih =>
    obtain ⟨i, o⟩ := x
    obtain ⟨h1, h2⟩ := h
    simp only [List.map_cons, push_fork_blocks, apply_and_store_ok env skip _ _ db o h1]
    rw [ih _ h2, after_run_cons]

theorem apply_and_store_error' (env : Env) (skip : Nat) (id : block_id_type) (b : signed_block)
    (db : database) (e : exception) (h : env.apply_block b skip db.objs = .error e) :
    apply_and_store env skip id b db = .thrown e (after_failed skip b db) := by
  rw [apply_and_store_error env skip id b db e h]; rfl

theorem push_fork_blocks_fail (env : Env) (skip : Nat) (new_block : signed_block)
    (branches : List fork_item × List fork_item)
    (run : List (fork_item × object_state)) (b : fork_item) (rest : List fork_item)
    (e : exception) (db : database)
    (h : Applies env skip run db.objs)
    (h_fail : env.apply_block b.data skip (last_state run db.objs) = .error e) :
    push_fork_blocks env skip new_block branches (run.map Prod.fst ++ b :: rest) db =
      switch_recovery env skip new_block branches e (b :: rest)
        (after_failed skip b.data (after_run skip (fun i => i.id) run db)) := by
  induction run generalizing db with
  | nil =>
    simp only [last_state] at h_fail
    have : after_run skip (fun i => i.id) [] db = db := by
      simp [after_run, last_state, snapshots, run_stores, run_calls]
    simp only [List.map_nil, List.nil_append, push_fork_blocks,
      apply_and_store_error' env skip _ _ db e h_fail, this]
  | cons x rest' ih =>
    obtain ⟨i, o⟩ := x
    obtain ⟨h1, h2⟩ := h
    simp only [last_state] at h_fail
    have step := ih
      { db with objs := o, undo_stack := db.objs :: db.undo_stack,
                block_id_to_block := (i.id, i.data) :: db.block_id_to_block,
                trace := db.trace ++ applied_calls skip i.id i.data } h2 h_fail
    rw [after_run_cons, ← step]
    simp only [List.map_cons, List.cons_append, push_fork_blocks,
      apply_and_store_ok env skip _ _ db o h1]
    rfl

theorem last_state_append (l : List (fork_item × object_state)) (x : fork_item × object_state)
    (o : object_state) : last_state (l ++ [x]) o = x.2 := by
  induction l generalizing o with
  | nil => obtain ⟨i, o'⟩ := x; simp [last_state]
  | cons y rest ih => obtain ⟨j, o''⟩ := y; simp only [List.cons_append, last_state]; exact ih _

theorem snapshots_append (l : List (fork_item × object_state)) (x : fork_item × object_state)
    (o : object_state) : snapshots (l ++ [x]) o = last_state l o :: snapshots l o := by
  induction l generalizing o with
  | nil => obtain ⟨i, o'⟩ := x; simp [snapshots, last_state]
  | cons y rest ih =>
    obtain ⟨j, o''⟩ := y
    show snapshots (rest ++ [x]) o'' ++ [o] = last_state rest o'' :: (snapshots rest o'' ++ [o])
    rw [ih]; rfl

theorem pop_calls_succ (n : Nat) :
    pop_calls (n + 1) = [call.fork_pop_block, call.pop_undo] ++ pop_calls n := rfl

theorem fetch_block_by_id_congr (db db' : database) (id : block_id_type)
    (h1 : db'.fork_db.index = db.fork_db.index)
    (h2 : db'.block_id_to_block = db.block_id_to_block) :
    db'.fetch_block_by_id id = db.fetch_block_by_id id := by
  simp [fetch_block_by_id, fork_database.fetch_block, fork_database.fetch_item,
    fetch_optional, h1, h2]

theorem pop_block_ok (db : database) (s : object_state) (rest : List object_state)
    (blk : signed_block)
    (h_pending : db.pending_tx_session = false)
    (h_stack : db.undo_stack = s :: rest)
    (h_fetch : db.fetch_block_by_id db.head_block_id = some blk) :
    pop_block db = .returned ()
      { db with objs := s, undo_stack := rest, fork_db := db.fork_db.pop_block,
                popped_tx := blk.transactions.map Prod.snd,
                trace := db.trace ++ [.fork_pop_block, .pop_undo] } := by
  have h1 : db.reset_pending_tx_session = db := by simp [reset_pending_tx_session, h_pending]
  simp only [pop_block, h1, h_fetch]
  simp [pop_undo, log, h_stack]

theorem pop_blocks_until_run (target : block_id_type) (run : List (fork_item × object_state)) :
    ∀ (o : object_state) (st : List object_state) (fuel : Nat) (db : database),
      db.pending_tx_session = false →
      db.objs = last_state run o →
      db.undo_stack = snapshots run o ++ st →
      o.head_block_id = target →
      (∀ x ∈ run, x.2.head_block_id ≠ target) →
      (∀ x ∈ run, (db.fetch_block_by_id x.2.head_block_id).isSome) →
      run.length ≤ fuel →
      ∃ db', pop_blocks_until target fuel db = .returned () db' ∧
        db'.objs = o ∧ db'.undo_stack = st ∧
        db'.block_id_to_block = db.block_id_to_block ∧
        db'.fork_db.index = db.fork_db.index ∧
        db'.trace = db.trace ++ pop_calls run.length ∧
        db'.pending_tx = db.pending_tx ∧ db'.pending_tx_session = false ∧
        db'.skip_flags = db.skip_flags := by
  induction run using List.reverseRecOn with
  | nil =>
    intro o st fuel db h_pend h_objs h_stack h_head _ _ _
    have hh : db.head_block_id = target := by
      simp only [head_block_id, h_objs, last_state, h_head]
    refine ⟨db, ?_, ?_, ?_, rfl, rfl, ?_, rfl, h_pend, rfl⟩
    · cases fuel <;> simp [pop_blocks_until, hh]
    · simpa [last_state] using h_objs
    · simpa [snapshots] using h_stack
    · simp [pop_calls]
  | append_singleton l x ih =>
    intro o st fuel db h_pend h_objs h_stack h_head h_ne h_fetch h_fuel
    rw [last_state_append] at h_objs
    rw [snapshots_append] at h_stack
    have hx : x ∈ l ++ [x] := by simp
    have hh : db.head_block_id ≠ target := by
      simp only [head_block_id, h_objs]; exact h_ne x hx
    obtain ⟨blk, h_blk⟩ := Option.isSome_iff_exists.mp (h_fetch x hx)
    have h_blk' : db.fetch_block_by_id db.head_block_id = some blk := by
      simp only [head_block_id, h_objs]; exact h_blk
    obtain ⟨fuel', rfl⟩ : ∃ fuel', fuel = fuel' + 1 := by
      simp only [List.length_append, List.length_singleton] at h_fuel
      exact ⟨fuel - 1, by omega⟩
    have h_pop := pop_block_ok db (last_state l o) (snapshots l o ++ st) blk h_pend
      (by simpa using h_stack) h_blk'
    obtain ⟨db', h_loop, h1, h2, h3, h4, h5, h6, h7, h8⟩ :=
      ih o st fuel'
        { db with objs := last_state l o, undo_stack := snapshots l o ++ st,
                  fork_db := db.fork_db.pop_block,
                  popped_tx := blk.transactions.map Prod.snd,
                  trace := db.trace ++ [.fork_pop_block, .pop_undo] }
        h_pend rfl rfl h_head
        (fun y hy => h_ne y (by simp [hy]))
        (fun y hy => by
          have hc := fetch_block_by_id_congr db
            { db with objs := last_state l o, undo_stack := snapshots l o ++ st,
                      fork_db := db.fork_db.pop_block,
                      popped_tx := blk.transactions.map Prod.snd,
                      trace := db.trace ++ [.fork_pop_block, .pop_undo] }
            y.2.head_block_id rfl rfl
          rw [hc]
          exact h_fetch y (by simp [hy]))
        (by simp only [List.length_append, List.length_singleton] at h_fuel; omega)
    refine ⟨db', ?_, h1, h2, h3, h4, ?_, h6, h7, h8⟩
    · simp only [pop_blocks_until, hh, if_false, h_pop]
      exact h_loop
    · rw [h5]
      simp only [List.length_append, List.length_singleton, pop_calls_succ, List.append_assoc]

theorem foldl_fork_remove (items : List fork_item) (db : database) :
    items.foldl (fun d i => d.fork_remove i.data.block_id) db =
      { db with fork_db := remove_all db.fork_db items,
                trace := db.trace ++ remove_calls items } := by
  induction items generalizing db with
  | nil => simp [remove_all, remove_calls]
  | cons i rest ih =>
    rw [List.foldl_cons, ih]
    simp [remove_all, remove_calls, fork_remove, log]

theorem snapshots_length (run : List (fork_item × object_state)) (o : object_state) :
    (snapshots run o).length = run.length := by
  induction run generalizing o with
  | nil => rfl
  | cons x rest ih => obtain ⟨i, o'⟩ := x; simp [snapshots, ih]

theorem Applies_head (env : Env) (skip : Nat)
    (H1 : ∀ blk s o o', env.apply_block blk s o = .ok o' → o'.head_block_id = blk.block_id)
    (run : List (fork_item × object_state)) (o : object_state)
    (h : Applies env skip run o) :
    ∀ x ∈ run, x.2.head_block_id = x.1.data.block_id := by
  induction run generalizing o with
  | nil => intro x hx; cases hx
  | cons y rest ih =>
    obtain ⟨i, o'⟩ := y
    obtain ⟨h1, h2⟩ := h
    intro x hx
    rcases List.mem_cons.mp hx with rfl | hx
    · exact H1 _ _ _ _ h1
    · exact ih o' h2 x hx

theorem mem_run_stores (idf : fork_item → block_id_type)
    (run : List (fork_item × object_state)) (x : fork_item × object_state) (hx : x ∈ run) :
    (idf x.1, x.1.data) ∈ run_stores idf run := by
  induction run with
  | nil => cases hx
  | cons y rest ih =>
    obtain ⟨i, o'⟩ := y
    rcases List.mem_cons.mp hx with rfl | hx
    · simp [run_stores]
    · simp only [run_stores, List.mem_append]; exact Or.inl (ih hx)

theorem fetch_block_by_id_of_stored (db : database) (id : block_id_type) (b : signed_block)
    (h : (id, b) ∈ db.block_id_to_block) : (db.fetch_block_by_id id).isSome := by
  have h1 : (db.fetch_optional id).isSome := by
    simp only [fetch_optional, Option.isSome_map', List.find?_isSome]
    exact ⟨(id, b), h, by simp⟩
  unfold fetch_block_by_id
  cases db.fork_db.fetch_block id with
  | none => exact h1
  | some i => rfl

theorem last_state_head (env : Env) (skip : Nat)
    (H1 : ∀ blk s o o', env.apply_block blk s o = .ok o' → o'.head_block_id = blk.block_id)
    (run : List (fork_item × object_state)) (o : object_state)
    (h : Applies env skip run o) (i : fork_item) (hi : (run.map Prod.fst).getLast? = some i) :
    (last_state run o).head_block_id = i.data.block_id := by
  induction run using List.reverseRecOn with
  | nil => simp at hi
  | append_singleton l x _ =>
    rw [last_state_append]
    simp only [List.map_append, List.map_cons, List.map_nil, List.getLast?_append,
      List.getLast?_singleton, Option.or_some, Option.some.injEq] at hi
    have hi' : x.1 = i := by simpa [Option.or] using hi
    rw [← hi']
    exact Applies_head env skip H1 _ o h x (by simp)

/-- The recovery of a failed fork switch, from the state in which the blocks of
`run` are applied on top of the fork-point state `db0` and `apply_block` has
just failed on `b`. -/
theorem switch_recovery_run (env : Env) (skip : Nat) (new_block : signed_block)
    (branches : List fork_item × List fork_item) (e : exception)
    (remaining : List fork_item) (b : signed_block)
    (run restored : List (fork_item × object_state)) (db0 : database)
    (H1 : ∀ blk s o o', env.apply_block blk s o = .ok o' → o'.head_block_id = blk.block_id)
    (h_pend : db0.pending_tx_session = false)
    (h_head : db0.head_block_id = (branches.2.getLastD {}).data.previous)
    (h_applied : Applies env skip run db0.objs)
    (h_wf : ∀ x ∈ run, x.1.id = x.1.data.block_id)
    (h_ne : ∀ x ∈ run, x.1.data.block_id ≠ (branches.2.getLastD {}).data.previous)
    (h_restored : Applies env skip restored db0.objs)
    (h_items : restored.map Prod.fst = branches.2.reverse) :
    ∃ db3, switch_recovery env skip new_block branches e remaining
        (after_failed skip b (after_run skip (fun i => i.id) run db0)) =
          .thrown e (after_run skip (fun _ => new_block.block_id) restored db3) ∧
      db3.objs = db0.objs ∧ db3.undo_stack = db0.undo_stack ∧
      db3.block_id_to_block = run_stores (fun i => i.id) run ++ db0.block_id_to_block ∧
      db3.fork_db.index = (remove_all db0.fork_db remaining).index ∧
      db3.trace = db0.trace ++ run_calls skip (fun i => i.id) run ++ failed_calls skip b ++
        remove_calls remaining ++ [.fork_set_head (branches.2.headD {}).id] ++
        pop_calls run.length ∧
      db3.pending_tx = db0.pending_tx ∧ db3.pending_tx_session = false ∧
      db3.skip_flags = db0.skip_flags := by
  have h_heads := Applies_head env skip H1 run db0.objs h_applied
  obtain ⟨db3, h_loop, h1, h2, h3, h4, h5, h6, h7, h8⟩ :=
    pop_blocks_until_run (branches.2.getLastD {}).data.previous run db0.objs db0.undo_stack
      ((snapshots run db0.objs ++ db0.undo_stack).length + 1)
      (fork_set_head
        { after_failed skip b (after_run skip (fun i => i.id) run db0) with
          fork_db := remove_all db0.fork_db remaining,
          trace := (db0.trace ++ run_calls skip (fun i => i.id) run ++ failed_calls skip b) ++
            remove_calls remaining }
        (branches.2.headD {}))
      h_pend rfl rfl h_head
      (fun x hx => by rw [h_heads x hx]; exact h_ne x hx)
      (fun x hx => by
        apply fetch_block_by_id_of_stored _ _ x.1.data
        rw [h_heads x hx, ← h_wf x hx]
        show (x.1.id, x.1.data) ∈ run_stores (fun i => i.id) run ++ db0.block_id_to_block
        exact List.mem_append_left _ (mem_run_stores (fun i => i.id) run x hx))
      (by simp only [List.length_append, snapshots_length]; omega)
  refine ⟨db3, ?_, h1, h2, h3, ?_, ?_, h6, h7, h8⟩
  · have h_restore := restore_good_fork_ok env skip new_block restored db3 (by rw [h1]; exact h_restored)
    rw [h_items] at h_restore
    simp only [switch_recovery, foldl_fork_remove]
    have : (after_failed skip b (after_run skip (fun i => i.id) run db0)).fork_db = db0.fork_db := rfl
    simp only [this]
    have ht : (after_failed skip b (after_run skip (fun i => i.id) run db0)).trace =
        db0.trace ++ run_calls skip (fun i => i.id) run ++ failed_calls skip b := rfl
    simp only [ht]
    have hs : (fork_set_head
        { after_failed skip b (after_run skip (fun i => i.id) run db0) with
          fork_db := remove_all db0.fork_db remaining,
          trace := (db0.trace ++ run_calls skip (fun i => i.id) run ++ failed_calls skip b) ++
            remove_calls remaining }
        (branches.2.headD {})).undo_stack = snapshots run db0.objs ++ db0.undo_stack := rfl
    rw [hs, h_loop]
    simp only [h_restore]
  · rw [h4]; rfl
  · rw [h5]
    simp [fork_set_head, log, List.append_assoc]

end database

namespace fork_database

theorem fetch_item_id (f : fork_database) (id : block_id_type) (i : fork_item)
    (h : f.fetch_item id = some i) : i.id = id := by
  have := List.find?_some h
  simpa using this

theorem walk_down_head (f : fork_database) (n : Nat) :
    ∀ (fuel : Nat) (a : fork_item) (acc : List fork_item) (a1 : fork_item)
      (acc' : List fork_item),
      walk_down f n fuel a acc = .ok (a1, acc') →
      (acc' ++ [a1]).head? = (acc ++ [a]).head? := by
  intro fuel
  induction fuel with
  | zero => intro a acc a1 acc' h; simp [walk_down] at h
  | succ fuel ih =>
    intro a acc a1 acc' h
    simp only [walk_down] at h
    split at h
    · split at h
      · simp at h
      · rename_i p _
        rw [ih p (acc ++ [a]) a1 acc' h]
        cases acc <;> simp
    · simp only [Except.ok.injEq, Prod.mk.injEq] at h
      obtain ⟨rfl, rfl⟩ := h
      rfl

theorem walk_both_head (f : fork_database) :
    ∀ (fuel : Nat) (a b : fork_item) (acc_a acc_b ra rb : List fork_item),
      walk_both f fuel a b acc_a acc_b = .ok (ra, rb) →
      ra.head? = (acc_a ++ [a]).head? ∧ rb.head? = (acc_b ++ [b]).head? := by
  intro fuel
  induction fuel with
  | zero => intro a b acc_a acc_b ra rb h; simp [walk_both] at h
  | succ fuel ih =>
    intro a b acc_a acc_b ra rb h
    simp only [walk_both] at h
    split at h
    · split at h
      · rename_i pa pb _ _
        obtain ⟨h1, h2⟩ := ih pa pb (acc_a ++ [a]) (acc_b ++ [b]) ra rb h
        rw [h1, h2]
        constructor
        · cases acc_a <;> simp
        · cases acc_b <;> simp
      · simp at h
    · simp only [Except.ok.injEq, Prod.mk.injEq] at h
      obtain ⟨rfl, rfl⟩ := h
      exact ⟨rfl, rfl⟩

/-- The branches returned by `fetch_branch_from` start at the two tips. -/
theorem fetch_branch_from_heads (f : fork_database) (first second : block_id_type)
    (branches : List fork_item × List fork_item)
    (h : f.fetch_branch_from first second = .ok branches) :
    ∃ a b, branches.1.head? = some a ∧ a.id = first ∧
      branches.2.head? = some b ∧ b.id = second := by
  unfold fetch_branch_from at h
  split at h
  · rename_i a b ha hb
    simp only at h
    split at h
    · simp at h
    · rename_i a1 acc_a h1
      split at h
      · simp at h
      · rename_i b1 acc_b h2
        obtain ⟨ra, rb⟩ := branches
        obtain ⟨h3, h4⟩ := walk_both_head f _ a1 b1 acc_a acc_b ra rb h
        have h5 := walk_down_head f _ _ a [] a1 acc_a h1
        have h6 := walk_down_head f _ _ b [] b1 acc_b h2
        refine ⟨a, b, ?_, fetch_item_id f first a ha, ?_, fetch_item_id f second b hb⟩
        · rw [h3, h5]; rfl
        · rw [h4, h6]; rfl
  · simp at h

end fork_database

namespace database

theorem reset_pending_tx_session_frame (db : database) :
    db.reset_pending_tx_session.pending_tx_session = false ∧
      db.reset_pending_tx_session.fork_db = db.fork_db ∧
      db.reset_pending_tx_session.undo_stack.length ≤ db.undo_stack.length ∧
      db.reset_pending_tx_session.pending_tx = db.pending_tx := by
  unfold reset_pending_tx_session
  split
  · unfold undo log
    split
    · rename_i h0; simp [h0]
    · rename_i s rest h0; simp [h0]
  · rename_i hp
    simp at hp
    simp [hp]

theorem pop_block_returned (db db' : database) (u : Unit)
    (h : pop_block db = .returned u db') :
    db'.pending_tx_session = false ∧ db'.fork_db.index = db.fork_db.index ∧
      db'.undo_stack.length < db.undo_stack.length ∧ db'.pending_tx = db.pending_tx := by
  obtain ⟨hp, hf, hl, hq⟩ := reset_pending_tx_session_frame db
  unfold pop_block at h
  simp only at h
  split at h
  · simp at h
  · split at h
    · simp at h
    · rename_i db4 h4
      simp only [outcome.returned.injEq, true_and] at h
      subst h
      simp only [pop_undo, log] at h4
      split at h4
      · simp at h4
      · rename_i s rest hs
        simp only [Except.ok.injEq] at h4
        subst h4
        refine ⟨hp, ?_, ?_, hq⟩
        · show db.reset_pending_tx_session.fork_db.pop_block.index = _
          rw [hf]; rfl
        · show rest.length < _
          rw [hs] at hl
          simp only [List.length_cons] at hl
          omega

end database

namespace database

theorem pop_block_not_fuel (db db' : database) : pop_block db ≠ .thrown .fuel_exhausted db' := by
  unfold pop_block
  simp only
  split
  · simp
  · split
    · rename_i e h
      simp only [pop_undo] at h
      split at h
      · simp only [Except.error.injEq] at h
        subst h
        simp
      · simp at h
    · simp

/-- The bound `undo_stack.length + 1` used by `_push_block` is enough: the pop
loop never stops for lack of fuel. -/
theorem pop_blocks_until_fuel (target : block_id_type) :
    ∀ (fuel : Nat) (db db' : database), db.undo_stack.length < fuel →
      pop_blocks_until target fuel db ≠ .thrown .fuel_exhausted db' := by
  intro fuel
  induction fuel with
  | zero => intro db db' h; omega
  | succ fuel ih =>
    intro db db' h
    simp only [pop_blocks_until]
    split
    · simp
    · split
      · rename_i e db1 h1
        intro h2
        simp only [outcome.thrown.injEq] at h2
        obtain ⟨rfl, rfl⟩ := h2
        exact pop_block_not_fuel db _ h1
      · rename_i u db1 h1
        have := (pop_block_returned db db1 u h1).2.2.1
        exact ih db1 db' (by omega)

theorem pop_blocks_until_returned (target : block_id_type) :
    ∀ (fuel : Nat) (db db' : database) (u : Unit),
      pop_blocks_until target fuel db = .returned u db' →
      db'.head_block_id = target ∧
        (db.pending_tx_session = false → db'.pending_tx_session = false) ∧
        db'.fork_db.index = db.fork_db.index := by
  intro fuel
  induction fuel with
  | zero =>
    intro db db' u h
    simp only [pop_blocks_until] at h
    split at h
    · rename_i hh
      simp only [outcome.returned.injEq, true_and] at h
      subst h
      exact ⟨hh, id, rfl⟩
    · simp at h
  | succ fuel ih =>
    intro db db' u h
    simp only [pop_blocks_until] at h
    split at h
    · rename_i hh
      simp only [outcome.returned.injEq, true_and] at h
      subst h
      exact ⟨hh, id, rfl⟩
    · split at h
      · simp at h
      · rename_i u1 db1 h1
        obtain ⟨h2, h3, h4⟩ := ih db1 db' u h
        exact ⟨h2, fun _ => h3 (pop_block_returned db db1 u1 h1).1,
          h4.trans (pop_block_returned db db1 u1 h1).2.1⟩

theorem _push_block_switch (env : Env) (new_block : signed_block) (db : database)
    (f : fork_database) (new_head : fork_item)
    (h_id : new_block.block_id = env.make_id new_block)
    (h_skip : db.skip_flags &&& env.skip_fork_db = 0)
    (h_push : db.fork_db.push_block new_block = .ok (f, new_head))
    (h_prev : new_head.data.previous ≠ db.head_block_id)
    (h_num : new_head.data.block_num > db.head_block_num) :
    _push_block env new_block db =
      switch_forks env db.skip_flags new_block new_head
        { db with fork_db := f, trace := db.trace ++ [.fork_push_block new_block] } := by
  simp only [_push_block, log, head_block_id, head_block_num] at *
  simp [h_id, h_skip, h_push, h_prev, h_num]

theorem _push_block_linear (env : Env) (new_block : signed_block) (db : database)
    (f : fork_database) (new_head : fork_item)
    (h_id : new_block.block_id = env.make_id new_block)
    (h_skip : db.skip_flags &&& env.skip_fork_db = 0)
    (h_push : db.fork_db.push_block new_block = .ok (f, new_head))
    (h_prev : new_head.data.previous = db.head_block_id) :
    _push_block env new_block db =
      push_linear env db.skip_flags new_block
        { db with fork_db := f, trace := db.trace ++ [.fork_push_block new_block] } := by
  simp only [_push_block, log, head_block_id, head_block_num] at *
  simp [h_id, h_skip, h_push, h_prev]

/-! ## The claims on `_push_block` -/

/-- Claim C2. A block that builds on the current head, that the fork database
returns as its new tip and on which `apply_block` succeeds: `_push_block`
opens one undo session, applies exactly that block, stores it in the block log
under its own block id, commits (the session stays on the undo stack), pops
nothing and returns `false`. -/
theorem push_block_linear_apply (env : Env) (new_block : signed_block) (db : database)
    (f : fork_database) (new_head : fork_item) (o : object_state)
    (h_id : new_block.block_id = env.make_id new_block)
    (h_skip : db.skip_flags &&& env.skip_fork_db = 0)
    (h_push : db.fork_db.push_block new_block = .ok (f, new_head))
    (h_tip : new_head.data = new_block)
    (h_prev : new_block.previous = db.head_block_id)
    (h_apply : env.apply_block new_block db.skip_flags db.objs = .ok o) :
    _push_block env new_block db =
      .returned false
        { db with
          objs := o
          undo_stack := db.objs :: db.undo_stack
          fork_db := f
          block_id_to_block := (new_block.block_id, new_block) :: db.block_id_to_block
          trace := db.trace ++
            [.fork_push_block new_block, .start_undo_session,
             .apply_block new_block db.skip_flags,
             .store new_block.block_id new_block, .commit] } := by
  rw [_push_block_linear env new_block db f new_head h_id h_skip h_push (by rw [h_tip]; exact h_prev)]
  have h := apply_and_store_ok env db.skip_flags new_block.block_id new_block
    { db with fork_db := f, trace := db.trace ++ [.fork_push_block new_block] } o h_apply
  simp only [push_linear, h]
  simp [applied_calls]

/-- Claim C4. When the tip returned by the fork database does not build on the
current head and its block number is not greater than the head block number,
`_push_block` returns `false`; the only call it made is the fork database
push, so no block was popped, applied or stored, and the head and the object
state are unchanged. -/
theorem push_block_shorter_fork_is_ignored (env : Env) (new_block : signed_block)
    (db : database) (f : fork_database) (new_head : fork_item)
    (h_id : new_block.block_id = env.make_id new_block)
    (h_skip : db.skip_flags &&& env.skip_fork_db = 0)
    (h_push : db.fork_db.push_block new_block = .ok (f, new_head))
    (h_prev : new_head.data.previous ≠ db.head_block_id)
    (h_num : ¬ new_head.data.block_num > db.head_block_num) :
    _push_block env new_block db =
      .returned false
        { db with fork_db := f, trace := db.trace ++ [.fork_push_block new_block] } := by
  simp only [_push_block, log, head_block_id, head_block_num] at *
  simp [h_id, h_skip, h_push, h_prev, h_num]

/-- Claim C7. When `apply_block` fails on a block that builds directly on the
head, `_push_block` rethrows that failure after removing the block's id from
the fork database; the session is undone and never committed, so the object
state and the undo stack are as before and nothing is stored in the block
log. -/
theorem push_block_linear_failure (env : Env) (new_block : signed_block) (db : database)
    (f : fork_database) (new_head : fork_item) (e : exception)
    (h_id : new_block.block_id = env.make_id new_block)
    (h_skip : db.skip_flags &&& env.skip_fork_db = 0)
    (h_push : db.fork_db.push_block new_block = .ok (f, new_head))
    (h_tip : new_head.data = new_block)
    (h_prev : new_block.previous = db.head_block_id)
    (h_apply : env.apply_block new_block db.skip_flags db.objs = .error e) :
    _push_block env new_block db =
      .thrown e
        { db with
          fork_db := f.remove new_block.block_id
          trace := db.trace ++
            [.fork_push_block new_block, .start_undo_session,
             .apply_block new_block db.skip_flags, .undo,
             .fork_remove new_block.block_id] } := by
  rw [_push_block_linear env new_block db f new_head h_id h_skip h_push (by rw [h_tip]; exact h_prev)]
  have h := apply_and_store_error env db.skip_flags new_block.block_id new_block
    { db with fork_db := f, trace := db.trace ++ [.fork_push_block new_block] } e h_apply
  simp only [push_linear, h]
  simp [failed_calls, fork_remove, log]

/-- Claim C3. A successful fork switch. The tip returned by the fork database
does not build on the head and has a greater block number; the pop loop ends
in `db1`; every block of the new branch applies (`run` lists the new branch
oldest first with the object state after each block). Then the head of `db1`
is the `previous` id of the oldest old-branch block, `_push_block` returns
`true`, the final database is `db1` after the run (each block applied under
its own session, stored under its own id and committed, oldest first), and
the head is the new tip. -/
theorem push_block_switches_to_longer_fork
    (env : Env) (new_block : signed_block) (db db1 : database) (f : fork_database)
    (new_head : fork_item) (branches : List fork_item × List fork_item)
    (run : List (fork_item × object_state))
    (H1 : ∀ blk s o o', env.apply_block blk s o = .ok o' → o'.head_block_id = blk.block_id)
    (h_id : new_block.block_id = env.make_id new_block)
    (h_skip : db.skip_flags &&& env.skip_fork_db = 0)
    (h_push : db.fork_db.push_block new_block = .ok (f, new_head))
    (h_prev : new_head.data.previous ≠ db.head_block_id)
    (h_num : new_head.data.block_num > db.head_block_num)
    (h_branches : f.fetch_branch_from new_head.data.block_id db.head_block_id = .ok branches)
    (h_wf : ∀ i ∈ branches.1, i.id = i.data.block_id)
    (h_pop : pop_blocks_until (branches.2.getLastD {}).data.previous
        (db.undo_stack.length + 1)
        { db with fork_db := f, trace := db.trace ++ [.fork_push_block new_block] } =
          .returned () db1)
    (h_new : run.map Prod.fst = branches.1.reverse)
    (h_run : Applies env db.skip_flags run db1.objs) :
    db1.head_block_id = (branches.2.getLastD {}).data.previous ∧
    _push_block env new_block db =
      .returned true (after_run db.skip_flags (fun i => i.id) run db1) ∧
    (after_run db.skip_flags (fun i => i.id) run db1).head_block_id =
      new_head.data.block_id := by
  refine ⟨(pop_blocks_until_returned _ _ _ _ _ h_pop).1, ?_, ?_⟩
  · rw [_push_block_switch env new_block db f new_head h_id h_skip h_push h_prev h_num]
    simp only [switch_forks, head_block_id] at h_branches ⊢
    rw [h_branches]
    simp only [h_pop, ← h_new]
    exact push_fork_blocks_ok env db.skip_flags new_block branches run db1 h_run
  · obtain ⟨a, _, ha, ha_id, _, _⟩ :=
      fork_database.fetch_branch_from_heads f _ _ branches h_branches
    have h_last : (run.map Prod.fst).getLast? = some a := by
      rw [h_new, List.getLast?_reverse]; exact ha
    have h_mem : a ∈ branches.1 := List.mem_of_mem_head? ha
    show (last_state run db1.objs).head_block_id = _
    rw [last_state_head env db.skip_flags H1 run db1.objs h_run a h_last, ← h_wf a h_mem, ha_id]

/-- The outcome of a fork switch in which `apply_block` fails on `b` after the
blocks of `run` applied, when the old branch re-applies from the fork point. -/
theorem failed_switch_outcome
    (env : Env) (new_block : signed_block) (db db1 : database) (f : fork_database)
    (new_head : fork_item) (branches : List fork_item × List fork_item)
    (run restored : List (fork_item × object_state)) (b : fork_item)
    (rest : List fork_item) (e : exception)
    (H1 : ∀ blk s o o', env.apply_block blk s o = .ok o' → o'.head_block_id = blk.block_id)
    (h_id : new_block.block_id = env.make_id new_block)
    (h_skip : db.skip_flags &&& env.skip_fork_db = 0)
    (h_pending : db.pending_tx_session = false)
    (h_push : db.fork_db.push_block new_block = .ok (f, new_head))
    (h_prev : new_head.data.previous ≠ db.head_block_id)
    (h_num : new_head.data.block_num > db.head_block_num)
    (h_branches : f.fetch_branch_from new_head.data.block_id db.head_block_id = .ok branches)
    (h_wf : ∀ i ∈ branches.1 ++ branches.2, i.id = i.data.block_id)
    (h_ne : ∀ i ∈ branches.1, i.data.block_id ≠ (branches.2.getLastD {}).data.previous)
    (h_pop : pop_blocks_until (branches.2.getLastD {}).data.previous
        (db.undo_stack.length + 1)
        { db with fork_db := f, trace := db.trace ++ [.fork_push_block new_block] } =
          .returned () db1)
    (h_split : branches.1.reverse = run.map Prod.fst ++ b :: rest)
    (h_run : Applies env db.skip_flags run db1.objs)
    (h_fail : env.apply_block b.data db.skip_flags (last_state run db1.objs) = .error e)
    (h_old : restored.map Prod.fst = branches.2.reverse)
    (h_restored : Applies env db.skip_flags restored db1.objs) :
    ∃ db', _push_block env new_block db = .thrown e db' ∧
      db'.head_block_id = db.head_block_id ∧
      db'.objs = last_state restored db1.objs ∧
      db'.undo_stack = snapshots restored db1.objs ++ db1.undo_stack ∧
      db'.trace = db1.trace ++ run_calls db.skip_flags (fun i => i.id) run ++
        failed_calls db.skip_flags b.data ++ remove_calls (b :: rest) ++
        [.fork_set_head (branches.2.headD {}).id] ++ pop_calls run.length ++
        run_calls db.skip_flags (fun _ => new_block.block_id) restored ∧
      db'.fork_db.index = (remove_all f (b :: rest)).index ∧
      db'.block_id_to_block =
        run_stores (fun _ => new_block.block_id) restored ++
          (run_stores (fun i => i.id) run ++ db1.block_id_to_block) := by
  obtain ⟨h_head1, h_pend1, h_index1⟩ := pop_blocks_until_returned _ _ _ _ _ h_pop
  have h_in : ∀ x ∈ run, x.1 ∈ branches.1 := by
    intro x hx
    have : x.1 ∈ branches.1.reverse := by
      rw [h_split]; exact List.mem_append_left _ (List.mem_map_of_mem _ hx)
    exact List.mem_reverse.mp this
  obtain ⟨db3, h_rec, h1, h2, h3, h4, h5, _, _, _⟩ :=
    switch_recovery_run env db.skip_flags new_block branches e (b :: rest) b.data run restored
      db1 H1 (h_pend1 h_pending) h_head1 h_run
      (fun x hx => h_wf x.1 (List.mem_append_left _ (h_in x hx)))
      (fun x hx => h_ne x.1 (h_in x hx)) h_restored h_old
  refine ⟨after_run db.skip_flags (fun _ => new_block.block_id) restored db3,
    ?_, ?_, ?_, ?_, ?_, ?_, ?_⟩
  · rw [_push_block_switch env new_block db f new_head h_id h_skip h_push h_prev h_num]
    simp only [switch_forks, head_block_id] at h_branches ⊢
    rw [h_branches]
    simp only [h_pop, h_split]
    rw [push_fork_blocks_fail env db.skip_flags new_block branches run b rest e db1 h_run h_fail]
    exact h_rec
  · obtain ⟨_, bh, _, _, hb, hb_id⟩ :=
      fork_database.fetch_branch_from_heads f _ _ branches h_branches
    have h_last : (restored.map Prod.fst).getLast? = some bh := by
      rw [h_old, List.getLast?_reverse]; exact hb
    have h_mem : bh ∈ branches.1 ++ branches.2 :=
      List.mem_append_right _ (List.mem_of_mem_head? hb)
    show (last_state restored db3.objs).head_block_id = _
    rw [h1, last_state_head env db.skip_flags H1 restored db1.objs h_restored bh h_last,
      ← h_wf bh h_mem, hb_id]
  · show last_state restored db3.objs = _
    rw [h1]
  · show snapshots restored db3.objs ++ db3.undo_stack = _
    rw [h1, h2]
  · show db3.trace ++ _ = _
    rw [h5]
  · show db3.fork_db.index = _
    rw [h4]
    have : db1.fork_db.index = f.index := h_index1
    simp only [remove_all]
    generalize db1.fork_db = g at this
    obtain ⟨gi, gh⟩ := g
    obtain ⟨fi, fh⟩ := f
    simp only at this
    subst this
    clear * -
    induction (b :: rest) generalizing gh fh gi with
    | nil => rfl
    | cons i r ih => simp only [List.foldl_cons, fork_database.remove]; exact ih _ _ _
  · show run_stores _ restored ++ db3.block_id_to_block = _
    rw [h3]

/-- Claim C1. A fork switch in which `apply_block` fails. The pop loop ended in
`db1` (the fork point); the blocks of `run` (the new branch oldest first, up
to the failing block `b`) applied, `apply_block` threw `e` on `b`, and the old
branch re-applies from the fork point (`restored` lists it oldest first).
Then `_push_block` throws `e`, the exception captured from the failing
`apply_block`; the applied new-branch blocks are popped (one `pop_block` per
applied block, back to the object state and undo stack of the fork point);
the old branch is re-applied oldest first on top of it; and the head is again
the head `_push_block` started from. -/
theorem push_block_failed_switch_restores_old_chain
    (env : Env) (new_block : signed_block) (db db1 : database) (f : fork_database)
    (new_head : fork_item) (branches : List fork_item × List fork_item)
    (run restored : List (fork_item × object_state)) (b : fork_item)
    (rest : List fork_item) (e : exception)
    (H1 : ∀ blk s o o', env.apply_block blk s o = .ok o' → o'.head_block_id = blk.block_id)
    (h_id : new_block.block_id = env.make_id new_block)
    (h_skip : db.skip_flags &&& env.skip_fork_db = 0)
    (h_pending : db.pending_tx_session = false)
    (h_push : db.fork_db.push_block new_block = .ok (f, new_head))
    (h_prev : new_head.data.previous ≠ db.head_block_id)
    (h_num : new_head.data.block_num > db.head_block_num)
    (h_branches : f.fetch_branch_from new_head.data.block_id db.head_block_id = .ok branches)
    (h_wf : ∀ i ∈ branches.1 ++ branches.2, i.id = i.data.block_id)
    (h_ne : ∀ i ∈ branches.1, i.data.block_id ≠ (branches.2.getLastD {}).data.previous)
    (h_pop : pop_blocks_until (branches.2.getLastD {}).data.previous
        (db.undo_stack.length + 1)
        { db with fork_db := f, trace := db.trace ++ [.fork_push_block new_block] } =
          .returned () db1)
    (h_split : branches.1.reverse = run.map Prod.fst ++ b :: rest)
    (h_run : Applies env db.skip_flags run db1.objs)
    (h_fail : env.apply_block b.data db.skip_flags (last_state run db1.objs) = .error e)
    (h_old : restored.map Prod.fst = branches.2.reverse)
    (h_restored : Applies env db.skip_flags restored db1.objs) :
    ∃ db', _push_block env new_block db = .thrown e db' ∧
      db'.head_block_id = db.head_block_id ∧
      db'.objs = last_state restored db1.objs ∧
      db'.undo_stack = snapshots restored db1.objs ++ db1.undo_stack ∧
      db'.trace = db1.trace ++ run_calls db.skip_flags (fun i => i.id) run ++
        failed_calls db.skip_flags b.data ++ remove_calls (b :: rest) ++
        [.fork_set_head (branches.2.headD {}).id] ++ pop_calls run.length ++
        run_calls db.skip_flags (fun _ => new_block.block_id) restored := by
  obtain ⟨db', h1, h2, h3, h4, h5, _, _⟩ :=
    failed_switch_outcome env new_block db db1 f new_head branches run restored b rest e H1
      h_id h_skip h_pending h_push h_prev h_num h_branches h_wf h_ne h_pop h_split h_run
      h_fail h_old h_restored
  exact ⟨db', h1, h2, h3, h4, h5⟩

theorem fetch_item_remove (f : fork_database) (bid id : block_id_type) :
    (f.remove bid).fetch_item id = if id = bid then none else f.fetch_item id := by
  obtain ⟨index, head⟩ := f
  simp only [fork_database.remove, fork_database.fetch_item]
  induction index with
  | nil => simp
  | cons i rest ih =>
    simp only [List.filter_cons, List.find?_cons]
    by_cases h1 : i.id = bid <;> by_cases h2 : id = bid <;> by_cases h3 : i.id = id <;>
      simp_all

/-- Claim C5, amended. A fork switch fails because the last block `b` of the
better branch is invalid while the earlier blocks (`run`) applied. Then
`_push_block` throws, the head is the original head, the failing block `b` is
no longer in the fork database, and every other block of the fork database -
the earlier blocks of the attempted branch among them - is still there. -/
theorem push_block_failed_switch_removes_failed_block
    (env : Env) (new_block : signed_block) (db db1 : database) (f : fork_database)
    (new_head : fork_item) (branches : List fork_item × List fork_item)
    (run restored : List (fork_item × object_state)) (b : fork_item) (e : exception)
    (H1 : ∀ blk s o o', env.apply_block blk s o = .ok o' → o'.head_block_id = blk.block_id)
    (h_id : new_block.block_id = env.make_id new_block)
    (h_skip : db.skip_flags &&& env.skip_fork_db = 0)
    (h_pending : db.pending_tx_session = false)
    (h_push : db.fork_db.push_block new_block = .ok (f, new_head))
    (h_prev : new_head.data.previous ≠ db.head_block_id)
    (h_num : new_head.data.block_num > db.head_block_num)
    (h_branches : f.fetch_branch_from new_head.data.block_id db.head_block_id = .ok branches)
    (h_wf : ∀ i ∈ branches.1 ++ branches.2, i.id = i.data.block_id)
    (h_ne : ∀ i ∈ branches.1, i.data.block_id ≠ (branches.2.getLastD {}).data.previous)
    (h_pop : pop_blocks_until (branches.2.getLastD {}).data.previous
        (db.undo_stack.length + 1)
        { db with fork_db := f, trace := db.trace ++ [.fork_push_block new_block] } =
          .returned () db1)
    (h_split : branches.1.reverse = run.map Prod.fst ++ [b])
    (h_run : Applies env db.skip_flags run db1.objs)
    (h_fail : env.apply_block b.data db.skip_flags (last_state run db1.objs) = .error e)
    (h_old : restored.map Prod.fst = branches.2.reverse)
    (h_restored : Applies env db.skip_flags restored db1.objs) :
    ∃ db', _push_block env new_block db = .thrown e db' ∧
      db'.head_block_id = db.head_block_id ∧
      db'.fork_db.fetch_item b.data.block_id = none ∧
      ∀ id, id ≠ b.data.block_id → db'.fork_db.fetch_item id = f.fetch_item id := by
  obtain ⟨db', h1, h2, _, _, _, h6, _⟩ :=
    failed_switch_outcome env new_block db db1 f new_head branches run restored b [] e H1
      h_id h_skip h_pending h_push h_prev h_num h_branches h_wf h_ne h_pop h_split h_run
      h_fail h_old h_restored
  have h7 : ∀ id, db'.fork_db.fetch_item id = (f.remove b.data.block_id).fetch_item id := by
    intro id
    simp only [fork_database.fetch_item, h6, remove_all, List.foldl_cons, List.foldl_nil]
  refine ⟨db', h1, h2, ?_, ?_⟩
  · rw [h7, fetch_item_remove]; simp
  · intro id hid
    rw [h7, fetch_item_remove]; simp [hid]

end database

namespace scenario
open database

/-- The scenario states are reachable: pushing A1, A2, B1, B2 onto the empty
chain gives `chain_A` (up to the trace), and pushing `tx 7` as a local
transaction then gives `chain_A_pending`. -/
theorem chain_A_reachable :
    { push_all [A1, A2, B1, B2] genesis with trace := [] } = chain_A ∧
    (_push_transaction env (tx 7) .from_me chain_A).db = chain_A_pending := by
  constructor <;> decide

theorem env_apply_head (blk : signed_block) (s : Nat) (o o' : object_state)
    (h : env.apply_block blk s o = .ok o') : o'.head_block_id = blk.block_id := by
  simp only [env] at h
  split at h
  · simp at h
  · split at h
    · simp at h
    · split at h
      · simp at h
      · simp only [Except.ok.injEq] at h
        subst h
        rfl

end scenario

namespace database
open scenario

/-- Claim C2 at a concrete input: A3 pushed onto the chain A1-A2. -/
theorem push_block_linear_apply_witness :
    _push_block env A3 chain_A =
      .returned false
        { chain_A with
          objs := at_block A3
          undo_stack := at_block A2 :: chain_A.undo_stack
          fork_db := { index := item A3 :: chain_A.fork_db.index, head := some (item A3) }
          block_id_to_block := (A3.block_id, A3) :: chain_A.block_id_to_block
          trace :=
            [.fork_push_block A3, .start_undo_session, .apply_block A3 0,
             .store A3.block_id A3, .commit] } :=
  push_block_linear_apply env A3 chain_A
    { index := item A3 :: chain_A.fork_db.index, head := some (item A3) } (item A3)
    (at_block A3) rfl rfl rfl rfl rfl rfl

/-- Claim C4 at a concrete input: B2 pushed while the head A2 has the same
block number. -/
theorem push_block_shorter_fork_is_ignored_witness :
    _push_block env B2 { chain_A with fork_db := { index := [item B1, item A2, item A1], head := some (item A2) } } =
      .returned false
        { chain_A with trace := [.fork_push_block B2] } :=
  push_block_shorter_fork_is_ignored env B2
    { chain_A with fork_db := { index := [item B1, item A2, item A1], head := some (item A2) } }
    chain_A.fork_db (item A2) rfl rfl rfl (by decide) (by decide)

/-- Claim C7 at a concrete input: a block with a bad signature pushed onto the
chain A1-A2. -/
theorem push_block_linear_failure_witness :
    _push_block env A3_bad chain_A =
      .thrown (.fc_assert 971)
        { chain_A with
          fork_db := { index := chain_A.fork_db.index, head := some (item A3_bad) }
          trace :=
            [.fork_push_block A3_bad, .start_undo_session, .apply_block A3_bad 0, .undo,
             .fork_remove A3_bad.block_id] } :=
  (push_block_linear_failure env A3_bad chain_A
    { index := item A3_bad :: chain_A.fork_db.index, head := some (item A3_bad) }
    (item A3_bad) (.fc_assert 971) rfl rfl rfl rfl rfl rfl).trans (by decide)

/-- Claim C3 at a concrete input: scenario S3, B3 pushed while A1-A2 is the
head. -/
theorem push_block_switches_to_longer_fork_witness :
    _push_block env B3 chain_A =
      .returned true (after_run 0 (fun i => i.id) run_B123 (fork_point B3)) ∧
    (after_run 0 (fun i => i.id) run_B123 (fork_point B3)).head_block_id = B3.block_id :=
  (push_block_switches_to_longer_fork env B3 chain_A (fork_point B3) (pushed B3) (item B3)
    (branches B3) run_B123 env_apply_head rfl rfl rfl (by decide) (by decide) rfl (by decide)
    rfl rfl ⟨rfl, rfl, rfl, trivial⟩).2

/-- Claim C1 at a concrete input: scenario S4, B3 with a bad signature pushed
while A1-A2 is the head. -/
theorem push_block_failed_switch_restores_old_chain_witness :
    ∃ db', _push_block env B3_bad chain_A = .thrown (.fc_assert 971) db' ∧
      db'.head_block_id = A2.block_id ∧
      db'.objs = at_block A2 ∧
      db'.undo_stack = [at_block A1, genesis_state] ∧
      db'.trace = (fork_point B3_bad).trace ++ run_calls 0 (fun i => i.id) run_B12 ++
        failed_calls 0 B3_bad ++ remove_calls [item B3_bad] ++
        [.fork_set_head A2.block_id] ++ pop_calls 2 ++
        run_calls 0 (fun _ => B3_bad.block_id) run_A12 :=
  push_block_failed_switch_restores_old_chain env B3_bad chain_A (fork_point B3_bad)
    (pushed B3_bad) (item B3_bad) (branches B3_bad) run_B12 run_A12 (item B3_bad) []
    (.fc_assert 971) env_apply_head rfl rfl rfl rfl (by decide) (by decide) rfl (by decide)
    (by decide) rfl rfl ⟨rfl, rfl, trivial⟩ rfl rfl ⟨rfl, rfl, trivial⟩

/-- Claim C5, counterexample. Scenario S4: A1-A2 is the head, B1 and B2 are
valid and B3 carries a bad signature. Pushing B3 throws and the head is A2
again, but only B3 is removed from the fork database: B1 and B2 are still
there. -/
theorem failed_switch_keeps_valid_blocks :
    ∃ e db', _push_block env B3_bad chain_A = .thrown e db' ∧
      db'.head_block_id = A2.block_id ∧
      db'.fork_db.fetch_item B3_bad.block_id = none ∧
      db'.fork_db.fetch_item B1.block_id = some (item B1) ∧
      db'.fork_db.fetch_item B2.block_id = some (item B2) :=
  ⟨_, _, rfl, rfl, rfl, rfl, rfl⟩

/-- Claim C5, amended, at a concrete input: scenario S4. -/
theorem push_block_failed_switch_removes_failed_block_witness :
    ∃ db', _push_block env B3_bad chain_A = .thrown (.fc_assert 971) db' ∧
      db'.head_block_id = A2.block_id ∧
      db'.fork_db.fetch_item B3_bad.block_id = none ∧
      ∀ id, id ≠ B3_bad.block_id →
        db'.fork_db.fetch_item id = (pushed B3_bad).fetch_item id :=
  push_block_failed_switch_removes_failed_block env B3_bad chain_A (fork_point B3_bad)
    (pushed B3_bad) (item B3_bad) (branches B3_bad) run_B12 run_A12 (item B3_bad)
    (.fc_assert 971) env_apply_head rfl rfl rfl rfl (by decide) (by decide) rfl (by decide)
    (by decide) rfl rfl ⟨rfl, rfl, trivial⟩ rfl rfl ⟨rfl, rfl, trivial⟩

/-- Claim C6. Scenario S4 (A1-A2 is the head, B1 and B2 valid, B3 with a bad
signature). The recovery path re-applies A1 and A2 and stores both under the
id of the pushed block B3, not under their own ids: the two newest entries of
the block log are keyed by B3's id, and looking B3's id up yields block A2. -/
theorem failed_switch_stores_restored_blocks_under_pushed_id :
    ∃ e db', _push_block env B3_bad chain_A = .thrown e db' ∧
      db'.block_id_to_block =
        [(B3_bad.block_id, A2), (B3_bad.block_id, A1), (B2.block_id, B2),
         (B1.block_id, B1), (A2.block_id, A2), (A1.block_id, A1)] ∧
      db'.fetch_optional B3_bad.block_id = some A2 ∧
      db'.trace.filter is_store =
        [.store B1.block_id B1, .store B2.block_id B2,
         .store B3_bad.block_id A1, .store B3_bad.block_id A2] :=
  ⟨_, _, rfl, rfl, rfl, rfl⟩

/-- Claim C8. Scenarios S3 and S4. After the successful fork switch to B3 the
database head is B3 while the fork database head is B1; after the failed
switch and recovery the database head is A2 while the fork database has no
head: each `pop_block` moved the fork database head to its predecessor. -/
theorem fork_db_head_differs_after_fork_switch :
    (∃ db', _push_block env B3 chain_A = .returned true db' ∧
      db'.head_block_id = B3.block_id ∧ db'.fork_db.head = some (item B1)) ∧
    (∃ e db', _push_block env B3_bad chain_A = .thrown e db' ∧
      db'.head_block_id = A2.block_id ∧ db'.fork_db.head = none) :=
  ⟨⟨_, rfl, rfl, rfl⟩, ⟨_, _, rfl, rfl, rfl⟩⟩

/-- Claim C10. Popping A2 and then A1 from the chain A1-A2: after the first
`pop_block` the queue `_popped_tx` holds the transaction of A2; after the
second it holds only the transaction of A1. The earlier content is
overwritten, not kept. -/
theorem pop_block_overwrites_popped_tx :
    ∃ db1 db2, pop_block chain_A = .returned () db1 ∧ db1.popped_tx = [tx 2] ∧
      pop_block db1 = .returned () db2 ∧ db2.popped_tx = [tx 1] :=
  ⟨_, _, rfl, rfl, rfl, rfl⟩

/-! ## The pending session -/


/-- The tail of `_push_transaction` when the temporary session is merged. -/
theorem finish_push_merged (env : Env) (p : processed_transaction) (x : database) :
    finish_push env p false x =
      .returned p
        { x with
          pending_tx := x.pending_tx ++ [p]
          undo_stack := x.undo_stack.tail
          trace := x.trace ++ [.merge] } := rfl

/-- The tail of `_push_transaction` when the temporary session is undone: the
object state is the one the session was opened on, and the insertion of the
transaction record fails exactly when the index holds a record with the id. -/
theorem finish_push_undone (env : Env) (p : processed_transaction) (x : database)
    (o0 : object_state) (rest : List object_state) (hs : x.undo_stack = o0 :: rest) :
    finish_push env p true x =
      if (o0.transaction_index.find? (fun t => decide (t.trx_id =
          env.id p.tosigned_transaction (env.hash p.tosigned_transaction)))).isSome = true then
        .thrown .duplicate_key
          { x with
            pending_tx := x.pending_tx ++ [p]
            objs := o0
            undo_stack := rest
            trace := x.trace ++ [.undo] }
      else
        .returned p
          { x with
            pending_tx := x.pending_tx ++ [p]
            objs := { o0 with
              transaction_index := o0.transaction_index ++
                [{ trx_hash := env.hash p.tosigned_transaction
                   trx_id := env.id p.tosigned_transaction (env.hash p.tosigned_transaction)
                   trx := p.tosigned_transaction }] }
            undo_stack := rest
            trace := x.trace ++ [.undo] } := by
  unfold finish_push create_transaction_object create_transaction
  simp only [if_true, undo, log, hs]
  by_cases hd : (o0.transaction_index.find? (fun t => decide (t.trx_id =
      env.id p.tosigned_transaction (env.hash p.tosigned_transaction)))).isSome = true
  · rw [if_pos hd, if_pos hd]
  · rw [if_neg hd, if_neg hd]

theorem undo_pending (db : database) :
    db.undo.pending_tx_session = db.pending_tx_session ∧ db.undo.pending_tx = db.pending_tx := by
  unfold undo log
  split <;> exact ⟨rfl, rfl⟩

/-- The pending session and the pending queue after `_push_transaction`. -/
theorem _push_transaction_pending (env : Env) (trx : processed_transaction)
    (push_state : transaction_push_state) (db : database) :
    (∀ r db', _push_transaction env trx push_state db = .returned r db' →
      db'.pending_tx_session = true ∧ db'.pending_tx = db.pending_tx ++ [r]) ∧
    (∀ e db', _push_transaction env trx push_state db = .thrown e db' →
      db'.pending_tx_session = true ∧
      (db'.pending_tx = db.pending_tx ∨
        (e = .duplicate_key ∧ ∃ p, db'.pending_tx = db.pending_tx ++ [p] ∧
          (db.objs.transaction_index.find? (fun t => decide (t.trx_id =
            env.id p.tosigned_transaction (env.hash p.tosigned_transaction)))).isSome =
              true))) := by
  have key : ∀ (d : database) (p : processed_transaction) (u : Bool),
      d.pending_tx_session = true → d.pending_tx = db.pending_tx →
      (∃ rest, d.undo_stack = db.objs :: rest) →
      (∀ r db', finish_push env p u d = .returned r db' →
        db'.pending_tx_session = true ∧ db'.pending_tx = db.pending_tx ++ [r]) ∧
      (∀ e db', finish_push env p u d = .thrown e db' →
        db'.pending_tx_session = true ∧
        (db'.pending_tx = db.pending_tx ∨
          (e = .duplicate_key ∧ ∃ p, db'.pending_tx = db.pending_tx ++ [p] ∧
            (db.objs.transaction_index.find? (fun t => decide (t.trx_id =
              env.id p.tosigned_transaction (env.hash p.tosigned_transaction)))).isSome =
                true))) := by
    intro d p u h1 h2 hst
    obtain ⟨rest, hst⟩ := hst
    cases u with
    | false =>
      rw [finish_push_merged]
      constructor
      · intro r db' h
        simp only [outcome.returned.injEq] at h
        obtain ⟨rfl, rfl⟩ := h
        exact ⟨h1, by rw [← h2]⟩
      · intro e db' h
        simp at h
    | true =>
      rw [finish_push_undone env p d db.objs rest hst]
      by_cases hd : (db.objs.transaction_index.find? (fun t => decide (t.trx_id =
          env.id p.tosigned_transaction (env.hash p.tosigned_transaction)))).isSome = true
      · rw [if_pos hd]
        constructor
        · intro r db' h
          simp at h
        · intro e db' h
          simp only [outcome.thrown.injEq] at h
          obtain ⟨rfl, rfl⟩ := h
          exact ⟨h1, Or.inr ⟨rfl, p, by rw [← h2], hd⟩⟩
      · rw [if_neg hd]
        constructor
        · intro r db' h
          simp only [outcome.returned.injEq] at h
          obtain ⟨rfl, rfl⟩ := h
          exact ⟨h1, by rw [← h2]⟩
        · intro e db' h
          simp at h
  have thrown_case : ∀ (d : database) (e0 : exception),
      d.pending_tx_session = true → d.pending_tx = db.pending_tx →
      (∀ r db', (outcome.thrown e0 d.undo : outcome processed_transaction) = .returned r db' →
        db'.pending_tx_session = true ∧ db'.pending_tx = db.pending_tx ++ [r]) ∧
      (∀ e db', (outcome.thrown e0 d.undo : outcome processed_transaction) = .thrown e db' →
        db'.pending_tx_session = true ∧
        (db'.pending_tx = db.pending_tx ∨
          (e = .duplicate_key ∧ ∃ p, db'.pending_tx = db.pending_tx ++ [p] ∧
            (db.objs.transaction_index.find? (fun t => decide (t.trx_id =
              env.id p.tosigned_transaction (env.hash p.tosigned_transaction)))).isSome =
                true))) := by
    intro d e0 h1 h2
    constructor
    · intro r db' h; simp at h
    · intro e db' h
      simp only [outcome.thrown.injEq] at h
      obtain ⟨_, rfl⟩ := h
      exact ⟨(undo_pending d).1.trans h1, Or.inl ((undo_pending d).2.trans h2)⟩
  have hs : (if db.pending_tx_session then db
      else { db.start_undo_session with pending_tx_session := true }).pending_tx_session = true := by
    split
    · assumption
    · rfl
  have hq : (if db.pending_tx_session then db
      else { db.start_undo_session with pending_tx_session := true }).pending_tx =
        db.pending_tx := by
    split <;> rfl
  have ho : (if db.pending_tx_session then db
      else { db.start_undo_session with pending_tx_session := true }).objs = db.objs := by
    split <;> rfl
  unfold _push_transaction
  simp only []
  generalize (if db.pending_tx_session then db
      else { db.start_undo_session with pending_tx_session := true }) = d1 at hs hq ho ⊢
  repeat' split
  all_goals first
    | exact thrown_case _ _ (by exact hs) (by exact hq)
    | exact key _ _ _ (by exact hs) (by exact hq)
        ⟨d1.undo_stack, by simp [start_undo_session, log, ho]⟩

theorem _generate_block_pending (env : Env) (when witness_id key : Nat) (db : database) :
    ∀ b db', _generate_block env when witness_id key db = .returned b db' →
      db'.pending_tx_session = false ∧ db'.pending_tx = db.pending_tx := by
  intro b db' h
  unfold _generate_block at h
  simp only at h
  split at h
  · simp at h
  · split at h
    · simp at h
    · split at h
      · simp at h
      · split at h
        · simp at h
        · split at h
          · simp at h
          · simp only [outcome.returned.injEq] at h
            obtain ⟨_, rfl⟩ := h
            obtain ⟨h1, _, _, h4⟩ := reset_pending_tx_session_frame
              { db.reset_pending_tx_session.start_undo_session with pending_tx_session := true }
            refine ⟨h1, h4.trans ?_⟩
            exact (reset_pending_tx_session_frame db).2.2.2

/-- Claim C9, counterexample. In the database `chain_A_pending` one transaction
is pending and the pending session is valid. After `pop_block`, and after
`_generate_block`, the pending queue still holds that transaction but the
pending session is no longer valid; and after a `_push_transaction` that throws
on the database `chain_A` (empty queue) the pending session is valid while the
queue is empty. -/
theorem pending_session_invariant_fails :
    (∃ db', pop_block chain_A_pending = .returned () db' ∧
      ¬ (db'.pending_tx_session = true ↔ db'.pending_tx ≠ [])) ∧
    (∃ b db', _generate_block env 3 1 77 chain_A_pending = .returned b db' ∧
      ¬ (db'.pending_tx_session = true ↔ db'.pending_tx ≠ [])) ∧
    (∃ e db', _push_transaction env tx_expired .from_me chain_A = .thrown e db' ∧
      ¬ (db'.pending_tx_session = true ↔ db'.pending_tx ≠ [])) :=
  ⟨⟨_, rfl, by decide⟩, ⟨_, _, rfl, by decide⟩, ⟨_, _, rfl, by decide⟩⟩

/-- Claim C9, amended. After `clear_pending` the pending session is invalid and
the pending queue is empty, and after a `_push_transaction` that returns the
session is valid and the queue ends with the pushed transaction: after these
two the session is valid exactly when the queue is non-empty. A
`_push_transaction` that throws leaves a valid session, and the queue either
as it was, or, when the insertion of the transaction record after the undo of
the temporary session fails on a record with the same id, extended by the
transaction; `_generate_block` and `pop_block`, when they return, leave the
session invalid and the queue as it was. -/
theorem pending_session_after_operations (env : Env) (db : database)
    (trx : processed_transaction) (push_state : transaction_push_state)
    (when witness_id key : Nat) :
    (∀ db', clear_pending db = .returned () db' →
      db'.pending_tx_session = false ∧ db'.pending_tx = []) ∧
    (∀ r db', _push_transaction env trx push_state db = .returned r db' →
      db'.pending_tx_session = true ∧ db'.pending_tx = db.pending_tx ++ [r]) ∧
    (∀ e db', _push_transaction env trx push_state db = .thrown e db' →
      db'.pending_tx_session = true ∧
      (db'.pending_tx = db.pending_tx ∨
        (e = .duplicate_key ∧ ∃ p, db'.pending_tx = db.pending_tx ++ [p] ∧
          (db.objs.transaction_index.find? (fun t => decide (t.trx_id =
            env.id p.tosigned_transaction (env.hash p.tosigned_transaction)))).isSome =
              true))) ∧
    (∀ b db', _generate_block env when witness_id key db = .returned b db' →
      db'.pending_tx_session = false ∧ db'.pending_tx = db.pending_tx) ∧
    (∀ db', pop_block db = .returned () db' →
      db'.pending_tx_session = false ∧ db'.pending_tx = db.pending_tx) := by
  refine ⟨?_, (_push_transaction_pending env trx push_state db).1,
    (_push_transaction_pending env trx push_state db).2,
    _generate_block_pending env when witness_id key db, ?_⟩
  · intro db' h
    simp only [clear_pending, outcome.returned.injEq, true_and] at h
    subst h
    obtain ⟨h1, _, _, h4⟩ := reset_pending_tx_session_frame { db with pending_tx := [] }
    exact ⟨h1, h4⟩
  · intro db' h
    obtain ⟨h1, _, _, h4⟩ := pop_block_returned db db' () h
    exact ⟨h1, h4⟩

/-- Claim C9, amended, at concrete inputs: `tx 7` pushed as a local
transaction onto the chain A1-A2 returns; `tx 7` pushed again from the pending
queue onto a chain whose index holds its record throws with `duplicate_key` and
leaves the transaction in the queue. -/
theorem pending_session_after_operations_witness :
    (∃ db', _push_transaction env (tx 7) .from_me chain_A = .returned ptx7 db' ∧
      db'.pending_tx_session = true ∧ db'.pending_tx = chain_A.pending_tx ++ [ptx7]) ∧
    (∃ db', _push_transaction env ptx7 .re_push chain_A_known = .thrown .duplicate_key db' ∧
      db'.pending_tx = [ptx7] ∧
      db'.pending_tx_session = true ∧
      (db'.pending_tx = chain_A_known.pending_tx ∨
        (exception.duplicate_key = .duplicate_key ∧
          ∃ p, db'.pending_tx = chain_A_known.pending_tx ++ [p] ∧
            (chain_A_known.objs.transaction_index.find? (fun t => decide (t.trx_id =
              env.id p.tosigned_transaction (env.hash p.tosigned_transaction)))).isSome =
                true))) :=
  ⟨⟨_, rfl, (pending_session_after_operations env chain_A (tx 7) .from_me 3 1 77).2.1 _ _ rfl⟩,
    ⟨_, rfl, rfl,
      (pending_session_after_operations env chain_A_known ptx7 .re_push 3 1 77).2.2.1 _ _ rfl⟩⟩

end database

namespace database

end database

namespace database
open scenario

end database

namespace database
open scenario

/-- Claim C12, counterexample. With limit 3000 and an empty pending queue, a
`from_me` push is rejected by the size check because the recorded size
`_pending_size` is 3001; with the recorded size lowered to the current size by
`log_pending_size` the same push is accepted. -/
theorem from_me_push_rejected_on_recorded_size :
    high_water.pending_tx.length ≤ high_water.message_cache_size_limit ∧
      (_push_transaction env (tx 7) .from_me high_water).db.pending_tx = [] ∧
      (∃ d, _push_transaction env (tx 7) .from_me high_water = .thrown (.fc_assert 295) d) ∧
      (∃ d, _push_transaction env (tx 7) .from_me high_water.log_pending_size.2 =
        .returned ptx7 d) :=
  ⟨by decide, by decide, ⟨_, rfl⟩, ⟨_, rfl⟩⟩

/-- Claim C12, amended. A `from_me` push is rejected by the queue-size check
exactly when the limit is not zero and the greater of the recorded size
`_pending_size` and the current queue size exceeds it; the greater value is
recorded. Otherwise the transaction is handed to `_apply_transaction`. After
`log_pending_size` the greater value is the current queue size. -/
theorem from_me_push_size_check (env : Env) (trx : processed_transaction) (db : database) :
    (db.message_cache_size_limit ≠ 0 ∧
        ¬ max db.pending_size db.pending_tx.length ≤ db.message_cache_size_limit →
      (∃ d, _push_transaction env trx .from_me db = .thrown (.fc_assert 295) d ∧
        d.pending_tx = db.pending_tx ∧
        d.pending_size = max db.pending_size db.pending_tx.length)) ∧
    (¬ (db.message_cache_size_limit ≠ 0 ∧
        ¬ max db.pending_size db.pending_tx.length ≤ db.message_cache_size_limit) →
      ∃ d3 : database,
        d3.pending_size = max db.pending_size db.pending_tx.length ∧
        d3.pending_tx = db.pending_tx ∧ d3.skip_flags = db.skip_flags ∧
        _push_transaction env trx .from_me db =
          match env._apply_transaction trx.tosigned_transaction .push_mode false
              d3.skip_flags d3.objs with
          | .error e => .thrown e d3.undo
          | .ok (processed_trx, mode, o) =>
            finish_push env processed_trx (decide (mode = .invoke_mode)) { d3 with objs := o }) ∧
    max db.log_pending_size.2.pending_size db.log_pending_size.2.pending_tx.length =
      db.pending_tx.length := by
  have key : ∃ d1 : database,
      (if db.pending_tx_session = true then db
        else { db.start_undo_session with pending_tx_session := true }) = d1 ∧
      d1.pending_tx = db.pending_tx ∧ d1.pending_size = db.pending_size ∧
      d1.message_cache_size_limit = db.message_cache_size_limit ∧
      d1.skip_flags = db.skip_flags := by
    by_cases hp : db.pending_tx_session = true
    · exact ⟨db, by simp [hp], rfl, rfl, rfl, rfl⟩
    · exact ⟨{ db.start_undo_session with pending_tx_session := true }, by simp [hp],
        rfl, rfl, rfl, rfl⟩
  obtain ⟨d1, he, h1, h2, h3, h4⟩ := key
  have hu : _push_transaction env trx .from_me db =
      if d1.message_cache_size_limit ≠ 0 ∧
          ¬ max d1.pending_size d1.pending_tx.length ≤ d1.message_cache_size_limit then
        .thrown (.fc_assert 295)
          (undo { d1.start_undo_session with
            pending_size := max d1.pending_size d1.pending_tx.length })
      else
        match env._apply_transaction trx.tosigned_transaction .push_mode false
            d1.skip_flags
            d1.objs with
        | .error e =>
          .thrown e (undo { d1.start_undo_session with
            pending_size := max d1.pending_size d1.pending_tx.length })
        | .ok (processed_trx, mode, o) =>
          finish_push env processed_trx (decide (mode = .invoke_mode))
            { d1.start_undo_session with
              pending_size := max d1.pending_size d1.pending_tx.length, objs := o } := by
    simp only [_push_transaction, he]
    rfl
  rw [hu, h1, h2, h3, h4]
  refine ⟨?_, ?_, by simp [log_pending_size]⟩
  · intro h
    rw [if_pos h]
    exact ⟨_, rfl, by simp [start_undo_session, log, undo, h1],
      by simp [start_undo_session, log, undo]⟩
  · intro h
    rw [if_neg h]
    refine ⟨{ d1.start_undo_session with
      pending_size := max db.pending_size db.pending_tx.length }, rfl,
      by simp [start_undo_session, log, h1], by simp [start_undo_session, log, h4], ?_⟩
    simp [start_undo_session, log, h4]

end database

namespace database
open scenario

/-- Claim C13. `_generate_block` fails and leaves the database as it was (the
pending session is not reset, the pending queue not read) when the slot of
`when` is 0, when the witness scheduled for the slot is not `witness_id`, and
when the witness signature is not skipped and the public key of the private
key is not the signing key of the witness. When the three checks pass, the
pending session is reset and reopened, the pending queue is walked and the
block built from the selected transactions is handed to the signing step. -/
theorem generate_block_checks (env : Env) (when witness_id key : Nat) (db : database) :
    (env.get_slot_at_time db.objs when = 0 →
      _generate_block env when witness_id key db = .thrown (.fc_assert 427) db) ∧
    (env.get_scheduled_witness db.objs (env.get_slot_at_time db.objs when) ≠ witness_id →
      ∃ e, _generate_block env when witness_id key db = .thrown e db) ∧
    (∀ signing_key, db.objs.witnesses.lookup witness_id = some signing_key →
      db.skip_flags &&& env.skip_witness_signature = 0 →
      signing_key ≠ env.get_public_key key →
      ∃ e, _generate_block env when witness_id key db = .thrown e db) ∧
    (∀ signing_key, db.objs.witnesses.lookup witness_id = some signing_key →
      env.get_slot_at_time db.objs when > 0 →
      env.get_scheduled_witness db.objs (env.get_slot_at_time db.objs when) = witness_id →
      (db.skip_flags &&& env.skip_witness_signature ≠ 0 ∨
        signing_key = env.get_public_key key) →
      let db2 : database :=
        { db.reset_pending_tx_session.start_undo_session with pending_tx_session := true }
      let st := select_pending env db2.objs db2.pending_tx
        { skip := db.skip_flags, total_block_size := env.max_block_header_size,
          transactions := [] }
      let db3 := db2.reset_pending_tx_session
      _generate_block env when witness_id key db =
        match env.validate_block
            { previous := db3.head_block_id
              extensions :=
                if db3.head_block_id = {} then
                  ["Ignition with Kevin , Nico , Major and Wililiam"]
                else []
              timestamp := when
              witness := witness_id
              transactions := st.transactions } key
            (st.skip ||| (if ¬ db3.deduce_in_verification_mode then 0
                else env.skip_authority_check) |||
              env.skip_merkle_check ||| env.skip_witness_signature) with
        | .error e => .thrown e db3
        | .ok b => .returned b db3) := by
  refine ⟨?_, ?_, ?_, ?_⟩
  · intro h
    simp [_generate_block, h]
  · intro h
    unfold _generate_block
    simp only [h]
    split
    · exact ⟨_, rfl⟩
    · exact ⟨.fc_assert 429, by simp⟩
  · intro signing_key hl hs hk
    unfold _generate_block
    simp only [hl]
    split
    · exact ⟨_, rfl⟩
    · split
      · exact ⟨_, rfl⟩
      · exact ⟨.fc_assert 432, by simp [hs, hk]⟩
  · intro signing_key hl h1 h2 h3
    intro db2 st db3
    unfold _generate_block
    simp only [hl, h2]
    rw [if_neg (by omega), if_neg (by simp), if_neg (by
      rcases h3 with h3 | h3
      · simp [h3]
      · simp [h3])]

theorem generate_block_checks_witness :
    _generate_block env 0 1 77 chain_A = .thrown (.fc_assert 427) chain_A :=
  (generate_block_checks env 0 1 77 chain_A).1 (by decide)

end database

namespace database
open scenario

/-- One step of the selection loop that does not stop: the loop goes on with
a state that either is unchanged in size and transactions, or has the
transaction appended. -/
theorem select_pending_step (env : Env) (o : object_state) (tx : processed_transaction)
    (st : generate_state)
    (h : ¬ st.total_block_size + env.pack_size tx ≥ o.maximum_block_size) :
    ∃ st1 : generate_state,
      (∀ l, select_pending env o (tx :: l) st = select_pending env o l st1) ∧
      ((st1.transactions = st.transactions ∧ st1.total_block_size = st.total_block_size) ∨
        (st1.transactions = st.transactions ++ [(env.hash tx.tosigned_transaction, tx)] ∧
          st1.total_block_size = st.total_block_size + env.pack_size tx)) := by
  cases hf : (if o.head_block_num > 0 ∧ tx.agreed_task.isNone then
      check_tapos_expiration
        (decide ((if is_share_fee env tx.tosigned_transaction then
            env.skip_transaction_signatures ||| env.skip_tapos_check
          else st.skip) &&& env.skip_tapos_check = 0))
        tx.tosigned_transaction o
    else none) with
  | some e =>
    refine ⟨{ st with skip :=
      (if is_share_fee env tx.tosigned_transaction = true then
        env.skip_transaction_signatures ||| env.skip_tapos_check
      else st.skip) }, fun l => ?_, Or.inl ⟨rfl, rfl⟩⟩
    rw [select_pending]
    simp only [h, if_false]
    rw [hf]
  | none =>
    refine ⟨
      { skip :=
          (if is_share_fee env tx.tosigned_transaction = true then
            env.skip_transaction_signatures ||| env.skip_tapos_check
          else st.skip)
        total_block_size := st.total_block_size + env.pack_size tx
        transactions := st.transactions ++ [(env.hash tx.tosigned_transaction, tx)] },
      fun l => ?_, Or.inr ⟨rfl, rfl⟩⟩
    rw [select_pending]
    simp only [h, if_false]
    rw [hf]

/-- Claim C14, counterexample. The only pending transaction brings the total
to exactly `maximum_block_size` (100 + 10 = 110): the loop stops at it and the
generated block holds no transaction. -/
theorem generate_block_stops_at_exact_fit :
    env.max_block_header_size + env.pack_size ptx7 = exact_fit.objs.maximum_block_size ∧
      exact_fit.pending_tx = [ptx7] ∧
      ∃ b d, _generate_block env 1 1 77 exact_fit = .returned b d ∧ b.transactions = [] :=
  ⟨by decide, rfl, _, _, rfl, rfl⟩

/-- Claim C14, amended. The selection loop of `_generate_block` walks the
pending queue in order and stops at the first transaction whose packed size,
added to the running total, reaches or exceeds `maximum_block_size`: the queue
splits into the examined part `pre` and the rest `post`; every transaction of
`pre` kept the total below the maximum when it was examined, the first
transaction of `post` does not. The selected transactions are those of an
order-preserving subsequence of `pre`, and the final total is the starting
total plus their sizes. -/
theorem select_pending_stops_at_size_limit (env : Env) (o : object_state)
    (pending : List processed_transaction) (st : generate_state) :
    ∃ pre post sel : List processed_transaction,
      pending = pre ++ post ∧
      select_pending env o pending st = select_pending env o pre st ∧
      (∀ p1 tx p2, pre = p1 ++ tx :: p2 →
        (select_pending env o p1 st).total_block_size + env.pack_size tx <
          o.maximum_block_size) ∧
      (∀ tx rest, post = tx :: rest →
        o.maximum_block_size ≤
          (select_pending env o pre st).total_block_size + env.pack_size tx) ∧
      sel.Sublist pre ∧
      (select_pending env o pending st).transactions =
        st.transactions ++ sel.map (fun tx => (env.hash tx.tosigned_transaction, tx)) ∧
      (select_pending env o pending st).total_block_size =
        st.total_block_size + (sel.map env.pack_size).sum := by
  induction pending generalizing st with
  | nil =>
    exact ⟨[], [], [], rfl, rfl, by simp, by simp, List.Sublist.slnil, by simp [select_pending],
      by simp [select_pending]⟩
  | cons tx rest ih =>
    by_cases h : st.total_block_size + env.pack_size tx ≥ o.maximum_block_size
    · have hs : select_pending env o (tx :: rest) st = st := by
        rw [select_pending]; simp only [h, if_true]
      refine ⟨[], tx :: rest, [], rfl, by rw [hs]; rfl, by simp, ?_, List.Sublist.slnil,
        by simp [hs], by simp [hs]⟩
      intro t r htr
      simp only [List.cons.injEq] at htr
      rw [← htr.1]
      exact h
    · obtain ⟨st1, hstep, hst1⟩ := select_pending_step env o tx st h
      obtain ⟨pre, post, sel, hsplit, hpre, hfit, hstop, hsub, htx, htot⟩ := ih st1
      have hfit' : ∀ p1 t p2, tx :: pre = p1 ++ t :: p2 →
          (select_pending env o p1 st).total_block_size + env.pack_size t <
            o.maximum_block_size := by
        intro p1 t p2 hp
        cases p1 with
        | nil =>
          simp only [List.nil_append, List.cons.injEq] at hp
          rw [← hp.1]
          simpa [select_pending] using h
        | cons x p1 =>
          simp only [List.cons_append, List.cons.injEq] at hp
          rw [← hp.1, hstep]
          exact hfit p1 t p2 hp.2
      rcases hst1 with ⟨e1, e2⟩ | ⟨e1, e2⟩
      · refine ⟨tx :: pre, post, sel, by rw [hsplit]; rfl, by rw [hstep, hstep, hpre], hfit',
          ?_, hsub.cons tx, by rw [hstep, htx, e1], by rw [hstep, htot, e2]⟩
        intro t r htr
        rw [hstep]
        exact hstop t r htr
      · refine ⟨tx :: pre, post, tx :: sel, by rw [hsplit]; rfl, by rw [hstep, hstep, hpre],
          hfit', ?_, hsub.cons₂ tx, by rw [hstep, htx, e1]; simp,
          by rw [hstep, htot, e2]; simp [Nat.add_assoc]⟩
        intro t r htr
        rw [hstep]
        exact hstop t r htr

end database

namespace database
open scenario

/-- What a passed re-validation tells about the transaction. -/
theorem check_tapos_expiration_none (tapos : Bool) (trx : signed_transaction)
    (o : object_state) (h : check_tapos_expiration tapos trx o = none) :
    o.head_block_time ≤ trx.expiration ∧ trx.expiration ≤ expiration_limit o ∧
      (tapos = true → ∃ s, o.block_summaries.get? trx.ref_block_num = some s ∧
        signed_transaction.ref_block_prefix trx = s.hash_word1) := by
  unfold check_tapos_expiration at h
  simp only at h
  split at h
  · simp at h
  · rename_i ht
    split at h
    · simp at h
    · split at h
      · simp at h
      · rename_i h1 h2
        refine ⟨by omega, by omega, fun htp => ?_⟩
        simp only [htp, if_true] at ht
        split at ht
        · simp at ht
        · rename_i s hs
          split at ht
          · exact ⟨s, hs, by assumption⟩
          · simp at ht

/-- The re-validation passes exactly when the TaPoS comparison, where it is
made, succeeds and the expiration lies in the window. -/
theorem check_tapos_expiration_none_iff (tapos : Bool) (trx : signed_transaction)
    (o : object_state) :
    check_tapos_expiration tapos trx o = none ↔
      ((tapos = true → ∃ s, o.block_summaries.get? trx.ref_block_num = some s ∧
          signed_transaction.ref_block_prefix trx = s.hash_word1) ∧
        o.head_block_time ≤ trx.expiration ∧ trx.expiration ≤ expiration_limit o) := by
  constructor
  · intro h
    obtain ⟨h1, h2, h3⟩ := check_tapos_expiration_none tapos trx o h
    exact ⟨h3, h1, h2⟩
  · rintro ⟨h3, h1, h2⟩
    unfold check_tapos_expiration
    cases tapos with
    | false => simp [h1, h2]
    | true =>
      obtain ⟨s, hs, hp⟩ := h3 rfl
      simp only [if_true, hs, hp, h1, h2, not_true_eq_false, if_false]

/-- One step of the selection loop that does not stop, with its verdict `v`
on the transaction: the running flags are overridden by a fee-share
transaction, the transaction is appended exactly when `v` holds, and `v` holds
exactly when the re-validation, where it is made, passes. -/
theorem select_pending_verdict (env : Env) (o : object_state) (tx : processed_transaction)
    (st : generate_state)
    (h : ¬ st.total_block_size + env.pack_size tx ≥ o.maximum_block_size) :
    ∃ (v : Bool) (st1 : generate_state),
      (∀ l, select_pending env o (tx :: l) st = select_pending env o l st1) ∧
      st1.skip = (if is_share_fee env tx.tosigned_transaction = true then
          env.skip_transaction_signatures ||| env.skip_tapos_check
        else st.skip) ∧
      st1.transactions = st.transactions ++
        (if v = true then [(env.hash tx.tosigned_transaction, tx)] else []) ∧
      (v = true ↔
        (if o.head_block_num > 0 ∧ tx.agreed_task.isNone = true then
          check_tapos_expiration (decide (st1.skip &&& env.skip_tapos_check = 0))
            tx.tosigned_transaction o
        else none) = none) := by
  cases hf : (if o.head_block_num > 0 ∧ tx.agreed_task.isNone then
      check_tapos_expiration
        (decide ((if is_share_fee env tx.tosigned_transaction then
            env.skip_transaction_signatures ||| env.skip_tapos_check
          else st.skip) &&& env.skip_tapos_check = 0))
        tx.tosigned_transaction o
    else none) with
  | some e =>
    refine ⟨false, { st with skip :=
      (if is_share_fee env tx.tosigned_transaction = true then
        env.skip_transaction_signatures ||| env.skip_tapos_check
      else st.skip) }, fun l => ?_, rfl, by simp, ?_⟩
    · rw [select_pending]
      simp only [h, if_false]
      rw [hf]
    · simp only [hf]
      simp
  | none =>
    refine ⟨true,
      { skip :=
          (if is_share_fee env tx.tosigned_transaction = true then
            env.skip_transaction_signatures ||| env.skip_tapos_check
          else st.skip)
        total_block_size := st.total_block_size + env.pack_size tx
        transactions := st.transactions ++ [(env.hash tx.tosigned_transaction, tx)] },
      fun l => ?_, rfl, by simp, ?_⟩
    · rw [select_pending]
      simp only [h, if_false]
      rw [hf]
    · simp only [hf]

/-- The verdict of one step of the selection loop, read off the transaction:
an agreed task, and any transaction while the head block number is 0, is
taken; another transaction that is taken lies in the expiration window; and
when the TaPoS check is not skipped in the flags before the step and the
transaction is not of the fee-share kind, it is taken exactly when it passes
the TaPoS comparison and lies in the window. -/
theorem verdict_facts (env : Env) (o : object_state) (tx : processed_transaction)
    (skip skip1 : Nat) (v : Bool)
    (h_skip : skip1 = (if is_share_fee env tx.tosigned_transaction = true then
          env.skip_transaction_signatures ||| env.skip_tapos_check
        else skip))
    (h_v : v = true ↔
        (if o.head_block_num > 0 ∧ tx.agreed_task.isNone = true then
          check_tapos_expiration (decide (skip1 &&& env.skip_tapos_check = 0))
            tx.tosigned_transaction o
        else none) = none) :
    ((o.head_block_num = 0 ∨ tx.agreed_task ≠ none) → v = true) ∧
    (o.head_block_num > 0 → tx.agreed_task = none →
      (v = true → o.head_block_time ≤ tx.expiration ∧ tx.expiration ≤ expiration_limit o ∧
        tx.expiration ≤ o.head_block_time + o.maximum_time_until_expiration) ∧
      (¬ (o.head_block_time ≤ tx.expiration ∧
          tx.expiration ≤ o.head_block_time + o.maximum_time_until_expiration) → v = false) ∧
      (skip &&& env.skip_tapos_check = 0 →
        is_share_fee env tx.tosigned_transaction = false →
        (v = true ↔
          (∃ s, o.block_summaries.get? tx.ref_block_num = some s ∧
            signed_transaction.ref_block_prefix tx.tosigned_transaction = s.hash_word1) ∧
          o.head_block_time ≤ tx.expiration ∧ tx.expiration ≤ expiration_limit o))) := by
  have hwin : o.head_block_num > 0 → tx.agreed_task = none → v = true →
      o.head_block_time ≤ tx.expiration ∧ tx.expiration ≤ expiration_limit o ∧
        tx.expiration ≤ o.head_block_time + o.maximum_time_until_expiration := by
    intro hn ha hv
    have hc : o.head_block_num > 0 ∧ tx.agreed_task.isNone = true := by simp [hn, ha]
    rw [if_pos hc] at h_v
    obtain ⟨c1, c2, _⟩ := check_tapos_expiration_none _ _ _ (h_v.mp hv)
    exact ⟨c1, c2, le_trans c2 (Nat.mod_le _ _)⟩
  refine ⟨fun h0 => ?_, fun hn ha => ⟨hwin hn ha, fun hbad => ?_, fun hs hfee => ?_⟩⟩
  · apply h_v.mpr
    rw [if_neg]
    rintro ⟨h1, h2⟩
    rcases h0 with h0 | h0
    · omega
    · exact h0 (by simpa using h2)
  · cases hv : v with
    | false => rfl
    | true =>
      obtain ⟨c1, _, c3⟩ := hwin hn ha hv
      exact absurd ⟨c1, c3⟩ hbad
  · have hc : o.head_block_num > 0 ∧ tx.agreed_task.isNone = true := by simp [hn, ha]
    rw [if_pos hc, h_skip, hfee] at h_v
    simp only [Bool.false_eq_true, if_false, hs, decide_True] at h_v
    rw [h_v, check_tapos_expiration_none_iff]
    simp

/-- Claim C15, counterexample. At head time 2 (head block number 2) the
pending agreed-task transaction that expired at time 1 is placed in the
generated block. -/
theorem generate_block_includes_expired_agreed_task :
    expired_task.expiration < chain_A_task.head_block_time ∧
      chain_A_task.head_block_num > 0 ∧
      ∃ b d, _generate_block env 3 1 77 chain_A_task = .returned b d ∧
        b.transactions = [(9, expired_task)] :=
  ⟨by decide, by decide, _, _, rfl, rfl⟩

/-- Claim C15, amended. The selection loop of `_generate_block` splits the
pending queue into the transactions it examines, each with the verdict whether
it is placed in the block, and the transactions it leaves unexamined, the first
of which would bring the block to the maximum size; the block holds the
examined transactions with a positive verdict, in order. An examined
transaction that is an agreed task is placed in the block without a check, and
so is every examined transaction while the head block number is 0. Otherwise
(head block number above 0, no agreed task) a transaction that is placed in the
block satisfies `now ≤ expiration ≤ now + maximum_time_until_expiration`, one
that fails this window is omitted, and when `skip_tapos_check` is not set in
the flags the loop starts with and neither the transaction nor a transaction
before it in the queue is of the fee-share kind, the transaction is placed in
the block exactly when it passes the TaPoS comparison and lies in the window
(so one that fails TaPoS is omitted and one that is included satisfies it). -/
theorem select_pending_revalidates (env : Env) (o : object_state)
    (pending : List processed_transaction) (st : generate_state) :
    ∃ (examined : List (processed_transaction × Bool))
      (unexamined : List processed_transaction),
      pending = examined.map (fun x => x.1) ++ unexamined ∧
      (∀ t, unexamined.head? = some t →
        (select_pending env o pending st).total_block_size + env.pack_size t ≥
          o.maximum_block_size) ∧
      (select_pending env o pending st).transactions =
        st.transactions ++ (examined.filter (fun x => x.2)).map
          (fun x => (env.hash x.1.tosigned_transaction, x.1)) ∧
      ∀ pre tx v post, examined = pre ++ (tx, v) :: post →
        ((o.head_block_num = 0 ∨ tx.agreed_task ≠ none) → v = true) ∧
        (o.head_block_num > 0 → tx.agreed_task = none →
          (v = true →
            o.head_block_time ≤ tx.expiration ∧ tx.expiration ≤ expiration_limit o ∧
            tx.expiration ≤ o.head_block_time + o.maximum_time_until_expiration) ∧
          (¬ (o.head_block_time ≤ tx.expiration ∧
              tx.expiration ≤ o.head_block_time + o.maximum_time_until_expiration) →
            v = false) ∧
          (st.skip &&& env.skip_tapos_check = 0 →
            (∀ y ∈ pre, is_share_fee env y.1.tosigned_transaction = false) →
            is_share_fee env tx.tosigned_transaction = false →
            (v = true ↔
              (∃ s, o.block_summaries.get? tx.ref_block_num = some s ∧
                signed_transaction.ref_block_prefix tx.tosigned_transaction =
                  s.hash_word1) ∧
              o.head_block_time ≤ tx.expiration ∧ tx.expiration ≤ expiration_limit o))) := by
  induction pending generalizing st with
  | nil =>
    refine ⟨[], [], rfl, by simp, by simp [select_pending], ?_⟩
    intro pre tx v post hp
    simp at hp
  | cons t rest ih =>
    by_cases h : st.total_block_size + env.pack_size t ≥ o.maximum_block_size
    · have hs : select_pending env o (t :: rest) st = st := by
        rw [select_pending]; simp only [h, if_true]
      refine ⟨[], t :: rest, rfl, ?_, by simp [hs], ?_⟩
      · intro t1 ht1
        simp only [List.head?_cons, Option.some.injEq] at ht1
        rw [hs, ← ht1]
        exact h
      · intro pre tx v post hp
        simp at hp
    · obtain ⟨v0, st1, hstep, hskip, htx, hv⟩ := select_pending_verdict env o t st h
      obtain ⟨ex, un, hsplit, hun, hres, hall⟩ := ih st1
      refine ⟨(t, v0) :: ex, un, by rw [hsplit]; rfl, ?_, ?_, ?_⟩
      · intro t1 ht1
        rw [hstep]
        exact hun t1 ht1
      · rw [hstep, hres, htx]
        cases v0 <;> simp
      · intro pre tx v post hp
        cases pre with
        | nil =>
          simp only [List.nil_append, List.cons.injEq, Prod.mk.injEq] at hp
          obtain ⟨⟨e1, e2⟩, _⟩ := hp
          subst e1 e2
          obtain ⟨f1, f2⟩ := verdict_facts env o t st.skip st1.skip v0 hskip hv
          refine ⟨f1, fun hn ha => ?_⟩
          obtain ⟨g1, g2, g3⟩ := f2 hn ha
          exact ⟨g1, g2, fun hs _ hfee => g3 hs hfee⟩
        | cons x pre1 =>
          simp only [List.cons_append, List.cons.injEq] at hp
          obtain ⟨e1, e2⟩ := hp
          obtain ⟨f1, f2⟩ := hall pre1 tx v post e2
          refine ⟨f1, fun hn ha => ?_⟩
          obtain ⟨g1, g2, g3⟩ := f2 hn ha
          refine ⟨g1, g2, fun hs hpre hfee => ?_⟩
          have hx : is_share_fee env t.tosigned_transaction = false := by
            have := hpre x (List.mem_cons_self _ _)
            rw [← e1] at this
            exact this
          refine g3 ?_ (fun y hy => hpre y (List.mem_cons_of_mem _ hy)) hfee
          rw [hskip, hx]
          simpa using hs

theorem select_pending_revalidates_witness :
    (select_pending env late_state [bad_prefix_tx, fee_share_tx, bad_prefix_tx]
      { skip := 0, total_block_size := 100, transactions := [] }).transactions =
        [(9, fee_share_tx), (7, bad_prefix_tx)] ∧
    ∃ (examined : List (processed_transaction × Bool))
      (unexamined : List processed_transaction),
      [bad_prefix_tx, fee_share_tx, bad_prefix_tx] = examined.map (fun x => x.1) ++ unexamined ∧
      (∀ t, unexamined.head? = some t →
        (select_pending env late_state [bad_prefix_tx, fee_share_tx, bad_prefix_tx]
          { skip := 0, total_block_size := 100, transactions := [] }).total_block_size +
            env.pack_size t ≥ late_state.maximum_block_size) ∧
      (select_pending env late_state [bad_prefix_tx, fee_share_tx, bad_prefix_tx]
        { skip := 0, total_block_size := 100, transactions := [] }).transactions =
        [] ++ (examined.filter (fun x => x.2)).map
          (fun x => (env.hash x.1.tosigned_transaction, x.1)) ∧
      ∀ pre tx v post, examined = pre ++ (tx, v) :: post →
        ((late_state.head_block_num = 0 ∨ tx.agreed_task ≠ none) → v = true) ∧
        (late_state.head_block_num > 0 → tx.agreed_task = none →
          (v = true →
            late_state.head_block_time ≤ tx.expiration ∧
            tx.expiration ≤ expiration_limit late_state ∧
            tx.expiration ≤
              late_state.head_block_time + late_state.maximum_time_until_expiration) ∧
          (¬ (late_state.head_block_time ≤ tx.expiration ∧
              tx.expiration ≤
                late_state.head_block_time + late_state.maximum_time_until_expiration) →
            v = false) ∧
          ((0 : Nat) &&& env.skip_tapos_check = 0 →
            (∀ y ∈ pre, is_share_fee env y.1.tosigned_transaction = false) →
            is_share_fee env tx.tosigned_transaction = false →
            (v = true ↔
              (∃ s, late_state.block_summaries.get? tx.ref_block_num = some s ∧
                signed_transaction.ref_block_prefix tx.tosigned_transaction =
                  s.hash_word1) ∧
              late_state.head_block_time ≤ tx.expiration ∧
              tx.expiration ≤ expiration_limit late_state))) :=
  ⟨by decide,
    select_pending_revalidates env late_state [bad_prefix_tx, fee_share_tx, bad_prefix_tx]
      { skip := 0, total_block_size := 100, transactions := [] }⟩

end database

namespace database
open scenario

/-- Claim C16, counterexample. The checkpoint map is not empty and block 3 is
below its highest block number 5, but the id of that highest checkpoint is the
all-zero id: `_apply_block` runs with the flags 0 the caller passed. -/
theorem apply_block_keeps_skip_under_zero_checkpoint :
    zero_checkpoint.checkpoints ≠ [] ∧ A3.block_num ≤ 5 ∧
      (apply_block applier A3 0 zero_checkpoint).db.trace.head? = some (._apply_block A3 0) :=
  ⟨by decide, by decide, by decide⟩

/-- Claim C16, amended. When the checkpoint with the highest block number
carries an id other than the all-zero id, the number of the block is at most
that highest number, and the block matches the checkpoint at its own number
(if there is one), `apply_block` runs `_apply_block` with the skip flags
`0xffffffff`, whatever flags the caller passed, and puts the old flags back. -/
theorem apply_block_forces_skip_below_checkpoint (a : Applier) (next_block : signed_block)
    (skip : Nat) (db : database) (last : Nat × block_id_type)
    (h_last : checkpoints_rbegin db.checkpoints = some last)
    (h_id : last.2 ≠ {})
    (h_num : next_block.block_num ≤ last.1)
    (h_match : ∀ id, db.checkpoints.lookup next_block.block_num = some id →
      next_block.block_id = id) :
    apply_block a next_block skip db =
      with_skip_flags 0xffffffff (_apply_block a next_block) db ∧
    (apply_block a next_block skip db).db.skip_flags = db.skip_flags := by
  have h1 : apply_block a next_block skip db =
      with_skip_flags 0xffffffff (_apply_block a next_block) db := by
    unfold apply_block
    simp only [h_last, h_id, ne_eq, not_false_eq_true, if_true]
    cases hl : db.checkpoints.lookup next_block.block_num with
    | none => simp [h_num]
    | some id => simp [h_match id hl, h_num]
  refine ⟨h1, ?_⟩
  rw [h1]
  unfold with_skip_flags
  split <;> rfl

theorem apply_block_forces_skip_below_checkpoint_witness :
    apply_block applier A3 0 one_checkpoint =
      with_skip_flags 0xffffffff (_apply_block applier A3) one_checkpoint ∧
    (apply_block applier A3 0 one_checkpoint).db.skip_flags = one_checkpoint.skip_flags :=
  apply_block_forces_skip_below_checkpoint applier A3 0 one_checkpoint (3, id3)
    (by decide) (by decide) (by decide) (by decide)

/-- Claim C17, counterexample. Block number 3 is a key of the checkpoint map
and the id of the block differs from the id mapped to 3, but the checkpoint
with the highest block number carries the all-zero id: `apply_block` makes no
comparison and runs `_apply_block`. -/
theorem apply_block_ignores_mismatch_under_zero_checkpoint :
    zero_last_checkpoint.checkpoints.lookup A3_bad.block_num = some id3 ∧
      A3_bad.block_id ≠ id3 ∧
      (apply_block applier A3_bad 0 zero_last_checkpoint).db.trace.head? =
        some (._apply_block A3_bad 0) :=
  ⟨by decide, by decide, by decide⟩

/-- Claim C17, amended. When the checkpoint with the highest block number
carries an id other than the all-zero id and the number of the block is a key
of the checkpoint map, `apply_block` fails on a block whose id differs from the
mapped id; `_apply_block` is not called and the database is left as it was. -/
theorem apply_block_rejects_checkpoint_mismatch (a : Applier) (next_block : signed_block)
    (skip : Nat) (db : database) (last : Nat × block_id_type) (id : block_id_type)
    (h_last : checkpoints_rbegin db.checkpoints = some last)
    (h_id : last.2 ≠ {})
    (h_key : db.checkpoints.lookup next_block.block_num = some id)
    (h_differs : next_block.block_id ≠ id) :
    apply_block a next_block skip db = .thrown (.fc_assert 595) db := by
  unfold apply_block
  simp [h_last, h_id, h_key, h_differs]

theorem apply_block_rejects_checkpoint_mismatch_witness :
    apply_block applier A3_bad 0 one_checkpoint = .thrown (.fc_assert 595) one_checkpoint :=
  apply_block_rejects_checkpoint_mismatch applier A3_bad 0 one_checkpoint (3, id3) id3
    (by decide) (by decide) (by decide) (by decide)

end database

namespace database
open scenario

/-- The entry of `n` after the assignment `_checkpoints[k] = v`. -/
theorem lookup_checkpoints_set (n k : Nat) (v : block_id_type)
    (m : List (Nat × block_id_type)) :
    (checkpoints_set k v m).lookup n = if n = k then some v else m.lookup n := by
  unfold checkpoints_set
  by_cases h : n = k
  · subst h
    simp [List.lookup]
  · have h' : (n == k) = false := by simpa using h
    rw [List.lookup, h', if_neg h]
    simp only []
    induction m with
    | nil => rfl
    | cons e rest ih =>
      by_cases he : e.1 = k
      · have hne : (n == e.1) = false := by simpa [he] using h
        rw [List.filter_cons_of_neg (by simpa using he), ih]
        obtain ⟨e1, e2⟩ := e
        simp only at hne
        simp [List.lookup, hne]
      · rw [List.filter_cons_of_pos (by simpa using he)]
        obtain ⟨e1, e2⟩ := e
        simp only [List.lookup]
        split
        · rfl
        · exact ih

/-- The entry of `n` after `add_checkpoints`: the last entry for `n` among the
added ones, or else the entry the map held before. -/
theorem lookup_add_checkpoints (n : Nat) (checkpts : List (Nat × block_id_type))
    (db : database) :
    (add_checkpoints checkpts db).checkpoints.lookup n =
      (checkpts.reverse.lookup n).or (db.checkpoints.lookup n) := by
  unfold add_checkpoints
  simp only
  generalize db.checkpoints = m
  induction checkpts generalizing m with
  | nil => simp [List.lookup]
  | cons c rest ih =>
    rw [List.foldl_cons, ih, lookup_checkpoints_set]
    obtain ⟨c1, c2⟩ := c
    simp only [List.reverse_cons]
    cases hr : rest.reverse.lookup n with
    | some v =>
      have : (rest.reverse ++ [(c1, c2)]).lookup n = some v := by
        rw [List.lookup_append, hr]; rfl
      rw [this]; rfl
    | none =>
      have : (rest.reverse ++ [(c1, c2)]).lookup n = [(c1, c2)].lookup n := by
        rw [List.lookup_append, hr]; rfl
      rw [this]
      by_cases h : n = c1
      · subst h; simp [List.lookup]
      · have h' : (n == c1) = false := by simpa using h
        simp [List.lookup, h', h]

/-- Claim C18, counterexample. Block number 3 is a key of the checkpoint map
before and after `add_checkpoints`, but the call replaces the id mapped to it. -/
theorem add_checkpoints_overwrites_existing_key :
    one_checkpoint.checkpoints.lookup 3 = some id3 ∧
      (add_checkpoints [(3, ⟨3, 11⟩)] one_checkpoint).checkpoints.lookup 3 = some ⟨3, 11⟩ :=
  ⟨by decide, by decide⟩

/-- Claim C18, amended. After `add_checkpoints(c)` every block number that was
a key of the checkpoint map is still a key; it maps to the same block id when
`c` has no entry for it, and to the id of the last entry of `c` for it
otherwise. Every other key of the map after the call is a key of `c`. -/
theorem add_checkpoints_keeps_keys (checkpts : List (Nat × block_id_type)) (db : database)
    (n : Nat) :
    (∀ id, db.checkpoints.lookup n = some id →
      ((add_checkpoints checkpts db).checkpoints.lookup n).isSome = true ∧
      (checkpts.reverse.lookup n = none →
        (add_checkpoints checkpts db).checkpoints.lookup n = some id)) ∧
    (∀ id, checkpts.reverse.lookup n = some id →
      (add_checkpoints checkpts db).checkpoints.lookup n = some id) ∧
    (db.checkpoints.lookup n = none → checkpts.reverse.lookup n = none →
      (add_checkpoints checkpts db).checkpoints.lookup n = none) := by
  rw [lookup_add_checkpoints]
  refine ⟨fun id h => ⟨?_, fun hc => by simp [hc, h]⟩, fun id h => by simp [h],
    fun h hc => by simp [h, hc]⟩
  cases hc : checkpts.reverse.lookup n <;> simp [h]

end database

namespace database
open scenario

/-- For a block whose witness object exists, `validate_block_header` returns
iff the four checks pass, and it returns that witness object. -/
theorem validate_block_header_known (a : Applier) (skip : Nat)
    (next_block : signed_block) (db : database) (signing_key : Nat)
    (h_witness : db.objs.witnesses.lookup next_block.witness = some signing_key) :
    ((∃ w, validate_block_header a skip next_block db = .ok w) ↔
      (db.head_block_id = next_block.previous ∧
        db.head_block_time < next_block.timestamp ∧
        (skip &&& a.skip_witness_signature ≠ 0 ∨
          a.validate_signee next_block signing_key = true) ∧
        (skip &&& a.skip_witness_schedule_check ≠ 0 ∨
          (a.get_slot_at_time db.objs next_block.timestamp > 0 ∧
            next_block.witness =
              a.get_scheduled_witness db.objs
                (a.get_slot_at_time db.objs next_block.timestamp))))) ∧
    (∀ w, validate_block_header a skip next_block db = .ok w →
      w = (next_block.witness, signing_key)) := by
  unfold validate_block_header
  simp only [h_witness]
  by_cases h1 : db.head_block_id = next_block.previous
  · by_cases h2 : db.head_block_time < next_block.timestamp
    · by_cases h3 : skip &&& a.skip_witness_signature = 0
      · by_cases h3' : a.validate_signee next_block signing_key = true
        · by_cases h4 : skip &&& a.skip_witness_schedule_check = 0
          · by_cases h5 : a.get_slot_at_time db.objs next_block.timestamp > 0
            · by_cases h6 : next_block.witness =
                a.get_scheduled_witness db.objs
                  (a.get_slot_at_time db.objs next_block.timestamp)
              · simp [h1, h2, h3, h3', h4, h5, ← h6]
              · simp [h1, h2, h3, h3', h4, h5, h6]
            · simp [h1, h2, h3, h3', h4, h5]
          · simp [h1, h2, h3, h3', h4]
        · simp [h1, h2, h3, h3']
      · by_cases h4 : skip &&& a.skip_witness_schedule_check = 0
        · by_cases h5 : a.get_slot_at_time db.objs next_block.timestamp > 0
          · by_cases h6 : next_block.witness =
              a.get_scheduled_witness db.objs
                (a.get_slot_at_time db.objs next_block.timestamp)
            · simp [h1, h2, h3, h4, h5, ← h6]
            · simp [h1, h2, h3, h4, h5, h6]
          · simp [h1, h2, h3, h4, h5]
        · simp [h1, h2, h3, h4]
    · simp [h1, h2]
  · simp [h1]

/-- A block whose witness object does not exist is rejected by
`validate_block_header`, whatever the skip flags. -/
theorem validate_block_header_unknown (a : Applier) (skip : Nat)
    (next_block : signed_block) (db : database)
    (h_witness : db.objs.witnesses.lookup next_block.witness = none) :
    ∃ e, validate_block_header a skip next_block db = .error e := by
  unfold validate_block_header
  simp only [h_witness]
  split
  · exact ⟨_, rfl⟩
  · split
    · exact ⟨_, rfl⟩
    · exact ⟨_, rfl⟩

/-- Claim C19, counterexample. With the witness signature and the schedule
check both skipped, the head id equal to the block's `previous` and the head
time before the block's timestamp, the four conditions of the claim hold for a
block whose `witness` names no witness object; `validate_block_header` rejects
it at the lookup of the witness object (line 968). -/
theorem validate_block_header_rejects_unknown_witness :
    chain_A.head_block_id = ({ A3 with witness := 5 } : signed_block).previous ∧
      chain_A.head_block_time < ({ A3 with witness := 5 } : signed_block).timestamp ∧
      (applier.skip_witness_signature ||| applier.skip_witness_schedule_check) &&&
        applier.skip_witness_signature ≠ 0 ∧
      (applier.skip_witness_signature ||| applier.skip_witness_schedule_check) &&&
        applier.skip_witness_schedule_check ≠ 0 ∧
      chain_A.objs.witnesses.lookup 5 = none ∧
      validate_block_header applier
        (applier.skip_witness_signature ||| applier.skip_witness_schedule_check)
        { A3 with witness := 5 } chain_A = .error (.fc_assert 968) :=
  ⟨by decide, by decide, by decide, by decide, by decide, rfl⟩

/-- Claim C19, amended. The call `validate_block_header` accepts a block iff
the head id is the block's `previous`, the head time is before the block's
timestamp, the witness object of the block's `witness` exists, the witness
signature is skipped or the block is signed by the signing key of that object,
and the schedule check is skipped or the slot of the timestamp is above 0 and
the block's witness is the one scheduled for it; on acceptance it returns that
witness object. -/
theorem validate_block_header_accepts_iff (a : Applier) (skip : Nat)
    (next_block : signed_block) (db : database) :
    ((∃ w, validate_block_header a skip next_block db = .ok w) ↔
      (db.head_block_id = next_block.previous ∧
        db.head_block_time < next_block.timestamp ∧
        ∃ signing_key, db.objs.witnesses.lookup next_block.witness = some signing_key ∧
          (skip &&& a.skip_witness_signature ≠ 0 ∨
            a.validate_signee next_block signing_key = true) ∧
          (skip &&& a.skip_witness_schedule_check ≠ 0 ∨
            (a.get_slot_at_time db.objs next_block.timestamp > 0 ∧
              next_block.witness =
                a.get_scheduled_witness db.objs
                  (a.get_slot_at_time db.objs next_block.timestamp))))) ∧
    (∀ w, validate_block_header a skip next_block db = .ok w →
      w.1 = next_block.witness ∧ db.objs.witnesses.lookup next_block.witness = some w.2) := by
  cases hl : db.objs.witnesses.lookup next_block.witness with
  | none =>
    obtain ⟨e, he⟩ := validate_block_header_unknown a skip next_block db hl
    rw [he]
    refine ⟨⟨fun ⟨w, hw⟩ => by simp at hw, fun ⟨_, _, k, hk, _⟩ => by simp at hk⟩, ?_⟩
    intro w hw
    simp at hw
  | some k =>
    obtain ⟨hiff, hw⟩ := validate_block_header_known a skip next_block db k hl
    refine ⟨hiff.trans ⟨fun ⟨h1, h2, h3, h4⟩ => ⟨h1, h2, k, rfl, h3, h4⟩, ?_⟩, ?_⟩
    · rintro ⟨h1, h2, k2, hk, h3, h4⟩
      simp only [Option.some.injEq] at hk
      subst hk
      exact ⟨h1, h2, h3, h4⟩
    · intro w h
      rw [hw w h]
      exact ⟨rfl, rfl⟩

theorem validate_block_header_accepts_iff_witness :
    (∃ w, validate_block_header applier 0 { A3 with witness := 1 } chain_A = .ok w) ∧
    ((1, 77) : Nat × Nat).1 = ({ A3 with witness := 1 } : signed_block).witness ∧
      chain_A.objs.witnesses.lookup ({ A3 with witness := 1 } : signed_block).witness =
        some ((1, 77) : Nat × Nat).2 :=
  ⟨(validate_block_header_accepts_iff applier 0 { A3 with witness := 1 } chain_A).1.2
      ⟨by decide, by decide, 77, by decide, Or.inr (by decide),
        Or.inr ⟨by decide, by decide⟩⟩,
    (validate_block_header_accepts_iff applier 0 { A3 with witness := 1 } chain_A).2
      (1, 77) rfl⟩

end database

namespace database
open scenario

/-- Where the product `maximum_block_size * percent` stays below `2 ^ 32` and
the divisor is 100, the size limit is `maximum_block_size * percent / 100`. -/
theorem trx_size_limit_without_wrap (a : Applier) (db : database)
    (h_div : a.GRAPHENE_FULL_PROPOTION = 100)
    (h_small : db.objs.maximum_block_size * op_maxsize_percent db < 2 ^ 32) :
    trx_size_limit a db = db.objs.maximum_block_size * op_maxsize_percent db / 100 := by
  unfold trx_size_limit
  simp only [h_div, Nat.mod_eq_of_lt h_small]
  rw [if_pos]
  have : db.objs.maximum_block_size * op_maxsize_percent db / 100 ≤ 2 ^ 32 / 100 :=
    Nat.div_le_div_right (le_of_lt h_small)
  have h2 : 2 ^ 32 / 100 < 2 ^ 31 := by norm_num
  omega

/-- Claim C20, failing input. With `maximum_block_size` 42949673 and 100
percent the limit of the claim is 42949673 bytes, so a transaction of packed
size 10 passes; the 32-bit product wraps to 4, the limit computed by the code
is 0 and the transaction is rejected by the size check. -/
theorem size_limit_wraps_around :
    applier.pack_size_trx (tx 7).tosigned_transaction <
        big_block.objs.maximum_block_size * 100 / 100 ∧
      op_maxsize_percent big_block = 100 ∧
      trx_size_limit applier big_block = 0 ∧
      _apply_transaction applier (tx 7) .push_mode false big_block =
        .thrown (.fc_assert 704) big_block :=
  ⟨by decide, by decide, by decide, by decide⟩

end database

namespace database

/-- The clock after one read. -/
theorem read_clock_snd (db : database) :
    db.read_clock.2 = { db with wall_clock := db.wall_clock.tail } := by
  unfold read_clock
  cases h : db.wall_clock <;> simp [h]
  cases db; simp_all

/-- The value of one read of the clock. -/
theorem read_clock_fst (db : database) : db.read_clock.1 = db.wall_clock.headD 0 := by
  unfold read_clock
  cases h : db.wall_clock <;> simp [h]

/-- Recording an operation and its result appends one entry that carries the
current position counters. -/
theorem push_and_set_result (op : operation) (result : operation_result) (db : database) :
    set_applied_operation_result (push_applied_operation op db).1 result
        (push_applied_operation op db).2 =
      { db with
        applied_ops := db.applied_ops ++
          [some { op := op, result := result, block_num := db.current_block_num,
                  trx_in_block := db.current_trx_in_block,
                  op_in_trx := db.current_op_in_trx,
                  virtual_op := db.current_virtual_op }]
        current_virtual_op := db.current_virtual_op + 1 } := by
  unfold set_applied_operation_result push_applied_operation
  simp

end database

namespace database
open scenario

/-- `apply_operation` when the evaluator returns a result: the mutations of
the evaluator are kept and the operation is recorded with the result. -/
theorem apply_operation_ok (a : Applier) (eval_state : transaction_evaluation_state)
    (op : operation) (is_agreed_task : Bool) (db : database) (result : operation_result)
    (o : object_state) (h : a.evaluate eval_state op db.objs = (.ok result, o)) :
    apply_operation a eval_state op is_agreed_task db = .returned result
      { db with
        objs := o
        wall_clock := db.wall_clock.tail
        applied_ops := db.applied_ops ++
          [some { op := op, result := result, block_num := db.current_block_num,
                  trx_in_block := db.current_trx_in_block,
                  op_in_trx := db.current_op_in_trx,
                  virtual_op := db.current_virtual_op }]
        current_virtual_op := db.current_virtual_op + 1
        trace := db.trace ++ [.start_undo_session, .evaluate op, .merge] } := by
  unfold apply_operation
  simp only [read_clock_snd, start_undo_session, log, h, push_and_set_result, merge]
  simp

/-- `apply_operation` when the evaluator throws in an agreed task. -/
theorem apply_operation_captured (a : Applier) (eval_state : transaction_evaluation_state)
    (op : operation) (db : database) (e : exception)
    (o : object_state) (h : a.evaluate eval_state op db.objs = (.error e, o)) :
    apply_operation a eval_state op true db =
      .returned
        (.error_result (a.exception_code e) (a.exception_to_string e)
          (db.wall_clock.tail.headD 0 - db.wall_clock.headD 0))
        { db with
          wall_clock := db.wall_clock.tail.tail
          applied_ops := db.applied_ops ++
            [some { op := op
                    result := .error_result (a.exception_code e) (a.exception_to_string e)
                      (db.wall_clock.tail.headD 0 - db.wall_clock.headD 0)
                    block_num := db.current_block_num
                    trx_in_block := db.current_trx_in_block
                    op_in_trx := db.current_op_in_trx
                    virtual_op := db.current_virtual_op }]
          current_virtual_op := db.current_virtual_op + 1
          trace := db.trace ++ [.start_undo_session, .evaluate op, .undo] } := by
  unfold apply_operation
  simp only [read_clock_snd, read_clock_fst, start_undo_session, log, h, undo,
    push_and_set_result, if_true]
  simp

/-- `apply_operation` when the evaluator throws outside an agreed task. -/
theorem apply_operation_thrown (a : Applier) (eval_state : transaction_evaluation_state)
    (op : operation) (db : database) (e : exception)
    (o : object_state) (h : a.evaluate eval_state op db.objs = (.error e, o)) :
    apply_operation a eval_state op false db =
      .thrown e
        { db with
          undo_enabled := true
          wall_clock := db.wall_clock.tail
          trace := db.trace ++ [.start_undo_session, .evaluate op, .undo] } := by
  unfold apply_operation
  simp only [read_clock_snd, start_undo_session, log, h, undo]
  simp

end database

namespace database
open scenario

/-- Claim C25. When the evaluator throws in `apply_operation`: for an agreed
task the call returns an `error_result` with the code and message of the
exception, the object state and the undo stack are as before the operation
(the session of the operation is undone, the mutations the evaluator made are
gone) and exactly one applied-operation record, carrying that result, is
appended; otherwise the exception leaves the call, no record is appended and
the object state and undo stack are as before the operation. -/
theorem apply_operation_evaluator_throws (a : Applier)
    (eval_state : transaction_evaluation_state) (op : operation) (db : database)
    (e : exception) (o : object_state)
    (h : a.evaluate eval_state op db.objs = (.error e, o)) :
    (∃ t, apply_operation a eval_state op true db =
      .returned (.error_result (a.exception_code e) (a.exception_to_string e) t)
        { db with
          wall_clock := db.wall_clock.tail.tail
          applied_ops := db.applied_ops ++
            [some { op := op
                    result := .error_result (a.exception_code e) (a.exception_to_string e) t
                    block_num := db.current_block_num
                    trx_in_block := db.current_trx_in_block
                    op_in_trx := db.current_op_in_trx
                    virtual_op := db.current_virtual_op }]
          current_virtual_op := db.current_virtual_op + 1
          trace := db.trace ++ [.start_undo_session, .evaluate op, .undo] }) ∧
    apply_operation a eval_state op false db =
      .thrown e
        { db with
          undo_enabled := true
          wall_clock := db.wall_clock.tail
          trace := db.trace ++ [.start_undo_session, .evaluate op, .undo] } :=
  ⟨⟨_, apply_operation_captured a eval_state op db e o h⟩,
    apply_operation_thrown a eval_state op db e o h⟩

theorem apply_operation_evaluator_throws_witness :
    (∃ t, apply_operation applier {} failing_op true late =
      .returned (.error_result 5 1005 t)
        { late with
          wall_clock := []
          applied_ops := [some { op := failing_op, result := .error_result 5 1005 t }]
          current_virtual_op := 1
          trace := [.start_undo_session, .evaluate failing_op, .undo] }) ∧
    apply_operation applier {} failing_op false late =
      .thrown (.evaluation 5)
        { late with
          wall_clock := [15]
          trace := [.start_undo_session, .evaluate failing_op, .undo] } :=
  apply_operation_evaluator_throws applier {} failing_op late (.evaluation 5)
    { late_state with next_maintenance_time := 99 } rfl

end database

namespace database
open scenario

/-- What passed TaPoS and expiration checks of `_apply_transaction` tell. -/
theorem check_tapos_none (a : Applier) (skip : Nat) (trx : signed_transaction) (now : Nat)
    (db : database) (h : check_tapos a skip trx now db = none) :
    now ≤ trx.expiration ∧
      trx.expiration ≤ (now + db.objs.maximum_time_until_expiration) % 2 ^ 32 ∧
      (skip &&& a.skip_tapos_check = 0 →
        ∃ s, db.objs.block_summaries.get? trx.ref_block_num = some s ∧
          signed_transaction.ref_block_prefix trx = s.hash_word1) := by
  unfold check_tapos at h
  simp only at h
  split at h
  · simp at h
  · rename_i ht
    split at h
    · simp at h
    · split at h
      · simp at h
      · rename_i h1 h2
        refine ⟨by omega, by omega, fun hs => ?_⟩
        simp only [hs, if_true] at ht
        split at ht
        · simp at ht
        · rename_i s hsum
          split at ht
          · exact ⟨s, hsum, by assumption⟩
          · simp at ht

/-- The shape of `_apply_transaction` on a transaction that is not an agreed
task: every check that fails throws with the database as it was. -/
theorem _apply_transaction_plain (a : Applier) (trx : processed_transaction)
    (run_mode : transaction_apply_mode) (only_try_permissions : Bool) (db : database)
    (h_task : trx.agreed_task = none) :
    (∃ e, _apply_transaction a trx run_mode only_try_permissions db = .thrown e db) ∨
    (a.pack_size_trx trx.tosigned_transaction < trx_size_limit a db ∧
      (is_share_fee a.toEnv trx.tosigned_transaction = false →
        effective_skip a trx.tosigned_transaction db &&& a.skip_transaction_dupe_check = 0 →
        (db.objs.transaction_index.find? (fun t => decide (t.trx_id =
          a.id trx.tosigned_transaction (a.hash trx.tosigned_transaction)))) = none) ∧
      (db.head_block_num > 0 →
        check_tapos a (effective_skip a trx.tosigned_transaction db) trx.tosigned_transaction
          db.head_block_time db = none) ∧
      _apply_transaction a trx run_mode only_try_permissions db =
        (let db2 := create_records a (effective_skip a trx.tosigned_transaction db)
            trx.tosigned_transaction (a.hash trx.tosigned_transaction)
            (a.id trx.tosigned_transaction (a.hash trx.tosigned_transaction)) run_mode db
        let ptrx : processed_transaction :=
          { tosigned_transaction := trx.tosigned_transaction, operation_results := [] }
        if only_try_permissions then .returned (ptrx, run_mode) db2
        else
          match apply_operations a
              { _trx := trx, run_mode := run_mode
                skip := effective_skip a trx.tosigned_transaction db
                is_agreed_task := false }
              ptrx.operations { run_mode := run_mode }
              { db2 with current_op_in_trx := 0 } with
          | .thrown e db3 => .thrown e db3
          | .returned st db3 =>
            .returned ({ ptrx with operation_results := st.operation_results }, st.run_mode)
              db3)) := by
  unfold _apply_transaction
  simp only []
  by_cases h1 : a.pack_size_trx trx.tosigned_transaction < trx_size_limit a db
  · simp only [h1, not_true_eq_false, if_false]
    split
    · exact Or.inl ⟨_, rfl⟩
    · split
      · exact Or.inl ⟨_, rfl⟩
      · rename_i hd
        have auth :
            (∃ e, check_authority a trx.tosigned_transaction
                (effective_skip a trx.tosigned_transaction db)
                (a.hash trx.tosigned_transaction) db.head_block_time db = .error e) ∨
              check_authority a trx.tosigned_transaction
                (effective_skip a trx.tosigned_transaction db)
                (a.hash trx.tosigned_transaction) db.head_block_time db =
                .ok (db, false, none) := by
          unfold check_authority
          simp only [h_task]
          split
          · split
            · exact Or.inl ⟨_, rfl⟩
            · exact Or.inr rfl
          · exact Or.inr rfl
        rcases auth with ⟨e, he⟩ | he
        · left
          refine ⟨e, ?_⟩
          simp only [he]
        · simp only [he]
          by_cases hh : db.head_block_num > 0
          · cases hc : check_tapos a (effective_skip a trx.tosigned_transaction db)
                trx.tosigned_transaction db.head_block_time db with
            | some e =>
              left
              exact ⟨e, by simp [hh, hc]⟩
            | none =>
              right
              refine ⟨trivial, ?_, fun _ => rfl, ?_⟩
              · intro hf hs
                by_contra hne
                apply hd
                refine ⟨by simp [hf], hs, ?_⟩
                cases hx : db.objs.transaction_index.find? (fun t => decide (t.trx_id =
                  a.id trx.tosigned_transaction (a.hash trx.tosigned_transaction))) with
                | none => exact absurd hx hne
                | some v => rfl
              · simp [hh, hc, finish_crontab]
          · right
            refine ⟨trivial, ?_, fun h => absurd h hh, ?_⟩
            · intro hf hs
              by_contra hne
              apply hd
              refine ⟨by simp [hf], hs, ?_⟩
              cases hx : db.objs.transaction_index.find? (fun t => decide (t.trx_id =
                a.id trx.tosigned_transaction (a.hash trx.tosigned_transaction))) with
              | none => exact absurd hx hne
              | some v => rfl
            · simp [hh, finish_crontab]
  · left
    exact ⟨.fc_assert 704, by simp [h1]⟩

end database

namespace database
open scenario

/-- Masking a 16-bit number with `0xFFFF` leaves it as it is. -/
theorem and_0xffff_of_lt (n : Nat) (h : n < 2 ^ 16) : n &&& 0xFFFF = n := by
  have h1 : n &&& 0xFFFF = n % 2 ^ 16 := Nat.and_pow_two_sub_one_eq_mod n 16
  rw [h1, Nat.mod_eq_of_lt h]

/-- Claim C22. For a transaction that is not an agreed task, applied while the
head block number is above 0 and with `skip_tapos_check` clear in the flags in
effect, `_apply_transaction` returns only if `ref_block_prefix` equals the
second 32-bit word of the block id in the block summary at
`ref_block_num & 0xFFFF`; if that summary holds a different word, the call
throws and leaves the database as it was. -/
theorem apply_transaction_checks_tapos (a : Applier) (trx : processed_transaction)
    (run_mode : transaction_apply_mode) (only_try_permissions : Bool) (db : database)
    (h_task : trx.agreed_task = none)
    (h_ref : trx.ref_block_num < 2 ^ 16)
    (h_head : db.head_block_num > 0)
    (h_skip : effective_skip a trx.tosigned_transaction db &&& a.skip_tapos_check = 0) :
    (∀ r d, _apply_transaction a trx run_mode only_try_permissions db = .returned r d →
      ∃ s, db.objs.block_summaries.get? (trx.ref_block_num &&& 0xFFFF) = some s ∧
        signed_transaction.ref_block_prefix trx.tosigned_transaction = s.hash_word1) ∧
    (∀ s, db.objs.block_summaries.get? (trx.ref_block_num &&& 0xFFFF) = some s →
      signed_transaction.ref_block_prefix trx.tosigned_transaction ≠ s.hash_word1 →
      ∃ e, _apply_transaction a trx run_mode only_try_permissions db = .thrown e db) := by
  rw [and_0xffff_of_lt _ h_ref]
  rcases _apply_transaction_plain a trx run_mode only_try_permissions db h_task with
    ⟨e, he⟩ | ⟨_, _, hc, _⟩
  · exact ⟨fun r d hr => by rw [he] at hr; simp at hr, fun _ _ _ => ⟨e, he⟩⟩
  · obtain ⟨_, _, ht⟩ := check_tapos_none _ _ _ _ _ (hc h_head)
    obtain ⟨s, hs, hp⟩ := ht h_skip
    refine ⟨fun _ _ _ => ⟨s, hs, hp⟩, fun s' hs' hne => ?_⟩
    rw [hs] at hs'
    simp only [Option.some.injEq] at hs'
    rw [hs'] at hp
    exact absurd hp hne

theorem apply_transaction_checks_tapos_witness :
    (∀ r d, _apply_transaction applier bad_prefix_tx .push_mode false late = .returned r d →
      ∃ s, late.objs.block_summaries.get? (bad_prefix_tx.ref_block_num &&& 0xFFFF) = some s ∧
        signed_transaction.ref_block_prefix bad_prefix_tx.tosigned_transaction =
          s.hash_word1) ∧
    (∀ s, late.objs.block_summaries.get? (bad_prefix_tx.ref_block_num &&& 0xFFFF) = some s →
      signed_transaction.ref_block_prefix bad_prefix_tx.tosigned_transaction ≠ s.hash_word1 →
      ∃ e, _apply_transaction applier bad_prefix_tx .push_mode false late = .thrown e late) :=
  apply_transaction_checks_tapos applier bad_prefix_tx .push_mode false late
    rfl (by decide) (by decide) (by decide)

/-- Claim C23. For a transaction that is not an agreed task, applied while the
head block number is above 0, `_apply_transaction` throws when the expiration
is before the head block time or after the head block time plus
`maximum_time_until_expiration`, whatever the skip flags; the database is left
as it was, so no transaction record has been created and the index by
transaction id is unchanged. -/
theorem apply_transaction_rejects_outside_window (a : Applier) (trx : processed_transaction)
    (run_mode : transaction_apply_mode) (only_try_permissions : Bool) (db : database)
    (h_task : trx.agreed_task = none)
    (h_head : db.head_block_num > 0)
    (h_exp : trx.expiration < db.head_block_time ∨
      trx.expiration > db.head_block_time + db.objs.maximum_time_until_expiration) :
    ∃ e, _apply_transaction a trx run_mode only_try_permissions db = .thrown e db := by
  rcases _apply_transaction_plain a trx run_mode only_try_permissions db h_task with
    ⟨e, he⟩ | ⟨_, _, hc, _⟩
  · exact ⟨e, he⟩
  · obtain ⟨h1, h2, _⟩ := check_tapos_none _ _ _ _ _ (hc h_head)
    have h3 := Nat.mod_le (db.head_block_time + db.objs.maximum_time_until_expiration) (2 ^ 32)
    exfalso
    rcases h_exp with h | h <;> omega

theorem apply_transaction_rejects_outside_window_witness :
    ∃ e, _apply_transaction applier s2_tx .push_mode false s2 = .thrown e s2 :=
  apply_transaction_rejects_outside_window applier s2_tx .push_mode false s2
    rfl (by decide) (Or.inl (by decide))

end database

namespace database

/-- The loop body, with the auto-gas condition gathered in
`auto_gas_candidate`. -/
theorem apply_loop_body_eq (a : Applier) (eval_state : transaction_evaluation_state)
    (op : operation) (st : apply_loop_state) (db : database) :
    apply_loop_body a eval_state op st db =
      match apply_operation a eval_state op eval_state.is_agreed_task db with
      | .thrown e db1 => .thrown e db1
      | .returned r d =>
        if st.run_mode ≠ .apply_block_mode ∧
            ¬ st.real_run_time + a.get_runtime r < d.objs.block_interval * 75000 then
          .thrown (.fc_assert 818) d
        else if st.run_mode = .apply_block_mode ∧ eval_state.is_agreed_task = true ∧
            ((eval_state._trx.operation_results.get? d.current_op_in_trx).map
              (fun recorded => r.eq recorded)) ≠ some true then
          .thrown (.fc_assert 820) d
        else
          match (if d.head_block_time > a.AUTO_GAS_TIMEPOINT then auto_gas_candidate a op r
                else none) with
          | some op_from =>
            if st.last_from ≠ op_from then
              .returned
                { loop_state_after st (st.real_run_time + a.get_runtime r) r with
                  operation_results :=
                    (auto_gas a eval_state op_from (st.operation_results ++ [r])
                      { d with current_op_in_trx := d.current_op_in_trx + 1 }).1
                  last_from := op_from }
                (auto_gas a eval_state op_from (st.operation_results ++ [r])
                  { d with current_op_in_trx := d.current_op_in_trx + 1 }).2
            else
              .returned (loop_state_after st (st.real_run_time + a.get_runtime r) r)
                { d with current_op_in_trx := d.current_op_in_trx + 1 }
          | none =>
            .returned (loop_state_after st (st.real_run_time + a.get_runtime r) r)
              { d with current_op_in_trx := d.current_op_in_trx + 1 } := by
  unfold apply_loop_body
  cases h : apply_operation a eval_state op eval_state.is_agreed_task db with
  | thrown e d => rfl
  | returned r d =>
    simp only []
    by_cases c1 : st.run_mode ≠ .apply_block_mode ∧
        ¬ st.real_run_time + a.get_runtime r < d.objs.block_interval * 75000
    · rw [if_pos c1, if_pos c1]
    · rw [if_neg c1, if_neg c1]
      by_cases c2 : st.run_mode = .apply_block_mode ∧ eval_state.is_agreed_task = true ∧
          ((eval_state._trx.operation_results.get? d.current_op_in_trx).map
            (fun recorded => r.eq recorded)) ≠ some true
      · rw [if_pos c2, if_pos c2]
      · rw [if_neg c2, if_neg c2]
        simp only [head_block_time, loop_state_after, auto_gas_candidate]
        by_cases c3 : d.objs.head_block_time > a.AUTO_GAS_TIMEPOINT
        · by_cases c4 : op.which = a.transfer_operation ∧ r.is_void_result = true
          · have c45 : (op.which = a.call_contract_function_operation ∧
                r.is_contract_result = true) ∨
                (op.which = a.transfer_operation ∧ r.is_void_result = true) := Or.inr c4
            by_cases c6 : st.last_from ≠ a.transfer_from op
            · simp only [if_pos c3, if_pos c4, if_pos c45, if_pos c6]
            · simp only [if_pos c3, if_pos c4, if_pos c45, if_neg c6]
          · by_cases c5 : op.which = a.call_contract_function_operation ∧
                r.is_contract_result = true
            · have c45 : (op.which = a.call_contract_function_operation ∧
                  r.is_contract_result = true) ∨
                  (op.which = a.transfer_operation ∧ r.is_void_result = true) := Or.inl c5
              by_cases c6 : st.last_from ≠ a.contract_caller op
              · simp only [if_pos c3, if_neg c4, if_pos c5, if_pos c45, if_pos c6]
              · simp only [if_pos c3, if_neg c4, if_pos c5, if_pos c45, if_neg c6]
            · have c45 : ¬ ((op.which = a.call_contract_function_operation ∧
                  r.is_contract_result = true) ∨
                  (op.which = a.transfer_operation ∧ r.is_void_result = true)) := by tauto
              simp only [if_pos c3, if_neg c4, if_neg c5, if_neg c45]
        · simp only [if_neg c3]

end database

namespace database

/-- A part of the object state that no evaluator changes is not changed by
`apply_operation`. -/
theorem apply_operation_frame (a : Applier) {α : Type} (f : object_state → α)
    (h_eval : ∀ es op o, f (a.evaluate es op o).2 = f o)
    (eval_state : transaction_evaluation_state) (op : operation) (is_agreed_task : Bool)
    (db : database) :
    f (apply_operation a eval_state op is_agreed_task db).db.objs = f db.objs := by
  rcases h : a.evaluate eval_state op db.objs with ⟨r | r, o⟩
  · cases is_agreed_task
    · rw [apply_operation_thrown a eval_state op db r o h]; rfl
    · rw [apply_operation_captured a eval_state op db r o h]; rfl
  · rw [apply_operation_ok a eval_state op is_agreed_task db r o h]
    have := h_eval eval_state op db.objs
    rw [h] at this
    exact this

/-- A part of the object state that no evaluator changes is not changed by
`auto_gas`. -/
theorem auto_gas_frame (a : Applier) {α : Type} (f : object_state → α)
    (h_eval : ∀ es op o, f (a.evaluate es op o).2 = f o)
    (eval_state : transaction_evaluation_state) (from_account : Nat)
    (results : List operation_result) (db : database) :
    f (auto_gas a eval_state from_account results db).2.objs = f db.objs := by
  unfold auto_gas
  simp only [log]
  split
  · rfl
  · split
    · have h := apply_operation_frame a f h_eval eval_state
        (a.withdraw_operation ‹_›) false { db with trace := db.trace ++ [.auto_gas from_account] }
      split
      · rename_i r d hr
        rw [hr] at h
        split <;> exact h
      · rename_i e d hr
        rw [hr] at h
        exact h
    · rfl

/-- What a pass of the operation loop that returns has done: the operation
returned a result, and either auto-gas was not invoked, or it was invoked for
the candidate account, which differs from the account remembered last. -/
theorem apply_loop_body_returned (a : Applier) (eval_state : transaction_evaluation_state)
    (op : operation) (st st1 : apply_loop_state) (db db1 : database)
    (h : apply_loop_body a eval_state op st db = .returned st1 db1) :
    ∃ r d, apply_operation a eval_state op eval_state.is_agreed_task db = .returned r d ∧
      ((st1 = loop_state_after st (st.real_run_time + a.get_runtime r) r ∧
          db1 = { d with current_op_in_trx := d.current_op_in_trx + 1 } ∧
          ((if d.head_block_time > a.AUTO_GAS_TIMEPOINT then auto_gas_candidate a op r
              else none) = none ∨
            (if d.head_block_time > a.AUTO_GAS_TIMEPOINT then auto_gas_candidate a op r
              else none) = some st.last_from)) ∨
        (∃ op_from, d.head_block_time > a.AUTO_GAS_TIMEPOINT ∧
          auto_gas_candidate a op r = some op_from ∧ st.last_from ≠ op_from ∧
          st1 = { loop_state_after st (st.real_run_time + a.get_runtime r) r with
            operation_results :=
              (auto_gas a eval_state op_from (st.operation_results ++ [r])
                { d with current_op_in_trx := d.current_op_in_trx + 1 }).1
            last_from := op_from } ∧
          db1 = (auto_gas a eval_state op_from (st.operation_results ++ [r])
            { d with current_op_in_trx := d.current_op_in_trx + 1 }).2)) := by
  rw [apply_loop_body_eq] at h
  cases hr : apply_operation a eval_state op eval_state.is_agreed_task db with
  | thrown e d => rw [hr] at h; simp at h
  | returned r d =>
    rw [hr] at h
    simp only at h
    refine ⟨r, d, rfl, ?_⟩
    by_cases c1 : st.run_mode ≠ .apply_block_mode ∧
        ¬ st.real_run_time + a.get_runtime r < d.objs.block_interval * 75000
    · rw [if_pos c1] at h; simp at h
    · rw [if_neg c1] at h
      by_cases c2 : st.run_mode = .apply_block_mode ∧ eval_state.is_agreed_task = true ∧
          ((eval_state._trx.operation_results.get? d.current_op_in_trx).map
            (fun recorded => r.eq recorded)) ≠ some true
      · rw [if_pos c2] at h; simp at h
      · rw [if_neg c2] at h
        cases hg : (if d.head_block_time > a.AUTO_GAS_TIMEPOINT then auto_gas_candidate a op r
            else none) with
        | none =>
          rw [hg] at h
          simp only [outcome.returned.injEq] at h
          exact Or.inl ⟨h.1.symm, h.2.symm, Or.inl rfl⟩
        | some op_from =>
          rw [hg] at h
          simp only at h
          by_cases c6 : st.last_from ≠ op_from
          · rw [if_pos c6] at h
            simp only [outcome.returned.injEq] at h
            right
            refine ⟨op_from, ?_, ?_, c6, h.1.symm, h.2.symm⟩
            · by_contra hn
              rw [if_neg hn] at hg
              simp at hg
            · by_cases hn : d.head_block_time > a.AUTO_GAS_TIMEPOINT
              · rw [if_pos hn] at hg; exact hg
              · rw [if_neg hn] at hg; simp at hg
          · rw [if_neg c6] at h
            simp only [outcome.returned.injEq] at h
            have c6' : st.last_from = op_from := by
              by_contra hn
              exact c6 hn
            exact Or.inl ⟨h.1.symm, h.2.symm, Or.inr (by rw [c6'])⟩

/-- A part of the object state that no evaluator changes is not changed by
one pass of the operation loop that returns. -/
theorem apply_loop_body_frame (a : Applier) {α : Type} (f : object_state → α)
    (h_eval : ∀ es op o, f (a.evaluate es op o).2 = f o)
    (eval_state : transaction_evaluation_state) (op : operation) (st st1 : apply_loop_state)
    (db db1 : database)
    (h : apply_loop_body a eval_state op st db = .returned st1 db1) :
    f db1.objs = f db.objs := by
  obtain ⟨r, d, hr, hcase⟩ := apply_loop_body_returned a eval_state op st st1 db db1 h
  have h0 := apply_operation_frame a f h_eval eval_state op eval_state.is_agreed_task db
  rw [hr] at h0
  simp only [outcome.db] at h0
  rcases hcase with ⟨_, hd, _⟩ | ⟨op_from, _, _, _, _, hd⟩
  · rw [hd]; exact h0
  · rw [hd, auto_gas_frame a f h_eval]; exact h0

/-- A part of the object state that no evaluator changes is not changed by
an operation loop that returns. -/
theorem apply_operations_frame (a : Applier) {α : Type} (f : object_state → α)
    (h_eval : ∀ es op o, f (a.evaluate es op o).2 = f o)
    (eval_state : transaction_evaluation_state) (ops : List operation) :
    ∀ (st st1 : apply_loop_state) (db db1 : database),
      apply_operations a eval_state ops st db = .returned st1 db1 →
      f db1.objs = f db.objs := by
  induction ops with
  | nil =>
    intro st st1 db db1 h
    simp only [apply_operations, outcome.returned.injEq] at h
    rw [h.2]
  | cons op rest ih =>
    intro st st1 db db1 h
    rw [apply_operations] at h
    split at h
    · simp at h
    · rename_i st2 db2 hb
      rw [ih st2 st1 db2 db1 h]
      exact apply_loop_body_frame a f h_eval eval_state op st st2 db db2 hb

end database

namespace database

/-- The authority step changes at most the proposals and the crontabs. -/
theorem check_authority_ok (a : Applier) (trx : signed_transaction) (skip trx_hash now : Nat)
    (db db1 : database) (is_agreed_task : Bool) (temp_crontab : Option Nat)
    (h : check_authority a trx skip trx_hash now db = .ok (db1, is_agreed_task, temp_crontab)) :
    (∃ ps cs, db1 = { db with objs := { db.objs with proposals := ps, crontabs := cs } }) ∧
      is_agreed_task = trx.agreed_task.isSome := by
  unfold check_authority at h
  split at h
  · split at h
    · rename_i task ht
      split at h
      · simp at h
      · rename_i d tc hb
        simp only [Except.ok.injEq, Prod.mk.injEq] at h
        obtain ⟨h1, h2, _⟩ := h
        refine ⟨?_, by rw [← h2, ht]; rfl⟩
        rw [← h1]
        unfold begin_agreed_task at hb
        split at hb
        · split at hb
          · simp at hb
          · split at hb
            · simp only [Except.ok.injEq, Prod.mk.injEq] at hb
              exact ⟨_, db.objs.crontabs, hb.1.symm⟩
            · simp at hb
        · split at hb
          · split at hb
            · simp at hb
            · split at hb
              · simp only [Except.ok.injEq, Prod.mk.injEq] at hb
                exact ⟨db.objs.proposals, _, hb.1.symm⟩
              · simp at hb
          · simp at hb
    · rename_i ht
      split at h
      · simp at h
      · simp only [Except.ok.injEq, Prod.mk.injEq] at h
        obtain ⟨h1, h2, _⟩ := h
        exact ⟨⟨db.objs.proposals, db.objs.crontabs, by rw [← h1]⟩, by rw [← h2, ht]; rfl⟩
  · rename_i hc
    simp only [Except.ok.injEq, Prod.mk.injEq] at h
    obtain ⟨h1, h2, _⟩ := h
    refine ⟨⟨db.objs.proposals, db.objs.crontabs, by rw [← h1]⟩, ?_⟩
    rw [← h2]
    cases ht : trx.agreed_task with
    | none => rfl
    | some t => exact absurd (Or.inr (by simp [ht])) hc

/-- What a call of `_apply_transaction` that returns has done. -/
theorem _apply_transaction_returned (a : Applier) (trx : processed_transaction)
    (run_mode : transaction_apply_mode) (only_try_permissions : Bool) (db : database)
    (r : processed_transaction × transaction_apply_mode) (d : database)
    (h : _apply_transaction a trx run_mode only_try_permissions db = .returned r d) :
    a.pack_size_trx trx.tosigned_transaction < trx_size_limit a db ∧
    (is_share_fee a.toEnv trx.tosigned_transaction = false →
      effective_skip a trx.tosigned_transaction db &&& a.skip_transaction_dupe_check = 0 →
      (db.objs.transaction_index.find? (fun t => decide (t.trx_id =
        a.id trx.tosigned_transaction (a.hash trx.tosigned_transaction)))) = none) ∧
    ∃ db1 is_agreed_task temp_crontab,
      check_authority a trx.tosigned_transaction
        (effective_skip a trx.tosigned_transaction db) (a.hash trx.tosigned_transaction)
        db.head_block_time db = .ok (db1, is_agreed_task, temp_crontab) ∧
      (db1.head_block_num > 0 → is_agreed_task = false →
        check_tapos a (effective_skip a trx.tosigned_transaction db) trx.tosigned_transaction
          db.head_block_time db1 = none) ∧
      (only_try_permissions = true →
        r = ({ tosigned_transaction := trx.tosigned_transaction, operation_results := [] },
          run_mode) ∧
        d = create_records a (effective_skip a trx.tosigned_transaction db)
          trx.tosigned_transaction (a.hash trx.tosigned_transaction)
          (a.id trx.tosigned_transaction (a.hash trx.tosigned_transaction)) run_mode db1) ∧
      (only_try_permissions = false →
        ∃ st db3,
          apply_operations a
            { _trx := trx, run_mode := run_mode
              skip := effective_skip a trx.tosigned_transaction db
              is_agreed_task := is_agreed_task }
            trx.operations { run_mode := run_mode }
            { create_records a (effective_skip a trx.tosigned_transaction db)
                trx.tosigned_transaction (a.hash trx.tosigned_transaction)
                (a.id trx.tosigned_transaction (a.hash trx.tosigned_transaction))
                run_mode db1 with current_op_in_trx := 0 } = .returned st db3 ∧
          r = ({ tosigned_transaction := trx.tosigned_transaction,
                 operation_results := st.operation_results }, st.run_mode) ∧
          d = finish_crontab temp_crontab db.head_block_time st.result_contains_error db3) := by
  unfold _apply_transaction at h
  simp only [] at h
  by_cases h1 : a.pack_size_trx trx.tosigned_transaction < trx_size_limit a db
  · simp only [h1, not_true_eq_false, if_false] at h
    split at h
    · simp at h
    · split at h
      · simp at h
      · rename_i hd
        refine ⟨h1, ?_, ?_⟩
        · intro hf hs
          by_contra hne
          apply hd
          refine ⟨by simp [hf], hs, ?_⟩
          cases hx : db.objs.transaction_index.find? (fun t => decide (t.trx_id =
            a.id trx.tosigned_transaction (a.hash trx.tosigned_transaction))) with
          | none => exact absurd hx hne
          | some v => rfl
        · split at h
          · simp at h
          · rename_i db1 ag tc hauth
            refine ⟨db1, ag, tc, hauth, ?_⟩
            split at h
            · simp at h
            · rename_i hct
              refine ⟨?_, ?_, ?_⟩
              · intro hn hag
                simpa [hn, hag] using hct
              · intro ho
                simp only [ho, if_true, outcome.returned.injEq] at h
                exact ⟨h.1.symm, h.2.symm⟩
              · intro ho
                simp only [ho, Bool.false_eq_true, if_false] at h
                split at h
                · simp at h
                · rename_i st db3 hops
                  simp only [outcome.returned.injEq] at h
                  exact ⟨st, db3, hops, h.1.symm, h.2.symm⟩
  · simp [h1] at h

end database

namespace database

/-- The paths of `_push_transaction`. The temporary session is opened on top
of the unchanged object state, over the pending session. Then the call throws
with the temporary session undone (the size check of a `from_me` push, the
checks of a `re_push`), or, for a `re_push`, goes to the tail with the
transaction itself, or applies the transaction: a failure of
`_apply_transaction` is thrown with the temporary session undone, and a result
goes to the tail. -/
theorem _push_transaction_cases (env : Env) (trx : processed_transaction)
    (push_state : transaction_push_state) (db : database) :
    ∃ x : database, x.objs = db.objs ∧ x.skip_flags = db.skip_flags ∧
      x.pending_tx = db.pending_tx ∧
      x.undo_stack = db.objs ::
        (if db.pending_tx_session = true then db.undo_stack else db.objs :: db.undo_stack) ∧
      ((∃ e, _push_transaction env trx push_state db = .thrown e x.undo) ∨
        (push_state = .re_push ∧
          _push_transaction env trx push_state db = finish_push env trx true x) ∨
        (push_state ≠ .re_push ∧
          ∃ mode only_try_permissions,
            (mode = .push_mode ∨ mode = .validate_transaction_mode) ∧
            _push_transaction env trx push_state db =
              match env._apply_transaction trx.tosigned_transaction mode only_try_permissions
                  x.skip_flags x.objs with
              | .error e => .thrown e x.undo
              | .ok (processed_trx, m, o) =>
                finish_push env processed_trx
                  (decide (m = transaction_apply_mode.invoke_mode)) { x with objs := o })) := by
  have key : ∃ d1 : database,
      (if db.pending_tx_session = true then db
        else { db.start_undo_session with pending_tx_session := true }) = d1 ∧
      d1.objs = db.objs ∧ d1.skip_flags = db.skip_flags ∧ d1.pending_tx = db.pending_tx ∧
      d1.undo_stack =
        (if db.pending_tx_session = true then db.undo_stack else db.objs :: db.undo_stack) := by
    by_cases hp : db.pending_tx_session = true
    · exact ⟨db, by simp [hp], rfl, rfl, rfl, by simp [hp]⟩
    · exact ⟨{ db.start_undo_session with pending_tx_session := true }, by simp [hp],
        rfl, rfl, rfl, by simp [hp, start_undo_session, log]⟩
  obtain ⟨d1, he, h1, h2, h3, h4⟩ := key
  unfold _push_transaction
  simp only [he]
  by_cases hre : push_state = .re_push
  · simp only [hre, ne_eq, not_true_eq_false, if_false]
    refine ⟨d1.start_undo_session, by simp [start_undo_session, log, h1],
      by simp [start_undo_session, log, h2], by simp [start_undo_session, log, h3],
      by simp [start_undo_session, log, h1, h4], ?_⟩
    split
    · exact Or.inl ⟨_, rfl⟩
    · exact Or.inr (Or.inl ⟨trivial, rfl⟩)
  · simp only [hre, ne_eq, not_false_eq_true, if_true]
    by_cases hm : push_state = .from_me
    · simp only [hm, if_true]
      refine ⟨{ d1.start_undo_session with
        pending_size := max d1.start_undo_session.pending_size
          d1.start_undo_session.pending_tx.length }, by simp [start_undo_session, log, h1],
        by simp [start_undo_session, log, h2], by simp [start_undo_session, log, h3],
        by simp [start_undo_session, log, h1, h4], ?_⟩
      split
      · exact Or.inl ⟨_, rfl⟩
      · exact Or.inr (Or.inr ⟨by simp, .push_mode, false, Or.inl rfl, rfl⟩)
    · simp only [hm, if_false]
      exact ⟨d1.start_undo_session, by simp [start_undo_session, log, h1],
        by simp [start_undo_session, log, h2], by simp [start_undo_session, log, h3],
        by simp [start_undo_session, log, h1, h4],
        Or.inr (Or.inr ⟨by simp, .validate_transaction_mode,
          !d1.start_undo_session.deduce_in_verification_mode, Or.inr rfl, rfl⟩)⟩

/-- The object state after the undo of a session. -/
theorem undo_objs (x : database) (o0 : object_state) (rest : List object_state)
    (hs : x.undo_stack = o0 :: rest) :
    x.undo = { x with objs := o0, undo_stack := rest, trace := x.trace ++ [.undo] } := by
  unfold undo log
  rw [hs]

end database

namespace database

/-- Outside a fee-share transaction the flags in effect are the node's. -/
theorem effective_skip_plain (a : Applier) (trx : signed_transaction) (db : database)
    (h_fee : is_share_fee a.toEnv trx = false) : effective_skip a trx db = db.skip_flags := by
  unfold effective_skip
  simp [h_fee]

/-- The crontab post-pass changes the crontabs only. -/
theorem finish_crontab_objs (temp_crontab : Option Nat) (now : Nat) (err : Bool)
    (db : database) :
    ∃ cs, finish_crontab temp_crontab now err db =
      { db with objs := { db.objs with crontabs := cs } } := by
  unfold finish_crontab
  cases temp_crontab with
  | none => exact ⟨db.objs.crontabs, rfl⟩
  | some id => exact ⟨_, rfl⟩

/-- The record creation of `_apply_transaction` changes at most the index of
transactions in blocks and the transaction index. -/
theorem create_records_eq (a : Applier) (skip : Nat) (trx : signed_transaction)
    (trx_hash trx_id : Nat) (run_mode : transaction_apply_mode) (db : database) :
    ∃ tib ti, create_records a skip trx trx_hash trx_id run_mode db =
      { db with objs := { db.objs with
        transaction_in_block_index := tib, transaction_index := ti } } := by
  unfold create_records create_transaction
  simp only []
  by_cases hm : run_mode = .apply_block_mode ∨ run_mode = .production_block_mode <;>
  by_cases hc : skip &&& a.skip_transaction_dupe_check = 0 ∨ is_share_fee a.toEnv trx = true <;>
  by_cases hd : (db.objs.transaction_index.find? (fun t => decide (t.trx_id = trx_id))).isSome =
      true <;>
  simp only [hm, hc, hd, if_true, if_false] <;>
  exact ⟨_, _, rfl⟩

/-- The transaction index after the record creation of `_apply_transaction`:
where the creation is attempted and no record has the id, the record of the
transaction is added; where a record has the id, or the creation is not
attempted, the index is unchanged. -/
theorem create_records_index (a : Applier) (skip : Nat) (trx : signed_transaction)
    (trx_hash trx_id : Nat) (run_mode : transaction_apply_mode) (db : database) :
    (create_records a skip trx trx_hash trx_id run_mode db).objs.transaction_index =
      if (skip &&& a.skip_transaction_dupe_check = 0 ∨ is_share_fee a.toEnv trx = true) ∧
          (db.objs.transaction_index.find? (fun t => decide (t.trx_id = trx_id))).isSome =
            false then
        db.objs.transaction_index ++ [{ trx_hash := trx_hash, trx_id := trx_id, trx := trx }]
      else db.objs.transaction_index := by
  unfold create_records create_transaction
  simp only []
  by_cases hm : run_mode = .apply_block_mode ∨ run_mode = .production_block_mode <;>
  by_cases hc : skip &&& a.skip_transaction_dupe_check = 0 ∨ is_share_fee a.toEnv trx = true <;>
  by_cases hd : (db.objs.transaction_index.find? (fun t => decide (t.trx_id = trx_id))).isSome =
      true <;>
  simp [hm, hc, hd]

/-- When no evaluator changes the transaction index, a call of
`_apply_transaction` that returns with the duplicate check in force has found
no record with the id of the transaction and has added exactly one. -/
theorem _apply_transaction_index (a : Applier) (trx : processed_transaction)
    (run_mode : transaction_apply_mode) (only_try_permissions : Bool) (db : database)
    (r : processed_transaction × transaction_apply_mode) (d : database)
    (h_eval : ∀ es op o, (a.evaluate es op o).2.transaction_index = o.transaction_index)
    (h_fee : is_share_fee a.toEnv trx.tosigned_transaction = false)
    (h_skip : db.skip_flags &&& a.skip_transaction_dupe_check = 0)
    (h : _apply_transaction a trx run_mode only_try_permissions db = .returned r d) :
    (db.objs.transaction_index.find? (fun t => decide (t.trx_id =
        a.id trx.tosigned_transaction (a.hash trx.tosigned_transaction)))) = none ∧
      d.objs.transaction_index = db.objs.transaction_index ++
        [{ trx_hash := a.hash trx.tosigned_transaction
           trx_id := a.id trx.tosigned_transaction (a.hash trx.tosigned_transaction)
           trx := trx.tosigned_transaction }] ∧
      r.1.tosigned_transaction = trx.tosigned_transaction := by
  obtain ⟨_, hdup, db1, ag, tc, hauth, _, honly, hfull⟩ :=
    _apply_transaction_returned a trx run_mode only_try_permissions db r d h
  have hs := effective_skip_plain a trx.tosigned_transaction db h_fee
  rw [hs] at hauth honly hfull hdup
  refine ⟨hdup h_fee h_skip, ?_⟩
  obtain ⟨⟨ps, cs, hdb1⟩, _⟩ := check_authority_ok _ _ _ _ _ _ _ _ _ hauth
  have hcr : (create_records a db.skip_flags trx.tosigned_transaction
      (a.hash trx.tosigned_transaction)
      (a.id trx.tosigned_transaction (a.hash trx.tosigned_transaction))
      run_mode db1).objs.transaction_index = db.objs.transaction_index ++
        [{ trx_hash := a.hash trx.tosigned_transaction
           trx_id := a.id trx.tosigned_transaction (a.hash trx.tosigned_transaction)
           trx := trx.tosigned_transaction }] := by
    have hnone := hdup h_fee h_skip
    rw [create_records_index, hdb1]
    simp only []
    rw [if_pos ⟨Or.inl h_skip, by rw [hnone]; rfl⟩]
  cases ho : only_try_permissions with
  | true =>
    obtain ⟨hr, hd⟩ := honly ho
    rw [hd, hr]
    exact ⟨hcr, rfl⟩
  | false =>
    obtain ⟨st, db3, hops, hr, hd⟩ := hfull ho
    have hf := apply_operations_frame a (fun o => o.transaction_index) h_eval _ _ _ _ _ _ hops
    obtain ⟨cs', hfc⟩ := finish_crontab_objs tc db.head_block_time st.result_contains_error db3
    rw [hd, hfc, hr]
    refine ⟨?_, rfl⟩
    simp only at hf
    simp only [hf]
    exact hcr

end database

namespace database
open scenario

/-- With the duplicate check in force and a lead operation that is not the
fee-share kind, `_apply_transaction` throws on a transaction whose id is in the
transaction index, with the database as it was. -/
theorem _apply_transaction_known (a : Applier) (t0 : processed_transaction) (d : database)
    (run_mode : transaction_apply_mode) (only_try_permissions : Bool)
    (hf : is_share_fee a.toEnv t0.tosigned_transaction = false)
    (hs : d.skip_flags &&& a.skip_transaction_dupe_check = 0)
    (hdup : ∃ t ∈ d.objs.transaction_index,
      t.trx_id = a.id t0.tosigned_transaction (a.hash t0.tosigned_transaction)) :
    ∃ e, _apply_transaction a t0 run_mode only_try_permissions d = .thrown e d := by
  unfold _apply_transaction
  simp only []
  split
  · exact ⟨_, rfl⟩
  · split
    · exact ⟨_, rfl⟩
    · rw [if_pos]
      · exact ⟨_, rfl⟩
      · refine ⟨by simp [hf], by rw [effective_skip_plain a _ d hf]; exact hs, ?_⟩
        rw [List.find?_isSome]
        obtain ⟨t, ht, hid⟩ := hdup
        exact ⟨t, ht, by simpa using hid⟩

/-- A push of a transaction that returns, by any of the three push states, has
found no record with the id of the transaction in the transaction index and has
added exactly one; the skip flags are kept. For the pushes that apply the
transaction this takes evaluators that do not write the transaction index, a
lead operation that is not the fee-share kind and the duplicate check in
force. -/
theorem _push_transaction_index (a : Applier) (trx : processed_transaction)
    (push_state : transaction_push_state) (db : database) (p : processed_transaction)
    (d1 : database)
    (h_eval : ∀ es op o, (a.evaluate es op o).2.transaction_index = o.transaction_index)
    (h_fee : is_share_fee a.toEnv trx.tosigned_transaction = false)
    (h_skip : db.skip_flags &&& a.skip_transaction_dupe_check = 0)
    (hpush : _push_transaction (push_env a db) trx push_state db = .returned p d1) :
    d1.skip_flags = db.skip_flags ∧
      (db.objs.transaction_index.find? (fun t => decide (t.trx_id =
        a.id trx.tosigned_transaction (a.hash trx.tosigned_transaction)))) = none ∧
      d1.objs.transaction_index = db.objs.transaction_index ++
        [{ trx_hash := a.hash trx.tosigned_transaction
           trx_id := a.id trx.tosigned_transaction (a.hash trx.tosigned_transaction)
           trx := trx.tosigned_transaction }] := by
  obtain ⟨x, hxo, hxs, _, hxu, hcase⟩ := _push_transaction_cases (push_env a db) trx push_state db
  rcases hcase with ⟨e, hc⟩ | ⟨_, hc⟩ | ⟨_, mode, only, _, hc⟩
  · rw [hc] at hpush; simp at hpush
  · rw [hc, finish_push_undone (push_env a db) trx x _ _ hxu] at hpush
    by_cases hd : (db.objs.transaction_index.find? (fun t => decide (t.trx_id =
        (push_env a db).id trx.tosigned_transaction
          ((push_env a db).hash trx.tosigned_transaction)))).isSome = true
    · rw [if_pos hd] at hpush; simp at hpush
    · rw [if_neg hd] at hpush
      simp only [outcome.returned.injEq] at hpush
      rw [← hpush.2]
      refine ⟨hxs, ?_, rfl⟩
      simpa using hd
  · rw [hc] at hpush
    have hw : (push_env a db)._apply_transaction trx.tosigned_transaction mode only
        x.skip_flags x.objs =
        match _apply_transaction a { tosigned_transaction := trx.tosigned_transaction }
            mode only { db with objs := x.objs, skip_flags := x.skip_flags } with
        | .returned r d => .ok (r.1, r.2, d.objs)
        | .thrown e _ => .error e := rfl
    have heta : ({ db with objs := x.objs, skip_flags := x.skip_flags } : database) = db := by
      rw [hxo, hxs]
    rw [hw, heta] at hpush
    cases he : _apply_transaction a { tosigned_transaction := trx.tosigned_transaction }
        mode only db with
    | thrown e d => rw [he] at hpush; simp at hpush
    | returned r d =>
      rw [he] at hpush
      simp only at hpush
      obtain ⟨hnone, hidx, hsig⟩ := _apply_transaction_index a
        { tosigned_transaction := trx.tosigned_transaction } mode only db r d h_eval h_fee
        h_skip he
      simp only at hnone hidx hsig
      by_cases hm : r.2 = .invoke_mode
      · have hu : ({ x with objs := d.objs } : database).undo_stack = db.objs ::
            (if db.pending_tx_session = true then db.undo_stack
              else db.objs :: db.undo_stack) := hxu
        simp only [hm, decide_True] at hpush
        rw [finish_push_undone (push_env a db) r.1 _ _ _ hu] at hpush
        have hd : ¬ (db.objs.transaction_index.find? (fun t => decide (t.trx_id =
            (push_env a db).id r.1.tosigned_transaction
              ((push_env a db).hash r.1.tosigned_transaction)))).isSome = true := by
          rw [hsig]
          have hn' : (db.objs.transaction_index.find? (fun t => decide (t.trx_id =
            (push_env a db).id trx.tosigned_transaction
              ((push_env a db).hash trx.tosigned_transaction)))) = none := hnone
          rw [hn']
          simp
        rw [if_neg hd] at hpush
        simp only [outcome.returned.injEq] at hpush
        rw [← hpush.2]
        refine ⟨hxs, hnone, ?_⟩
        simp only [hsig]
        rfl
      · simp only [hm, decide_False] at hpush
        rw [finish_push_merged] at hpush
        simp only [outcome.returned.injEq] at hpush
        rw [← hpush.2]
        exact ⟨hxs, hnone, hidx⟩

/-- Claim C21. With `skip_transaction_dupe_check` clear and a lead operation
that is not the fee-share kind, `_apply_transaction` throws on a transaction
whose id is already in the index by transaction id and leaves the database as
it was, so no record has been created. Consequently, when a first push of the
transaction (by any of the three push states) has returned, a second push of
it (again by any push state) throws and leaves the object state as it was, and
the index holds exactly one record with the id of the transaction, before and
after the second push; the count is taken for evaluators that do not write the
transaction index themselves. -/
theorem duplicate_transaction_is_rejected (a : Applier) (trx : processed_transaction)
    (db : database)
    (h_fee : is_share_fee a.toEnv trx.tosigned_transaction = false)
    (h_skip : db.skip_flags &&& a.skip_transaction_dupe_check = 0) :
    (∀ run_mode only_try_permissions,
      (∃ t ∈ db.objs.transaction_index,
        t.trx_id = a.id trx.tosigned_transaction (a.hash trx.tosigned_transaction)) →
      ∃ e, _apply_transaction a trx run_mode only_try_permissions db = .thrown e db) ∧
    ((∀ es op o, (a.evaluate es op o).2.transaction_index = o.transaction_index) →
      ∀ first second p d1,
        _push_transaction (push_env a db) trx first db = .returned p d1 →
        (∃ e d2, _push_transaction (push_env a d1) trx second d1 = .thrown e d2 ∧
          d2.objs = d1.objs ∧
          (d2.objs.transaction_index.filter (fun t => decide (t.trx_id =
            a.id trx.tosigned_transaction (a.hash trx.tosigned_transaction)))).length = 1) ∧
        (d1.objs.transaction_index.filter (fun t => decide (t.trx_id =
          a.id trx.tosigned_transaction (a.hash trx.tosigned_transaction)))).length = 1) := by
  refine ⟨fun rm o hdup => _apply_transaction_known a trx db rm o h_fee h_skip hdup, ?_⟩
  intro h_eval first second p d1 hpush
  obtain ⟨hs1, hnone, hidx⟩ :=
    _push_transaction_index a trx first db p d1 h_eval h_fee h_skip hpush
  have hone : (d1.objs.transaction_index.filter (fun t => decide (t.trx_id =
      a.id trx.tosigned_transaction (a.hash trx.tosigned_transaction)))).length = 1 := by
    rw [hidx, List.filter_append]
    have h0 : db.objs.transaction_index.filter (fun t => decide (t.trx_id =
        a.id trx.tosigned_transaction (a.hash trx.tosigned_transaction))) = [] := by
      rw [List.filter_eq_nil_iff]
      intro t ht hdec
      have := List.find?_eq_none.mp hnone t ht
      exact this hdec
    rw [h0]
    simp
  have hmem : ∃ t ∈ d1.objs.transaction_index,
      t.trx_id = a.id trx.tosigned_transaction (a.hash trx.tosigned_transaction) :=
    ⟨_, by rw [hidx]; exact List.mem_append_right _ (List.mem_singleton_self _), rfl⟩
  refine ⟨?_, hone⟩
  obtain ⟨x, hxo, hxs, _, hxu, hcase⟩ := _push_transaction_cases (push_env a d1) trx second d1
  have hundo : x.undo.objs = d1.objs := by
    rw [undo_objs x _ _ hxu]
  rcases hcase with ⟨e, hc⟩ | ⟨_, hc⟩ | ⟨_, mode, only, _, hc⟩
  · exact ⟨e, _, hc, hundo, by rw [hundo]; exact hone⟩
  · rw [hc, finish_push_undone (push_env a d1) trx x _ _ hxu, if_pos]
    · exact ⟨_, _, rfl, rfl, hone⟩
    · rw [List.find?_isSome]
      obtain ⟨t, ht, hid⟩ := hmem
      exact ⟨t, ht, by simpa using hid⟩
  · rw [hc]
    have hw : (push_env a d1)._apply_transaction trx.tosigned_transaction mode only
        x.skip_flags x.objs =
        match _apply_transaction a { tosigned_transaction := trx.tosigned_transaction }
            mode only { d1 with objs := x.objs, skip_flags := x.skip_flags } with
        | .returned r d => .ok (r.1, r.2, d.objs)
        | .thrown e _ => .error e := rfl
    have heta : ({ d1 with objs := x.objs, skip_flags := x.skip_flags } : database) = d1 := by
      rw [hxo, hxs]
    rw [hw, heta]
    obtain ⟨e, he⟩ := _apply_transaction_known a
      { tosigned_transaction := trx.tosigned_transaction } d1 mode only h_fee
      (by rw [hs1]; exact h_skip) hmem
    rw [he]
    exact ⟨e, _, rfl, hundo, by rw [hundo]; exact hone⟩

end database

namespace database
open scenario

theorem duplicate_transaction_is_rejected_witness :
    (∃ e, _apply_transaction applier (tx 7) .push_mode false late_seen = .thrown e late_seen) ∧
    (∃ p d1, _push_transaction (push_env applier late) bare_tx .from_me late = .returned p d1 ∧
      d1.objs.transaction_index =
        [{ trx_hash := 8, trx_id := 8, trx := bare_tx.tosigned_transaction }] ∧
      ∀ second, ∃ e d2,
        _push_transaction (push_env applier d1) bare_tx second d1 = .thrown e d2 ∧
        d2.objs = d1.objs ∧
        (d2.objs.transaction_index.filter (fun t => decide (t.trx_id =
          applier.id bare_tx.tosigned_transaction
            (applier.hash bare_tx.tosigned_transaction)))).length = 1) :=
  ⟨(duplicate_transaction_is_rejected applier (tx 7) late_seen (by decide) (by decide)).1
      .push_mode false ⟨_, List.mem_singleton_self _, by decide⟩,
    _, _, rfl, rfl, fun second =>
      ((duplicate_transaction_is_rejected applier bare_tx late (by decide) (by decide)).2
        (by intro es op o; simp only [applier]; split_ifs <;> rfl)
        .from_me second _ _ rfl).1⟩

end database

namespace database
open scenario

theorem auto_gas_calls_append (t1 t2 : List call) :
    auto_gas_calls (t1 ++ t2) = auto_gas_calls t1 ++ auto_gas_calls t2 := by
  induction t1 with
  | nil => rfl
  | cons c rest ih =>
    cases c <;> simp [auto_gas_calls, ih]

/-- `apply_operation` records no invocation of `auto_gas`. -/
theorem apply_operation_auto_gas_calls (a : Applier)
    (eval_state : transaction_evaluation_state) (op : operation) (is_agreed_task : Bool)
    (db : database) :
    auto_gas_calls (apply_operation a eval_state op is_agreed_task db).db.trace =
      auto_gas_calls db.trace := by
  rcases h : a.evaluate eval_state op db.objs with ⟨r | r, o⟩
  · cases is_agreed_task
    · rw [apply_operation_thrown a eval_state op db r o h]
      simp [outcome.db, auto_gas_calls_append, auto_gas_calls]
    · rw [apply_operation_captured a eval_state op db r o h]
      simp [outcome.db, auto_gas_calls_append, auto_gas_calls]
  · rw [apply_operation_ok a eval_state op is_agreed_task db r o h]
    simp [outcome.db, auto_gas_calls_append, auto_gas_calls]

/-- `auto_gas` records exactly one invocation, for the account it is given. -/
theorem auto_gas_auto_gas_calls (a : Applier) (eval_state : transaction_evaluation_state)
    (from_account : Nat) (results : List operation_result) (db : database) :
    auto_gas_calls (auto_gas a eval_state from_account results db).2.trace =
      auto_gas_calls db.trace ++ [from_account] := by
  have h0 : auto_gas_calls (log (.auto_gas from_account) db).trace =
      auto_gas_calls db.trace ++ [from_account] := by
    simp [log, auto_gas_calls_append, auto_gas_calls]
  unfold auto_gas
  simp only []
  split
  · exact h0
  · rename_i w hw
    split
    · have h1 := apply_operation_auto_gas_calls a eval_state (a.withdraw_operation w) false
        (log (.auto_gas from_account) db)
      split
      · rename_i g d1 hg
        rw [hg] at h1
        simp only [outcome.db] at h1
        split <;> (simp only []; rw [h1, h0])
      · rename_i e d1 hg
        rw [hg] at h1
        simp only [outcome.db] at h1
        simp only []
        rw [h1, h0]
    · exact h0

/-- The results `auto_gas` leaves: the ones it was given, or those followed by
the result of the withdrawal it applied. -/
theorem auto_gas_results (a : Applier) (eval_state : transaction_evaluation_state)
    (from_account : Nat) (results : List operation_result) (db : database) :
    (auto_gas a eval_state from_account results db).1 = results ∨
      ∃ g w d0 d1, (auto_gas a eval_state from_account results db).1 = results ++ [g] ∧
        apply_operation a eval_state (a.withdraw_operation w) false d0 = .returned g d1 ∧
        g.is_error_result = false := by
  unfold auto_gas
  simp only []
  split
  · exact Or.inl rfl
  · rename_i w hw
    split
    · split
      · rename_i g d1 hg
        by_cases he : g.is_error_result = true
        · left; simp [he]
        · right
          refine ⟨g, w, _, d1, by simp [he], hg, by simpa using he⟩
      · exact Or.inl rfl
    · exact Or.inl rfl

/-- What `auto_gas` does: it applies a withdrawal and appends its result, or
it applies none and leaves the results as they were. -/
theorem auto_gas_cases (a : Applier) (eval_state : transaction_evaluation_state)
    (from_account : Nat) (results : List operation_result) (db : database) :
    (∃ g d1, withdrawal_applied a eval_state from_account db g d1 ∧
      auto_gas a eval_state from_account results db = (results ++ [g], d1)) ∨
    ((∀ g d1, ¬ withdrawal_applied a eval_state from_account db g d1) ∧
      (auto_gas a eval_state from_account results db).1 = results) := by
  unfold auto_gas withdrawal_applied
  simp only []
  have hobjs : (log (.auto_gas from_account) db).objs = db.objs := rfl
  rw [hobjs]
  cases hw : a.first_vesting_balance db.objs from_account with
  | none =>
    right
    exact ⟨fun g d1 ⟨w, h, _⟩ => by simp at h, rfl⟩
  | some w =>
    simp only []
    by_cases hc : w.asset_id = 1 ∧ w.amount > 100000
    · rw [if_pos hc]
      cases hg : apply_operation a eval_state (a.withdraw_operation w) false
          (log (.auto_gas from_account) db) with
      | thrown e d1 =>
        right
        refine ⟨?_, rfl⟩
        rintro g d2 ⟨w2, h1, _, _, h4, _⟩
        simp only [Option.some.injEq] at h1
        subst h1
        rw [hg] at h4
        simp at h4
      | returned g d1 =>
        simp only []
        by_cases he : g.is_error_result = true
        · right
          refine ⟨?_, by simp [he]⟩
          rintro g2 d2 ⟨w2, h1, _, _, h4, h5⟩
          simp only [Option.some.injEq] at h1
          subst h1
          rw [hg] at h4
          simp only [outcome.returned.injEq] at h4
          rw [← h4.1, he] at h5
          simp at h5
        · left
          exact ⟨g, d1, ⟨w, rfl, hc.1, hc.2, hg, by simpa using he⟩, by simp [he]⟩
    · right
      refine ⟨?_, by rw [if_neg hc]⟩
      rintro g d2 ⟨w2, h1, h2, h3, _⟩
      simp only [Option.some.injEq] at h1
      subst h1
      exact hc ⟨h2, h3⟩

/-- The withdrawal `auto_gas` applies on a database is determined by the
database and the account. -/
theorem withdrawal_applied_unique (a : Applier) (eval_state : transaction_evaluation_state)
    (from_account : Nat) (db : database) (g g2 : operation_result) (d1 d2 : database)
    (h1 : withdrawal_applied a eval_state from_account db g d1)
    (h2 : withdrawal_applied a eval_state from_account db g2 d2) : g = g2 ∧ d1 = d2 := by
  obtain ⟨w, hw, _, _, ha, _⟩ := h1
  obtain ⟨w2, hw2, _, _, ha2, _⟩ := h2
  rw [hw] at hw2
  simp only [Option.some.injEq] at hw2
  subst hw2
  rw [ha] at ha2
  simp only [outcome.returned.injEq] at ha2
  exact ha2

/-- The passes of an operation loop that returns. They follow one another
from the database the loop starts on to the one it leaves, one pass for each
operation in order; the results are, pass by pass, the result of the operation
followed by the result of the withdrawal of the pass; the mode the loop ends
in is `invoke_mode` when the result of an operation reported `existed_pv`, and
the mode it started in otherwise. In each pass the result
is the one `apply_operation` returned on the database of the pass, the recorded
calls of `auto_gas` grow by the call of the pass, and the pass has the
withdrawal result `g` exactly when `auto_gas` was called in it and applied a
withdrawal with that result on the database after the operation. -/
theorem apply_operations_passes (a : Applier) (eval_state : transaction_evaluation_state)
    (ops : List operation) :
    ∀ (st st1 : apply_loop_state) (db db1 : database),
      apply_operations a eval_state ops st db = .returned st1 db1 →
      ∃ passes : List loop_pass,
        passes.map (fun p => p.op) = ops ∧
        run_through db passes db1 ∧
        st1.operation_results = st.operation_results ++
          (passes.map (fun p => p.result :: p.withdrawal.toList)).flatten ∧
        st1.run_mode =
          (if passes.any (fun p => p.result.existed_pv) = true then .invoke_mode
            else st.run_mode) ∧
        ∀ p ∈ passes, ∃ d,
          apply_operation a eval_state p.op eval_state.is_agreed_task p.before =
            .returned p.result d ∧
          auto_gas_calls p.after.trace = auto_gas_calls p.before.trace ++ p.gas.toList ∧
          (∀ g, p.withdrawal = some g ↔
            ∃ f, p.gas = some f ∧
              withdrawal_applied a eval_state f
                { d with current_op_in_trx := d.current_op_in_trx + 1 } g p.after) := by
  induction ops with
  | nil =>
    intro st st1 db db1 h
    simp only [apply_operations, outcome.returned.injEq] at h
    exact ⟨[], rfl, h.2, by simp [h.1], by simp [h.1], by simp⟩
  | cons op rest ih =>
    intro st st1 db db1 h
    rw [apply_operations] at h
    split at h
    · simp at h
    · rename_i st2 db2 hb
      obtain ⟨passes, hmap, hrun, hres, hmode, hall⟩ := ih st2 st1 db2 db1 h
      obtain ⟨r, d, hr, hcase⟩ := apply_loop_body_returned a eval_state op st st2 db db2 hb
      have hm2 : ∀ (g : Option Nat) (w : Option operation_result),
          st2.run_mode = (if r.existed_pv = true then .invoke_mode else st.run_mode) →
          st1.run_mode =
            (if ((⟨op, db, r, g, w, db2⟩ : loop_pass) :: passes).any
                (fun p => p.result.existed_pv) = true then .invoke_mode
              else st.run_mode) := by
        intro g w h2
        rw [hmode, h2]
        cases hp : r.existed_pv <;> cases hq : passes.any (fun p => p.result.existed_pv) <;>
          simp [hp, hq]
      have htr : auto_gas_calls d.trace = auto_gas_calls db.trace := by
        have := apply_operation_auto_gas_calls a eval_state op eval_state.is_agreed_task db
        rw [hr] at this
        exact this
      rcases hcase with ⟨hst, hdb, _⟩ | ⟨op_from, _, _, _, hst, hdb⟩
      · refine ⟨(⟨op, db, r, none, none, db2⟩ : loop_pass) :: passes, by simp [hmap],
          ⟨rfl, hrun⟩, ?_, hm2 _ _ (by rw [hst]; rfl), ?_⟩
        · rw [hres, hst]
          simp [loop_state_after]
        · intro p hp
          rcases List.mem_cons.mp hp with hp | hp
          · subst hp
            refine ⟨d, hr, ?_, fun g => ⟨fun hg => by simp at hg, fun ⟨f, hf, _⟩ => by simp at hf⟩⟩
            simp only [Option.toList, List.append_nil]
            rw [hdb]
            exact htr
          · exact hall p hp
      · have hcalls := auto_gas_auto_gas_calls a eval_state op_from (st.operation_results ++ [r])
          { d with current_op_in_trx := d.current_op_in_trx + 1 }
        rw [← hdb] at hcalls
        rcases auto_gas_cases a eval_state op_from (st.operation_results ++ [r])
          { d with current_op_in_trx := d.current_op_in_trx + 1 } with
          ⟨g, d1, happ, hg⟩ | ⟨hnone, hg⟩
        · have hd1 : db2 = d1 := by rw [hdb, hg]
          refine ⟨(⟨op, db, r, some op_from, some g, db2⟩ : loop_pass) :: passes,
            by simp [hmap], ⟨rfl, hrun⟩, ?_, hm2 _ _ (by rw [hst]; rfl), ?_⟩
          · rw [hres, hst]
            simp [hg]
          · intro p hp
            rcases List.mem_cons.mp hp with hp | hp
            · subst hp
              refine ⟨d, hr, ?_, fun g2 => ⟨fun h2 => ?_, fun ⟨f, hf, h2⟩ => ?_⟩⟩
              · simp only [Option.toList]
                rw [hcalls]
                exact congrArg (fun t => t ++ [op_from]) htr
              · simp only [Option.some.injEq] at h2
                subst h2
                exact ⟨op_from, rfl, by rw [hd1]; exact happ⟩
              · simp only [Option.some.injEq] at hf
                subst hf
                rw [hd1] at h2
                rw [(withdrawal_applied_unique a eval_state _ _ _ _ _ _ happ h2).1]
            · exact hall p hp
        · refine ⟨(⟨op, db, r, some op_from, none, db2⟩ : loop_pass) :: passes,
            by simp [hmap], ⟨rfl, hrun⟩, ?_, hm2 _ _ (by rw [hst]; rfl), ?_⟩
          · rw [hres, hst]
            simp [hg]
          · intro p hp
            rcases List.mem_cons.mp hp with hp | hp
            · subst hp
              refine ⟨d, hr, ?_, fun g2 => ⟨fun h2 => by simp at h2, fun ⟨f, hf, h2⟩ => ?_⟩⟩
              · simp only [Option.toList]
                rw [hcalls]
                exact congrArg (fun t => t ++ [op_from]) htr
              · simp only [Option.some.injEq] at hf
                subst hf
                exact absurd h2 (hnone _ _)
            · exact hall p hp

end database

namespace database
open scenario

end database

namespace database
open scenario

/-- Claim C28, counterexample. With threshold 1, the single scheduled
execution of crontab 2005 contains an error result, but the crontab is not
suspended and its failure counter stays 0; with two scheduled executions the
same execution suspends it. -/
theorem last_scheduled_execution_is_not_counted :
    (∃ r d, _apply_transaction applier cron_tx .push_mode false (late_cron 1) = .returned r d ∧
      r.1.operation_results = [.error_result 5 1005 5] ∧
      d.objs.crontabs.map (fun c => (c.is_suspended, c.continuous_failure_times)) =
        [(false, 0)]) ∧
    (∃ r d, _apply_transaction applier cron_tx .push_mode false (late_cron 2) = .returned r d ∧
      d.objs.crontabs.map (fun c => (c.is_suspended, c.continuous_failure_times)) =
        [(true, 1)]) :=
  ⟨⟨_, _, rfl, rfl, rfl⟩, ⟨_, _, rfl, rfl⟩⟩

end database

namespace database
open scenario

/-- A sum of 32-bit seconds that does not overflow. -/
theorem time_point_sec_add_small (t n : Nat) (h : t + n < 2 ^ 32) :
    time_point_sec_add t n = t + n := by
  unfold time_point_sec_add
  have h1 : ((t : Int) + (n : Int)) % 2 ^ 32 = ((t + n : Nat) : Int) := by
    have : ((t : Int) + (n : Int)) = ((t + n : Nat) : Int) := by push_cast; rfl
    rw [this]
    apply Int.emod_eq_of_lt
    · exact Int.natCast_nonneg _
    · exact_mod_cast h
  rw [h1]
  exact Int.toNat_natCast _

/-- The counters after one execution of a crontab's transaction. -/
theorem crontab_execution_counters (thr exp life now : Nat) (err : Bool) (c : crontab_object) :
    (crontab_execution thr exp life now err c).already_execute_times =
        c.already_execute_times + 1 ∧
      (crontab_execution thr exp life now err c).scheduled_execute_times =
        c.scheduled_execute_times ∧
      (c.already_execute_times + 1 < c.scheduled_execute_times → err = true →
        (crontab_execution thr exp life now err c).continuous_failure_times =
          c.continuous_failure_times + 1) := by
  unfold crontab_execution crontab_post_pass crontab_begin
  simp only []
  refine ⟨?_, ?_, ?_⟩
  · split
    · split
      · split <;> rfl
      · split <;> rfl
    · rfl
  · split
    · split
      · split <;> rfl
      · split <;> rfl
    · rfl
  · intro h1 h2
    rw [if_pos h1, if_pos h2]
    split <;> rfl

/-- The counters after a run of failing executions that all stay below the
scheduled number of executions. -/
theorem crontab_failing_run (thr exp life : Nat) (nows : List Nat) :
    ∀ c : crontab_object,
      c.already_execute_times + nows.length < c.scheduled_execute_times →
      (nows.foldl (fun c t => crontab_execution thr exp life t true c) c).already_execute_times =
          c.already_execute_times + nows.length ∧
        (nows.foldl (fun c t => crontab_execution thr exp life t true c)
          c).scheduled_execute_times = c.scheduled_execute_times ∧
        (nows.foldl (fun c t => crontab_execution thr exp life t true c)
          c).continuous_failure_times = c.continuous_failure_times + nows.length := by
  induction nows with
  | nil => intro c _; simp
  | cons t rest ih =>
    intro c h
    simp only [List.length_cons] at h
    obtain ⟨h1, h2, h3⟩ := crontab_execution_counters thr exp life t true c
    have h3' := h3 (by omega) rfl
    obtain ⟨i1, i2, i3⟩ := ih (crontab_execution thr exp life t true c)
      (by rw [h1, h2]; omega)
    simp only [List.foldl_cons, List.length_cons]
    rw [i1, i2, i3, h1, h2, h3']
    omega

/-- The error flag of the operation loop tells whether one of the results is
an `error_result`. -/
theorem apply_operations_error_flag (a : Applier) (eval_state : transaction_evaluation_state)
    (ops : List operation) :
    ∀ (st st1 : apply_loop_state) (db db1 : database),
      st.result_contains_error = st.operation_results.any (fun r => r.is_error_result) →
      apply_operations a eval_state ops st db = .returned st1 db1 →
      st1.result_contains_error = st1.operation_results.any (fun r => r.is_error_result) := by
  induction ops with
  | nil =>
    intro st st1 db db1 hinv h
    simp only [apply_operations, outcome.returned.injEq] at h
    rw [← h.1]; exact hinv
  | cons op rest ih =>
    intro st st1 db db1 hinv h
    rw [apply_operations] at h
    split at h
    · simp at h
    · rename_i st2 db2 hb
      refine ih st2 st1 db2 db1 ?_ h
      obtain ⟨r, d, hr, hcase⟩ := apply_loop_body_returned a eval_state op st st2 db db2 hb
      rcases hcase with ⟨hst, _, _⟩ | ⟨op_from, _, _, _, hst, _⟩
      · rw [hst]
        simp [loop_state_after, hinv]
      · rw [hst]
        rcases auto_gas_results a eval_state op_from (st.operation_results ++ [r])
          { d with current_op_in_trx := d.current_op_in_trx + 1 } with
          hg | ⟨g, w, d0, d1, hg, _, hne⟩
        · simp [loop_state_after, hinv, hg]
        · simp [loop_state_after, hinv, hg, hne]

/-- One execution of a crontab's transaction by `_apply_transaction`, for
evaluators that leave the crontabs and the suspension parameters alone: the
crontab that drives the transaction goes through `crontab_execution`, with the
error flag telling whether an operation result is an `error_result`; the other
crontabs are unchanged. -/
theorem _apply_transaction_crontab (a : Applier) (trx : processed_transaction)
    (run_mode : transaction_apply_mode) (db : database)
    (r : processed_transaction × transaction_apply_mode) (d : database) (task : Nat × Nat)
    (h_eval : ∀ es op o,
      ((a.evaluate es op o).2.crontabs, (a.evaluate es op o).2.crontab_suspend_threshold,
        (a.evaluate es op o).2.crontab_suspend_expiration) =
      (o.crontabs, o.crontab_suspend_threshold, o.crontab_suspend_expiration))
    (h_task : trx.agreed_task = some task)
    (h_proposal : a.object_type task.2 ≠ a.proposal_type_id)
    (h : _apply_transaction a trx run_mode false db = .returned r d) :
    d.objs.crontabs = db.objs.crontabs.map (fun c =>
      if c.id = task.2 then
        crontab_execution db.objs.crontab_suspend_threshold db.objs.crontab_suspend_expiration
          db.objs.assigned_task_life_cycle db.head_block_time
          (r.1.operation_results.any (fun res => res.is_error_result)) c
      else c) := by
  obtain ⟨_, _, db1, ag, tc, hauth, _, _, hfull⟩ :=
    _apply_transaction_returned a trx run_mode false db r d h
  obtain ⟨st, db3, hops, hr, hd⟩ := hfull rfl
  have hflag := apply_operations_error_flag a _ _ _ _ _ _ rfl hops
  have hframe := apply_operations_frame a
    (fun o => (o.crontabs, o.crontab_suspend_threshold, o.crontab_suspend_expiration))
    h_eval _ _ _ _ _ _ hops
  simp only [Prod.mk.injEq] at hframe
  obtain ⟨hf1, hf2, hf3⟩ := hframe
  have hdb1 : db1 = { db with objs := { db.objs with
        crontabs := db.objs.crontabs.map (fun c =>
          if c.id = task.2 then crontab_begin db.head_block_time
            db.objs.assigned_task_life_cycle c else c) } } ∧ tc = some task.2 := by
    unfold check_authority at hauth
    simp only [h_task, Option.isSome_some, or_true, if_true] at hauth
    split at hauth
    · simp at hauth
    · rename_i d0 tc0 hb
      simp only [Except.ok.injEq, Prod.mk.injEq] at hauth
      obtain ⟨e1, _, e3⟩ := hauth
      rw [← e1, ← e3]
      unfold begin_agreed_task at hb
      rw [if_neg h_proposal] at hb
      split at hb
      · split at hb
        · simp at hb
        · split at hb
          · simp only [Except.ok.injEq, Prod.mk.injEq] at hb
            exact ⟨hb.1.symm, hb.2.symm⟩
          · simp at hb
      · simp at hb
  obtain ⟨e1, e2⟩ := hdb1
  have hcr : ∀ x : database, (create_records a (effective_skip a trx.tosigned_transaction db)
      trx.tosigned_transaction (a.hash trx.tosigned_transaction)
      (a.id trx.tosigned_transaction (a.hash trx.tosigned_transaction))
      run_mode x).objs.crontabs = x.objs.crontabs ∧
      (create_records a (effective_skip a trx.tosigned_transaction db)
      trx.tosigned_transaction (a.hash trx.tosigned_transaction)
      (a.id trx.tosigned_transaction (a.hash trx.tosigned_transaction))
      run_mode x).objs.crontab_suspend_threshold = x.objs.crontab_suspend_threshold ∧
      (create_records a (effective_skip a trx.tosigned_transaction db)
      trx.tosigned_transaction (a.hash trx.tosigned_transaction)
      (a.id trx.tosigned_transaction (a.hash trx.tosigned_transaction))
      run_mode x).objs.crontab_suspend_expiration = x.objs.crontab_suspend_expiration := by
    intro x
    obtain ⟨tib, ti, hcr⟩ := create_records_eq a
      (effective_skip a trx.tosigned_transaction db) trx.tosigned_transaction
      (a.hash trx.tosigned_transaction)
      (a.id trx.tosigned_transaction (a.hash trx.tosigned_transaction)) run_mode x
    rw [hcr]
    exact ⟨rfl, rfl, rfl⟩
  obtain ⟨c1, c2, c3⟩ := hcr db1
  simp only [c1, c2, c3] at hf1 hf2 hf3
  rw [hd, e2]
  unfold finish_crontab
  simp only [hf1, hf2, hf3, e1, List.map_map, hr, hflag]
  apply List.map_congr_left
  intro c _
  simp only [Function.comp]
  by_cases hc : c.id = task.2
  · have hb : (crontab_begin db.head_block_time db.objs.assigned_task_life_cycle c).id =
        task.2 := by rw [← hc]; rfl
    simp only [hc, if_true, crontab_execution]
    rw [if_pos (by rw [← hc]; rfl)]
  · simp only [hc, if_false]

/-- Claim C28, amended. For every crontab and every threshold of at least 1:
after threshold consecutive executions of its transaction that each contain an
error result and each leave `already_execute_times` below
`scheduled_execute_times`, counted from a failure counter of 0, the crontab is
suspended, its next execution time is the maximum, its failure counter is the
threshold and its expiration time is the time of the last execution plus
`crontab_suspend_expiration`. An execution without an error result that leaves
`already_execute_times` below `scheduled_execute_times` resets the failure
counter to 0; an execution that brings `already_execute_times` up to
`scheduled_execute_times` changes neither the counter nor the suspension. -/
theorem crontab_suspension (thr exp life : Nat) (c : crontab_object) (nows : List Nat)
    (now : Nat)
    (h_len : nows.length + 1 = thr)
    (h_zero : c.continuous_failure_times = 0)
    (h_room : c.already_execute_times + thr < c.scheduled_execute_times)
    (h_time : now + exp < 2 ^ 32) :
    ((crontab_execution thr exp life now true
        (nows.foldl (fun c t => crontab_execution thr exp life t true c) c)).is_suspended =
        true ∧
      (crontab_execution thr exp life now true
        (nows.foldl (fun c t => crontab_execution thr exp life t true c) c)).next_execte_time =
        time_point_sec_maximum ∧
      (crontab_execution thr exp life now true
        (nows.foldl (fun c t => crontab_execution thr exp life t true c)
          c)).continuous_failure_times = thr ∧
      (crontab_execution thr exp life now true
        (nows.foldl (fun c t => crontab_execution thr exp life t true c) c)).expiration_time =
        now + exp) ∧
    (∀ (c1 : crontab_object) (t : Nat),
      c1.already_execute_times + 1 < c1.scheduled_execute_times →
      (crontab_execution thr exp life t false c1).continuous_failure_times = 0) ∧
    (∀ (c1 : crontab_object) (t : Nat) (err : Bool),
      ¬ c1.already_execute_times + 1 < c1.scheduled_execute_times →
      (crontab_execution thr exp life t err c1).continuous_failure_times =
          c1.continuous_failure_times ∧
        (crontab_execution thr exp life t err c1).is_suspended = c1.is_suspended) := by
  refine ⟨?_, ?_, ?_⟩
  · obtain ⟨i1, i2, i3⟩ := crontab_failing_run thr exp life nows c (by omega)
    generalize nows.foldl (fun c t => crontab_execution thr exp life t true c) c = c2
      at i1 i2 i3
    have hc : c2.already_execute_times + 1 < c2.scheduled_execute_times := by
      rw [i1, i2]; omega
    have ht : thr = c2.continuous_failure_times + 1 := by rw [i3, h_zero]; omega
    unfold crontab_execution crontab_post_pass crontab_begin
    simp only [hc, if_true, ht]
    exact ⟨trivial, trivial, trivial, time_point_sec_add_small now exp h_time⟩
  · intro c1 t h
    unfold crontab_execution crontab_post_pass crontab_begin
    simp only [h, if_true, Bool.false_eq_true, if_false]
    split
    · rfl
    · rename_i h0
      simp only [ne_eq, not_not] at h0
      exact h0.symm
  · intro c1 t err h
    unfold crontab_execution crontab_post_pass crontab_begin
    simp only [h, if_false]
    exact ⟨trivial, trivial⟩

theorem crontab_suspension_witness :
    ((crontab_execution 3 259200 600 80 true
        ([60, 70].foldl (fun c t => crontab_execution 3 259200 600 t true c)
          (cron 10))).is_suspended = true ∧
      (crontab_execution 3 259200 600 80 true
        ([60, 70].foldl (fun c t => crontab_execution 3 259200 600 t true c)
          (cron 10))).next_execte_time = time_point_sec_maximum ∧
      (crontab_execution 3 259200 600 80 true
        ([60, 70].foldl (fun c t => crontab_execution 3 259200 600 t true c)
          (cron 10))).continuous_failure_times = 3 ∧
      (crontab_execution 3 259200 600 80 true
        ([60, 70].foldl (fun c t => crontab_execution 3 259200 600 t true c)
          (cron 10))).expiration_time = 80 + 259200) ∧
    (∀ (c1 : crontab_object) (t : Nat),
      c1.already_execute_times + 1 < c1.scheduled_execute_times →
      (crontab_execution 3 259200 600 t false c1).continuous_failure_times = 0) ∧
    (∀ (c1 : crontab_object) (t : Nat) (err : Bool),
      ¬ c1.already_execute_times + 1 < c1.scheduled_execute_times →
      (crontab_execution 3 259200 600 t err c1).continuous_failure_times =
          c1.continuous_failure_times ∧
        (crontab_execution 3 259200 600 t err c1).is_suspended = c1.is_suspended) :=
  crontab_suspension 3 259200 600 (cron 10) [60, 70] 80 rfl rfl (by decide) (by decide)

end database

namespace database
open scenario

/-- Claim C30, failing input. With a block interval of 3 seconds, outside
apply-block mode, an operation that ran for 300000 microseconds is within 75%
of the block interval (2250000 microseconds), but the limit of the code is
`3 * 75000 = 225000` and the transaction is rejected. -/
theorem run_time_limit_is_a_tenth :
    late.objs.block_interval = 3 ∧
      applier.get_runtime (.contract_result false 300000) < 3 * 750000 ∧
      ∃ d, _apply_transaction applier slow_tx .push_mode false late =
        .thrown (.fc_assert 818) d :=
  ⟨rfl, by decide, _, rfl⟩

end database

namespace database
open scenario

/-- Claim C29, counterexample. The same agreed-task transaction is applied in
apply-block mode from two databases that differ in the readings of the wall
clock only: both runs return, but the captured `error_result` carries the run
time 5 in one run and 9 in the other, in the returned operation results and in
the applied-operations buffer. -/
theorem captured_error_depends_on_wall_clock :
    late_proposal_slow = { late_proposal with wall_clock := [10, 19] } ∧
    (∃ d, apply_transaction applier task_tx 64 .apply_block_mode late_proposal =
        .returned { task_tx with operation_results := [.error_result 5 1005 5] } d ∧
      d.applied_ops.map (Option.map (fun oh => oh.result)) =
        [some (.error_result 5 1005 5)]) ∧
    (∃ d, apply_transaction applier task_tx 64 .apply_block_mode late_proposal_slow =
        .returned { task_tx with operation_results := [.error_result 5 1005 9] } d ∧
      d.applied_ops.map (Option.map (fun oh => oh.result)) =
        [some (.error_result 5 1005 9)]) :=
  ⟨rfl, ⟨_, rfl, rfl⟩, ⟨_, rfl, rfl⟩⟩

theorem erase_time_idem (r : operation_result) : r.erase_time.erase_time = r.erase_time := by
  cases r <;> rfl

theorem erase_time_which (r : operation_result) : r.erase_time.which = r.which := by
  cases r <;> rfl

theorem erase_time_existed_pv (r : operation_result) :
    r.erase_time.existed_pv = r.existed_pv := by
  cases r <;> rfl

theorem erase_time_is_error_result (r : operation_result) :
    r.erase_time.is_error_result = r.is_error_result := by
  cases r <;> rfl

theorem erase_time_is_void_result (r : operation_result) :
    r.erase_time.is_void_result = r.is_void_result := by
  cases r <;> rfl

theorem erase_time_is_contract_result (r : operation_result) :
    r.erase_time.is_contract_result = r.is_contract_result := by
  cases r <;> rfl

/-- Two databases that agree apart from the wall clock agree on every member
but `wall_clock` and the run times in `applied_ops`. -/
theorem forget_clock_eq_iff (d1 d2 : database) :
    d1.forget_clock = d2.forget_clock ↔
      d2 = { d1 with wall_clock := d2.wall_clock, applied_ops := d2.applied_ops } ∧
      d1.applied_ops.map (Option.map (fun oh => { oh with result := oh.result.erase_time })) =
        d2.applied_ops.map
          (Option.map (fun oh => { oh with result := oh.result.erase_time })) := by
  cases d1; cases d2
  simp only [forget_clock, database.mk.injEq]
  constructor
  · intro h
    simp only [h, true_and, and_true]
  · intro h
    simp_all

/-- The form of two databases that agree apart from the wall clock. -/
theorem forget_clock_eq_form (d1 d2 : database) (h : d1.forget_clock = d2.forget_clock) :
    ∃ w ops, d2 = { d1 with wall_clock := w, applied_ops := ops } ∧
      d1.applied_ops.map (Option.map (fun oh => { oh with result := oh.result.erase_time })) =
        ops.map (Option.map (fun oh => { oh with result := oh.result.erase_time })) :=
  ⟨d2.wall_clock, d2.applied_ops, (forget_clock_eq_iff d1 d2).mp h⟩

/-- The outcome of `apply_operation` does not depend on the wall clock, apart
from the run time measured for a captured error. -/
theorem apply_operation_forget_clock (a : Applier) (eval_state : transaction_evaluation_state)
    (op : operation) (is_agreed_task : Bool) (d1 d2 : database)
    (h : d1.forget_clock = d2.forget_clock) :
    (apply_operation a eval_state op is_agreed_task d1).forget_clock
        operation_result.erase_time =
      (apply_operation a eval_state op is_agreed_task d2).forget_clock
        operation_result.erase_time := by
  obtain ⟨w, ops, hd, hops⟩ := forget_clock_eq_form d1 d2 h
  subst hd
  rcases he : a.evaluate eval_state op d1.objs with ⟨e | r, o⟩
  · cases is_agreed_task
    · rw [apply_operation_thrown a eval_state op d1 e o he,
        apply_operation_thrown a eval_state op
          { d1 with wall_clock := w, applied_ops := ops } e o he]
      simp [outcome.forget_clock, forget_clock, hops]
    · rw [apply_operation_captured a eval_state op d1 e o he,
        apply_operation_captured a eval_state op
          { d1 with wall_clock := w, applied_ops := ops } e o he]
      have herr : ∀ c m t, (operation_result.error_result c m t).erase_time =
          .error_result c m 0 := fun _ _ _ => rfl
      simp [outcome.forget_clock, forget_clock, hops, herr]
  · rw [apply_operation_ok a eval_state op is_agreed_task d1 r o he,
      apply_operation_ok a eval_state op is_agreed_task
        { d1 with wall_clock := w, applied_ops := ops } r o he]
    simp [outcome.forget_clock, forget_clock, hops]

end database

namespace database
open scenario

/-- Two outcomes that agree apart from the wall clock are both returns or both
throws of the same exception. -/
theorem outcome_forget_clock_cases {α : Type} (f : α → α) (o1 o2 : outcome α)
    (h : o1.forget_clock f = o2.forget_clock f) :
    (∃ r1 e1 r2 e2, o1 = .returned r1 e1 ∧ o2 = .returned r2 e2 ∧ f r1 = f r2 ∧
      e1.forget_clock = e2.forget_clock) ∨
    (∃ x e1 e2, o1 = .thrown x e1 ∧ o2 = .thrown x e2 ∧ e1.forget_clock = e2.forget_clock) := by
  cases o1 with
  | returned r1 e1 =>
    cases o2 with
    | returned r2 e2 =>
      simp only [outcome.forget_clock, outcome.returned.injEq] at h
      exact Or.inl ⟨r1, e1, r2, e2, rfl, rfl, h.1, h.2⟩
    | thrown x e2 => simp [outcome.forget_clock] at h
  | thrown x e1 =>
    cases o2 with
    | returned r2 e2 => simp [outcome.forget_clock] at h
    | thrown y e2 =>
      simp only [outcome.forget_clock, outcome.thrown.injEq] at h
      obtain ⟨h1, h2⟩ := h
      subst h1
      exact Or.inr ⟨x, e1, e2, rfl, rfl, h2⟩

theorem forget_clock_objs (d1 d2 : database) (h : d1.forget_clock = d2.forget_clock) :
    d1.objs = d2.objs ∧ d1.current_op_in_trx = d2.current_op_in_trx := by
  obtain ⟨w, ops, hd, _⟩ := forget_clock_eq_form d1 d2 h
  subst hd
  exact ⟨rfl, rfl⟩

theorem forget_clock_log (c : call) (d1 d2 : database)
    (h : d1.forget_clock = d2.forget_clock) :
    (log c d1).forget_clock = (log c d2).forget_clock := by
  obtain ⟨w, ops, hd, hops⟩ := forget_clock_eq_form d1 d2 h
  subst hd
  simp [log, forget_clock, hops]

theorem forget_clock_next_op (d1 d2 : database) (h : d1.forget_clock = d2.forget_clock) :
    ({ d1 with current_op_in_trx := d1.current_op_in_trx + 1 } : database).forget_clock =
      ({ d2 with current_op_in_trx := d2.current_op_in_trx + 1 } : database).forget_clock := by
  obtain ⟨w, ops, hd, hops⟩ := forget_clock_eq_form d1 d2 h
  subst hd
  simp [forget_clock, hops]

/-- The effect of `auto_gas` does not depend on the wall clock. -/
theorem auto_gas_forget_clock (a : Applier) (eval_state : transaction_evaluation_state)
    (from_account : Nat) (results1 results2 : List operation_result) (d1 d2 : database)
    (h : d1.forget_clock = d2.forget_clock)
    (hr : results1.map operation_result.erase_time =
      results2.map operation_result.erase_time) :
    (auto_gas a eval_state from_account results1 d1).1.map operation_result.erase_time =
        (auto_gas a eval_state from_account results2 d2).1.map operation_result.erase_time ∧
      (auto_gas a eval_state from_account results1 d1).2.forget_clock =
        (auto_gas a eval_state from_account results2 d2).2.forget_clock := by
  have hl := forget_clock_log (.auto_gas from_account) d1 d2 h
  have ho : (log (.auto_gas from_account) d1).objs = (log (.auto_gas from_account) d2).objs :=
    (forget_clock_objs _ _ hl).1
  unfold auto_gas
  simp only []
  rw [ho]
  cases hw : a.first_vesting_balance (log (.auto_gas from_account) d2).objs from_account with
  | none => exact ⟨hr, hl⟩
  | some w =>
    simp only []
    by_cases hc : w.asset_id = 1 ∧ w.amount > 100000
    · rw [if_pos hc, if_pos hc]
      have hap := apply_operation_forget_clock a eval_state (a.withdraw_operation w) false
        _ _ hl
      rcases outcome_forget_clock_cases _ _ _ hap with
        ⟨r1, e1, r2, e2, h1, h2, hre, hfe⟩ | ⟨x, e1, e2, h1, h2, hfe⟩
      · rw [h1, h2]
        simp only []
        have herr : r1.is_error_result = r2.is_error_result := by
          rw [← erase_time_is_error_result r1, hre, erase_time_is_error_result]
        rw [herr]
        by_cases he : r2.is_error_result = true
        · simp only [he, if_true]
          exact ⟨hr, hfe⟩
        · simp only [he, Bool.false_eq_true, if_false]
          exact ⟨by simp [hr, hre], hfe⟩
      · rw [h1, h2]
        exact ⟨hr, hfe⟩
    · rw [if_neg hc, if_neg hc]
      exact ⟨hr, hl⟩

end database

namespace database
open scenario

/-- When no record of a buffer reports `existed_pv`, none of a front part of
it does. -/
theorem no_existed_pv_append (l1 l2 : List (Option operation_history_object))
    (h : no_existed_pv (l1 ++ l2) = true) : no_existed_pv l1 = true := by
  unfold no_existed_pv at h ⊢
  rw [List.all_append, Bool.and_eq_true] at h
  exact h.1

/-- When no record of a buffer reports `existed_pv`, the result of a record in
it does not. -/
theorem no_existed_pv_mem (l : List (Option operation_history_object))
    (oh : operation_history_object) (h : no_existed_pv l = true) (hm : some oh ∈ l) :
    oh.result.existed_pv = false := by
  unfold no_existed_pv at h
  have := List.all_eq_true.mp h _ hm
  simpa using this

/-- When no record of a buffer from position `n` on reports `existed_pv`, none
of a front part that reaches to `n` does from `n` on. -/
theorem no_existed_pv_drop_append (n : Nat) (l1 l2 : List (Option operation_history_object))
    (hn : n ≤ l1.length) (h : no_existed_pv ((l1 ++ l2).drop n) = true) :
    no_existed_pv (l1.drop n) = true := by
  rw [List.drop_append_of_le_length hn] at h
  exact no_existed_pv_append _ _ h

/-- When no record of a buffer from position `n` on reports `existed_pv`, the
result of a record behind a front part that reaches to `n` does not. -/
theorem no_existed_pv_drop_mem (n : Nat) (l1 l2 : List (Option operation_history_object))
    (oh : operation_history_object) (hn : n ≤ l1.length)
    (h : no_existed_pv ((l1 ++ l2).drop n) = true) (hm : some oh ∈ l2) :
    oh.result.existed_pv = false := by
  rw [List.drop_append_of_le_length hn] at h
  exact no_existed_pv_mem _ oh h (List.mem_append_right _ hm)

/-- The call `apply_operation` appends to the applied-operations buffer; when
it returns, a record it appended carries the result it returns. -/
theorem apply_operation_records (a : Applier) (eval_state : transaction_evaluation_state)
    (op : operation) (is_agreed_task : Bool) (db : database) :
    ∃ new, (apply_operation a eval_state op is_agreed_task db).db.applied_ops =
        db.applied_ops ++ new ∧
      ∀ r d, apply_operation a eval_state op is_agreed_task db = .returned r d →
        ∃ oh, some oh ∈ new ∧ oh.result = r := by
  rcases h : a.evaluate eval_state op db.objs with ⟨e | res, o⟩
  · cases is_agreed_task
    · rw [apply_operation_thrown a eval_state op db e o h]
      exact ⟨[], by simp [outcome.db], fun r d hr => by simp at hr⟩
    · rw [apply_operation_captured a eval_state op db e o h]
      refine ⟨_, rfl, fun r d hr => ?_⟩
      simp only [outcome.returned.injEq] at hr
      exact ⟨_, List.mem_singleton_self _, hr.1⟩
  · rw [apply_operation_ok a eval_state op is_agreed_task db res o h]
    refine ⟨_, rfl, fun r d hr => ?_⟩
    simp only [outcome.returned.injEq] at hr
    exact ⟨_, List.mem_singleton_self _, hr.1⟩

/-- The call `auto_gas` appends to the applied-operations buffer. -/
theorem auto_gas_records (a : Applier) (eval_state : transaction_evaluation_state)
    (from_account : Nat) (results : List operation_result) (db : database) :
    ∃ new, (auto_gas a eval_state from_account results db).2.applied_ops =
      db.applied_ops ++ new := by
  unfold auto_gas
  simp only [log]
  split
  · exact ⟨[], by simp⟩
  · split
    · obtain ⟨new, h, _⟩ := apply_operation_records a eval_state
        (a.withdraw_operation ‹_›) false { db with trace := db.trace ++ [.auto_gas from_account] }
      split
      · rename_i r d hr
        rw [hr] at h
        split <;> exact ⟨new, h⟩
      · rename_i e d hr
        rw [hr] at h
        exact ⟨new, h⟩
    · exact ⟨[], by simp⟩

/-- A pass of the operation loop appends to the applied-operations buffer;
when `apply_operation` returned in it, a record it appended carries the result
of the operation. -/
theorem apply_loop_body_records (a : Applier) (eval_state : transaction_evaluation_state)
    (op : operation) (st : apply_loop_state) (db : database) :
    ∃ new, (apply_loop_body a eval_state op st db).db.applied_ops = db.applied_ops ++ new ∧
      ∀ r e, apply_operation a eval_state op eval_state.is_agreed_task db = .returned r e →
        ∃ oh, some oh ∈ new ∧ oh.result = r := by
  obtain ⟨new1, h1, hrec⟩ := apply_operation_records a eval_state op
    eval_state.is_agreed_task db
  rw [apply_loop_body_eq]
  cases hr : apply_operation a eval_state op eval_state.is_agreed_task db with
  | thrown e d =>
    rw [hr] at h1
    exact ⟨new1, h1, fun r e h => by simp at h⟩
  | returned r d =>
    rw [hr] at h1
    simp only [outcome.db] at h1
    obtain ⟨oh, hm, hres⟩ := hrec r d hr
    have key : ∀ x : database, (∃ n2, x.applied_ops = d.applied_ops ++ n2) →
        ∃ new, x.applied_ops = db.applied_ops ++ new ∧
          ∀ r' e', outcome.returned r d = outcome.returned r' e' →
            ∃ oh, some oh ∈ new ∧ oh.result = r' := by
      rintro x ⟨n2, hx⟩
      refine ⟨new1 ++ n2, by rw [hx, h1, List.append_assoc], fun r' e' he => ?_⟩
      simp only [outcome.returned.injEq] at he
      exact ⟨oh, List.mem_append_left _ hm, by rw [hres, he.1]⟩
    simp only []
    split
    · exact key d ⟨[], by simp⟩
    · split
      · exact key d ⟨[], by simp⟩
      · split
        · split
          · exact key _ (auto_gas_records a eval_state _ _ _)
          · exact key _ ⟨[], by simp [outcome.db]⟩
        · exact key _ ⟨[], by simp [outcome.db]⟩

/-- The operation loop appends to the applied-operations buffer. -/
theorem apply_operations_records (a : Applier) (eval_state : transaction_evaluation_state)
    (ops : List operation) :
    ∀ (st : apply_loop_state) (db : database),
      ∃ new, (apply_operations a eval_state ops st db).db.applied_ops =
        db.applied_ops ++ new := by
  induction ops with
  | nil => intro st db; exact ⟨[], by simp [apply_operations, outcome.db]⟩
  | cons op rest ih =>
    intro st db
    obtain ⟨n1, h1, _⟩ := apply_loop_body_records a eval_state op st db
    rw [apply_operations]
    cases hb : apply_loop_body a eval_state op st db with
    | thrown e d =>
      rw [hb] at h1
      exact ⟨n1, h1⟩
    | returned s d =>
      rw [hb] at h1
      simp only [outcome.db] at h1
      obtain ⟨n2, h2⟩ := ih s d
      exact ⟨n1 ++ n2, by simp only []; rw [h2, h1, List.append_assoc]⟩

/-- The crontab post-pass leaves the applied-operations buffer as it is. -/
theorem finish_crontab_applied_ops (temp_crontab : Option Nat) (now : Nat) (err : Bool)
    (db : database) : (finish_crontab temp_crontab now err db).applied_ops = db.applied_ops := by
  obtain ⟨cs, h⟩ := finish_crontab_objs temp_crontab now err db
  rw [h]

/-- A call of `_apply_transaction` appends to the applied-operations buffer. -/
theorem _apply_transaction_records (a : Applier) (trx : processed_transaction)
    (run_mode : transaction_apply_mode) (only_try_permissions : Bool) (db : database) :
    ∃ new, (_apply_transaction a trx run_mode only_try_permissions db).db.applied_ops =
      db.applied_ops ++ new := by
  unfold _apply_transaction
  simp only []
  split
  · exact ⟨[], by simp [outcome.db]⟩
  · split
    · exact ⟨[], by simp [outcome.db]⟩
    · split
      · exact ⟨[], by simp [outcome.db]⟩
      · split
        · exact ⟨[], by simp [outcome.db]⟩
        · rename_i db1 ag tc hauth
          obtain ⟨⟨ps, cs, hdb1⟩, _⟩ := check_authority_ok _ _ _ _ _ _ _ _ _ hauth
          have e1 : db1.applied_ops = db.applied_ops := by rw [hdb1]
          split
          · exact ⟨[], by simp [outcome.db, e1]⟩
          · obtain ⟨tib, ti, hcr⟩ := create_records_eq a
              (effective_skip a trx.tosigned_transaction db) trx.tosigned_transaction
              (a.hash trx.tosigned_transaction)
              (a.id trx.tosigned_transaction (a.hash trx.tosigned_transaction)) run_mode db1
            split
            · exact ⟨[], by simp only [outcome.db]; rw [hcr]; simp [e1]⟩
            · obtain ⟨n, hn⟩ := apply_operations_records a
                { _trx := trx, run_mode := run_mode
                  skip := effective_skip a trx.tosigned_transaction db, is_agreed_task := ag }
                trx.operations { run_mode := run_mode }
                { create_records a (effective_skip a trx.tosigned_transaction db)
                    trx.tosigned_transaction (a.hash trx.tosigned_transaction)
                    (a.id trx.tosigned_transaction (a.hash trx.tosigned_transaction))
                    run_mode db1 with current_op_in_trx := 0 }
              have e2 : ({ create_records a (effective_skip a trx.tosigned_transaction db)
                    trx.tosigned_transaction (a.hash trx.tosigned_transaction)
                    (a.id trx.tosigned_transaction (a.hash trx.tosigned_transaction))
                    run_mode db1 with current_op_in_trx := 0 } : database).applied_ops =
                  db.applied_ops := by
                rw [hcr]
                exact e1
              rw [e2] at hn
              split
              · rename_i e d3 hl
                rw [hl] at hn
                exact ⟨n, hn⟩
              · rename_i st d3 hl
                rw [hl] at hn
                exact ⟨n, by simp only [outcome.db, finish_crontab_applied_ops]; exact hn⟩

/-- A call of `apply_transaction` appends to the applied-operations buffer. -/
theorem apply_transaction_records (a : Applier) (trx : processed_transaction) (skip : Nat)
    (run_mode : transaction_apply_mode) (db : database) :
    ∃ new, (apply_transaction a trx skip run_mode db).db.applied_ops =
      db.applied_ops ++ new := by
  obtain ⟨n, hn⟩ := _apply_transaction_records a trx run_mode false
    { db with skip_flags := skip }
  unfold apply_transaction with_skip_flags
  simp only []
  cases h : _apply_transaction a trx run_mode false { db with skip_flags := skip } with
  | thrown e d => rw [h] at hn; exact ⟨n, hn⟩
  | returned r d => rw [h] at hn; exact ⟨n, hn⟩

/-- The loop over the transactions of a block appends to the
applied-operations buffer. -/
theorem apply_block_transactions_records (a : Applier) (skip : Nat)
    (trxs : List (Nat × processed_transaction)) :
    ∀ db : database, ∃ new,
      (apply_block_transactions a skip trxs db).db.applied_ops = db.applied_ops ++ new := by
  induction trxs with
  | nil => intro db; exact ⟨[], by simp [apply_block_transactions, outcome.db]⟩
  | cons trx rest ih =>
    intro db
    rw [apply_block_transactions]
    split
    · exact ⟨[], by simp [outcome.db]⟩
    · obtain ⟨n1, h1⟩ := apply_transaction_records a trx.2 (skip ||| a.skip_authority_check)
        .apply_block_mode db
      cases ht : apply_transaction a trx.2 (skip ||| a.skip_authority_check)
          .apply_block_mode db with
      | thrown e d => rw [ht] at h1; exact ⟨n1, h1⟩
      | returned r d =>
        rw [ht] at h1
        simp only [outcome.db] at h1
        obtain ⟨n2, h2⟩ := ih { d with current_trx_in_block := d.current_trx_in_block + 1 }
        exact ⟨n1 ++ n2, by simp only []; rw [h2]; simp only []; rw [h1, List.append_assoc]⟩

theorem auto_gas_candidate_erase_time (a : Applier) (op : operation) (r1 r2 : operation_result)
    (h : r1.erase_time = r2.erase_time) :
    auto_gas_candidate a op r1 = auto_gas_candidate a op r2 := by
  unfold auto_gas_candidate
  rw [← erase_time_is_void_result r1, ← erase_time_is_contract_result r1, h,
    erase_time_is_void_result, erase_time_is_contract_result]

theorem loop_state_after_forget_clock (st1 st2 : apply_loop_state) (t1 t2 : Nat)
    (r1 r2 : operation_result)
    (hst : st1.forget_clock = st2.forget_clock) (hr : r1.erase_time = r2.erase_time) :
    (loop_state_after st1 t1 r1).forget_clock = (loop_state_after st2 t2 r2).forget_clock := by
  have hpv : r1.existed_pv = r2.existed_pv := by
    rw [← erase_time_existed_pv r1, hr, erase_time_existed_pv]
  have herr : r1.is_error_result = r2.is_error_result := by
    rw [← erase_time_is_error_result r1, hr, erase_time_is_error_result]
  cases st1; cases st2
  simp only [apply_loop_state.forget_clock, apply_loop_state.mk.injEq] at hst
  obtain ⟨h1, _, h3, h4, h5⟩ := hst
  simp [apply_loop_state.forget_clock, loop_state_after, h1, h3, h4, h5, hr, hpv, herr]

/-- One pass of the operation loop in apply-block mode does not depend on the
wall clock, apart from the run times measured for captured errors; when no
record the pass adds to the applied-operations buffer (no record from position
`n` on, where `n` is within the buffer the pass starts with) reports
`existed_pv`, the loop stays in apply-block mode. -/
theorem apply_loop_body_forget_clock (a : Applier) (eval_state : transaction_evaluation_state)
    (op : operation) (st1 st2 : apply_loop_state) (d1 d2 : database)
    (h : d1.forget_clock = d2.forget_clock)
    (hst : st1.forget_clock = st2.forget_clock)
    (hmode : st1.run_mode = .apply_block_mode)
    (n : Nat) (hn : n ≤ d1.applied_ops.length)
    (hno : no_existed_pv ((apply_loop_body a eval_state op st1 d1).db.applied_ops.drop n) =
      true) :
    (apply_loop_body a eval_state op st1 d1).forget_clock apply_loop_state.forget_clock =
        (apply_loop_body a eval_state op st2 d2).forget_clock apply_loop_state.forget_clock ∧
      ∀ st' d', apply_loop_body a eval_state op st1 d1 = .returned st' d' →
        st'.run_mode = .apply_block_mode := by
  have hmode2 : st2.run_mode = .apply_block_mode := by
    have := congrArg apply_loop_state.run_mode hst
    simp only [apply_loop_state.forget_clock] at this
    rw [← this]; exact hmode
  have hlast : st1.last_from = st2.last_from := by
    have := congrArg apply_loop_state.last_from hst
    simpa [apply_loop_state.forget_clock] using this
  have hres : st1.operation_results.map operation_result.erase_time =
      st2.operation_results.map operation_result.erase_time := by
    have := congrArg apply_loop_state.operation_results hst
    simpa [apply_loop_state.forget_clock] using this
  rw [apply_loop_body_eq, apply_loop_body_eq]
  have hap := apply_operation_forget_clock a eval_state op eval_state.is_agreed_task d1 d2 h
  rcases outcome_forget_clock_cases _ _ _ hap with
    ⟨r1, e1, r2, e2, h1, h2, hre, hfe⟩ | ⟨x, e1, e2, h1, h2, hfe⟩
  · have hpv1 : r1.existed_pv = false := by
      obtain ⟨new, hnew, hrec⟩ := apply_loop_body_records a eval_state op st1 d1
      obtain ⟨oh, hm, hres⟩ := hrec r1 e1 h1
      rw [← hres]
      rw [hnew] at hno
      exact no_existed_pv_drop_mem n _ _ oh hn hno hm
    rw [h1, h2]
    simp only []
    have n1 : ¬ (st1.run_mode ≠ .apply_block_mode ∧
        ¬ st1.real_run_time + a.get_runtime r1 < e1.objs.block_interval * 75000) := by
      simp [hmode]
    have n2 : ¬ (st2.run_mode ≠ .apply_block_mode ∧
        ¬ st2.real_run_time + a.get_runtime r2 < e2.objs.block_interval * 75000) := by
      simp [hmode2]
    rw [if_neg n1, if_neg n2]
    obtain ⟨hobjs, hcur⟩ := forget_clock_objs e1 e2 hfe
    have heq : ∀ recorded, r1.eq recorded = r2.eq recorded := by
      intro recorded
      unfold operation_result.eq
      rw [← erase_time_which r1, hre, erase_time_which]
    have hcand := auto_gas_candidate_erase_time a op r1 r2 hre
    have hafter : ∀ t1 t2, (loop_state_after st1 t1 r1).forget_clock =
        (loop_state_after st2 t2 r2).forget_clock :=
      fun t1 t2 => loop_state_after_forget_clock st1 st2 t1 t2 r1 r2 hst hre
    have hmode_after : ∀ t, (loop_state_after st1 t r1).run_mode = .apply_block_mode := by
      intro t
      simp [loop_state_after, hpv1, hmode]
    by_cases c2 : st1.run_mode = .apply_block_mode ∧ eval_state.is_agreed_task = true ∧
        ((eval_state._trx.operation_results.get? e1.current_op_in_trx).map
          (fun recorded => r1.eq recorded)) ≠ some true
    · have c2' : st2.run_mode = .apply_block_mode ∧ eval_state.is_agreed_task = true ∧
          ((eval_state._trx.operation_results.get? e2.current_op_in_trx).map
            (fun recorded => r2.eq recorded)) ≠ some true := by
        refine ⟨hmode2, c2.2.1, ?_⟩
        rw [← hcur]
        have : (fun recorded => r2.eq recorded) = (fun recorded => r1.eq recorded) := by
          funext recorded; exact (heq recorded).symm
        rw [this]
        exact c2.2.2
      rw [if_pos c2, if_pos c2']
      exact ⟨by simp [outcome.forget_clock, hfe], fun st' d' hx => by simp at hx⟩
    · have c2' : ¬ (st2.run_mode = .apply_block_mode ∧ eval_state.is_agreed_task = true ∧
          ((eval_state._trx.operation_results.get? e2.current_op_in_trx).map
            (fun recorded => r2.eq recorded)) ≠ some true) := by
        intro hc
        apply c2
        refine ⟨hmode, hc.2.1, ?_⟩
        rw [hcur]
        have : (fun recorded => r1.eq recorded) = (fun recorded => r2.eq recorded) := by
          funext recorded; exact heq recorded
        rw [this]
        exact hc.2.2
      rw [if_neg c2, if_neg c2']
      have htime : e1.head_block_time = e2.head_block_time := by
        unfold head_block_time; rw [hobjs]
      rw [htime, hcand]
      have hnext := forget_clock_next_op e1 e2 hfe
      cases hg : (if e2.head_block_time > a.AUTO_GAS_TIMEPOINT then auto_gas_candidate a op r2
          else none) with
      | none =>
        simp only []
        refine ⟨by
          simp only [outcome.forget_clock]
          rw [hafter (st1.real_run_time + a.get_runtime r1)
            (st2.real_run_time + a.get_runtime r2), hnext], fun st' d' hx => ?_⟩
        simp only [outcome.returned.injEq] at hx
        rw [← hx.1]; exact hmode_after (st1.real_run_time + a.get_runtime r1)
      | some op_from =>
        simp only []
        by_cases c6 : st1.last_from ≠ op_from
        · have c6' : st2.last_from ≠ op_from := by rw [← hlast]; exact c6
          rw [if_pos c6, if_pos c6']
          obtain ⟨g1, g2⟩ := auto_gas_forget_clock a eval_state op_from
            (st1.operation_results ++ [r1]) (st2.operation_results ++ [r2])
            { e1 with current_op_in_trx := e1.current_op_in_trx + 1 }
            { e2 with current_op_in_trx := e2.current_op_in_trx + 1 } hnext
            (by simp [hres, hre])
          refine ⟨?_, fun st' d' hx => ?_⟩
          · simp only [outcome.forget_clock, g2, outcome.returned.injEq, and_true]
            have := hafter (st1.real_run_time + a.get_runtime r1)
              (st2.real_run_time + a.get_runtime r2)
            simp only [apply_loop_state.forget_clock, apply_loop_state.mk.injEq] at this ⊢
            exact ⟨g1, trivial, this.2.2.1, this.2.2.2.1, trivial⟩
          · simp only [outcome.returned.injEq] at hx
            rw [← hx.1]; exact hmode_after (st1.real_run_time + a.get_runtime r1)
        · have c6' : ¬ st2.last_from ≠ op_from := by rw [← hlast]; exact c6
          rw [if_neg c6, if_neg c6']
          refine ⟨by
          simp only [outcome.forget_clock]
          rw [hafter (st1.real_run_time + a.get_runtime r1)
            (st2.real_run_time + a.get_runtime r2), hnext], fun st' d' hx => ?_⟩
          simp only [outcome.returned.injEq] at hx
          rw [← hx.1]; exact hmode_after (st1.real_run_time + a.get_runtime r1)
  · rw [h1, h2]
    exact ⟨by simp [outcome.forget_clock, hfe], fun st' d' hx => by simp at hx⟩

end database

namespace database
open scenario

/-- An operation loop in apply-block mode that adds no record reporting
`existed_pv` to the applied-operations buffer does not depend on the wall
clock, apart from the run times measured for captured errors. -/
theorem apply_operations_forget_clock (a : Applier) (eval_state : transaction_evaluation_state)
    (ops : List operation) :
    ∀ (st1 st2 : apply_loop_state) (d1 d2 : database),
      d1.forget_clock = d2.forget_clock →
      st1.forget_clock = st2.forget_clock →
      st1.run_mode = .apply_block_mode →
      ∀ n, n ≤ d1.applied_ops.length →
      no_existed_pv ((apply_operations a eval_state ops st1 d1).db.applied_ops.drop n) = true →
      (apply_operations a eval_state ops st1 d1).forget_clock apply_loop_state.forget_clock =
        (apply_operations a eval_state ops st2 d2).forget_clock
          apply_loop_state.forget_clock := by
  induction ops with
  | nil =>
    intro st1 st2 d1 d2 h hst _ _ _ _
    simp [apply_operations, outcome.forget_clock, h, hst]
  | cons op rest ih =>
    intro st1 st2 d1 d2 h hst hmode n hn hno
    rw [apply_operations] at hno
    obtain ⟨nb, hnb, _⟩ := apply_loop_body_records a eval_state op st1 d1
    have hno_body : no_existed_pv
        ((apply_loop_body a eval_state op st1 d1).db.applied_ops.drop n) = true := by
      cases hb1 : apply_loop_body a eval_state op st1 d1 with
      | thrown e x => rw [hb1] at hno; exact hno
      | returned s x =>
        rw [hb1] at hno hnb
        simp only [outcome.db] at hnb
        obtain ⟨n2, hn2⟩ := apply_operations_records a eval_state rest s x
        simp only [] at hno
        rw [hn2] at hno
        exact no_existed_pv_drop_append n x.applied_ops n2
          (by rw [hnb, List.length_append]; omega) hno
    obtain ⟨hb, hm⟩ := apply_loop_body_forget_clock a eval_state op st1 st2 d1 d2 h hst hmode
      n hn hno_body
    rw [apply_operations, apply_operations]
    rcases outcome_forget_clock_cases _ _ _ hb with
      ⟨s1, e1, s2, e2, h1, h2, hs, he⟩ | ⟨x, e1, e2, h1, h2, he⟩
    · rw [h1, h2]
      rw [h1] at hno hnb
      simp only [outcome.db] at hnb
      exact ih s1 s2 e1 e2 he hs (hm s1 e1 h1) n
        (by rw [hnb, List.length_append]; omega) hno
    · rw [h1, h2]
      simp [outcome.forget_clock, he]

/-- The steps of `_apply_transaction` before and after the operation loop
neither read nor write the wall clock or the applied-operations buffer. -/
theorem begin_agreed_task_clock (a : Applier) (id trx_hash now : Nat) (db : database)
    (w : List Nat) (ops : List (Option operation_history_object)) :
    begin_agreed_task a id trx_hash now { db with wall_clock := w, applied_ops := ops } =
      (begin_agreed_task a id trx_hash now db).map
        (fun p => ({ p.1 with wall_clock := w, applied_ops := ops }, p.2)) := by
  unfold begin_agreed_task
  simp only []
  by_cases h1 : a.object_type id = a.proposal_type_id
  · simp only [h1, if_true]
    cases hf : List.find? (fun p => decide (p.id = id)) db.objs.proposals with
    | none => rfl
    | some proposal =>
      simp only []
      by_cases h2 : trx_hash = a.hash proposal.proposed_transaction ∧
          proposal.expiration_time ≤ now ∧ proposal.allow_execution = true
      · rw [if_pos h2, if_pos h2]; rfl
      · rw [if_neg h2, if_neg h2]; rfl
  · simp only [h1, if_false]
    by_cases h3 : a.object_type id = a.crontab_type_id
    · simp only [h3, if_true]
      cases hf : List.find? (fun c => decide (c.id = id)) db.objs.crontabs with
      | none => rfl
      | some crontab =>
        simp only []
        by_cases h2 : trx_hash = a.hash crontab.timed_transaction ∧
            crontab.next_execte_time ≤ now ∧ crontab.allow_execution = true
        · rw [if_pos h2, if_pos h2]; rfl
        · rw [if_neg h2, if_neg h2]; rfl
    · simp only [h3, if_false]
      rfl

theorem check_authority_clock (a : Applier) (trx : signed_transaction)
    (skip trx_hash now : Nat) (db : database) (w : List Nat)
    (ops : List (Option operation_history_object)) :
    check_authority a trx skip trx_hash now { db with wall_clock := w, applied_ops := ops } =
      (check_authority a trx skip trx_hash now db).map
        (fun p => ({ p.1 with wall_clock := w, applied_ops := ops }, p.2)) := by
  unfold check_authority
  by_cases h1 : skip &&& (a.skip_transaction_signatures ||| a.skip_authority_check) = 0 ∨
      trx.agreed_task.isSome = true
  · rw [if_pos h1, if_pos h1]
    cases ht : trx.agreed_task with
    | none =>
      simp only []
      cases hv : a.verify_authority trx db.objs <;> rfl
    | some task =>
      simp only []
      rw [begin_agreed_task_clock]
      cases hb : begin_agreed_task a task.2 trx_hash now db with
      | error e => rfl
      | ok p => rfl
  · rw [if_neg h1, if_neg h1]
    rfl

theorem create_records_clock (a : Applier) (skip : Nat) (trx : signed_transaction)
    (trx_hash trx_id : Nat) (run_mode : transaction_apply_mode) (db : database)
    (w : List Nat) (ops : List (Option operation_history_object)) :
    create_records a skip trx trx_hash trx_id run_mode
        { db with wall_clock := w, applied_ops := ops } =
      { create_records a skip trx trx_hash trx_id run_mode db with
        wall_clock := w, applied_ops := ops } := by
  unfold create_records create_transaction
  simp only []
  by_cases hm : run_mode = .apply_block_mode ∨ run_mode = .production_block_mode <;>
  by_cases hc : skip &&& a.skip_transaction_dupe_check = 0 ∨ is_share_fee a.toEnv trx = true <;>
  by_cases hd : (db.objs.transaction_index.find? (fun t => decide (t.trx_id = trx_id))).isSome =
      true <;>
  simp [hm, hc, hd]

theorem finish_crontab_forget_clock (temp_crontab : Option Nat) (now : Nat) (err : Bool)
    (d1 d2 : database) (h : d1.forget_clock = d2.forget_clock) :
    (finish_crontab temp_crontab now err d1).forget_clock =
      (finish_crontab temp_crontab now err d2).forget_clock := by
  obtain ⟨w, ops, hd, hops⟩ := forget_clock_eq_form d1 d2 h
  subst hd
  cases temp_crontab with
  | none => simp [finish_crontab, forget_clock, hops]
  | some id => simp [finish_crontab, forget_clock, hops]

end database

namespace database
open scenario

/-- Updating the wall clock and the applied-operations buffer with values that
agree apart from measured run times is not seen once the clock is forgotten. -/
theorem forget_clock_update (x : database) (w : List Nat)
    (ops : List (Option operation_history_object))
    (hops : x.applied_ops.map (Option.map (fun oh => { oh with result := oh.result.erase_time })) =
      ops.map (Option.map (fun oh => { oh with result := oh.result.erase_time }))) :
    x.forget_clock = ({ x with wall_clock := w, applied_ops := ops } : database).forget_clock := by
  simp [forget_clock, hops]

/-- In apply-block mode, the outcome of a call of `_apply_transaction` that
adds no record reporting `existed_pv` to the applied-operations buffer does not
depend on the wall clock, apart from the run times measured for captured
errors. -/
theorem _apply_transaction_forget_clock (a : Applier) (trx : processed_transaction)
    (only_try_permissions : Bool) (d1 d2 : database)
    (h : d1.forget_clock = d2.forget_clock)
    (n : Nat) (hn : n ≤ d1.applied_ops.length)
    (hno : no_existed_pv
      ((_apply_transaction a trx .apply_block_mode only_try_permissions
        d1).db.applied_ops.drop n) = true) :
    (_apply_transaction a trx .apply_block_mode only_try_permissions d1).forget_clock
        (fun r => ({ r.1 with
          operation_results := r.1.operation_results.map operation_result.erase_time }, r.2)) =
      (_apply_transaction a trx .apply_block_mode only_try_permissions d2).forget_clock
        (fun r => ({ r.1 with
          operation_results := r.1.operation_results.map operation_result.erase_time },
          r.2)) := by
  obtain ⟨w, ops, hd, hops⟩ := forget_clock_eq_form d1 d2 h
  subst hd
  have hup : ∀ x : database, x.applied_ops = d1.applied_ops →
      x.forget_clock = ({ x with wall_clock := w, applied_ops := ops } : database).forget_clock :=
    fun x hx => forget_clock_update x w ops (by rw [hx]; exact hops)
  unfold _apply_transaction
  simp only []
  have e1 : trx_size_limit a { d1 with wall_clock := w, applied_ops := ops } =
      trx_size_limit a d1 := rfl
  have e2 : effective_skip a trx.tosigned_transaction
      { d1 with wall_clock := w, applied_ops := ops } =
      effective_skip a trx.tosigned_transaction d1 := rfl
  have e3 : ({ d1 with wall_clock := w, applied_ops := ops } : database).head_block_time =
      d1.head_block_time := rfl
  rw [e1, e2, e3]
  by_cases c1 : a.pack_size_trx trx.tosigned_transaction < trx_size_limit a d1
  · simp only [c1, not_true_eq_false, if_false]
    cases hv : (if effective_skip a trx.tosigned_transaction d1 &&& a.skip_validate = 0 then
        a.validate trx.tosigned_transaction else none) with
    | some e => simp only [outcome.forget_clock]; rw [← hup d1 rfl]
    | none =>
      simp only []
      by_cases c3 : ¬ is_share_fee a.toEnv trx.tosigned_transaction = true ∧
          effective_skip a trx.tosigned_transaction d1 &&& a.skip_transaction_dupe_check = 0 ∧
          (d1.objs.transaction_index.find? (fun t => decide (t.trx_id =
            a.id trx.tosigned_transaction (a.hash trx.tosigned_transaction)))).isSome = true
      · rw [if_pos c3, if_pos c3]
        simp only [outcome.forget_clock]; rw [← hup d1 rfl]
      · rw [if_neg c3, if_neg c3]
        rw [check_authority_clock a _ _ _ _ d1 w ops]
        cases hauth : check_authority a trx.tosigned_transaction
            (effective_skip a trx.tosigned_transaction d1) (a.hash trx.tosigned_transaction)
            d1.head_block_time d1 with
        | error e =>
          simp only [Except.map, outcome.forget_clock]; rw [← hup d1 rfl]
        | ok p =>
          obtain ⟨db1, ag, tc⟩ := p
          obtain ⟨⟨ps, cs, hdb1⟩, _⟩ := check_authority_ok _ _ _ _ _ _ _ _ _ hauth
          have hdb1_ops : db1.applied_ops = d1.applied_ops := by rw [hdb1]
          simp only [Except.map]
          have e4 : ({ db1 with wall_clock := w, applied_ops := ops } : database).head_block_num =
              db1.head_block_num := rfl
          have e5 : check_tapos a (effective_skip a trx.tosigned_transaction d1)
              trx.tosigned_transaction d1.head_block_time
              { db1 with wall_clock := w, applied_ops := ops } =
              check_tapos a (effective_skip a trx.tosigned_transaction d1)
                trx.tosigned_transaction d1.head_block_time db1 := rfl
          rw [e4, e5]
          cases hct : (if db1.head_block_num > 0 ∧ ag = false then
              check_tapos a (effective_skip a trx.tosigned_transaction d1)
                trx.tosigned_transaction d1.head_block_time db1 else none) with
          | some e =>
            simp only [outcome.forget_clock]; rw [← hup db1 hdb1_ops]
          | none =>
            simp only []
            rw [create_records_clock a _ _ _ _ _ db1 w ops]
            have hcr_ops : (create_records a (effective_skip a trx.tosigned_transaction d1)
                trx.tosigned_transaction (a.hash trx.tosigned_transaction)
                (a.id trx.tosigned_transaction (a.hash trx.tosigned_transaction))
                .apply_block_mode db1).applied_ops = d1.applied_ops := by
              rw [← hdb1_ops]
              obtain ⟨tib, ti, hcr⟩ := create_records_eq a
                (effective_skip a trx.tosigned_transaction d1) trx.tosigned_transaction
                (a.hash trx.tosigned_transaction)
                (a.id trx.tosigned_transaction (a.hash trx.tosigned_transaction))
                .apply_block_mode db1
              rw [hcr]
            cases only_try_permissions with
            | true =>
              simp only [if_true, outcome.forget_clock]
              rw [← hup _ hcr_ops]
            | false =>
              simp only [Bool.false_eq_true, if_false]
              have hno_loop : no_existed_pv ((apply_operations a
                  { _trx := trx, run_mode := .apply_block_mode
                    skip := effective_skip a trx.tosigned_transaction d1
                    is_agreed_task := ag }
                  trx.operations { run_mode := .apply_block_mode }
                  { create_records a (effective_skip a trx.tosigned_transaction d1)
                      trx.tosigned_transaction (a.hash trx.tosigned_transaction)
                      (a.id trx.tosigned_transaction (a.hash trx.tosigned_transaction))
                      .apply_block_mode db1 with
                    current_op_in_trx := 0 }).db.applied_ops.drop n) = true := by
                have hx := hno
                unfold _apply_transaction at hx
                simp only [] at hx
                simp only [c1, not_true_eq_false, if_false] at hx
                rw [hv] at hx
                simp only [] at hx
                rw [if_neg c3, hauth] at hx
                simp only [] at hx
                rw [hct] at hx
                simp only [Bool.false_eq_true, if_false] at hx
                cases hl : apply_operations a
                  { _trx := trx, run_mode := .apply_block_mode
                    skip := effective_skip a trx.tosigned_transaction d1
                    is_agreed_task := ag }
                  trx.operations { run_mode := .apply_block_mode }
                  { create_records a (effective_skip a trx.tosigned_transaction d1)
                      trx.tosigned_transaction (a.hash trx.tosigned_transaction)
                      (a.id trx.tosigned_transaction (a.hash trx.tosigned_transaction))
                      .apply_block_mode db1 with current_op_in_trx := 0 } with
                | thrown e x =>
                  rw [hl] at hx
                  exact hx
                | returned s x =>
                  rw [hl] at hx
                  simp only [outcome.db, finish_crontab_applied_ops] at hx
                  exact hx
              have hloop := apply_operations_forget_clock a
                { _trx := trx, run_mode := .apply_block_mode
                  skip := effective_skip a trx.tosigned_transaction d1, is_agreed_task := ag }
                trx.operations { run_mode := .apply_block_mode }
                { run_mode := .apply_block_mode }
                { create_records a (effective_skip a trx.tosigned_transaction d1)
                    trx.tosigned_transaction (a.hash trx.tosigned_transaction)
                    (a.id trx.tosigned_transaction (a.hash trx.tosigned_transaction))
                    .apply_block_mode db1 with current_op_in_trx := 0 }
                { ({ create_records a (effective_skip a trx.tosigned_transaction d1)
                    trx.tosigned_transaction (a.hash trx.tosigned_transaction)
                    (a.id trx.tosigned_transaction (a.hash trx.tosigned_transaction))
                    .apply_block_mode db1 with wall_clock := w, applied_ops := ops } : database)
                  with current_op_in_trx := 0 }
                (by simp [forget_clock, hcr_ops, hops]) rfl rfl n
                (by
                  have : ({ create_records a (effective_skip a trx.tosigned_transaction d1)
                      trx.tosigned_transaction (a.hash trx.tosigned_transaction)
                      (a.id trx.tosigned_transaction (a.hash trx.tosigned_transaction))
                      .apply_block_mode db1 with current_op_in_trx := 0 } :
                      database).applied_ops = d1.applied_ops := hcr_ops
                  rw [this]
                  exact hn) hno_loop
              rcases outcome_forget_clock_cases _ _ _ hloop with
                ⟨s1, x1, s2, x2, h1, h2, hs, hx⟩ | ⟨e, x1, x2, h1, h2, hx⟩
              · rw [h1, h2]
                have hres := congrArg apply_loop_state.operation_results hs
                have hmode := congrArg apply_loop_state.run_mode hs
                have herr := congrArg apply_loop_state.result_contains_error hs
                simp only [apply_loop_state.forget_clock] at hres hmode herr
                simp only [outcome.forget_clock, hres, hmode, herr]
                rw [finish_crontab_forget_clock tc d1.head_block_time
                  s2.result_contains_error x1 x2 hx]
              · rw [h1, h2]
                simp only [outcome.forget_clock, hx]
  · simp only [c1, not_false_eq_true, if_true, outcome.forget_clock]
    rw [← hup d1 rfl]

end database

namespace database
open scenario

theorem forget_clock_skip_flags (s : Nat) (d1 d2 : database)
    (h : d1.forget_clock = d2.forget_clock) :
    ({ d1 with skip_flags := s } : database).forget_clock =
      ({ d2 with skip_flags := s } : database).forget_clock := by
  obtain ⟨w, ops, hd, hops⟩ := forget_clock_eq_form d1 d2 h
  subst hd
  simp [forget_clock, hops]

theorem forget_clock_skip_flags_eq (d1 d2 : database)
    (h : d1.forget_clock = d2.forget_clock) : d1.skip_flags = d2.skip_flags := by
  obtain ⟨w, ops, hd, _⟩ := forget_clock_eq_form d1 d2 h
  subst hd
  rfl

/-- In apply-block mode, the outcome of a call of `apply_transaction` that
adds no record reporting `existed_pv` to the applied-operations buffer does not
depend on the wall clock, apart from the run times measured for captured
errors. -/
theorem apply_transaction_forget_clock (a : Applier) (trx : processed_transaction)
    (skip : Nat) (d1 d2 : database)
    (h : d1.forget_clock = d2.forget_clock)
    (n : Nat) (hn : n ≤ d1.applied_ops.length)
    (hno : no_existed_pv
      ((apply_transaction a trx skip .apply_block_mode d1).db.applied_ops.drop n) = true) :
    (apply_transaction a trx skip .apply_block_mode d1).forget_clock
        (fun p => { p with
          operation_results := p.operation_results.map operation_result.erase_time }) =
      (apply_transaction a trx skip .apply_block_mode d2).forget_clock
        (fun p => { p with
          operation_results := p.operation_results.map operation_result.erase_time }) := by
  have hs := forget_clock_skip_flags_eq d1 d2 h
  have hno1 : no_existed_pv ((_apply_transaction a trx .apply_block_mode false
      { d1 with skip_flags := skip }).db.applied_ops.drop n) = true := by
    unfold apply_transaction with_skip_flags at hno
    simp only [] at hno
    cases hx : _apply_transaction a trx .apply_block_mode false
        { d1 with skip_flags := skip } with
    | thrown e x => rw [hx] at hno; exact hno
    | returned r x => rw [hx] at hno; exact hno
  have ht := _apply_transaction_forget_clock a trx false _ _
    (forget_clock_skip_flags skip d1 d2 h) n hn hno1
  unfold apply_transaction with_skip_flags
  simp only []
  rcases outcome_forget_clock_cases _ _ _ ht with
    ⟨r1, e1, r2, e2, h1, h2, hr, he⟩ | ⟨x, e1, e2, h1, h2, he⟩
  · rw [h1, h2]
    simp only [Prod.mk.injEq] at hr
    simp only [outcome.forget_clock, outcome.returned.injEq]
    exact ⟨hr.1, by rw [hs]; exact forget_clock_skip_flags d2.skip_flags e1 e2 he⟩
  · rw [h1, h2]
    simp only [outcome.forget_clock, outcome.thrown.injEq, true_and]
    rw [hs]; exact forget_clock_skip_flags d2.skip_flags e1 e2 he

theorem forget_clock_next_trx (d1 d2 : database) (h : d1.forget_clock = d2.forget_clock) :
    ({ d1 with current_trx_in_block := d1.current_trx_in_block + 1 } : database).forget_clock =
      ({ d2 with current_trx_in_block := d2.current_trx_in_block + 1 } :
        database).forget_clock := by
  obtain ⟨w, ops, hd, hops⟩ := forget_clock_eq_form d1 d2 h
  subst hd
  simp [forget_clock, hops]

/-- A run of the transaction loop of `_apply_block` that adds no record
reporting `existed_pv` to the applied-operations buffer does not depend on the
wall clock. -/
theorem apply_block_transactions_forget_clock (a : Applier) (skip : Nat)
    (trxs : List (Nat × processed_transaction)) :
    ∀ d1 d2 : database, d1.forget_clock = d2.forget_clock →
      ∀ n, n ≤ d1.applied_ops.length →
      no_existed_pv ((apply_block_transactions a skip trxs d1).db.applied_ops.drop n) = true →
      (apply_block_transactions a skip trxs d1).forget_clock id =
        (apply_block_transactions a skip trxs d2).forget_clock id := by
  induction trxs with
  | nil =>
    intro d1 d2 h _ _ _
    simp [apply_block_transactions, outcome.forget_clock, h]
  | cons trx rest ih =>
    intro d1 d2 h n hn hno
    rw [apply_block_transactions] at hno
    rw [apply_block_transactions, apply_block_transactions]
    by_cases c : ¬ trx.2.operation_results.length > 0
    · rw [if_pos c, if_pos c]
      simp [outcome.forget_clock, h]
    · rw [if_neg c, if_neg c]
      rw [if_neg c] at hno
      obtain ⟨nt, hnt⟩ := apply_transaction_records a trx.2 (skip ||| a.skip_authority_check)
        .apply_block_mode d1
      have hno_trx : no_existed_pv ((apply_transaction a trx.2
          (skip ||| a.skip_authority_check) .apply_block_mode d1).db.applied_ops.drop n) =
          true := by
        cases hx : apply_transaction a trx.2 (skip ||| a.skip_authority_check)
            .apply_block_mode d1 with
        | thrown e x => rw [hx] at hno; exact hno
        | returned r x =>
          rw [hx] at hno hnt
          simp only [outcome.db] at hnt
          obtain ⟨n2, hn2⟩ := apply_block_transactions_records a skip rest
            { x with current_trx_in_block := x.current_trx_in_block + 1 }
          simp only [] at hno
          rw [hn2] at hno
          exact no_existed_pv_drop_append n x.applied_ops n2
            (by rw [hnt, List.length_append]; omega) hno
      have ht := apply_transaction_forget_clock a trx.2 (skip ||| a.skip_authority_check)
        d1 d2 h n hn hno_trx
      rcases outcome_forget_clock_cases _ _ _ ht with
        ⟨r1, e1, r2, e2, h1, h2, _, he⟩ | ⟨x, e1, e2, h1, h2, he⟩
      · rw [h1, h2]
        rw [h1] at hno hnt
        simp only [outcome.db] at hnt
        exact ih _ _ (forget_clock_next_trx e1 e2 he) n
          (by
            show n ≤ e1.applied_ops.length
            rw [hnt, List.length_append]
            omega) hno
      · rw [h1, h2]
        simp [outcome.forget_clock, he]

/-- The outcome of a run of `_apply_block` in which no applied-operation
record reports `existed_pv` does not depend on the wall clock. -/
theorem _apply_block_forget_clock (a : Applier) (next_block : signed_block)
    (d1 d2 : database) (h : d1.forget_clock = d2.forget_clock)
    (hno : no_existed_pv (_apply_block_records a next_block d1) = true) :
    (_apply_block a next_block d1).forget_clock id =
      (_apply_block a next_block d2).forget_clock id := by
  obtain ⟨w, ops, hd, hops⟩ := forget_clock_eq_form d1 d2 h
  subst hd
  unfold _apply_block
  simp only []
  have hstart : (log (._apply_block next_block d1.skip_flags)
      { d1 with applied_ops := [] }).forget_clock =
      (log (._apply_block next_block d1.skip_flags)
        { d1 with wall_clock := w, applied_ops := [] }).forget_clock := by
    simp [log, forget_clock]
  by_cases c1 : d1.skip_flags &&& a.skip_merkle_check = 0 ∧
      next_block.transaction_merkle_root ≠ a.calculate_merkle_root next_block
  · rw [if_pos c1, if_pos c1]
    simp only [outcome.forget_clock, outcome.thrown.injEq, true_and]
    exact hstart
  · rw [if_neg c1, if_neg c1]
    have hvh : validate_block_header a d1.skip_flags next_block
        (log (._apply_block next_block d1.skip_flags) { d1 with applied_ops := [] }) =
        validate_block_header a d1.skip_flags next_block
          (log (._apply_block next_block d1.skip_flags)
            { d1 with wall_clock := w, applied_ops := [] }) := rfl
    rw [← hvh]
    cases hv : validate_block_header a d1.skip_flags next_block
        (log (._apply_block next_block d1.skip_flags) { d1 with applied_ops := [] }) with
    | error e =>
      simp only [outcome.forget_clock, outcome.thrown.injEq, true_and]
      exact hstart
    | ok signing_witness =>
      simp only []
      have hno_loop : no_existed_pv (apply_block_transactions a d1.skip_flags
          next_block.transactions
          { log (._apply_block next_block d1.skip_flags) { d1 with applied_ops := [] } with
            current_block_num := next_block.block_num
            current_trx_in_block := 0 }).db.applied_ops = true := by
        have hx := hno
        unfold _apply_block_records at hx
        simp only [] at hx
        rw [if_neg c1, hv] at hx
        exact hx
      have hloop := apply_block_transactions_forget_clock a d1.skip_flags
        next_block.transactions
        { log (._apply_block next_block d1.skip_flags) { d1 with applied_ops := [] } with
          current_block_num := next_block.block_num, current_trx_in_block := 0 }
        { log (._apply_block next_block d1.skip_flags)
            { d1 with wall_clock := w, applied_ops := [] } with
          current_block_num := next_block.block_num, current_trx_in_block := 0 }
        (by simp [log, forget_clock]) 0 (Nat.zero_le _)
        (by rw [List.drop_zero]; exact hno_loop)
      rcases outcome_forget_clock_cases _ _ _ hloop with
        ⟨r1, e1, r2, e2, h1, h2, _, he⟩ | ⟨x, e1, e2, h1, h2, he⟩
      · have hmaint : (log (._apply_block next_block d1.skip_flags)
            { d1 with applied_ops := [] }).objs.next_maintenance_time =
            (log (._apply_block next_block d1.skip_flags)
              { d1 with wall_clock := w, applied_ops := [] }).objs.next_maintenance_time := rfl
        rw [← hmaint, h1, h2]
        simp only []
        obtain ⟨w2, ops2, hd2, hops2⟩ := forget_clock_eq_form e1 e2 he
        subst hd2
        simp only []
        cases hh : housekeeping a signing_witness
            (decide ((log (._apply_block next_block d1.skip_flags)
              { d1 with applied_ops := [] }).objs.next_maintenance_time ≤ next_block.timestamp))
            e1.debug_updates next_block e1.objs with
        | error e =>
          simp only [outcome.forget_clock, outcome.thrown.injEq, true_and]
          exact he
        | ok o =>
          simp [outcome.forget_clock, forget_clock]
      · rw [h1, h2]
        simp [outcome.forget_clock, he]

end database

namespace database
open scenario

/-- Claim C29, amended. Two runs start from databases that agree apart from
the readings of the wall clock (and the run times already measured). When no
applied-operation record the first run gathers reports `existed_pv`, both runs
have the same outcome, success or the same exception, and leave databases that
again agree apart from the wall clock. This holds for `apply_block` on every
block, where the records are those the run of `_apply_block` gathers under the
skip flags `apply_block` passes on; for `_apply_block` under any skip flags;
and for `apply_transaction` in apply-block mode on every transaction, where
the records are those the run adds to the buffer it starts with, and the
returned operation results and the applied-operation records agree apart from
the `real_running_time` of captured `error_result`s. -/
theorem apply_is_deterministic_up_to_measured_time (a : Applier)
    (d1 d2 : database) (h : d1.forget_clock = d2.forget_clock) :
    (∀ next_block skip,
      (∀ s, apply_block a next_block skip d1 =
          with_skip_flags s (_apply_block a next_block) d1 →
        no_existed_pv (_apply_block_records a next_block { d1 with skip_flags := s }) =
          true) →
      (apply_block a next_block skip d1).forget_clock id =
        (apply_block a next_block skip d2).forget_clock id) ∧
    (∀ next_block s,
      no_existed_pv (_apply_block_records a next_block { d1 with skip_flags := s }) = true →
      (with_skip_flags s (_apply_block a next_block) d1).forget_clock id =
        (with_skip_flags s (_apply_block a next_block) d2).forget_clock id) ∧
    (∀ trx skip,
      no_existed_pv ((apply_transaction a trx skip .apply_block_mode d1).db.applied_ops.drop
        d1.applied_ops.length) = true →
      (apply_transaction a trx skip .apply_block_mode d1).forget_clock
          (fun p => { p with
            operation_results := p.operation_results.map operation_result.erase_time }) =
        (apply_transaction a trx skip .apply_block_mode d2).forget_clock
          (fun p => { p with
            operation_results := p.operation_results.map operation_result.erase_time })) := by
  have hs := forget_clock_skip_flags_eq d1 d2 h
  have hc : d1.checkpoints = d2.checkpoints := by
    obtain ⟨w, ops, hd, _⟩ := forget_clock_eq_form d1 d2 h
    subst hd
    rfl
  have hrun : ∀ next_block s,
      no_existed_pv (_apply_block_records a next_block { d1 with skip_flags := s }) = true →
      (with_skip_flags s (_apply_block a next_block) d1).forget_clock id =
        (with_skip_flags s (_apply_block a next_block) d2).forget_clock id := by
    intro next_block s hno
    have hb := _apply_block_forget_clock a next_block _ _ (forget_clock_skip_flags s d1 d2 h)
      hno
    unfold with_skip_flags
    rcases outcome_forget_clock_cases _ _ _ hb with
      ⟨r1, e1, r2, e2, h1, h2, _, he⟩ | ⟨x, e1, e2, h1, h2, he⟩
    · rw [h1, h2]
      simp only [outcome.forget_clock, outcome.returned.injEq, id, true_and]
      rw [hs]; exact forget_clock_skip_flags d2.skip_flags e1 e2 he
    · rw [h1, h2]
      simp only [outcome.forget_clock, outcome.thrown.injEq, true_and]
      rw [hs]; exact forget_clock_skip_flags d2.skip_flags e1 e2 he
  refine ⟨fun next_block skip hno => ?_, hrun,
    fun trx skip hno => apply_transaction_forget_clock a trx skip d1 d2 h _ (le_refl _) hno⟩
  have hshape : ∀ d : database, apply_block a next_block skip d =
      match (match checkpoints_rbegin d.checkpoints with
        | none => (.ok skip : Except exception Nat)
        | some last =>
          if last.2 ≠ {} then
            match d.checkpoints.lookup next_block.block_num with
            | some id =>
              if next_block.block_id ≠ id then .error (.fc_assert 595)
              else if last.1 ≥ next_block.block_num then .ok 0xffffffff else .ok skip
            | none => if last.1 ≥ next_block.block_num then .ok 0xffffffff else .ok skip
          else .ok skip) with
      | .error e => .thrown e d
      | .ok skip1 => with_skip_flags skip1 (_apply_block a next_block) d := fun d => rfl
  rw [hshape d2, ← hc]
  rw [hshape d1] at hno ⊢
  cases hchk : (match checkpoints_rbegin d1.checkpoints with
      | none => (.ok skip : Except exception Nat)
      | some last =>
        if last.2 ≠ {} then
          match d1.checkpoints.lookup next_block.block_num with
          | some id =>
            if next_block.block_id ≠ id then .error (.fc_assert 595)
            else if last.1 ≥ next_block.block_num then .ok 0xffffffff else .ok skip
          | none => if last.1 ≥ next_block.block_num then .ok 0xffffffff else .ok skip
        else .ok skip) with
  | error e =>
    simp only [outcome.forget_clock, outcome.thrown.injEq, true_and]
    exact h
  | ok skip1 =>
    rw [hchk] at hno
    exact hrun next_block skip1 (hno skip1 rfl)

theorem apply_is_deterministic_up_to_measured_time_witness :
    ((apply_transaction applier task_tx 64 .apply_block_mode late_proposal).forget_clock
        (fun p => { p with
          operation_results := p.operation_results.map operation_result.erase_time }) =
      (apply_transaction applier task_tx 64 .apply_block_mode
          late_proposal_slow).forget_clock
        (fun p => { p with
          operation_results := p.operation_results.map operation_result.erase_time })) ∧
    ((with_skip_flags 0 (_apply_block applier late_block) late).forget_clock id =
      (with_skip_flags 0 (_apply_block applier late_block)
        { late with wall_clock := [10, 19] }).forget_clock id) :=
  ⟨(apply_is_deterministic_up_to_measured_time applier
      late_proposal late_proposal_slow rfl).2.2 task_tx 64 rfl,
    (apply_is_deterministic_up_to_measured_time applier
      late { late with wall_clock := [10, 19] } rfl).2.1 late_block 0 rfl⟩

end database

namespace database
open scenario

/-- Claim C33. `push_applied_operation` appends exactly one record to the
applied-operations buffer and leaves the earlier records as they are; the new
record carries the operation and the current block number, transaction
position, operation position and virtual-operation counter; the counter is
then one higher, nothing else in the database changes, and the value returned
is the index of the new record, the previous length of the buffer. For an
index below the length of the buffer, `set_applied_operation_result` keeps the
length, leaves every other slot as it is, replaces in the record at the index
only the result (an emptied slot stays empty) and changes nothing else in the
database. -/
theorem applied_operation_records (op : operation) (result : operation_result)
    (db : database) (idx : Nat) (h_idx : idx < db.applied_ops.length) :
    ((push_applied_operation op db).1 = db.applied_ops.length ∧
      (push_applied_operation op db).2 =
        { db with
          applied_ops := db.applied_ops ++
            [some { op := op, result := .void_result, block_num := db.current_block_num,
                    trx_in_block := db.current_trx_in_block,
                    op_in_trx := db.current_op_in_trx,
                    virtual_op := db.current_virtual_op }]
          current_virtual_op := db.current_virtual_op + 1 } ∧
      (push_applied_operation op db).2.applied_ops.length = db.applied_ops.length + 1 ∧
      (∀ j, j < db.applied_ops.length →
        (push_applied_operation op db).2.applied_ops.get? j = db.applied_ops.get? j)) ∧
    ((set_applied_operation_result idx result db).applied_ops.length =
        db.applied_ops.length ∧
      (∀ j, j ≠ idx →
        (set_applied_operation_result idx result db).applied_ops.get? j =
          db.applied_ops.get? j) ∧
      (set_applied_operation_result idx result db).applied_ops.get? idx =
        (db.applied_ops.get? idx).map
          (Option.map (fun oh => { oh with result := result })) ∧
      set_applied_operation_result idx result db =
        { db with applied_ops := (set_applied_operation_result idx result db).applied_ops }) := by
  refine ⟨⟨rfl, rfl, ?_, ?_⟩, ?_⟩
  · simp [push_applied_operation]
  · intro j hj
    simp only [push_applied_operation, List.get?_eq_getElem?]
    exact List.getElem?_append_left hj
  · unfold set_applied_operation_result
    cases hg : db.applied_ops.get? idx with
    | none =>
      rw [List.get?_eq_none] at hg
      omega
    | some slot =>
      cases slot with
      | none =>
        simp only [Option.map_some', Option.map_none', true_and, implies_true, and_true]
        exact hg
      | some oh =>
        simp only [List.length_set, Option.map_some', true_and]
        refine ⟨?_, ?_, trivial⟩
        · intro j hj
          simp only [List.get?_eq_getElem?]
          rw [List.getElem?_set_ne (Ne.symm hj)]
        · simp only [List.get?_eq_getElem?]
          rw [List.getElem?_set_self h_idx]

theorem applied_operation_records_witness :
    ((push_applied_operation failing_op two_slots).1 = 2 ∧
      (push_applied_operation failing_op two_slots).2 =
        { two_slots with
          applied_ops :=
            [some { op := transfer 7, block_num := 6 }, none,
              some { op := failing_op, result := .void_result, block_num := 6,
                     trx_in_block := 2, op_in_trx := 1, virtual_op := 4 }]
          current_virtual_op := 5 } ∧
      (push_applied_operation failing_op two_slots).2.applied_ops.length = 3 ∧
      (∀ j, j < 2 →
        (push_applied_operation failing_op two_slots).2.applied_ops.get? j =
          two_slots.applied_ops.get? j)) ∧
    ((set_applied_operation_result 0 (.error_result 5 1005 9) two_slots).applied_ops.length =
        2 ∧
      (∀ j, j ≠ 0 →
        (set_applied_operation_result 0 (.error_result 5 1005 9) two_slots).applied_ops.get? j =
          two_slots.applied_ops.get? j) ∧
      (set_applied_operation_result 0 (.error_result 5 1005 9) two_slots).applied_ops.get? 0 =
        some (some { op := transfer 7, result := .error_result 5 1005 9, block_num := 6 }) ∧
      set_applied_operation_result 0 (.error_result 5 1005 9) two_slots =
        { two_slots with
          applied_ops :=
            (set_applied_operation_result 0 (.error_result 5 1005 9) two_slots).applied_ops }) :=
  applied_operation_records failing_op (.error_result 5 1005 9) two_slots 0 (by decide)

end database

namespace database
open scenario

/-- The flag of the undo database after `apply_operation`: put back on every
path that returns, switched on when the exception of the evaluator leaves the
function. -/
theorem apply_operation_undo_flag (a : Applier) (eval_state : transaction_evaluation_state)
    (op : operation) (is_agreed_task : Bool) (db : database) :
    match apply_operation a eval_state op is_agreed_task db with
    | .returned _ d => d.undo_enabled = db.undo_enabled
    | .thrown _ d => d.undo_enabled = true := by
  rcases h : a.evaluate eval_state op db.objs with ⟨e | r, o⟩
  · cases is_agreed_task
    · rw [apply_operation_thrown a eval_state op db e o h]
    · rw [apply_operation_captured a eval_state op db e o h]
  · rw [apply_operation_ok a eval_state op is_agreed_task db r o h]

/-- Claim C37, failing input. With the undo database disabled, an operation
that returns a result and an operation whose error is captured for an agreed
task both leave it disabled; an operation whose evaluator throws outside an
agreed task leaves it enabled. In general the flag is put back on every path
that returns and is left switched on when the exception leaves
`apply_operation`. -/
theorem undo_flag_stays_enabled_after_throw :
    undo_off.undo_enabled = false ∧
    (∃ r d, apply_operation applier {} (transfer 7) false undo_off = .returned r d ∧
      d.undo_enabled = false) ∧
    (∃ r d, apply_operation applier {} failing_op true undo_off = .returned r d ∧
      d.undo_enabled = false) ∧
    (∃ e d, apply_operation applier {} failing_op false undo_off = .thrown e d ∧
      d.undo_enabled = true) ∧
    ∀ (a : Applier) (eval_state : transaction_evaluation_state) (op : operation)
      (is_agreed_task : Bool) (db : database),
      match apply_operation a eval_state op is_agreed_task db with
      | .returned _ d => d.undo_enabled = db.undo_enabled
      | .thrown _ d => d.undo_enabled = true :=
  ⟨rfl, ⟨_, _, rfl, rfl⟩, ⟨_, _, rfl, rfl⟩, ⟨_, _, rfl, rfl⟩, apply_operation_undo_flag⟩

/-- Claim C36, failing input. A transaction applied in apply-block mode whose
first operation reports `existed_pv` and whose second operation ran for 300000
microseconds is rejected by the run-time limit (block interval 3 s, limit
225000): the first result switches the mode to `invoke_mode` and the check is
evaluated for the second operation. The second operation alone, in a
transaction applied in the same mode, is accepted. -/
theorem block_transaction_meets_run_time_limit :
    (∃ d, apply_transaction applier pv_slow_tx 64 .apply_block_mode late =
      .thrown (.fc_assert 818) d) ∧
    (∃ p d, apply_transaction applier slow_block_tx 64 .apply_block_mode late =
      .returned p d) :=
  ⟨⟨_, rfl⟩, ⟨_, _, rfl⟩⟩

end database

namespace fc
open static_variant

/-- The position computed by `impl::position` is the index of the first
occurrence, and `-1` for a type that does not occur. -/
theorem position_eq (X : Nat) (Ts : List Nat) :
    impl.position X Ts = if X ∈ Ts then (Ts.indexOf X : Int) else -1 := by
  induction Ts with
  | nil => simp [impl.position]
  | cons T rest ih =>
    rw [impl.position]
    by_cases h : X = T
    · subst h
      simp
    · rw [if_neg h, ih]
      by_cases hm : X ∈ rest
      · have hne : ((List.indexOf X rest : Nat) : Int) ≠ -1 := by omega
        simp only [hm, if_true, hne, ne_eq, not_false_eq_true, List.mem_cons, or_true]
        rw [List.indexOf_cons_ne _ (Ne.symm h)]
        push_cast
        rfl
      · simp [hm, h]

/-- The count computed by `impl::type_info` is the number of types. -/
theorem count_eq (Ts : List Nat) : impl.type_info.count Ts = Ts.length := by
  induction Ts with
  | nil => rfl
  | cons T rest ih => rw [impl.type_info.count, ih, List.length_cons]; omega

/-- The `static_assert` on `no_duplicates` holds exactly for distinct types. -/
theorem no_duplicates_iff (Ts : List Nat) :
    impl.type_info.no_duplicates Ts = true ↔ Ts.Nodup := by
  induction Ts with
  | nil => simp [impl.type_info.no_duplicates]
  | cons T rest ih =>
    rw [impl.type_info.no_duplicates, List.nodup_cons, Bool.and_eq_true, ih, position_eq]
    by_cases hm : T ∈ rest
    · have hne : ((List.indexOf T rest : Nat) : Int) ≠ -1 := by omega
      simp [hm, hne]
    · simp [hm]

/-- An unsigned value below `2 ^ 31` keeps its value as an `int`. -/
theorem to_int_small (u : Nat) (h : u < 2 ^ 31) : to_int u = (u : Int) := by
  unfold to_int
  have h1 : u % 2 ^ 32 = u := Nat.mod_eq_of_lt (by omega)
  rw [h1, if_pos h]

/-- A non-negative `int` keeps its value as an `unsigned int`. -/
theorem to_unsigned_nat (u : Nat) (h : u < 2 ^ 32) : to_unsigned (u : Int) = u := by
  unfold to_unsigned
  have : ((u : Int)) % 2 ^ 32 = (u : Int) := by
    apply Int.emod_eq_of_lt
    · exact Int.natCast_nonneg _
    · exact_mod_cast h
  rw [this]
  exact Int.toNat_natCast _

/-- The walk of `storage_ops::con`: the object of the type at distance
`n - N` is constructed; outside the list the walk ends in the exception. -/
theorem con_walk {V : Type} (te : member_types V) (Ts : List Nat) :
    ∀ (N n : Int) (s : static_variant),
      impl.storage_ops.con te N Ts n s =
        if N ≤ n then
          match Ts.get? (n - N).toNat with
          | some T => .ok { s with storage := te.default_value T, constructed := true }
          | none => .error (.fc_assert 121)
        else .error (.fc_assert 121) := by
  induction Ts with
  | nil => intro N n s; simp [impl.storage_ops.con]
  | cons T rest ih =>
    intro N n s
    rw [impl.storage_ops.con]
    by_cases h : n = N
    · subst h
      simp
    · rw [if_neg h, ih]
      by_cases h1 : N + 1 ≤ n
      · have h2 : N ≤ n := by omega
        have h3 : (n - N).toNat = (n - (N + 1)).toNat + 1 := by omega
        rw [if_pos h1, if_pos h2, h3, List.get?_cons_succ]
      · have h2 : ¬ N ≤ n := by omega
        rw [if_neg h1, if_neg h2]

/-- The walk of `storage_ops::del`. -/
theorem del_walk (Ts : List Nat) :
    ∀ (N n : Int) (s : static_variant),
      impl.storage_ops.del N Ts n s =
        if N ≤ n ∧ (n - N).toNat < Ts.length then .ok { s with constructed := false }
        else .error (.fc_assert 118) := by
  induction Ts with
  | nil => intro N n s; simp [impl.storage_ops.del]
  | cons T rest ih =>
    intro N n s
    rw [impl.storage_ops.del]
    by_cases h : n = N
    · subst h
      simp
    · rw [if_neg h, ih]
      by_cases h1 : N + 1 ≤ n ∧ (n - (N + 1)).toNat < rest.length
      · have h2 : N ≤ n ∧ (n - N).toNat < (T :: rest).length := by
          simp only [List.length_cons]; omega
        rw [if_pos h1, if_pos h2]
      · have h2 : ¬ (N ≤ n ∧ (n - N).toNat < (T :: rest).length) := by
          simp only [List.length_cons]; omega
        rw [if_neg h1, if_neg h2]

/-- The walk of `storage_ops::apply`. -/
theorem apply_walk {R : Type} (Ts : List Nat) :
    ∀ (N n : Int) (data : Nat) (v : Nat → Nat → Except exception R),
      impl.storage_ops.apply N Ts n data v =
        if N ≤ n then
          match Ts.get? (n - N).toNat with
          | some T => v T data
          | none => .error (.fc_assert 126)
        else .error (.fc_assert 126) := by
  induction Ts with
  | nil => intro N n data v; simp [impl.storage_ops.apply]
  | cons T rest ih =>
    intro N n data v
    rw [impl.storage_ops.apply]
    by_cases h : n = N
    · subst h
      simp
    · rw [if_neg h, ih]
      by_cases h1 : N + 1 ≤ n
      · have h2 : N ≤ n := by omega
        have h3 : (n - N).toNat = (n - (N + 1)).toNat + 1 := by omega
        rw [if_pos h1, if_pos h2, h3, List.get?_cons_succ]
      · have h2 : ¬ N ≤ n := by omega
        rw [if_neg h1, if_neg h2]

/-- The tag that `init` stores for a member type is its index. -/
theorem init_tag (Types : List Nat) (X x : Nat) (s : static_variant)
    (h_mem : X ∈ Types) (h_count : impl.type_info.count Types < 2 ^ 31) :
    init Types X x s = { s with _tag := Types.indexOf X, storage := x, constructed := true } := by
  unfold init
  rw [position_eq, if_pos h_mem, to_unsigned_nat]
  have := List.indexOf_lt_length.mpr h_mem
  rw [count_eq] at h_count
  omega

/-- Reading a variant whose tag is the index of `X`: `get<X>` returns the
content of the storage, `get<Y>` throws for every other member type. -/
theorem get_at_index (Types : List Nat) (X : Nat) (s : static_variant)
    (h_mem : X ∈ Types) (h_count : impl.type_info.count Types < 2 ^ 31)
    (h_tag : s._tag = Types.indexOf X) :
    s.get Types X = .ok s.storage ∧
      ∀ Y ∈ Types, Y ≠ X → s.get Types Y = .error (.fc_assert 333) := by
  rw [count_eq] at h_count
  have hx := List.indexOf_lt_length.mpr h_mem
  refine ⟨?_, ?_⟩
  · unfold static_variant.get
    rw [position_eq, if_pos h_mem, to_unsigned_nat _ (by omega), if_pos h_tag]
  · intro Y hY hne
    have hy := List.indexOf_lt_length.mpr hY
    unfold static_variant.get
    rw [position_eq, if_pos hY, to_unsigned_nat _ (by omega), if_neg]
    rw [h_tag]
    intro heq
    apply hne
    exact ((List.indexOf_inj hY h_mem).mp heq.symm)

end fc

namespace fc

/-- Claim C38. For a `static_variant` over distinct types `Types` (fewer than
`2 ^ 31`) and an object `x` of a member type `X`: `tag<X>::value` is the
zero-based position of `X` in `Types`, the only place where `X` occurs; a
variant constructed from `x` has `which()` equal to that position, `get<X>()`
returns `x` and `get<Y>()` throws for every other member type `Y`; the same
holds for a variant with a valid tag after `x` was assigned to it; and a
default-constructed variant has `which() == 0`. -/
theorem static_variant_holds_what_it_was_given {V : Type} (te : member_types V)
    (Types : List Nat) (X x : Nat)
    (h_distinct : impl.type_info.no_duplicates Types = true)
    (h_count : impl.type_info.count Types < 2 ^ 31)
    (h_mem : X ∈ Types) :
    (static_variant.tag_value Types X = (Types.indexOf X : Int) ∧
      ∀ i, Types.get? i = some X → i = Types.indexOf X) ∧
    ((static_variant.constructed_from Types X x).which = Types.indexOf X ∧
      (static_variant.constructed_from Types X x).get Types X = .ok x ∧
      ∀ Y ∈ Types, Y ≠ X →
        (static_variant.constructed_from Types X x).get Types Y = .error (.fc_assert 333)) ∧
    (∀ s : static_variant, s._tag < Types.length →
      ∃ s1, s.assign Types X x = .returned () s1 ∧
        s1.which = Types.indexOf X ∧ s1.get Types X = .ok x ∧
        ∀ Y ∈ Types, Y ≠ X → s1.get Types Y = .error (.fc_assert 333)) ∧
    ∃ s0, static_variant.default_constructed te Types = .ok s0 ∧ s0.which = 0 := by
  have hlen := h_count
  rw [count_eq] at hlen
  refine ⟨⟨?_, ?_⟩, ?_, ?_, ?_⟩
  · unfold static_variant.tag_value
    rw [position_eq, if_pos h_mem]
  · intro i hi
    have hnd := (no_duplicates_iff Types).mp h_distinct
    have hx := List.indexOf_lt_length.mpr h_mem
    have hi' : i < Types.length := by
      rcases Nat.lt_or_ge i Types.length with h | h
      · exact h
      · rw [List.get?_eq_none.mpr h] at hi; simp at hi
    have h1 : Types.get ⟨i, hi'⟩ = X := by
      rw [List.get?_eq_get hi'] at hi
      simpa using hi
    have h2 : Types.get ⟨Types.indexOf X, hx⟩ = X := List.indexOf_get hx
    have := (List.Nodup.get_inj_iff hnd).mp (h1.trans h2.symm)
    simpa using this
  · unfold static_variant.constructed_from
    rw [init_tag Types X x {} h_mem h_count]
    exact ⟨rfl, get_at_index Types X _ h_mem h_count rfl⟩
  · intro s hs
    unfold static_variant.assign static_variant.destroy
    rw [del_walk, to_int_small _ (by omega)]
    have hc : (0 : Int) ≤ (s._tag : Int) ∧ ((s._tag : Int) - 0).toNat < Types.length := by
      constructor
      · exact Int.natCast_nonneg _
      · simpa using hs
    rw [if_pos hc]
    simp only []
    rw [init_tag Types X x _ h_mem h_count]
    exact ⟨_, rfl, rfl, get_at_index Types X _ h_mem h_count rfl⟩
  · unfold static_variant.default_constructed
    rw [con_walk]
    cases Types with
    | nil => simp at h_mem
    | cons T rest => exact ⟨_, rfl, rfl⟩

theorem static_variant_holds_what_it_was_given_witness :
    (static_variant.tag_value sample.types 20 = 1 ∧
      ∀ i, sample.types.get? i = some 20 → i = 1) ∧
    ((static_variant.constructed_from sample.types 20 7).which = 1 ∧
      (static_variant.constructed_from sample.types 20 7).get sample.types 20 = .ok 7 ∧
      ∀ Y ∈ sample.types, Y ≠ 20 →
        (static_variant.constructed_from sample.types 20 7).get sample.types Y =
          .error (.fc_assert 333)) ∧
    (∀ s : static_variant, s._tag < sample.types.length →
      ∃ s1, s.assign sample.types 20 7 = .returned () s1 ∧
        s1.which = 1 ∧ s1.get sample.types 20 = .ok 7 ∧
        ∀ Y ∈ sample.types, Y ≠ 20 → s1.get sample.types Y = .error (.fc_assert 333)) ∧
    ∃ s0, static_variant.default_constructed sample.members sample.types = .ok s0 ∧
      s0.which = 0 :=
  static_variant_holds_what_it_was_given sample.members sample.types 20 7
    (by decide) (by decide) (by decide)

end fc

namespace fc

/-- The count as the `int` that `count()` returns. -/
theorem count_int (Types : List Nat) (h_count : impl.type_info.count Types < 2 ^ 31) :
    static_variant.count Types = (Types.length : Int) := by
  unfold static_variant.count
  rw [to_int_small _ h_count, count_eq]

/-- The destructor of a variant with a valid tag ends the life of the object
held. -/
theorem destroy_valid (Types : List Nat) (s : static_variant)
    (h_count : impl.type_info.count Types < 2 ^ 31) (h_tag : s._tag < Types.length) :
    s.destroy Types = .ok { s with constructed := false } := by
  rw [count_eq] at h_count
  unfold static_variant.destroy
  rw [del_walk, to_int_small _ (by omega)]
  have hc : (0 : Int) ≤ (s._tag : Int) ∧ ((s._tag : Int) - 0).toNat < Types.length := by
    constructor
    · exact Int.natCast_nonneg _
    · simpa using h_tag
  rw [if_pos hc]

/-- `set_which` with an index at or above `count()`: the range assertion
rejects it and the variant is unchanged. -/
theorem set_which_above {V : Type} (te : member_types V) (Types : List Nat) (w : Int)
    (s : static_variant) (h_count : impl.type_info.count Types < 2 ^ 31)
    (h_w : (Types.length : Int) ≤ w) :
    s.set_which te Types w = .thrown (.fc_assert 373) s := by
  unfold static_variant.set_which
  rw [count_int Types h_count, if_pos (by omega)]

/-- `set_which` with an index from `0` to `count() - 1` on a variant with a
valid tag: the variant holds the default object of the type at the index. -/
theorem set_which_within {V : Type} (te : member_types V) (Types : List Nat) (w : Nat)
    (s : static_variant) (T : Nat) (h_count : impl.type_info.count Types < 2 ^ 31)
    (h_tag : s._tag < Types.length) (h_w : Types.get? w = some T) :
    s.set_which te Types (w : Int) =
      .returned () { _tag := w, storage := te.default_value T, constructed := true } := by
  have hw : w < Types.length := by
    rcases Nat.lt_or_ge w Types.length with h | h
    · exact h
    · rw [List.get?_eq_none.mpr h] at h_w; simp at h_w
  have hlen := h_count
  rw [count_eq] at hlen
  unfold static_variant.set_which
  rw [count_int Types h_count, if_neg (by omega), destroy_valid Types s h_count h_tag]
  simp only []
  rw [con_walk, to_unsigned_nat _ (by omega), to_int_small _ (by omega),
    if_pos (Int.natCast_nonneg _)]
  simp only [sub_zero, Int.toNat_natCast, h_w]

/-- `set_which` with a negative index on a variant with a valid tag: the range
assertion lets it pass, the object held is destroyed, the tag becomes the index
taken as an `unsigned int`, and the construction of the new object throws. -/
theorem set_which_below {V : Type} (te : member_types V) (Types : List Nat) (w : Int)
    (s : static_variant) (h_count : impl.type_info.count Types < 2 ^ 31)
    (h_tag : s._tag < Types.length) (h_min : -2 ^ 31 ≤ w) (h_neg : w < 0) :
    s.set_which te Types w =
      .thrown (.fc_assert 121)
        { s with _tag := (w + 2 ^ 32).toNat, constructed := false } := by
  have hlen := h_count
  rw [count_eq] at hlen
  have hu : to_unsigned w = (w + 2 ^ 32).toNat := by
    unfold to_unsigned
    have : w % 2 ^ 32 = w + 2 ^ 32 := by omega
    rw [this]
  have hi : to_int (w + 2 ^ 32).toNat = w := by
    unfold to_int
    have h1 : (w + 2 ^ 32).toNat % 2 ^ 32 = (w + 2 ^ 32).toNat := Nat.mod_eq_of_lt (by omega)
    rw [h1, if_neg (by omega)]
    omega
  unfold static_variant.set_which
  rw [count_int Types h_count, if_neg (by omega), destroy_valid Types s h_count h_tag]
  simp only []
  rw [con_walk, hu, hi, if_neg (by omega)]

/-- Claim C39, failing input. `set_which(-1)` on a variant over three types
that holds the object 7 of the second type is not rejected by the range
assertion: the object is destroyed, the tag becomes 4294967295 and the
construction throws "tag is invalid". In general, on a variant with a valid
tag: a negative index passes the range assertion, destroys the object held and
leaves the index as the tag; an index at or above `count()` is rejected by the
range assertion with the variant unchanged; an index from `0` to `count() - 1`
succeeds, `which()` is the index and the variant holds the default object of
the type at the index. -/
theorem set_which_admits_negative_index :
    sample.held.set_which sample.members sample.types (-1) =
      .thrown (.fc_assert 121) { _tag := 4294967295, storage := 7, constructed := false } ∧
    (∀ (V : Type) (te : member_types V) (Types : List Nat) (w : Int) (s : static_variant),
      impl.type_info.count Types < 2 ^ 31 → s._tag < Types.length → -2 ^ 31 ≤ w → w < 0 →
      s.set_which te Types w =
        .thrown (.fc_assert 121) { s with _tag := (w + 2 ^ 32).toNat, constructed := false }) ∧
    (∀ (V : Type) (te : member_types V) (Types : List Nat) (w : Int) (s : static_variant),
      impl.type_info.count Types < 2 ^ 31 → static_variant.count Types ≤ w →
      s.set_which te Types w = .thrown (.fc_assert 373) s) ∧
    (∀ (V : Type) (te : member_types V) (Types : List Nat) (w : Nat) (s : static_variant)
      (T : Nat),
      impl.type_info.count Types < 2 ^ 31 → s._tag < Types.length → Types.get? w = some T →
      ∃ s1, s.set_which te Types (w : Int) = .returned () s1 ∧ s1.which = w ∧
        s1.storage = te.default_value T ∧ s1.constructed = true) :=
  ⟨rfl,
    fun _ te Types w s h1 h2 h3 h4 => set_which_below te Types w s h1 h2 h3 h4,
    fun _ te Types w s h1 h2 =>
      set_which_above te Types w s h1 (by rw [count_int Types h1] at h2; exact h2),
    fun _ te Types w s T h1 h2 h3 =>
      ⟨_, set_which_within te Types w s T h1 h2 h3, rfl, rfl, rfl⟩⟩

/-- Claim C40. For a variant `s` with a valid tag that holds an object of the
member type `T`, over a variant type whose arrays and unsigned integers read
back as written, and where the object of `s` reads back from what `to_variant`
writes for it: `to_variant(s)` is the array of `s.which()` and the encoding of
the object; `from_variant` applied to that array and a target with a valid tag
returns and leaves the target with the tag and the object of `s`; and
`from_variant` applied to an array with fewer than two elements returns and
leaves the target as it was. -/
theorem static_variant_round_trip {V : Type} (api : variant_api V) (te : member_types V)
    (Types : List Nat) (s target : static_variant) (T : Nat) (encoded : V)
    (h_count : impl.type_info.count Types < 2 ^ 31)
    (h_holds : Types.get? s._tag = some T)
    (h_target : target._tag < Types.length)
    (h_array : ∀ items, api.get_array (api.of_array items) = .ok items)
    (h_uint : ∀ n, n < 2 ^ 32 → api.as_uint64 (api.of_uint n) = .ok n)
    (h_to : te.to_variant T s.storage = .ok encoded)
    (h_from : ∀ x, te.from_variant T encoded x = .ok s.storage) :
    to_variant api te Types s = .ok (api.of_array [api.of_uint s.which, encoded]) ∧
    from_variant api te Types (api.of_array [api.of_uint s.which, encoded]) target =
      .returned () { _tag := s.which, storage := s.storage, constructed := true } ∧
    (∀ v items, api.get_array v = .ok items → items.length < 2 →
      from_variant api te Types v target = .returned () target) := by
  have hlen := h_count
  rw [count_eq] at hlen
  have hs : s._tag < Types.length := by
    rcases Nat.lt_or_ge s._tag Types.length with h | h
    · exact h
    · rw [List.get?_eq_none.mpr h] at h_holds; simp at h_holds
  refine ⟨?_, ?_, ?_⟩
  · unfold to_variant static_variant.visit
    rw [apply_walk, to_int_small _ (by omega), if_pos (Int.natCast_nonneg _)]
    simp only [sub_zero, Int.toNat_natCast, h_holds, h_to]
  · unfold from_variant
    rw [h_array]
    simp only []
    rw [h_uint _ (by unfold static_variant.which; omega)]
    simp only []
    unfold static_variant.which
    rw [to_int_small _ (by omega), set_which_within te Types s._tag target T h_count h_target
      h_holds]
    simp only []
    unfold static_variant.visit
    rw [apply_walk, to_int_small _ (by simp only []; omega), if_pos (Int.natCast_nonneg _)]
    simp only [sub_zero, Int.toNat_natCast, h_holds, h_from]
  · intro v items hv hl
    unfold from_variant
    rw [hv]
    match items, hl with
    | [], _ => rfl
    | [_], _ => rfl
    | _ :: _ :: _, hl => exact absurd hl (by simp only [List.length_cons]; omega)

theorem static_variant_round_trip_witness :
    to_variant sample.api sample.members sample.types sample.held =
      .ok (.array [.uint 1, .uint 7]) ∧
    from_variant sample.api sample.members sample.types (.array [.uint 1, .uint 7])
        { _tag := 2, storage := 5, constructed := true } =
      .returned () { _tag := 1, storage := 7, constructed := true } ∧
    (∀ v items, sample.api.get_array v = .ok items → items.length < 2 →
      from_variant sample.api sample.members sample.types v
          { _tag := 2, storage := 5, constructed := true } =
        .returned () { _tag := 2, storage := 5, constructed := true }) :=
  static_variant_round_trip sample.api sample.members sample.types sample.held
    { _tag := 2, storage := 5, constructed := true } 20 (.uint 7)
    (by decide) rfl (by decide) (fun _ => rfl) (fun _ _ => rfl) rfl (fun _ => rfl)

end fc

namespace database
open scenario

/-- Claim C35, failing input. The only pending transaction is placed in the
generated block and is still in the pending queue afterwards. In general
`_generate_block` never changes the pending queue: when it returns, the queue
holds the selected transactions as well as the postponed ones. -/
theorem selected_transactions_stay_pending :
    chain_A_ready.pending_tx = [ptx7] ∧
    (∃ b d, _generate_block env 3 1 77 chain_A_ready = .returned b d ∧
      b.transactions = [(7, ptx7)] ∧ d.pending_tx = [ptx7]) ∧
    ∀ (env : Env) (when witness_id key : Nat) (db : database) (b : signed_block)
      (d : database),
      _generate_block env when witness_id key db = .returned b d →
      d.pending_tx = db.pending_tx :=
  ⟨rfl, ⟨_, _, rfl, rfl, rfl⟩,
    fun env when witness_id key db b d h =>
      (_generate_block_pending env when witness_id key db b d h).2⟩

end database

namespace database
open scenario

/-- The position counters `_current_block_num` and `_current_trx_in_block` are
not written by `apply_operation`. -/
theorem apply_operation_counters (a : Applier) (eval_state : transaction_evaluation_state)
    (op : operation) (is_agreed_task : Bool) (db : database) :
    (apply_operation a eval_state op is_agreed_task db).db.current_block_num =
        db.current_block_num ∧
      (apply_operation a eval_state op is_agreed_task db).db.current_trx_in_block =
        db.current_trx_in_block := by
  rcases h : a.evaluate eval_state op db.objs with ⟨e | r, o⟩
  · cases is_agreed_task
    · rw [apply_operation_thrown a eval_state op db e o h]; exact ⟨rfl, rfl⟩
    · rw [apply_operation_captured a eval_state op db e o h]; exact ⟨rfl, rfl⟩
  · rw [apply_operation_ok a eval_state op is_agreed_task db r o h]; exact ⟨rfl, rfl⟩

/-- The position counters are not written by `auto_gas`. -/
theorem auto_gas_counters (a : Applier) (eval_state : transaction_evaluation_state)
    (from_account : Nat) (results : List operation_result) (db : database) :
    (auto_gas a eval_state from_account results db).2.current_block_num =
        db.current_block_num ∧
      (auto_gas a eval_state from_account results db).2.current_trx_in_block =
        db.current_trx_in_block := by
  unfold auto_gas
  simp only [log]
  split
  · exact ⟨rfl, rfl⟩
  · split
    · have h := apply_operation_counters a eval_state
        (a.withdraw_operation ‹_›) false { db with trace := db.trace ++ [.auto_gas from_account] }
      split
      · rename_i r d hr
        rw [hr] at h
        split <;> exact h
      · rename_i e d hr
        rw [hr] at h
        exact h
    · exact ⟨rfl, rfl⟩

/-- The position counters are not written by a pass of the operation loop. -/
theorem apply_loop_body_counters (a : Applier) (eval_state : transaction_evaluation_state)
    (op : operation) (st : apply_loop_state) (db : database) :
    (apply_loop_body a eval_state op st db).db.current_block_num = db.current_block_num ∧
      (apply_loop_body a eval_state op st db).db.current_trx_in_block =
        db.current_trx_in_block := by
  have h0 := apply_operation_counters a eval_state op eval_state.is_agreed_task db
  rw [apply_loop_body_eq]
  cases hr : apply_operation a eval_state op eval_state.is_agreed_task db with
  | thrown e d => rw [hr] at h0; exact h0
  | returned r d =>
    rw [hr] at h0
    simp only [outcome.db] at h0
    simp only []
    split
    · exact h0
    · split
      · exact h0
      · split
        · split
          · have hg := auto_gas_counters a eval_state ‹_› (st.operation_results ++ [r])
              { d with current_op_in_trx := d.current_op_in_trx + 1 }
            simp only [outcome.db]
            rw [hg.1, hg.2]
            exact h0
          · exact h0
        · exact h0

/-- The position counters are not written by the operation loop. -/
theorem apply_operations_counters (a : Applier) (eval_state : transaction_evaluation_state)
    (ops : List operation) :
    ∀ (st : apply_loop_state) (db : database),
      (apply_operations a eval_state ops st db).db.current_block_num = db.current_block_num ∧
        (apply_operations a eval_state ops st db).db.current_trx_in_block =
          db.current_trx_in_block := by
  induction ops with
  | nil => intro st db; exact ⟨rfl, rfl⟩
  | cons op rest ih =>
    intro st db
    have hb := apply_loop_body_counters a eval_state op st db
    rw [apply_operations]
    split
    · rename_i e db1 h
      rw [h] at hb
      exact hb
    · rename_i st1 db1 h
      rw [h] at hb
      simp only [outcome.db] at hb
      obtain ⟨i1, i2⟩ := ih st1 db1
      exact ⟨i1.trans hb.1, i2.trans hb.2⟩

/-- The position counters are not written by a call of `_apply_transaction`
that returns. -/
theorem _apply_transaction_counters (a : Applier) (trx : processed_transaction)
    (run_mode : transaction_apply_mode) (only_try_permissions : Bool) (db : database)
    (r : processed_transaction × transaction_apply_mode) (d : database)
    (h : _apply_transaction a trx run_mode only_try_permissions db = .returned r d) :
    d.current_block_num = db.current_block_num ∧
      d.current_trx_in_block = db.current_trx_in_block := by
  have hcr : ∀ (skip h i : Nat) (x : database),
      (create_records a skip trx.tosigned_transaction h i run_mode x).current_block_num =
          x.current_block_num ∧
        (create_records a skip trx.tosigned_transaction h i run_mode x).current_trx_in_block =
          x.current_trx_in_block := by
    intro skip h i x
    obtain ⟨tib, ti, hcr⟩ := create_records_eq a skip trx.tosigned_transaction h i run_mode x
    rw [hcr]
    exact ⟨rfl, rfl⟩
  obtain ⟨_, _, db1, ag, tc, hauth, _, honly, hfull⟩ :=
    _apply_transaction_returned a trx run_mode only_try_permissions db r d h
  obtain ⟨⟨ps, cs, hdb1⟩, _⟩ := check_authority_ok _ _ _ _ _ _ _ _ _ hauth
  have e1 : db1.current_block_num = db.current_block_num := by rw [hdb1]
  have e2 : db1.current_trx_in_block = db.current_trx_in_block := by rw [hdb1]
  cases ho : only_try_permissions with
  | true =>
    obtain ⟨_, hd⟩ := honly ho
    rw [hd, (hcr _ _ _ db1).1, (hcr _ _ _ db1).2]
    exact ⟨e1, e2⟩
  | false =>
    obtain ⟨st, db3, hops, _, hd⟩ := hfull ho
    have hc := apply_operations_counters a
      { _trx := trx, run_mode := run_mode
        skip := effective_skip a trx.tosigned_transaction db, is_agreed_task := ag }
      trx.operations { run_mode := run_mode }
      { create_records a (effective_skip a trx.tosigned_transaction db)
          trx.tosigned_transaction (a.hash trx.tosigned_transaction)
          (a.id trx.tosigned_transaction (a.hash trx.tosigned_transaction))
          run_mode db1 with current_op_in_trx := 0 }
    rw [hops] at hc
    simp only [outcome.db] at hc
    rw [(hcr _ _ _ db1).1, (hcr _ _ _ db1).2, e1, e2] at hc
    obtain ⟨cs', hfc⟩ := finish_crontab_objs tc db.head_block_time
      st.result_contains_error db3
    rw [hd, hfc]
    exact hc

/-- The position counters are not written by a call of `apply_transaction`
that returns. -/
theorem apply_transaction_counters (a : Applier) (trx : processed_transaction) (skip : Nat)
    (run_mode : transaction_apply_mode) (db : database) (p : processed_transaction)
    (d : database) (h : apply_transaction a trx skip run_mode db = .returned p d) :
    d.current_block_num = db.current_block_num ∧
      d.current_trx_in_block = db.current_trx_in_block := by
  unfold apply_transaction with_skip_flags at h
  simp only [] at h
  cases hr : _apply_transaction a trx run_mode false { db with skip_flags := skip } with
  | thrown e d1 => rw [hr] at h; simp at h
  | returned r d1 =>
    rw [hr] at h
    simp only [outcome.returned.injEq] at h
    have hc := _apply_transaction_counters a trx run_mode false _ r d1 hr
    rw [← h.2]
    exact hc

/-- The loop over the transactions of a block, split at a transaction. -/
theorem apply_block_transactions_append (a : Applier) (skip : Nat)
    (pre : List (Nat × processed_transaction)) :
    ∀ (post : List (Nat × processed_transaction)) (db : database),
      apply_block_transactions a skip (pre ++ post) db =
        match apply_block_transactions a skip pre db with
        | .thrown e d => .thrown e d
        | .returned _ d => apply_block_transactions a skip post d := by
  induction pre with
  | nil => intro post db; rfl
  | cons t rest ih =>
    intro post db
    rw [List.cons_append, apply_block_transactions, apply_block_transactions]
    split
    · rfl
    · split
      · rfl
      · rw [ih]

/-- When the loop over the transactions of a block returns, the counter
`_current_trx_in_block` has advanced by the number of transactions and the
counter `_current_block_num` is as before. -/
theorem apply_block_transactions_counters (a : Applier) (skip : Nat)
    (txs : List (Nat × processed_transaction)) :
    ∀ (db d : database), apply_block_transactions a skip txs db = .returned () d →
      d.current_block_num = db.current_block_num ∧
        d.current_trx_in_block = db.current_trx_in_block + txs.length := by
  induction txs with
  | nil =>
    intro db d h
    simp only [apply_block_transactions, outcome.returned.injEq, true_and] at h
    rw [← h]
    exact ⟨rfl, rfl⟩
  | cons t rest ih =>
    intro db d h
    rw [apply_block_transactions] at h
    split at h
    · simp at h
    · split at h
      · simp at h
      · rename_i p db1 h1
        have hc := apply_transaction_counters a t.2 (skip ||| a.skip_authority_check)
          .apply_block_mode db p db1 h1
        obtain ⟨i1, i2⟩ := ih _ d h
        simp only [] at i1 i2
        rw [i1, i2, hc.1, hc.2, List.length_cons]
        exact ⟨rfl, by omega⟩

/-- When the loop over the transactions of a block returns, every transaction
carried recorded operation results. -/
theorem apply_block_transactions_results (a : Applier) (skip : Nat)
    (txs : List (Nat × processed_transaction)) :
    ∀ (db d : database), apply_block_transactions a skip txs db = .returned () d →
      ∀ x ∈ txs, x.2.operation_results ≠ [] := by
  induction txs with
  | nil => intro db d _ x hx; simp at hx
  | cons t rest ih =>
    intro db d h x hx
    rw [apply_block_transactions] at h
    split at h
    · simp at h
    · rename_i hlen
      split at h
      · simp at h
      · rcases List.mem_cons.mp hx with rfl | hin
        · simp only [not_not] at hlen
          exact List.length_pos.mp hlen
        · exact ih _ d h x hin

end database

namespace database
open scenario

/-- Claim C31. In `_apply_block`, once the merkle and header checks have
passed and the transactions before a transaction `t` of the block have been
applied in the loop, leaving the database `d`: `_current_block_num` is the
number of the block, `_current_trx_in_block` is the index of `t`, and every
transaction before `t` carried recorded operation results. When the
recorded operation results of `t` are empty the block is rejected there, in the
state `d`: neither `t` nor a later transaction is applied and the housekeeping
is not run. Otherwise `t` is applied on `d` by `apply_transaction` with the
flags `skip | skip_authority_check` in apply-block mode: when that throws the
block is rejected with its exception; when it returns, the counter still holds
the index of `t`, and the loop has dealt with the transactions up to `t` and
advanced the counter to the index of the next one. -/
theorem apply_block_in_declared_order (a : Applier) (next_block : signed_block)
    (db : database) (pre post : List (Nat × processed_transaction))
    (t : Nat × processed_transaction) (signing_witness : Nat × Nat) (d : database)
    (h_split : next_block.transactions = pre ++ t :: post)
    (h_merkle : ¬ (db.skip_flags &&& a.skip_merkle_check = 0 ∧
      next_block.transaction_merkle_root ≠ a.calculate_merkle_root next_block))
    (h_header : validate_block_header a db.skip_flags next_block db = .ok signing_witness)
    (h_pre : apply_block_transactions a db.skip_flags pre
      (at_first_transaction next_block db) = .returned () d) :
    (d.current_block_num = next_block.block_num ∧ d.current_trx_in_block = pre.length ∧
      ∀ x ∈ pre, x.2.operation_results ≠ []) ∧
    (t.2.operation_results = [] →
      _apply_block a next_block db = .thrown (.fc_assert 633) d) ∧
    (t.2.operation_results ≠ [] →
      (∀ e d1, apply_transaction a t.2 (db.skip_flags ||| a.skip_authority_check)
          .apply_block_mode d = .thrown e d1 →
        _apply_block a next_block db = .thrown e d1) ∧
      (∀ p d1, apply_transaction a t.2 (db.skip_flags ||| a.skip_authority_check)
          .apply_block_mode d = .returned p d1 →
        d1.current_trx_in_block = pre.length ∧
        apply_block_transactions a db.skip_flags (pre ++ [t])
            (at_first_transaction next_block db) =
          .returned () { d1 with current_trx_in_block := pre.length + 1 })) := by
  have hcount := apply_block_transactions_counters a db.skip_flags pre _ d h_pre
  have hc : d.current_block_num = next_block.block_num ∧
      d.current_trx_in_block = pre.length := by
    refine ⟨hcount.1, ?_⟩
    rw [hcount.2]
    simp [at_first_transaction, log]
  have hres := apply_block_transactions_results a db.skip_flags pre _ d h_pre
  have hblock : _apply_block a next_block db =
      match apply_block_transactions a db.skip_flags (t :: post) d with
      | .thrown e db3 => .thrown e db3
      | .returned _ db3 =>
        match housekeeping a signing_witness
            (decide (db.objs.next_maintenance_time ≤ next_block.timestamp))
            db3.debug_updates next_block db3.objs with
        | .error e => .thrown e db3
        | .ok o => .returned () { db3 with objs := o, applied_ops := [] } := by
    have hh : validate_block_header a db.skip_flags next_block
        (log (._apply_block next_block db.skip_flags) { db with applied_ops := [] }) =
        .ok signing_witness := h_header
    have hp : apply_block_transactions a db.skip_flags (pre ++ t :: post)
        { log (._apply_block next_block db.skip_flags) { db with applied_ops := [] } with
          current_block_num := next_block.block_num, current_trx_in_block := 0 } =
        apply_block_transactions a db.skip_flags (t :: post) d := by
      rw [apply_block_transactions_append]
      have h_pre' := h_pre
      unfold at_first_transaction at h_pre'
      rw [h_pre']
    unfold _apply_block
    simp only []
    rw [if_neg h_merkle, hh]
    simp only []
    rw [h_split, hp]
    rfl
  refine ⟨⟨hc.1, hc.2, hres⟩, ?_, ?_⟩
  · intro hempty
    rw [hblock, apply_block_transactions, if_pos (by rw [hempty]; simp)]
  · intro hne
    have hpos : ¬ ¬ t.2.operation_results.length > 0 := by
      simp only [not_not]
      exact List.length_pos.mpr hne
    refine ⟨?_, ?_⟩
    · intro e d1 h1
      rw [hblock, apply_block_transactions, if_neg hpos, h1]
    · intro p d1 h1
      have hk := apply_transaction_counters a t.2 _ _ d p d1 h1
      refine ⟨hk.2.trans hc.2, ?_⟩
      rw [apply_block_transactions_append, h_pre]
      simp only []
      rw [apply_block_transactions, if_neg hpos, h1]
      simp only [apply_block_transactions]
      rw [hk.2, hc.2]

theorem apply_block_in_declared_order_witness :
    ∃ d, apply_block_transactions applier 0 [(7, block_tx)]
        (at_first_transaction late_block late) = .returned () d ∧
      (d.current_block_num = 7 ∧ d.current_trx_in_block = 1 ∧
        ∀ x ∈ [(7, block_tx)], x.2.operation_results ≠ []) ∧
      _apply_block applier late_block late = .thrown (.fc_assert 633) d :=
  ⟨(apply_block_transactions applier 0 [(7, block_tx)]
      (at_first_transaction late_block late)).db, rfl,
    (apply_block_in_declared_order applier late_block late [(7, block_tx)] [(7, block_tx)]
      (8, bare_tx) (1, 77) _ rfl (by decide) rfl rfl).1,
    (apply_block_in_declared_order applier late_block late [(7, block_tx)] [(7, block_tx)]
      (8, bare_tx) (1, 77) _ rfl (by decide) rfl rfl).2.1 rfl⟩

end database

namespace database
open scenario

/-- A search in a list after an update that keeps what the search looks at. -/
theorem find?_map_of_preserved {α : Type} (p : α → Bool) (g : α → α)
    (h : ∀ x, p (g x) = p x) (l : List α) :
    (l.map g).find? p = (l.find? p).map g := by
  induction l with
  | nil => rfl
  | cons x rest ih =>
    simp only [List.map_cons, List.find?_cons, h x]
    cases p x
    · exact ih
    · rfl

/-- A sum of 32-bit seconds and a signed offset that stays within the range. -/
theorem time_point_sec_add_in_range (t : Nat) (n : Int) (h0 : 0 ≤ (t : Int) + n)
    (h1 : (t : Int) + n < 2 ^ 32) :
    ((time_point_sec_add t n : Nat) : Int) = (t : Int) + n := by
  unfold time_point_sec_add
  rw [Int.emod_eq_of_lt h0 h1, Int.toNat_of_nonneg h0]

/-- The agreed-task step for a transaction driven by a crontab: it succeeds
exactly when the hash matches, the crontab is due and may be executed, and it
then puts the crontab through `crontab_begin`. -/
theorem check_authority_crontab (a : Applier) (trx : signed_transaction) (skip now : Nat)
    (db : database) (task : Nat × Nat) (c : crontab_object)
    (h_task : trx.agreed_task = some task)
    (h_proposal : a.object_type task.2 ≠ a.proposal_type_id)
    (h_crontab : a.object_type task.2 = a.crontab_type_id)
    (h_find : db.objs.crontabs.find? (fun x => decide (x.id = task.2)) = some c) :
    check_authority a trx skip (a.hash trx) now db =
      if a.hash trx = a.hash c.timed_transaction ∧ c.next_execte_time ≤ now ∧
          c.allow_execution = true then
        .ok ({ db with objs := { db.objs with
          crontabs := db.objs.crontabs.map (fun x =>
            if x.id = task.2 then crontab_begin now db.objs.assigned_task_life_cycle x
            else x) } }, true, some task.2)
      else .error (.fc_assert 737) := by
  unfold check_authority
  simp only [h_task, Option.isSome_some, or_true, if_true]
  unfold begin_agreed_task
  rw [if_neg h_proposal, if_pos h_crontab, h_find]
  simp only []
  by_cases hc : a.hash trx = a.hash c.timed_transaction ∧ c.next_execte_time ≤ now ∧
      c.allow_execution = true
  · rw [if_pos hc, if_pos hc]
  · rw [if_neg hc, if_neg hc]

/-- For a transaction driven by a crontab, applied at head time
`now`, with the time sums within the range of 32-bit seconds: when the hash of
the transaction is that of the crontab's transaction, `next_execte_time ≤ now`
and `allow_execution` holds, the agreed-task step of `_apply_transaction`
succeeds and leaves the crontab with `last_execte_time = now`,
`next_execte_time = now + execute_interval`, `already_execute_times` one
higher, `expiration_time = now + (scheduled_execute_times -
already_execute_times) * execute_interval` (with the old count) and
`timed_transaction.expiration = next_execte_time +
min(assigned_task_life_cycle, 7200)`; when the old count is below
`scheduled_execute_times` the new expiration time is not before the new next
execution time; a call of `_apply_transaction` that only tries the permissions
returns with the crontab in that state. When one of the three conditions fails
`_apply_transaction` throws and leaves the database as it was. -/
theorem crontab_schedule_within_range (a : Applier) (trx : processed_transaction)
    (run_mode : transaction_apply_mode) (only_try_permissions : Bool) (db : database)
    (task : Nat × Nat) (c : crontab_object)
    (h_task : trx.agreed_task = some task)
    (h_proposal : a.object_type task.2 ≠ a.proposal_type_id)
    (h_crontab : a.object_type task.2 = a.crontab_type_id)
    (h_find : db.objs.crontabs.find? (fun x => decide (x.id = task.2)) = some c)
    (h_life : db.objs.assigned_task_life_cycle < 2 ^ 32)
    (h_next : db.head_block_time + c.execute_interval + 7200 < 2 ^ 32)
    (h_low : 0 ≤ (db.head_block_time : Int) +
      ((c.scheduled_execute_times : Int) - c.already_execute_times) * c.execute_interval)
    (h_high : (db.head_block_time : Int) +
      ((c.scheduled_execute_times : Int) - c.already_execute_times) * c.execute_interval <
        2 ^ 32) :
    ((a.hash trx.tosigned_transaction = a.hash c.timed_transaction ∧
        c.next_execte_time ≤ db.head_block_time ∧ c.allow_execution = true) →
      ∃ db1 c1,
        check_authority a trx.tosigned_transaction
          (effective_skip a trx.tosigned_transaction db) (a.hash trx.tosigned_transaction)
          db.head_block_time db = .ok (db1, true, some task.2) ∧
        db1.objs.crontabs.find? (fun x => decide (x.id = task.2)) = some c1 ∧
        c1.last_execte_time = db.head_block_time ∧
        c1.next_execte_time = db.head_block_time + c.execute_interval ∧
        c1.already_execute_times = c.already_execute_times + 1 ∧
        (c1.expiration_time : Int) = (db.head_block_time : Int) +
          ((c.scheduled_execute_times : Int) - c.already_execute_times) * c.execute_interval ∧
        c1.timed_transaction.expiration =
          c1.next_execte_time + min db.objs.assigned_task_life_cycle 7200 ∧
        (c.already_execute_times < c.scheduled_execute_times →
          c1.next_execte_time ≤ c1.expiration_time) ∧
        ∀ r d, _apply_transaction a trx run_mode true db = .returned r d →
          d.objs.crontabs.find? (fun x => decide (x.id = task.2)) = some c1) ∧
    (¬ (a.hash trx.tosigned_transaction = a.hash c.timed_transaction ∧
        c.next_execte_time ≤ db.head_block_time ∧ c.allow_execution = true) →
      ∃ e, _apply_transaction a trx run_mode only_try_permissions db = .thrown e db) := by
  have hauth := check_authority_crontab a trx.tosigned_transaction
    (effective_skip a trx.tosigned_transaction db) db.head_block_time db task c
    h_task h_proposal h_crontab h_find
  refine ⟨?_, ?_⟩
  · intro hacc
    rw [if_pos hacc] at hauth
    have hfind1 : (db.objs.crontabs.map (fun x =>
        if x.id = task.2 then crontab_begin db.head_block_time
          db.objs.assigned_task_life_cycle x else x)).find?
        (fun x => decide (x.id = task.2)) =
        some (crontab_begin db.head_block_time db.objs.assigned_task_life_cycle c) := by
      rw [find?_map_of_preserved, h_find]
      · have hid : c.id = task.2 := of_decide_eq_true
          (@List.find?_some _ (fun x : crontab_object => decide (x.id = task.2)) c _ h_find)
        simp only [Option.map_some', hid, if_true]
      · intro x
        by_cases hx : x.id = task.2
        · have hb : (crontab_begin db.head_block_time db.objs.assigned_task_life_cycle x).id =
              task.2 := hx
          simp only [hx, if_true, hb]
        · simp only [hx, if_false]
    have hn : time_point_sec_add db.head_block_time (c.execute_interval : Int) =
        db.head_block_time + c.execute_interval :=
      time_point_sec_add_small _ _ (by omega)
    have he := time_point_sec_add_in_range db.head_block_time
      (((c.scheduled_execute_times : Int) - c.already_execute_times) * c.execute_interval)
      h_low h_high
    refine ⟨_, _, hauth, hfind1, rfl, hn, rfl, he, ?_, ?_, ?_⟩
    · have hm : (min ((db.objs.assigned_task_life_cycle : Int) % 2 ^ 32) 7200 : Int) =
          ((min db.objs.assigned_task_life_cycle 7200 : Nat) : Int) := by
        rw [Int.emod_eq_of_lt (Int.natCast_nonneg _) (by exact_mod_cast h_life)]
        simp
      show time_point_sec_add (time_point_sec_add db.head_block_time (c.execute_interval : Int))
          (min ((db.objs.assigned_task_life_cycle : Int) % 2 ^ 32) 7200) =
        time_point_sec_add db.head_block_time (c.execute_interval : Int) +
          min db.objs.assigned_task_life_cycle 7200
      rw [hm, hn]
      exact time_point_sec_add_small _ _ (by omega)
    · intro hlt
      show time_point_sec_add db.head_block_time (c.execute_interval : Int) ≤
        time_point_sec_add db.head_block_time
          (((c.scheduled_execute_times : Int) - c.already_execute_times) * c.execute_interval)
      rw [hn]
      have h1 : (1 : Int) ≤ (c.scheduled_execute_times : Int) - c.already_execute_times := by
        omega
      have h2 : (c.execute_interval : Int) ≤
          ((c.scheduled_execute_times : Int) - c.already_execute_times) * c.execute_interval := by
        have h3 : (0 : Int) ≤ (c.execute_interval : Int) := Int.natCast_nonneg _
        nlinarith
      have h4 : ((db.head_block_time + c.execute_interval : Nat) : Int) ≤
          ((time_point_sec_add db.head_block_time
            (((c.scheduled_execute_times : Int) - c.already_execute_times) *
              c.execute_interval) : Nat) : Int) := by
        rw [he]
        push_cast
        omega
      exact_mod_cast h4
    · intro r d hret
      obtain ⟨_, _, db1, ag, tc, hauth1, _, honly, _⟩ :=
        _apply_transaction_returned a trx run_mode true db r d hret
      rw [hauth] at hauth1
      simp only [Except.ok.injEq, Prod.mk.injEq] at hauth1
      obtain ⟨_, hd⟩ := honly rfl
      have hcr : d.objs.crontabs = db1.objs.crontabs := by
        rw [hd]
        obtain ⟨tib, ti, hce⟩ := create_records_eq a
          (effective_skip a trx.tosigned_transaction db) trx.tosigned_transaction
          (a.hash trx.tosigned_transaction)
          (a.id trx.tosigned_transaction (a.hash trx.tosigned_transaction)) run_mode db1
        rw [hce]
      rw [hcr, ← hauth1.1]
      exact hfind1
  · intro hrej
    rw [if_neg hrej] at hauth
    unfold _apply_transaction
    simp only []
    split
    · exact ⟨_, rfl⟩
    · split
      · exact ⟨_, rfl⟩
      · split
        · exact ⟨_, rfl⟩
        · rw [hauth]
          exact ⟨_, rfl⟩

theorem crontab_schedule_within_range_example :
    ∃ db1 c1,
      check_authority applier cron_tx.tosigned_transaction 0 7 60 (late_cron 10) =
        .ok (db1, true, some 2005) ∧
      db1.objs.crontabs.find? (fun x => decide (x.id = 2005)) = some c1 ∧
      c1.last_execte_time = 60 ∧
      c1.next_execte_time = 70 ∧
      c1.already_execute_times = 1 ∧
      (c1.expiration_time : Int) = 160 ∧
      c1.timed_transaction.expiration = c1.next_execte_time + 600 ∧
      ((0 : Nat) < 10 → c1.next_execte_time ≤ c1.expiration_time) ∧
      ∀ r d, _apply_transaction applier cron_tx .push_mode true (late_cron 10) = .returned r d →
        d.objs.crontabs.find? (fun x => decide (x.id = 2005)) = some c1 :=
  (crontab_schedule_within_range applier cron_tx .push_mode false (late_cron 10)
    (0, 2005) (cron 10) rfl (by decide) rfl rfl (by decide) (by decide) (by decide)
    (by decide)).1 ⟨rfl, by decide, rfl⟩

/-- Claim C32, failing input. At head time 1700000000 the transaction of a
crontab with a daily interval, scheduled for 30040 executions of which none has
taken place, is accepted: the hash matches, the crontab is due and may be
executed. By the claim the new expiration time is 1700000000 + 30040 * 86400 =
4295456000, not earlier than the new next execution time 1700086400. The code
forms the sum on 32-bit seconds: the call of `_apply_transaction` returns with
`last_execte_time`, `next_execte_time` and `already_execute_times` as claimed
and with the expiration time 488704, which is earlier than the next execution
time. -/
theorem crontab_expiration_wraps_around :
    applier.hash cron_tx.tosigned_transaction = applier.hash daily_cron.timed_transaction ∧
      daily_cron.next_execte_time ≤ late_daily.head_block_time ∧
      daily_cron.allow_execution = true ∧
      daily_cron.already_execute_times < daily_cron.scheduled_execute_times ∧
      late_daily.head_block_time +
        (daily_cron.scheduled_execute_times - daily_cron.already_execute_times) *
          daily_cron.execute_interval = 4295456000 ∧
      ∃ r d c1, _apply_transaction applier cron_tx .push_mode true late_daily = .returned r d ∧
        d.objs.crontabs.find? (fun x => decide (x.id = 2005)) = some c1 ∧
        c1.last_execte_time = 1700000000 ∧
        c1.next_execte_time = 1700000000 + 86400 ∧
        c1.already_execute_times = 0 + 1 ∧
        c1.expiration_time = 488704 ∧
        c1.expiration_time < c1.next_execte_time :=
  ⟨by decide, by decide, rfl, by decide, by decide,
    _, _, _, rfl, rfl, by decide, by decide, by decide, by decide, by decide⟩

end database

namespace database
open scenario

/-- The mode of the operation loop is `invoke_mode` only when the loop started
in it or one of the results it took in reported `existed_pv`. -/
theorem apply_operations_invoke_mode (a : Applier) (eval_state : transaction_evaluation_state)
    (ops : List operation) :
    ∀ (st st1 : apply_loop_state) (db db1 : database),
      apply_operations a eval_state ops st db = .returned st1 db1 →
      (st.run_mode = .invoke_mode → ∃ r ∈ st.operation_results, r.existed_pv = true) →
      st1.run_mode = .invoke_mode → ∃ r ∈ st1.operation_results, r.existed_pv = true := by
  induction ops with
  | nil =>
    intro st st1 db db1 h hinv
    simp only [apply_operations, outcome.returned.injEq] at h
    rw [← h.1]
    exact hinv
  | cons op rest ih =>
    intro st st1 db db1 h hinv
    rw [apply_operations] at h
    split at h
    · simp at h
    · rename_i st2 db2 hb
      refine ih st2 st1 db2 db1 h ?_
      obtain ⟨r, d, _, hcase⟩ := apply_loop_body_returned a eval_state op st st2 db db2 hb
      have key : ∀ results : List operation_result,
          (∀ x ∈ st.operation_results ++ [r], x ∈ results) →
          (if r.existed_pv = true then transaction_apply_mode.invoke_mode else st.run_mode) =
            .invoke_mode →
          ∃ x ∈ results, x.existed_pv = true := by
        intro results hsub hmode
        by_cases hpv : r.existed_pv = true
        · exact ⟨r, hsub r (by simp), hpv⟩
        · rw [if_neg hpv] at hmode
          obtain ⟨x, hx, hxp⟩ := hinv hmode
          exact ⟨x, hsub x (by simp [hx]), hxp⟩
      rcases hcase with ⟨hst, _, _⟩ | ⟨op_from, _, _, _, hst, _⟩
      · rw [hst]
        exact key _ (fun x hx => hx)
      · rw [hst]
        refine key _ ?_
        intro x hx
        rcases auto_gas_results a eval_state op_from (st.operation_results ++ [r])
          { d with current_op_in_trx := d.current_op_in_trx + 1 } with
          hg | ⟨g, w, d0, d1, hg, _, _⟩
        · simp only [hg]; exact hx
        · simp only [hg]; exact List.mem_append_left _ hx

/-- A call of `_apply_transaction` that was not started in `invoke_mode` ends in
it only when one of the operation results it returns reports `existed_pv`. -/
theorem _apply_transaction_invoke_mode (a : Applier) (trx : processed_transaction)
    (run_mode : transaction_apply_mode) (only_try_permissions : Bool) (db : database)
    (r : processed_transaction × transaction_apply_mode) (d : database)
    (h : _apply_transaction a trx run_mode only_try_permissions db = .returned r d)
    (h_mode : run_mode ≠ .invoke_mode) (h_invoke : r.2 = .invoke_mode) :
    ∃ res ∈ r.1.operation_results, res.existed_pv = true := by
  obtain ⟨_, _, db1, ag, tc, _, _, honly, hfull⟩ :=
    _apply_transaction_returned a trx run_mode only_try_permissions db r d h
  cases ho : only_try_permissions with
  | true =>
    obtain ⟨hr, _⟩ := honly ho
    rw [hr] at h_invoke
    exact absurd h_invoke h_mode
  | false =>
    obtain ⟨st, db3, hops, hr, _⟩ := hfull ho
    rw [hr] at h_invoke ⊢
    exact apply_operations_invoke_mode a _ _ _ _ _ _ hops
      (fun hm => absurd hm h_mode) h_invoke

/-- Claim C34. When `_push_transaction` returns the processed transaction `p`:
`p` is the last element of the pending queue, behind the transactions that
were pending; the temporary session is gone and the pending session is the top
of the undo stack. For `re_push`, `p` is the transaction pushed and the object
state is the one before the push with one transaction record added, which
carries the hash and the id of `p`. Otherwise `_apply_transaction` returned `p`
together with a mode and an object state: when the mode is `invoke_mode` the
object state is again the one before the push with that one record added, and
when it is not, the object state is the one `_apply_transaction` left. A call
of `_apply_transaction` that did not start in `invoke_mode` ends in it only
when one of the operation results reports `existed_pv`. -/
theorem push_transaction_keeps_or_unwinds (env : Env) (trx : processed_transaction)
    (push_state : transaction_push_state) (db : database) (p : processed_transaction)
    (d : database)
    (h : _push_transaction env trx push_state db = .returned p d) :
    (d.pending_tx = db.pending_tx ++ [p] ∧
    d.undo_stack =
      (if db.pending_tx_session = true then db.undo_stack else db.objs :: db.undo_stack) ∧
    (push_state = .re_push →
      p = trx ∧
      d.objs = { db.objs with
        transaction_index := db.objs.transaction_index ++
          [{ trx_hash := env.hash p.tosigned_transaction
             trx_id := env.id p.tosigned_transaction (env.hash p.tosigned_transaction)
             trx := p.tosigned_transaction }] }) ∧
    (push_state ≠ .re_push →
      ∃ mode only_try_permissions m o,
        (mode = .push_mode ∨ mode = .validate_transaction_mode) ∧
        env._apply_transaction trx.tosigned_transaction mode only_try_permissions
          db.skip_flags db.objs = .ok (p, m, o) ∧
        (m = .invoke_mode →
          d.objs = { db.objs with
            transaction_index := db.objs.transaction_index ++
              [{ trx_hash := env.hash p.tosigned_transaction
                 trx_id := env.id p.tosigned_transaction (env.hash p.tosigned_transaction)
                 trx := p.tosigned_transaction }] }) ∧
        (m ≠ .invoke_mode → d.objs = o))) ∧
    (∀ (a : Applier) (t : processed_transaction) (mode : transaction_apply_mode)
      (only_try_permissions : Bool) (d0 d1 : database)
      (r : processed_transaction × transaction_apply_mode),
      _apply_transaction a t mode only_try_permissions d0 = .returned r d1 →
      mode ≠ .invoke_mode → r.2 = .invoke_mode →
      ∃ res ∈ r.1.operation_results, res.existed_pv = true) := by
  have key : ∃ d1 : database,
      (if db.pending_tx_session = true then db
        else { db.start_undo_session with pending_tx_session := true }) = d1 ∧
      d1.objs = db.objs ∧ d1.skip_flags = db.skip_flags ∧ d1.pending_tx = db.pending_tx ∧
      d1.deduce_in_verification_mode = db.deduce_in_verification_mode ∧
      d1.undo_stack =
        (if db.pending_tx_session = true then db.undo_stack else db.objs :: db.undo_stack) := by
    by_cases hp : db.pending_tx_session = true
    · exact ⟨db, by simp [hp], rfl, rfl, rfl, rfl, by simp [hp]⟩
    · exact ⟨{ db.start_undo_session with pending_tx_session := true }, by simp [hp],
        rfl, rfl, rfl, rfl, by simp [hp, start_undo_session, log]⟩
  obtain ⟨d1, he, h1, h2, h3, h4, h5⟩ := key
  have tail : ∀ (x : database) (q : processed_transaction) (u : Bool) (o : object_state),
      x.objs = o → x.undo_stack = db.objs :: d1.undo_stack → x.pending_tx = db.pending_tx →
      finish_push env q u x = .returned p d →
      q = p ∧ d.pending_tx = db.pending_tx ++ [p] ∧ d.undo_stack = d1.undo_stack ∧
      (u = true → d.objs = { db.objs with
        transaction_index := db.objs.transaction_index ++
          [{ trx_hash := env.hash p.tosigned_transaction
             trx_id := env.id p.tosigned_transaction (env.hash p.tosigned_transaction)
             trx := p.tosigned_transaction }] }) ∧
      (u = false → d.objs = o) := by
    intro x q u o hx hs hq hf
    cases u with
    | true =>
      rw [finish_push_undone env q x _ _ hs] at hf
      split at hf
      · simp at hf
      · simp only [outcome.returned.injEq] at hf
        obtain ⟨hqp, hd⟩ := hf
        subst hqp
        rw [← hd]
        simp [hq]
    | false =>
      rw [finish_push_merged] at hf
      simp only [outcome.returned.injEq] at hf
      obtain ⟨hqp, hd⟩ := hf
      subst hqp
      rw [← hd]
      simp [hs, hq, hx]
  refine ⟨?_, fun a t mode otp d0 d1 r hr hm hi =>
    _apply_transaction_invoke_mode a t mode otp d0 r d1 hr hm hi⟩
  have applied : ∀ (x : database) (mode : transaction_apply_mode) (otp : Bool),
      x.objs = db.objs → x.skip_flags = db.skip_flags →
      x.undo_stack = db.objs :: d1.undo_stack → x.pending_tx = db.pending_tx →
      (mode = .push_mode ∨ mode = .validate_transaction_mode) →
      (match env._apply_transaction trx.tosigned_transaction mode otp x.skip_flags x.objs with
        | .error e => (.thrown e x.undo : outcome processed_transaction)
        | .ok (processed_trx, m, o) =>
          finish_push env processed_trx (decide (m = transaction_apply_mode.invoke_mode))
            { x with objs := o }) =
        .returned p d →
      d.pending_tx = db.pending_tx ++ [p] ∧ d.undo_stack = d1.undo_stack ∧
      ∃ mode only_try_permissions m o,
        (mode = .push_mode ∨ mode = .validate_transaction_mode) ∧
        env._apply_transaction trx.tosigned_transaction mode only_try_permissions
          db.skip_flags db.objs = .ok (p, m, o) ∧
        (m = .invoke_mode →
          d.objs = { db.objs with
            transaction_index := db.objs.transaction_index ++
              [{ trx_hash := env.hash p.tosigned_transaction
                 trx_id := env.id p.tosigned_transaction (env.hash p.tosigned_transaction)
                 trx := p.tosigned_transaction }] }) ∧
        (m ≠ .invoke_mode → d.objs = o) := by
    intro x mode otp hx hs hst hq hmode hrun
    split at hrun
    · simp at hrun
    · rename_i q m o hcall
      rw [hx, hs] at hcall
      obtain ⟨hqp, t1, t2, t3, t4⟩ := tail { x with objs := o } q (decide (m = .invoke_mode))
        o rfl hst hq hrun
      subst hqp
      refine ⟨t1, t2, mode, otp, m, o, hmode, hcall, ?_, ?_⟩
      · intro hm
        exact t3 (by simp [hm])
      · intro hm
        exact t4 (by simp [hm])
  unfold _push_transaction at h
  simp only [he] at h
  by_cases hre : push_state = .re_push
  · simp only [hre, ne_eq, not_true_eq_false, if_false] at h
    split at h
    · simp at h
    · obtain ⟨hqp, t1, t2, t3, _⟩ := tail d1.start_undo_session trx true db.objs
        (by simp [start_undo_session, log, h1]) (by simp [start_undo_session, log, h1])
        (by simp [start_undo_session, log, h3]) h
      exact ⟨t1, t2.trans h5, fun _ => ⟨hqp.symm, t3 rfl⟩, fun hne => absurd hre hne⟩
  · simp only [hre, ne_eq, not_false_eq_true, if_true] at h
    by_cases hm : push_state = .from_me
    · simp only [hm, if_true] at h
      split at h
      · simp at h
      · obtain ⟨t1, t2, t3⟩ := applied
          { d1.start_undo_session with
            pending_size := max d1.start_undo_session.pending_size
              d1.start_undo_session.pending_tx.length } .push_mode false
          (by simp [start_undo_session, log, h1]) (by simp [start_undo_session, log, h2])
          (by simp [start_undo_session, log, h1]) (by simp [start_undo_session, log, h3])
          (Or.inl rfl) h
        exact ⟨t1, t2.trans h5, fun hr => absurd hr hre, fun _ => t3⟩
    · simp only [hm, if_false] at h
      obtain ⟨t1, t2, t3⟩ := applied d1.start_undo_session .validate_transaction_mode
        (!d1.start_undo_session.deduce_in_verification_mode)
        (by simp [start_undo_session, log, h1]) (by simp [start_undo_session, log, h2])
        (by simp [start_undo_session, log, h1]) (by simp [start_undo_session, log, h3])
        (Or.inr rfl) h
      exact ⟨t1, t2.trans h5, fun hr => absurd hr hre, fun _ => t3⟩

theorem push_transaction_keeps_or_unwinds_witness :
    (_push_transaction (push_env applier late) pv_tx .from_me late).db.pending_tx =
      late.pending_tx ++ [pv_done] ∧
    (_push_transaction (push_env applier late) pv_tx .from_me late).db.undo_stack =
      [late_state] ∧
    (_push_transaction (push_env applier late) pv_tx .from_me late).db.objs =
      { late_state with
        transaction_index :=
          [{ trx_hash := 7, trx_id := 7, trx := pv_tx.tosigned_transaction }] } ∧
    ∃ mode only_try_permissions m o,
      (mode = .push_mode ∨ mode = .validate_transaction_mode) ∧
      (push_env applier late)._apply_transaction pv_tx.tosigned_transaction mode
        only_try_permissions late.skip_flags late.objs = .ok (pv_done, m, o) ∧
      (m = .invoke_mode →
        (_push_transaction (push_env applier late) pv_tx .from_me late).db.objs =
          { late.objs with
            transaction_index := late.objs.transaction_index ++
              [{ trx_hash := (push_env applier late).hash pv_done.tosigned_transaction
                 trx_id := (push_env applier late).id pv_done.tosigned_transaction
                   ((push_env applier late).hash pv_done.tosigned_transaction)
                 trx := pv_done.tosigned_transaction }] }) ∧
      (m ≠ .invoke_mode →
        (_push_transaction (push_env applier late) pv_tx .from_me late).db.objs = o) :=
  ⟨(push_transaction_keeps_or_unwinds (push_env applier late) pv_tx .from_me late pv_done
      (_push_transaction (push_env applier late) pv_tx .from_me late).db rfl).1.1,
    (push_transaction_keeps_or_unwinds (push_env applier late) pv_tx .from_me late pv_done
      (_push_transaction (push_env applier late) pv_tx .from_me late).db rfl).1.2.1,
    rfl,
    (push_transaction_keeps_or_unwinds (push_env applier late) pv_tx .from_me late pv_done
      (_push_transaction (push_env applier late) pv_tx .from_me late).db rfl).1.2.2.2
      (by decide)⟩

end database

namespace database
open scenario

/-- The operation loop over a list that is split in two runs over the first
part and goes on over the second. -/
theorem apply_operations_append (a : Applier) (eval_state : transaction_evaluation_state)
    (l1 l2 : List operation) :
    ∀ (st : apply_loop_state) (db : database),
      apply_operations a eval_state (l1 ++ l2) st db =
        match apply_operations a eval_state l1 st db with
        | .thrown e d => .thrown e d
        | .returned st1 d1 => apply_operations a eval_state l2 st1 d1 := by
  induction l1 with
  | nil => intro st db; rfl
  | cons op rest ih =>
    intro st db
    rw [List.cons_append, apply_operations, apply_operations]
    cases hb : apply_loop_body a eval_state op st db with
    | thrown e d => rfl
    | returned st1 d1 => exact ih st1 d1

/-- The counter `_current_op_in_trx` is not written by `apply_operation`. -/
theorem apply_operation_op_in_trx (a : Applier) (eval_state : transaction_evaluation_state)
    (op : operation) (is_agreed_task : Bool) (db : database) :
    (apply_operation a eval_state op is_agreed_task db).db.current_op_in_trx =
      db.current_op_in_trx := by
  rcases h : a.evaluate eval_state op db.objs with ⟨e | r, o⟩
  · cases is_agreed_task
    · rw [apply_operation_thrown a eval_state op db e o h]; rfl
    · rw [apply_operation_captured a eval_state op db e o h]; rfl
  · rw [apply_operation_ok a eval_state op is_agreed_task db r o h]; rfl

/-- The counter `_current_op_in_trx` is not written by `auto_gas`. -/
theorem auto_gas_op_in_trx (a : Applier) (eval_state : transaction_evaluation_state)
    (from_account : Nat) (results : List operation_result) (db : database) :
    (auto_gas a eval_state from_account results db).2.current_op_in_trx =
      db.current_op_in_trx := by
  unfold auto_gas
  simp only [log]
  split
  · rfl
  · split
    · have h := apply_operation_op_in_trx a eval_state
        (a.withdraw_operation ‹_›) false { db with trace := db.trace ++ [.auto_gas from_account] }
      split
      · rename_i r d hr
        rw [hr] at h
        split <;> exact h
      · rename_i e d hr
        rw [hr] at h
        exact h
    · rfl

/-- An operation loop that returns has advanced `_current_op_in_trx` by the
number of its operations. -/
theorem apply_operations_op_in_trx (a : Applier) (eval_state : transaction_evaluation_state)
    (ops : List operation) :
    ∀ (st st1 : apply_loop_state) (db db1 : database),
      apply_operations a eval_state ops st db = .returned st1 db1 →
      db1.current_op_in_trx = db.current_op_in_trx + ops.length := by
  induction ops with
  | nil =>
    intro st st1 db db1 h
    simp only [apply_operations, outcome.returned.injEq] at h
    rw [← h.2]
    rfl
  | cons op rest ih =>
    intro st st1 db db1 h
    rw [apply_operations] at h
    split at h
    · simp at h
    · rename_i st2 db2 hb
      have h2 := ih st2 st1 db2 db1 h
      obtain ⟨r, d, hr, hcase⟩ := apply_loop_body_returned a eval_state op st st2 db db2 hb
      have hd : d.current_op_in_trx = db.current_op_in_trx := by
        have := apply_operation_op_in_trx a eval_state op eval_state.is_agreed_task db
        rw [hr] at this
        exact this
      have h3 : db2.current_op_in_trx = db.current_op_in_trx + 1 := by
        rcases hcase with ⟨_, hdb, _⟩ | ⟨op_from, _, _, _, _, hdb⟩
        · rw [hdb, ← hd]
        · rw [hdb, auto_gas_op_in_trx, ← hd]
      rw [h2, h3, List.length_cons]
      omega

/-- When the call of `_apply_transaction` that only tries the permissions
returns, leaving `d0`, the call that applies the transaction in full passes the
same checks and runs the operation loop from `d0` with the operation counter
at 0; it throws what the loop throws, and returns the results of the loop after
the crontab post-pass. -/
theorem _apply_transaction_after_checks (a : Applier) (trx : processed_transaction)
    (run_mode : transaction_apply_mode) (db : database)
    (r0 : processed_transaction × transaction_apply_mode) (d0 : database)
    (h : _apply_transaction a trx run_mode true db = .returned r0 d0) :
    ∃ temp_crontab,
      _apply_transaction a trx run_mode false db =
        match apply_operations a
            { _trx := trx, run_mode := run_mode
              skip := effective_skip a trx.tosigned_transaction db
              is_agreed_task := trx.agreed_task.isSome }
            trx.operations { run_mode := run_mode } { d0 with current_op_in_trx := 0 } with
        | .thrown e d3 => .thrown e d3
        | .returned st d3 =>
          .returned ({ tosigned_transaction := trx.tosigned_transaction,
                       operation_results := st.operation_results }, st.run_mode)
            (finish_crontab temp_crontab db.head_block_time st.result_contains_error d3) := by
  obtain ⟨h1, _, db1, ag, tc, hauth, htapos, honly, _⟩ :=
    _apply_transaction_returned a trx run_mode true db r0 d0 h
  obtain ⟨_, hd0⟩ := honly rfl
  obtain ⟨_, hag⟩ := check_authority_ok _ _ _ _ _ _ _ _ _ hauth
  refine ⟨tc, ?_⟩
  unfold _apply_transaction at h ⊢
  simp only [] at h ⊢
  simp only [h1, not_true_eq_false, if_false] at h ⊢
  cases hv : (if effective_skip a trx.tosigned_transaction db &&& a.skip_validate = 0 then
      a.validate trx.tosigned_transaction else none) with
  | some e => rw [hv] at h; simp at h
  | none =>
    rw [hv] at h
    simp only [] at h ⊢
    split at h
    · simp at h
    · rename_i hdup
      rw [if_neg hdup]
      rw [hauth] at h ⊢
      simp only [] at h ⊢
      cases ht : (if db1.head_block_num > 0 ∧ ag = false then
          check_tapos a (effective_skip a trx.tosigned_transaction db) trx.tosigned_transaction
            db.head_block_time db1 else none) with
      | some e => rw [ht] at h; simp at h
      | none =>
        simp only [Bool.false_eq_true, if_false]
        rw [← hd0, hag]

end database

namespace database
open scenario

/-- Claim C26, counterexample. In apply-block mode the agreed-task transaction
`task_tx` records an `error_result` with code 1 for its operation; the
evaluator produces an `error_result` with code 5, and the transaction is
applied all the same. And in `pv_mismatch_tx` the block records a
`contract_result` for the second operation where the evaluator produces a
`void_result`, a result of another kind: the first operation reported
`existed_pv`, which switched the run to `invoke_mode`, no comparison is made
for the second operation, and the transaction is applied. -/
theorem recorded_error_code_is_not_compared :
    (task_tx.operation_results = [.error_result 1 1 0] ∧
      ∃ r d, _apply_transaction applier task_tx .apply_block_mode false late_proposal =
          .returned r d ∧
        r.1.operation_results = [.error_result 5 1005 5]) ∧
    (pv_mismatch_tx.operation_results = [.contract_result true 0, .contract_result false 0] ∧
      ∃ r d, _apply_transaction applier pv_mismatch_tx .apply_block_mode false late_proposal =
          .returned r d ∧
        r.1.operation_results = [.contract_result true 0, .void_result] ∧
        (operation_result.void_result).which ≠ (operation_result.contract_result false 0).which) :=
  ⟨⟨rfl, _, _, rfl, rfl⟩, rfl, _, _, rfl, rfl, by decide⟩

/-- Claim C26, amended. An agreed-task transaction is applied in apply-block
mode and passes the checks before the operation loop (the call of
`_apply_transaction` that only tries the permissions returns, leaving `d0`).
The loop has run over the operations `pre` before the operation `op`, and
`apply_operation` returns `res` for `op` on the database that run left. The
run over `pre` went through one pass for each operation of `pre`, and it is
still in apply-block mode exactly when no operation of `pre` returned a result
that reports `existed_pv`. While it is, `res` is compared by kind with the
result recorded at the index of `op`: when the kinds differ, applying the
transaction in full fails with the assertion of line 820; when the kinds
agree, whatever the contents, the pass over `op` is accepted and the loop goes
on. -/
theorem recorded_result_is_compared_by_kind (a : Applier) (trx : processed_transaction)
    (db : database) (r0 : processed_transaction × transaction_apply_mode) (d0 : database)
    (pre : List operation) (op : operation) (post : List operation)
    (st1 : apply_loop_state) (d1 : database) (res : operation_result) (d2 : database)
    (h_agreed : trx.agreed_task.isSome = true)
    (h_checks : _apply_transaction a trx .apply_block_mode true db = .returned r0 d0)
    (h_ops : trx.operations = pre ++ op :: post)
    (h_pre : apply_operations a
        { _trx := trx, run_mode := .apply_block_mode
          skip := effective_skip a trx.tosigned_transaction db, is_agreed_task := true }
        pre { run_mode := .apply_block_mode } { d0 with current_op_in_trx := 0 } =
      .returned st1 d1)
    (h_op : apply_operation a
        { _trx := trx, run_mode := .apply_block_mode
          skip := effective_skip a trx.tosigned_transaction db, is_agreed_task := true }
        op true d1 = .returned res d2) :
    ∃ passes : List loop_pass,
      passes.map (fun p => p.op) = pre ∧
      run_through { d0 with current_op_in_trx := 0 } passes d1 ∧
      (∀ p ∈ passes, ∃ d,
        apply_operation a
          { _trx := trx, run_mode := .apply_block_mode
            skip := effective_skip a trx.tosigned_transaction db, is_agreed_task := true }
          p.op true p.before = .returned p.result d) ∧
      (st1.run_mode = .apply_block_mode ↔ ∀ p ∈ passes, p.result.existed_pv = false) ∧
      d2.current_op_in_trx = pre.length ∧
      (st1.run_mode = .apply_block_mode →
        ∀ recorded, trx.operation_results.get? pre.length = some recorded →
          (res.which ≠ recorded.which →
            _apply_transaction a trx .apply_block_mode false db =
              .thrown (.fc_assert 820) d2) ∧
          (res.which = recorded.which →
            ∃ st2 d3, apply_operations a
              { _trx := trx, run_mode := .apply_block_mode
                skip := effective_skip a trx.tosigned_transaction db, is_agreed_task := true }
              (pre ++ [op]) { run_mode := .apply_block_mode }
              { d0 with current_op_in_trx := 0 } = .returned st2 d3)) := by
  obtain ⟨passes, hmap, hrun, _, hmode, hall⟩ := apply_operations_passes a _ _ _ _ _ _ h_pre
  have hidx1 := apply_operations_op_in_trx a _ _ _ _ _ _ h_pre
  have hidx2 : d2.current_op_in_trx = d1.current_op_in_trx := by
    have := apply_operation_op_in_trx a
      { _trx := trx, run_mode := .apply_block_mode
        skip := effective_skip a trx.tosigned_transaction db, is_agreed_task := true }
      op true d1
    rw [h_op] at this
    exact this
  have hidx : d2.current_op_in_trx = pre.length := by
    rw [hidx2, hidx1]
    simp
  refine ⟨passes, hmap, hrun, fun p hp => ?_, ?_, hidx, ?_⟩
  · obtain ⟨d, hd, _⟩ := hall p hp
    exact ⟨d, hd⟩
  · rw [hmode]
    cases hany : passes.any (fun p => p.result.existed_pv) with
    | false =>
      simp only [Bool.false_eq_true, if_false, true_iff]
      intro p hp
      have := List.any_eq_false.mp hany p hp
      simpa using this
    | true =>
      simp only [if_true]
      constructor
      · intro hc
        simp at hc
      · intro hno
        obtain ⟨p, hp, hpv⟩ := List.any_eq_true.mp hany
        rw [hno p hp] at hpv
        simp at hpv
  · intro h_mode recorded h_rec
    have hb := apply_loop_body_eq a
      { _trx := trx, run_mode := .apply_block_mode
        skip := effective_skip a trx.tosigned_transaction db, is_agreed_task := true }
      op st1 d1
    simp only [] at hb
    rw [h_op] at hb
    simp only [h_mode, ne_eq, not_true_eq_false, false_and, if_false, true_and, hidx, h_rec,
      Option.map_some', Option.some.injEq, operation_result.eq] at hb
    constructor
    · intro hne
      have hb' : apply_loop_body a
          { _trx := trx, run_mode := .apply_block_mode
            skip := effective_skip a trx.tosigned_transaction db, is_agreed_task := true }
          op st1 d1 = .thrown (.fc_assert 820) d2 := by
        rw [hb, if_pos (by simpa using hne)]
      obtain ⟨tc, hfull⟩ := _apply_transaction_after_checks a trx .apply_block_mode db r0 d0
        h_checks
      rw [hfull, h_agreed, h_ops, apply_operations_append, h_pre]
      simp only []
      rw [apply_operations, hb']
    · intro he
      have hb2 : ∃ st2 d3, apply_loop_body a
          { _trx := trx, run_mode := .apply_block_mode
            skip := effective_skip a trx.tosigned_transaction db, is_agreed_task := true }
          op st1 d1 = .returned st2 d3 := by
        rw [hb, if_neg (by simpa using he)]
        split
        · split
          · exact ⟨_, _, rfl⟩
          · exact ⟨_, _, rfl⟩
        · exact ⟨_, _, rfl⟩
      obtain ⟨st2, d3, hb3⟩ := hb2
      refine ⟨st2, d3, ?_⟩
      rw [apply_operations_append, h_pre]
      simp only []
      rw [apply_operations, hb3]
      rfl

theorem recorded_result_is_compared_by_kind_witness :
    ∃ d2, _apply_transaction applier mismatch_tx .apply_block_mode false late_proposal =
      .thrown (.fc_assert 820) d2 :=
  ⟨_, (recorded_result_is_compared_by_kind applier mismatch_tx late_proposal
      _ _ [failing_op] (transfer 1) []
      _ _ .void_result _ rfl rfl rfl rfl rfl).elim
    (fun _ h => (h.2.2.2.2.2 rfl (.contract_result false 0) rfl).1 (by decide))⟩

end database

end graphene.chain
